import Mathlib

/-!
O-BPS branch prediction simulator: embedding and verified properties

Shallow embedding of the simulator sources

* `sim/cbp-predictors/bimodal/src/counter_types.h` (`sat_ctr`, `pht`),
* `sim/src/main.cc` (classification, driver loop, `CheckHeartBeat`),
* `sim/src/bt9_reader.h` (BT10 parser, sliding edge buffer, branch instance iterator),
* `sim/cbp-predictors/2bcgskew-EV8/src/predictor.h` (2bc-gskew),

followed by the theorems proved about it.

Conventions.  `uint32_t` / `uint64_t` values are natural numbers, every operation
that can leave the range is reduced `% 2 ^ 32` / `% 2 ^ 64` explicitly.  `int`
and `long long` values are represented by their two's complement bit pattern
(a natural number below `2 ^ 32` / `2 ^ 64`).  Operations whose behaviour is
undefined in C++ (out of bounds access, oversized shift) and calls of `exit` /
`abort` return `none` (predictor code) or an error value (trace reader).
-/

namespace OBPS

/-! ## Part I. Definitions -/

/-! ### `counter_types.h`: `sat_ctr` -/

/-- The two `uint32_t` fields of `sat_ctr<CTR_WIDTH>`. -/
structure sat_ctr where
  Dir : Nat
  Strenght : Nat
deriving DecidableEq, Repr

/-- Body of the loop in the initialiser of `sat_ctr::MaxStrenght`, run `n` times:
`strenght = strenght << 1; strenght |= 1;` on a `uint32_t`. -/
def MaxStrenghtLoop : Nat → Nat → Nat
  | 0, strenght => strenght
  | n + 1, strenght => MaxStrenghtLoop n (((strenght <<< 1) % 2 ^ 32) ||| 1)

/-- The constant `sat_ctr<CTR_WIDTH>::MaxStrenght`: the loop runs while
`i < CTR_WIDTH - 1`, the bound being computed in `uint32_t` (it wraps to `2^32 - 1`
for width 0). -/
def MaxStrenght (CTR_WIDTH : Nat) : Nat :=
  MaxStrenghtLoop (if CTR_WIDTH = 0 then 2 ^ 32 - 1 else CTR_WIDTH - 1) 0

/-- The method `sat_ctr::updateCounter(updateDir)`. The method is not `const`, so the
result is the pair (receiver after the call, returned counter). -/
def sat_ctr.updateCounterM (CTR_WIDTH : Nat) (self : sat_ctr) (updateDir : Nat) :
    sat_ctr × sat_ctr :=
  let counter : sat_ctr := { Dir := self.Dir, Strenght := self.Strenght }
  let counter :=
    if updateDir = self.Dir then
      if self.Strenght ≠ MaxStrenght CTR_WIDTH then
        { counter with Strenght := (counter.Strenght + 1) % 2 ^ 32 }
      else counter
    else
      if self.Strenght = 0 then
        { counter with Dir := self.Dir ^^^ 1 }
      else
        { counter with Strenght := counter.Strenght - 1 }
  (self, counter)

/-- The counter returned by `sat_ctr::updateCounter(updateDir)`. -/
def sat_ctr.updateCounter (CTR_WIDTH : Nat) (self : sat_ctr) (updateDir : Nat) : sat_ctr :=
  (sat_ctr.updateCounterM CTR_WIDTH self updateDir).2

/-- Number of `updateCounter(d)` steps that separate a counter from saturation in
direction `d`. -/
def stepsToSaturation (W : Nat) (c : sat_ctr) (d : Nat) : Nat :=
  if c.Dir = d then MaxStrenght W - c.Strenght else c.Strenght + 1 + MaxStrenght W

/-- The constructor `sat_ctr(std::array<uint32_t, CTR_WIDTH> arr)`, loop part: for
`i = 1 .. arr.size() - 1`, `Strenght |= (arr[i] << (i - 1))` in `uint32_t`; the list is
`arr[i..]`.  A shift by 32 or more is undefined. -/
def sat_ctr.ofArrayLoop : Nat → Nat → List Nat → Option Nat
  | Strenght, _, [] => some Strenght
  | Strenght, i, b :: bs =>
    if i - 1 < 32 then
      sat_ctr.ofArrayLoop (Strenght ||| ((b <<< (i - 1)) % 2 ^ 32)) (i + 1) bs
    else none

/-- The constructor `sat_ctr(std::array<uint32_t, CTR_WIDTH> arr)`: `Dir = arr[0]`, the
strength is assembled from `arr[1..]`. -/
def sat_ctr.ofArray : List Nat → Option sat_ctr
  | [] => none
  | a0 :: rest =>
    match sat_ctr.ofArrayLoop 0 1 rest with
    | none => none
    | some Strenght => some { Dir := a0, Strenght := Strenght }

/-- Loop of `sat_ctr::getArray`: `arr[i] = (Strenght >> (i - 1)) & 1` for `n` consecutive
values of `i`. -/
def sat_ctr.getArrayLoop (Strenght : Nat) : Nat → Nat → Option (List Nat)
  | _, 0 => some []
  | i, n + 1 =>
    if i - 1 < 32 then
      match sat_ctr.getArrayLoop Strenght (i + 1) n with
      | none => none
      | some rest => some (((Strenght >>> (i - 1)) &&& 1) :: rest)
    else none

/-- The method `sat_ctr::getArray()`: `arr[0] = Dir`, then the strength bits. -/
def sat_ctr.getArray (CTR_WIDTH : Nat) (self : sat_ctr) : Option (List Nat) :=
  if CTR_WIDTH = 0 then none
  else
    match sat_ctr.getArrayLoop self.Strenght 1 (CTR_WIDTH - 1) with
    | none => none
    | some rest => some (self.Dir :: rest)

/-! ### `counter_types.h`: `pht` -/

/-- State of `pht<size, init_ctr, CTR_TYPE, SharedBits...>`: `arrays` is the tuple of
bit planes, plane `k` being a `std::array<uint64_t, (size / 64) / SharedBits_k>`;
`tmp_arr` is the array `{SharedBits...}`. -/
structure pht where
  arrays : List (List Nat)
  tmp_arr : List Nat
deriving DecidableEq, Repr

/-- The expression `i >> (tmp_arr[iter] - 1)` on `uint32_t`: the shift count wraps for a
sharing factor 0, and a count of 32 or more is undefined. -/
def pht.planeIndex (shared i : Nat) : Option Nat :=
  let shift := if shared = 0 then 2 ^ 32 - 1 else shared - 1
  if shift < 32 then some (i >>> shift) else none

/-- The `for_each` of `pht::get_counter` over the planes: one bit is read per plane. -/
def pht.get_bits : List (List Nat) → List Nat → Nat → Option (List Nat)
  | [], _, _ => some []
  | _ :: _, [], _ => none
  | elem :: elems, shared :: tmp_arr, i =>
    match pht.planeIndex shared i with
    | none => none
    | some index =>
      let arr_index := index >>> 6
      let line_index := index &&& 0x3F
      match elem[arr_index]? with
      | none => none
      | some line =>
        match pht.get_bits elems tmp_arr i with
        | none => none
        | some rest => some (((line >>> line_index) &&& 1) :: rest)

/-- The method `pht::get_counter(i)`. -/
def pht.get_counter (self : pht) (i : Nat) : Option sat_ctr :=
  match pht.get_bits self.arrays self.tmp_arr i with
  | none => none
  | some array => sat_ctr.ofArray array

/-- The `for_each` of `pht::save_counter` over the planes: one bit is written per plane,
`array` being the bits of the counter. -/
def pht.save_bits : List (List Nat) → List Nat → List Nat → Nat → Option (List (List Nat))
  | [], _, _, _ => some []
  | _ :: _, [], _, _ => none
  | _ :: _, _ :: _, [], _ => none
  | elem :: elems, shared :: tmp_arr, bit :: array, i =>
    match pht.planeIndex shared i with
    | none => none
    | some index =>
      let arr_index := index >>> 6
      let line_index := index &&& 0x3F
      match elem[arr_index]? with
      | none => none
      | some line =>
        let MaskedLine := line &&& (2 ^ 64 - 1 - 2 ^ line_index)
        let NewLine := MaskedLine ||| ((bit <<< line_index) % 2 ^ 64)
        match pht.save_bits elems tmp_arr array i with
        | none => none
        | some rest => some (elem.set arr_index NewLine :: rest)

/-- The method `pht::save_counter(i, counter)`. -/
def pht.save_counter (CTR_WIDTH : Nat) (self : pht) (i : Nat) (counter : sat_ctr) :
    Option pht :=
  match sat_ctr.getArray CTR_WIDTH counter with
  | none => none
  | some array =>
    match pht.save_bits self.arrays self.tmp_arr array i with
    | none => none
    | some arrays => some { self with arrays := arrays }

/-- Shape of the planes of `pht<size, ..., SharedBits...>`: plane `k` has
`(size / 64) / SharedBits_k` words, and the sharing factor is such that the shift
`SharedBits_k - 1` is defined and the plane holds whole words
(`64 * SharedBits_k` divides `size`). -/
def pht.planesOk (size : Nat) : List (List Nat) → List Nat → Bool
  | [], [] => true
  | elem :: elems, shared :: tmp_arr =>
    decide (1 ≤ shared) && decide (shared ≤ 32) && decide (64 * shared ∣ size) &&
      decide (elem.length = size / 64 / shared) && pht.planesOk size elems tmp_arr
  | _, _ => false

/-- A table of `pht<size, init_ctr, sat_ctr<CTR_WIDTH>, SharedBits...>`: `CTR_WIDTH`
planes of the declared shape (the `static_assert` on the number of shared bits). -/
def pht.WellFormed (size CTR_WIDTH : Nat) (t : pht) : Prop :=
  t.arrays.length = CTR_WIDTH ∧ pht.planesOk size t.arrays t.tmp_arr = true

/-! ### `main.cc`: branch classes and classification -/

/-- Modelled from the spec: the enumeration `bt9::BrClass::Type`, whose declaration is
in a header that is not part of the sources (spec: "Type: JMP|CALL|RET|UNKNOWN"). -/
inductive BrType where
  | UNKNOWN | RET | JMP | CALL
deriving DecidableEq, Repr

/-- Modelled from the spec: the enumeration `bt9::BrClass::Directness` (spec:
"Directness: DIRECT|INDIRECT"); `main.cc` has an `else` branch for a value that is
neither, kept here as `UNKNOWN`. -/
inductive Directness where
  | UNKNOWN | DIRECT | INDIRECT
deriving DecidableEq, Repr

/-- Modelled from the spec: the enumeration `bt9::BrClass::Conditionality` (spec:
"Conditionality: CONDITIONAL|UNCONDITIONAL|UNKNOWN"). -/
inductive Conditionality where
  | UNKNOWN | CONDITIONAL | UNCONDITIONAL
deriving DecidableEq, Repr

/-- The value returned by `brClass_brBehavior()`, as far as `main.cc` reads it. -/
structure BrClass_BrBehavior where
  type : BrType
  directness : Directness
  conditionality : Conditionality
deriving DecidableEq, Repr

/-- Modelled from the spec: the values of `OpType` that `main.cc` assigns (the
enumeration is declared in `utils.h`, which is not part of the sources). -/
inductive OpType where
  | OPTYPE_ERROR
  | OPTYPE_RET_COND | OPTYPE_RET_UNCOND
  | OPTYPE_CALL_INDIRECT_COND | OPTYPE_CALL_INDIRECT_UNCOND
  | OPTYPE_JMP_INDIRECT_COND | OPTYPE_JMP_INDIRECT_UNCOND
  | OPTYPE_CALL_DIRECT_COND | OPTYPE_CALL_DIRECT_UNCOND
  | OPTYPE_JMP_DIRECT_COND | OPTYPE_JMP_DIRECT_UNCOND
deriving DecidableEq, Repr

/-- The classification of `main` (`main.cc`, the `if` cascade that assigns `opType`);
`brNodeIndex` is `it->getSrcNode()->brNodeIndex()`. -/
def classify (b : BrClass_BrBehavior) (brNodeIndex : Nat) : OpType :=
  if b.type = BrType.UNKNOWN ∧ brNodeIndex ≠ 0 then OpType.OPTYPE_ERROR
  else if b.type = BrType.RET then
    if b.conditionality = Conditionality.CONDITIONAL then OpType.OPTYPE_RET_COND
    else if b.conditionality = Conditionality.UNCONDITIONAL then OpType.OPTYPE_RET_UNCOND
    else OpType.OPTYPE_ERROR
  else if b.directness = Directness.INDIRECT then
    if b.type = BrType.CALL then
      if b.conditionality = Conditionality.CONDITIONAL then OpType.OPTYPE_CALL_INDIRECT_COND
      else if b.conditionality = Conditionality.UNCONDITIONAL then
        OpType.OPTYPE_CALL_INDIRECT_UNCOND
      else OpType.OPTYPE_ERROR
    else if b.type = BrType.JMP then
      if b.conditionality = Conditionality.CONDITIONAL then OpType.OPTYPE_JMP_INDIRECT_COND
      else if b.conditionality = Conditionality.UNCONDITIONAL then
        OpType.OPTYPE_JMP_INDIRECT_UNCOND
      else OpType.OPTYPE_ERROR
    else OpType.OPTYPE_ERROR
  else if b.directness = Directness.DIRECT then
    if b.type = BrType.CALL then
      if b.conditionality = Conditionality.CONDITIONAL then OpType.OPTYPE_CALL_DIRECT_COND
      else if b.conditionality = Conditionality.UNCONDITIONAL then
        OpType.OPTYPE_CALL_DIRECT_UNCOND
      else OpType.OPTYPE_ERROR
    else if b.type = BrType.JMP then
      if b.conditionality = Conditionality.CONDITIONAL then OpType.OPTYPE_JMP_DIRECT_COND
      else if b.conditionality = Conditionality.UNCONDITIONAL then
        OpType.OPTYPE_JMP_DIRECT_UNCOND
      else OpType.OPTYPE_ERROR
    else OpType.OPTYPE_ERROR
  else OpType.OPTYPE_ERROR

/-- The branch type that the name of an `OpType` value carries. -/
def OpType.type : OpType → Option BrType
  | OPTYPE_ERROR => none
  | OPTYPE_RET_COND | OPTYPE_RET_UNCOND => some BrType.RET
  | OPTYPE_CALL_INDIRECT_COND | OPTYPE_CALL_INDIRECT_UNCOND
  | OPTYPE_CALL_DIRECT_COND | OPTYPE_CALL_DIRECT_UNCOND => some BrType.CALL
  | OPTYPE_JMP_INDIRECT_COND | OPTYPE_JMP_INDIRECT_UNCOND
  | OPTYPE_JMP_DIRECT_COND | OPTYPE_JMP_DIRECT_UNCOND => some BrType.JMP

/-- The directness that the name of an `OpType` value carries (none for `RET`). -/
def OpType.directness : OpType → Option Directness
  | OPTYPE_ERROR | OPTYPE_RET_COND | OPTYPE_RET_UNCOND => none
  | OPTYPE_CALL_INDIRECT_COND | OPTYPE_CALL_INDIRECT_UNCOND
  | OPTYPE_JMP_INDIRECT_COND | OPTYPE_JMP_INDIRECT_UNCOND => some Directness.INDIRECT
  | OPTYPE_CALL_DIRECT_COND | OPTYPE_CALL_DIRECT_UNCOND
  | OPTYPE_JMP_DIRECT_COND | OPTYPE_JMP_DIRECT_UNCOND => some Directness.DIRECT

/-- The conditionality that the name of an `OpType` value carries. -/
def OpType.conditionality : OpType → Option Conditionality
  | OPTYPE_ERROR => none
  | OPTYPE_RET_COND | OPTYPE_CALL_INDIRECT_COND | OPTYPE_JMP_INDIRECT_COND
  | OPTYPE_CALL_DIRECT_COND | OPTYPE_JMP_DIRECT_COND => some Conditionality.CONDITIONAL
  | OPTYPE_RET_UNCOND | OPTYPE_CALL_INDIRECT_UNCOND | OPTYPE_JMP_INDIRECT_UNCOND
  | OPTYPE_CALL_DIRECT_UNCOND | OPTYPE_JMP_DIRECT_UNCOND => some Conditionality.UNCONDITIONAL

/-! ### `main.cc`: the driver -/

/-- Modelled from the spec: the fields of a node record that `main.cc` reads through
`it->getSrcNode()` (the record class is declared in a header that is not part of the
sources). -/
structure BT9ReaderNodeRecord where
  brNodeIndex : Nat
  brVirtualAddr : Nat
  brClass_brBehavior : BrClass_BrBehavior
deriving DecidableEq, Repr

/-- Modelled from the spec: the fields of an edge record that `main.cc` and
`bt9_reader.h` read (`src_node_id_`, `dest_node_id_`, `isTakenPath()`,
`brVirtualTarget()`). -/
structure BT9ReaderEdgeRecord where
  src_node_id_ : Nat
  dest_node_id_ : Nat
  isTakenPath : Bool
  brVirtualTarget : Nat
deriving DecidableEq, Repr

/-- What one iteration of the loop of `main` reads through `it->`: the source node
record and the edge record of the branch instance. -/
structure LoadedInstance where
  srcNode : BT9ReaderNodeRecord
  edge : BT9ReaderEdgeRecord
deriving DecidableEq, Repr

/-- A recorded snapshot: the operands of the `double` expression
`1000.0*(double)(numMispred)/(double)(numIter)` of `CheckHeartBeat`. -/
structure MPKBr where
  numMispred : Nat
  numIter : Nat
deriving DecidableEq, Repr

/-- The quotient `1000 * numMispred / numIter` that the snapshot stands for (exact; the
rounding of the `double` division is not modelled). -/
def MPKBr.value (x : MPKBr) : ℚ := 1000 * (x.numMispred : ℚ) / (x.numIter : ℚ)

/-- The snapshot fields of `stats_t`; `none` is the initial quiet NaN. -/
structure stats_t where
  MPKBr_1K : Option MPKBr := none
  MPKBr_10K : Option MPKBr := none
  MPKBr_100K : Option MPKBr := none
  MPKBr_1M : Option MPKBr := none
  MPKBr_10M : Option MPKBr := none
  MPKBr_30M : Option MPKBr := none
  MPKBr_60M : Option MPKBr := none
  MPKBr_100M : Option MPKBr := none
  MPKBr_300M : Option MPKBr := none
  MPKBr_600M : Option MPKBr := none
  MPKBr_1B : Option MPKBr := none
  MPKBr_10B : Option MPKBr := none
deriving DecidableEq, Repr

/-- The function `CheckHeartBeat(numIter, numMispred)` acting on the global `stats`. -/
def CheckHeartBeat (stats : stats_t) (numIter numMispred : Nat) : stats_t :=
  let stats := if numIter = 1000 then
    { stats with MPKBr_1K := some { numMispred := numMispred, numIter := numIter } } else stats
  let stats := if numIter = 10000 then
    { stats with MPKBr_10K := some { numMispred := numMispred, numIter := numIter } } else stats
  let stats := if numIter = 100000 then
    { stats with MPKBr_100K := some { numMispred := numMispred, numIter := numIter } } else stats
  let stats := if numIter = 1000000 then
    { stats with MPKBr_1M := some { numMispred := numMispred, numIter := numIter } } else stats
  let stats := if numIter = 10000000 then
    { stats with MPKBr_10M := some { numMispred := numMispred, numIter := numIter } } else stats
  let stats := if numIter = 30000000 then
    { stats with MPKBr_30M := some { numMispred := numMispred, numIter := numIter } } else stats
  let stats := if numIter = 60000000 then
    { stats with MPKBr_60M := some { numMispred := numMispred, numIter := numIter } } else stats
  let stats := if numIter = 100000000 then
    { stats with MPKBr_100M := some { numMispred := numMispred, numIter := numIter } } else stats
  let stats := if numIter = 300000000 then
    { stats with MPKBr_300M := some { numMispred := numMispred, numIter := numIter } } else stats
  let stats := if numIter = 600000000 then
    { stats with MPKBr_600M := some { numMispred := numMispred, numIter := numIter } } else stats
  let stats := if numIter = 1000000000 then
    { stats with MPKBr_1B := some { numMispred := numMispred, numIter := numIter } } else stats
  let stats := if numIter = 10000000000 then
    { stats with MPKBr_10B := some { numMispred := numMispred, numIter := numIter } } else stats
  stats

/-- The snapshot points of `CheckHeartBeat`: 1K, 10K, 100K, 1M, 10M, 30M, 60M, 100M,
300M, 600M, 1B, 10B. -/
def snapshotPoints : List Nat :=
  [1000, 10000, 100000, 1000000, 10000000, 30000000, 60000000, 100000000, 300000000,
    600000000, 1000000000, 10000000000]

/-- The snapshot field `MPKBr_T` of `stats` that belongs to the snapshot point `T`. -/
def stats_t.MPKBr (stats : stats_t) (T : Nat) : Option MPKBr :=
  if T = 1000 then stats.MPKBr_1K
  else if T = 10000 then stats.MPKBr_10K
  else if T = 100000 then stats.MPKBr_100K
  else if T = 1000000 then stats.MPKBr_1M
  else if T = 10000000 then stats.MPKBr_10M
  else if T = 30000000 then stats.MPKBr_30M
  else if T = 60000000 then stats.MPKBr_60M
  else if T = 100000000 then stats.MPKBr_100M
  else if T = 300000000 then stats.MPKBr_300M
  else if T = 600000000 then stats.MPKBr_600M
  else if T = 1000000000 then stats.MPKBr_1B
  else if T = 10000000000 then stats.MPKBr_10B
  else none

/-- The interface of the class `PREDICTOR` that `main.cc` is compiled against (the
header is selected at build time by `PREDICTOR_H_PATH`); `σ` is the predictor state.
`GetPrediction` returns the prediction and the state it leaves. -/
structure PREDICTOR (σ : Type) where
  GetPrediction : σ → Nat → Bool × σ
  UpdatePredictor : σ → Nat → OpType → Bool → Bool → Nat → σ
  TrackOtherInst : σ → Nat → OpType → Bool → Nat → σ

/-- The local variables of `main` that the loop changes, the predictor object and the
global `stats`.  All counters are `uint64_t`. -/
structure MainState (σ : Type) where
  brpred : σ
  numMispred : Nat := 0
  cond_branch_instruction_counter : Nat := 0
  uncond_branch_instruction_counter : Nat := 0
  numIter : Nat := 0
  CheckHeartBeat_numIter : Nat := 0
  stats : stats_t := {}

/-- How a piece of `main` ends: it goes on (`ok`), or the process ends by `exit(-1)`
(`exited`), in both cases with the state reached. -/
inductive Outcome (α : Type) where
  | ok (s : α)
  | exited (s : α)

/-- The state that an outcome carries. -/
def Outcome.state {α : Type} : Outcome α → α
  | Outcome.ok s => s
  | Outcome.exited s => s

/-- The first statements of the body of the `for` loop of `main`: the two increments and
the call of `CheckHeartBeat` every `CheckHeartBeat_interval = 1000` iterations. -/
def loopHead {σ : Type} (s : MainState σ) : MainState σ :=
  let s := { s with numIter := (s.numIter + 1) % 2 ^ 64,
                    CheckHeartBeat_numIter := (s.CheckHeartBeat_numIter + 1) % 2 ^ 64 }
  if s.CheckHeartBeat_numIter = 1000 then
    { s with stats := CheckHeartBeat s.stats s.numIter s.numMispred,
             CheckHeartBeat_numIter := 0 }
  else s

/-- One iteration of the `for` loop of `main` on the branch instance `it`. -/
def loopBody {σ : Type} (P : PREDICTOR σ) (s : MainState σ) (it : LoadedInstance) :
    Outcome (MainState σ) :=
  let s := loopHead s
  let BrClass_BrBehavior := it.srcNode.brClass_brBehavior
  let opType := classify BrClass_BrBehavior it.srcNode.brNodeIndex
  let PC := it.srcNode.brVirtualAddr
  let branchTaken := it.edge.isTakenPath
  let branchTarget := it.edge.brVirtualTarget
  if opType = OpType.OPTYPE_ERROR then
    if it.srcNode.brNodeIndex ≠ 0 then Outcome.exited s else Outcome.ok s
  else if BrClass_BrBehavior.conditionality = Conditionality.CONDITIONAL then
    let r := P.GetPrediction s.brpred PC
    let predDir := r.1
    let brpred := P.UpdatePredictor r.2 PC opType branchTaken predDir branchTarget
    let numMispred := if predDir ≠ branchTaken then (s.numMispred + 1) % 2 ^ 64
      else s.numMispred
    Outcome.ok
      { s with brpred := brpred,
               numMispred := numMispred,
               cond_branch_instruction_counter :=
                 (s.cond_branch_instruction_counter + 1) % 2 ^ 64 }
  else if BrClass_BrBehavior.conditionality = Conditionality.UNCONDITIONAL then
    Outcome.ok
      { s with uncond_branch_instruction_counter :=
                 (s.uncond_branch_instruction_counter + 1) % 2 ^ 64,
               brpred := P.TrackOtherInst s.brpred PC opType branchTaken branchTarget }
  else Outcome.exited s

/-- The `for` loop of `main` over the branch instances that the iterator yields. -/
def mainLoop {σ : Type} (P : PREDICTOR σ) : MainState σ → List LoadedInstance →
    Outcome (MainState σ)
  | s, [] => Outcome.ok s
  | s, it :: rest =>
    match loopBody P s it with
    | Outcome.ok s' => mainLoop P s' rest
    | Outcome.exited s' => Outcome.exited s'

/-- Reference tally of one branch instance: the predictor state after the instance and
the number of mispredicted conditional branches so far.  A conditional branch is
mispredicted when `GetPrediction`, asked before the update, differs from the outcome. -/
def tallyStep {σ : Type} (P : PREDICTOR σ) (acc : σ × Nat) (it : LoadedInstance) : σ × Nat :=
  let opType := classify it.srcNode.brClass_brBehavior it.srcNode.brNodeIndex
  if opType = OpType.OPTYPE_ERROR then acc
  else if it.srcNode.brClass_brBehavior.conditionality = Conditionality.CONDITIONAL then
    let r := P.GetPrediction acc.1 it.srcNode.brVirtualAddr
    (P.UpdatePredictor r.2 it.srcNode.brVirtualAddr opType it.edge.isTakenPath r.1
        it.edge.brVirtualTarget,
      acc.2 + (if r.1 ≠ it.edge.isTakenPath then 1 else 0))
  else if it.srcNode.brClass_brBehavior.conditionality = Conditionality.UNCONDITIONAL then
    (P.TrackOtherInst acc.1 it.srcNode.brVirtualAddr opType it.edge.isTakenPath
        it.edge.brVirtualTarget, acc.2)
  else acc

/-- The number of mispredicted conditional branches among the branch instances `tr`,
the predictor starting in state `s0`. -/
def mispredictedAmong {σ : Type} (P : PREDICTOR σ) (s0 : σ) (tr : List LoadedInstance) : Nat :=
  (tr.foldl (tallyStep P) (s0, 0)).2

/-- Invariant of the loop of `main` after the instances `done` have been handled, the
predictor having started in state `s0`: iteration counters, predictor state and
misprediction counter, and the snapshots recorded so far. -/
def MainInv {σ : Type} (P : PREDICTOR σ) (s0 : σ) (done : List LoadedInstance)
    (s : MainState σ) : Prop :=
  s.numIter = done.length ∧
  s.CheckHeartBeat_numIter = done.length % 1000 ∧
  (s.brpred, s.numMispred) = done.foldl (tallyStep P) (s0, 0) ∧
  ∀ T ∈ snapshotPoints, s.stats.MPKBr T
    = if T ≤ done.length then
        some { numMispred := mispredictedAmong P s0 (done.take (T - 1)), numIter := T }
      else none

/-! ### `bimodal/src/predictor.cc`: the bimodal predictor -/

/-- The `for_each` of `pht::init_arrays`: every word of a plane is `0xFFFFFFFFFFFFFFFF` or
`0` after bit `i` of `init_ctr`, `i` starting at `ctr_width - 1` and decremented (in
`uint32_t`) from plane to plane. -/
def pht.init_arrays_loop (size init_ctr : Nat) : List Nat → Nat → List (List Nat)
  | [], _ => []
  | shared :: rest, i =>
    List.replicate (size / 64 / shared)
        (if (init_ctr >>> i) &&& 1 ≠ 0 then 0xFFFFFFFFFFFFFFFF else 0)
      :: pht.init_arrays_loop size init_ctr rest (if i = 0 then 2 ^ 32 - 1 else i - 1)

/-- The table that `pht::init_arrays` builds for `pht<size, init_ctr, CTR_TYPE,
SharedBits...>`, `ctr_width` being the width of `CTR_TYPE`. -/
def pht.init_arrays (size init_ctr ctr_width : Nat) (SharedBits : List Nat) : pht :=
  { arrays := pht.init_arrays_loop size init_ctr SharedBits
      (if ctr_width = 0 then 2 ^ 32 - 1 else ctr_width - 1),
    tmp_arr := SharedBits }

/-- The constant `numPhtEntries = (1 << PHT_SIZE)` (`uint32_t`). -/
def numPhtEntries (PHT_SIZE : Nat) : Nat := (1 <<< PHT_SIZE) % 2 ^ 32

/-- The data members of the bimodal `PREDICTOR`: the table and the `index` and `counter`
that `GetPrediction` leaves for `UpdatePredictor`. -/
structure BimodalState where
  pht : pht
  index : Nat
  counter : sat_ctr
deriving DecidableEq, Repr

/-- The method `PREDICTOR::GetPrediction(PC)` of the bimodal predictor. -/
def Bimodal.GetPrediction (PHT_SIZE : Nat) (s : BimodalState) (PC : Nat) :
    Option (Bool × BimodalState) :=
  let index := PC &&& (if numPhtEntries PHT_SIZE = 0 then 2 ^ 32 - 1
    else numPhtEntries PHT_SIZE - 1)
  match pht.get_counter s.pht (index % 2 ^ 32) with
  | none => none
  | some counter => some (decide (counter.Dir ≠ 0), { s with index := index, counter := counter })

/-- The method `PREDICTOR::UpdatePredictor(PC, opType, resolveDir, predDir,
branchTarget)` of the bimodal predictor. -/
def Bimodal.UpdatePredictor (CTR_WIDTH : Nat) (s : BimodalState) (_PC : Nat)
    (_opType : OpType) (resolveDir : Bool) (_predDir : Bool) (_branchTarget : Nat) :
    Option BimodalState :=
  let new_counter := sat_ctr.updateCounter CTR_WIDTH s.counter (if resolveDir then 1 else 0)
  match pht.save_counter CTR_WIDTH s.pht (s.index % 2 ^ 32) new_counter with
  | none => none
  | some t => some { s with pht := t }

/-- The bimodal predictor behind the interface of `main`.  The methods are total on a
table of the declared shape; a call whose behaviour is undefined leaves the state as it
is (and predicts not taken). -/
def Bimodal.predictor (PHT_SIZE CTR_WIDTH : Nat) : PREDICTOR BimodalState :=
  { GetPrediction := fun s PC =>
      match Bimodal.GetPrediction PHT_SIZE s PC with
      | some r => r
      | none => (false, s)
    UpdatePredictor := fun s PC opType resolveDir predDir branchTarget =>
      match Bimodal.UpdatePredictor CTR_WIDTH s PC opType resolveDir predDir branchTarget with
      | some s' => s'
      | none => s
    TrackOtherInst := fun s _ _ _ _ => s }

/-- The bimodal predictor as constructed: the initialised table, `index` and `counter`
not yet set (the default counter). -/
def Bimodal.init (PHT_SIZE CTR_INIT CTR_WIDTH : Nat) (SharedBits : List Nat) : BimodalState :=
  { pht := pht.init_arrays (numPhtEntries PHT_SIZE) CTR_INIT CTR_WIDTH SharedBits,
    index := 0,
    counter := { Dir := 0, Strenght := 0 } }

/-- A direct unconditional jump at `pc`, taken, as one branch instance. -/
def sampleJump (pc : Nat) : LoadedInstance :=
  { srcNode := { brNodeIndex := 1, brVirtualAddr := pc,
                 brClass_brBehavior := { type := BrType.JMP, directness := Directness.DIRECT,
                                         conditionality := Conditionality.UNCONDITIONAL } },
    edge := { src_node_id_ := 1, dest_node_id_ := 1, isTakenPath := true,
              brVirtualTarget := pc } }

/-- A direct conditional jump at `pc` with outcome `taken`, as one branch instance. -/
def sampleCond (pc : Nat) (taken : Bool) : LoadedInstance :=
  { srcNode := { brNodeIndex := 2, brVirtualAddr := pc,
                 brClass_brBehavior := { type := BrType.JMP, directness := Directness.DIRECT,
                                         conditionality := Conditionality.CONDITIONAL } },
    edge := { src_node_id_ := 2, dest_node_id_ := 2, isTakenPath := taken,
              brVirtualTarget := pc } }

/-- A trace of 1000 branch instances: 999 unconditional jumps, then one conditional
branch that is taken. -/
def sampleTrace1000 : List LoadedInstance :=
  List.replicate 999 (sampleJump 64) ++ [sampleCond 68 true]

/-! ### `bt9_reader.h`: the BT10 parser and the sliding edge buffer -/

/-- The build-time constants of the reader: `BT10_PARSER_BUFFER_SIZE` (the size of the
staging array `data` of `parser_BT10`) and `EDGE_SEQUENCE_BUFFER_SIZE` (the size of
`buffer_`).  Their definitions are not part of the sources. -/
structure BT9Config where
  BT10_PARSER_BUFFER_SIZE : Nat
  EDGE_SEQUENCE_BUFFER_SIZE : Nat
deriving DecidableEq, Repr

/-- How a reader function can fail: `exit(1)` on an invalid edge index, a failed
`assert`, undefined behaviour (an access outside an array), or the exhaustion of the
fuel of a loop of the model. -/
inductive BT9Error where
  | InvalidEdgeIndex (edge_id : Nat)
  | AssertFailed
  | Undefined
  | OutOfFuel
deriving DecidableEq, Repr

/-- The part of the state of `BT9Reader` that the binary section uses: the statics of
`parser_BT10` (`data`, `initiliazed`, `ptr`), the bytes that `pinfile_` has not
delivered yet, the tables, and the sliding buffer with its two pointers. -/
structure BT9Reader where
  data : List Nat
  initiliazed : Nat
  ptr : Nat
  pinfile_ : List Nat
  node_table_ : List BT9ReaderNodeRecord
  edge_table_ : List BT9ReaderEdgeRecord
  line_num_ : Nat
  reach_eof_ : Bool
  buffer_ : List Nat
  buffer_read_ptr_ : Nat
  buffer_write_ptr_ : Nat
deriving DecidableEq, Repr

/-- The method `isValidEdgeIndex_(idx)`. -/
def BT9Reader.isValidEdgeIndex_ (r : BT9Reader) (idx : Nat) : Bool :=
  decide (idx < r.edge_table_.length)

/-- The method `appendToBuffer(edge_id)`: the reader after the call and the returned
`is_buffer_full`. -/
def BT9Reader.appendToBuffer (cfg : BT9Config) (r : BT9Reader) (edge_id : Nat) :
    Except BT9Error (BT9Reader × Bool) :=
  if ¬ r.isValidEdgeIndex_ edge_id then Except.error (BT9Error.InvalidEdgeIndex edge_id)
  else if ¬ r.buffer_write_ptr_ < r.buffer_.length then Except.error BT9Error.Undefined
  else
    let r := { r with buffer_ := r.buffer_.set r.buffer_write_ptr_ edge_id,
                      buffer_write_ptr_ := (r.buffer_write_ptr_ + 1) % 2 ^ 64,
                      line_num_ := (r.line_num_ + 1) % 2 ^ 64 }
    Except.ok (r, decide (r.buffer_write_ptr_ ≥ cfg.EDGE_SEQUENCE_BUFFER_SIZE))

/-- The refill at the head of the loop of `parser_BT10`, taken when fewer than 5 bytes
are left in `data`: the unread tail is copied to the front (`memcpy`), `pinfile_.read`
fills the rest of `data` with as many bytes as the stream still has (the bytes it does
not reach keep their old value), and `ptr` restarts at 0. -/
def BT9Reader.refillData (cfg : BT9Config) (r : BT9Reader) (bytes_left : Nat) : BT9Reader :=
  let tail := (r.data.drop r.ptr).take bytes_left
  let got := r.pinfile_.take (cfg.BT10_PARSER_BUFFER_SIZE - bytes_left)
  { r with data := tail ++ got ++ r.data.drop (bytes_left + got.length),
           pinfile_ := r.pinfile_.drop (cfg.BT10_PARSER_BUFFER_SIZE - bytes_left),
           ptr := 0,
           initiliazed := 1 }

/-- The value `bytes_left = initiliazed ? (BT10_PARSER_BUFFER_SIZE - ptr) : 0`
(`uint32_t`) at the head of the loop of `parser_BT10`. -/
def BT9Reader.bytes_left (cfg : BT9Config) (r : BT9Reader) : Nat :=
  if r.initiliazed ≠ 0 then (cfg.BT10_PARSER_BUFFER_SIZE + 2 ^ 32 - r.ptr) % 2 ^ 32 else 0

/-- The statement `if (bytes_left < 5) { ... }` at the head of the loop of
`parser_BT10`. -/
def BT9Reader.refillIfShort (cfg : BT9Config) (r : BT9Reader) : BT9Reader :=
  if r.bytes_left cfg < 5 then r.refillData cfg (r.bytes_left cfg) else r

/-- The `while(1)` loop of `parser_BT10`, with `fuel` bounding the number of iterations
of the model.  The 32-bit word after a byte 255 is read in little-endian order. -/
def BT9Reader.parser_BT10_loop (cfg : BT9Config) : Nat → BT9Reader → Except BT9Error BT9Reader
  | 0, _ => Except.error BT9Error.OutOfFuel
  | fuel + 1, r =>
    let r := r.refillIfShort cfg
    match r.data[r.ptr]? with
    | none => Except.error BT9Error.Undefined
    | some b0 =>
      let r := { r with ptr := (r.ptr + 1) % 2 ^ 32 }
      if b0 = 255 then
        match r.data[r.ptr]?, r.data[r.ptr + 1]?, r.data[r.ptr + 2]?, r.data[r.ptr + 3]? with
        | some b1, some b2, some b3, some b4 =>
          let new_edge := b1 + 256 * b2 + 65536 * b3 + 16777216 * b4
          let r := { r with ptr := (r.ptr + 4) % 2 ^ 32 }
          if new_edge = 0 then Except.ok { r with reach_eof_ := true }
          else
            match r.appendToBuffer cfg new_edge with
            | Except.error e => Except.error e
            | Except.ok (r, is_buffer_full) =>
              if is_buffer_full then Except.ok r
              else BT9Reader.parser_BT10_loop cfg fuel r
        | _, _, _, _ => Except.error BT9Error.Undefined
      else
        match r.appendToBuffer cfg b0 with
        | Except.error e => Except.error e
        | Except.ok (r, is_buffer_full) =>
          if is_buffer_full then Except.ok r
          else BT9Reader.parser_BT10_loop cfg fuel r

/-- The method `parser_BT10()`.  Every iteration of its loop that does not return stores
one edge ID and leaves the buffer not full, so `EDGE_SEQUENCE_BUFFER_SIZE + 1` iterations
are never exceeded. -/
def BT9Reader.parser_BT10 (cfg : BT9Config) (r : BT9Reader) : Except BT9Error BT9Reader :=
  BT9Reader.parser_BT10_loop cfg (cfg.EDGE_SEQUENCE_BUFFER_SIZE + 1) r

/-- The method `shiftBT9EdgeSeqListAccessWindow_()`. -/
def BT9Reader.shiftBT9EdgeSeqListAccessWindow_ (cfg : BT9Config) (r : BT9Reader) :
    Except BT9Error BT9Reader :=
  if r.reach_eof_ then Except.error BT9Error.AssertFailed
  else
    match BT9Reader.parser_BT10 cfg { r with buffer_write_ptr_ := 0 } with
    | Except.error e => Except.error e
    | Except.ok r =>
      if r.buffer_write_ptr_ ≤ cfg.EDGE_SEQUENCE_BUFFER_SIZE then Except.ok r
      else Except.error BT9Error.AssertFailed

/-- The reader when the constructor reaches `initBT9EdgeSeqListAccessWindow_()`: the
tables are loaded, `pinfile_` stands at the first byte of the binary section, the statics
of `parser_BT10` are zero and the buffer is empty. -/
def BT9Reader.atBinarySection (cfg : BT9Config)
    (nodes : List BT9ReaderNodeRecord) (edges : List BT9ReaderEdgeRecord)
    (stream : List Nat) : BT9Reader :=
  { data := List.replicate cfg.BT10_PARSER_BUFFER_SIZE 0,
    initiliazed := 0,
    ptr := 0,
    pinfile_ := stream,
    node_table_ := nodes,
    edge_table_ := edges,
    line_num_ := 0,
    reach_eof_ := false,
    buffer_ := List.replicate cfg.EDGE_SEQUENCE_BUFFER_SIZE 0,
    buffer_read_ptr_ := 0,
    buffer_write_ptr_ := 0 }

/-- The method `initBT9EdgeSeqListAccessWindow_()`, the marker of the binary section
having been seen (`reach_edge_seq_list_`). -/
def BT9Reader.initBT9EdgeSeqListAccessWindow_ (cfg : BT9Config) (r : BT9Reader) :
    Except BT9Error BT9Reader :=
  BT9Reader.shiftBT9EdgeSeqListAccessWindow_ cfg r

/-- The method `moveToNextEdgeSeqListEntry_(idx)`: the reader after the call, the new
value of `idx` and the returned flag (true when the end of the sequence is reached). -/
def BT9Reader.moveToNextEdgeSeqListEntry_ (cfg : BT9Config) (r : BT9Reader) (idx : Nat) :
    Except BT9Error (BT9Reader × Nat × Bool) :=
  let idx := (idx + 1) % 2 ^ 64
  if r.buffer_read_ptr_ ≥ r.buffer_write_ptr_ then
    if r.reach_eof_ then Except.ok (r, idx, true)
    else
      match BT9Reader.shiftBT9EdgeSeqListAccessWindow_ cfg r with
      | Except.error e => Except.error e
      | Except.ok r =>
        if r.reach_eof_ && decide (r.buffer_write_ptr_ = 0) then Except.ok (r, idx, true)
        else Except.ok ({ r with buffer_read_ptr_ := 0 }, idx, false)
  else Except.ok (r, idx, false)

/-- The method `getEdgeSeqListEntry_(idx)`: the reader after the call and the edge ID
read from the buffer. -/
def BT9Reader.getEdgeSeqListEntry_ (r : BT9Reader) : Except BT9Error (BT9Reader × Nat) :=
  if ¬ r.buffer_read_ptr_ < r.buffer_write_ptr_ then Except.error BT9Error.AssertFailed
  else
    match r.buffer_[r.buffer_read_ptr_]? with
    | none => Except.error BT9Error.Undefined
    | some edge_id =>
      Except.ok ({ r with buffer_read_ptr_ := (r.buffer_read_ptr_ + 1) % 2 ^ 64 }, edge_id)

/-- The class `BT9BranchInstance`: three pointers into the tables of the reader, kept as
the index of the row they point to (`none` is `nullptr`), and the validity flag. -/
structure BT9BranchInstance where
  src_node_rec_ptr_ : Option Nat
  dest_node_rec_ptr_ : Option Nat
  edge_rec_ptr_ : Option Nat
  valid_ : Bool
deriving DecidableEq, Repr

/-- The default constructed (and the invalidated) `BT9BranchInstance`. -/
def BT9BranchInstance.invalid : BT9BranchInstance :=
  { src_node_rec_ptr_ := none, dest_node_rec_ptr_ := none, edge_rec_ptr_ := none,
    valid_ := false }

/-- The method `loadBT9BranchInstance_(idx, br_inst)`: the reader after the call and the
updated branch instance. -/
def BT9Reader.loadBT9BranchInstance_ (r : BT9Reader) :
    Except BT9Error (BT9Reader × BT9BranchInstance) :=
  match r.getEdgeSeqListEntry_ with
  | Except.error e => Except.error e
  | Except.ok (r, edge_id) =>
    match r.edge_table_[edge_id]? with
    | none => Except.error BT9Error.Undefined
    | some edge_rec =>
      Except.ok (r, { src_node_rec_ptr_ := some edge_rec.src_node_id_,
                      dest_node_rec_ptr_ := some edge_rec.dest_node_id_,
                      edge_rec_ptr_ := some edge_id,
                      valid_ := true })

/-- The class `BranchInstanceIterator` (all iterators here belong to the one reader). -/
structure BranchInstanceIterator where
  reach_end_ : Bool
  index_ : Nat
  br_inst_ : BT9BranchInstance
deriving DecidableEq, Repr

/-- The method `BT9Reader::begin()`. -/
def BT9Reader.begin : BranchInstanceIterator :=
  { reach_end_ := false, index_ := 0, br_inst_ := BT9BranchInstance.invalid }

/-- The method `BT9Reader::end()`. -/
def BT9Reader.end_ : BranchInstanceIterator :=
  { reach_end_ := true, index_ := 0, br_inst_ := BT9BranchInstance.invalid }

/-- The operator `==` of `BranchInstanceIterator`, for two iterators of the same
reader. -/
def BranchInstanceIterator.eq (it rhs : BranchInstanceIterator) : Bool :=
  if !it.reach_end_ && !rhs.reach_end_ then decide (it.index_ = rhs.index_)
  else it.reach_end_ && rhs.reach_end_

/-- The operator `!=` of `BranchInstanceIterator`. -/
def BranchInstanceIterator.ne (it rhs : BranchInstanceIterator) : Bool :=
  !(it.eq rhs)

/-- The pre-increment operator `++` of `BranchInstanceIterator`. -/
def BranchInstanceIterator.increment (cfg : BT9Config) (r : BT9Reader)
    (it : BranchInstanceIterator) : Except BT9Error (BT9Reader × BranchInstanceIterator) :=
  let it := { it with br_inst_ := BT9BranchInstance.invalid }
  if !it.reach_end_ then
    match r.moveToNextEdgeSeqListEntry_ cfg it.index_ with
    | Except.error e => Except.error e
    | Except.ok (r, idx, reach_end) =>
      Except.ok (r, { it with index_ := idx, reach_end_ := reach_end })
  else Except.ok (r, it)

/-- The dereference operators `*` and `->` of `BranchInstanceIterator`: the reader and
the iterator after the call, and the branch instance they give access to. -/
def BranchInstanceIterator.deref (r : BT9Reader) (it : BranchInstanceIterator) :
    Except BT9Error (BT9Reader × BranchInstanceIterator × BT9BranchInstance) :=
  if !it.br_inst_.valid_ then
    match r.loadBT9BranchInstance_ with
    | Except.error e => Except.error e
    | Except.ok (r, br_inst) => Except.ok (r, { it with br_inst_ := br_inst }, br_inst)
  else Except.ok (r, it, it.br_inst_)

/-- The loop `for (auto it = begin(); it != end(); ++it)` of `main`, as seen from the
reader: every iteration dereferences the iterator and records the branch instance it
gets.  `fuel` bounds the number of iterations of the model. -/
def BT9Reader.forEachInstance (cfg : BT9Config) :
    Nat → BT9Reader → BranchInstanceIterator →
      Except BT9Error (List BT9BranchInstance × BT9Reader × BranchInstanceIterator)
  | 0, _, _ => Except.error BT9Error.OutOfFuel
  | fuel + 1, r, it =>
    if it.ne BT9Reader.end_ then
      match it.deref r with
      | Except.error e => Except.error e
      | Except.ok (r, it, br_inst) =>
        match it.increment cfg r with
        | Except.error e => Except.error e
        | Except.ok (r, it) =>
          match BT9Reader.forEachInstance cfg fuel r it with
          | Except.error e => Except.error e
          | Except.ok (seen, r, it) => Except.ok (br_inst :: seen, r, it)
    else Except.ok ([], r, it)

/-- The successive refills of the edge buffer until `reach_eof_` is set: the edge IDs
that each refill leaves in `buffer_[0 .. buffer_write_ptr_)`, in order, and the final
reader.  `fuel` bounds the number of refills of the model. -/
def BT9Reader.refills (cfg : BT9Config) : Nat → BT9Reader → Except BT9Error (List Nat × BT9Reader)
  | 0, _ => Except.error BT9Error.OutOfFuel
  | fuel + 1, r =>
    match BT9Reader.shiftBT9EdgeSeqListAccessWindow_ cfg r with
    | Except.error e => Except.error e
    | Except.ok r =>
      let ids := r.buffer_.take r.buffer_write_ptr_
      if r.reach_eof_ then Except.ok (ids, r)
      else
        match BT9Reader.refills cfg fuel r with
        | Except.error e => Except.error e
        | Except.ok (more, r) => Except.ok (ids ++ more, r)

/-- The BT10 record of one edge ID, after the words of the specification: one byte for an
ID in [0,254], the byte `0xFF` followed by the ID as a 32-bit little-endian word
otherwise. -/
def encodeEdgeId (id : Nat) : List Nat :=
  if id < 255 then [id]
  else [255, id % 256, id / 256 % 256, id / 65536 % 256, id / 16777216 % 256]

/-- The records of a sequence of edge IDs, one after the other. -/
def encodeEdgeIds : List Nat → List Nat
  | [] => []
  | id :: ids => encodeEdgeId id ++ encodeEdgeIds ids

/-- The terminator `0xFF 00 00 00 00` of the binary section. -/
def BT10Terminator : List Nat := [255, 0, 0, 0, 0]

/-- The BT10 stream of a sequence of edge IDs: its records, then the terminator. -/
def encodeBT10 (S : List Nat) : List Nat := encodeEdgeIds S ++ BT10Terminator

/-- The branch instance that `loadBT9BranchInstance_` builds from the edge ID `id`. -/
def instanceOfEdge (edges : List BT9ReaderEdgeRecord) (id : Nat) : BT9BranchInstance :=
  { src_node_rec_ptr_ := (edges[id]?).map (fun e => e.src_node_id_),
    dest_node_rec_ptr_ := (edges[id]?).map (fun e => e.dest_node_id_),
    edge_rec_ptr_ := some id,
    valid_ := true }

/-- The bytes that `parser_BT10` has not consumed yet: the unread part of `data`, then
what `pinfile_` still holds. -/
def BT9Reader.avail (r : BT9Reader) : List Nat :=
  (if r.initiliazed ≠ 0 then r.data.drop r.ptr else []) ++ r.pinfile_

/-- The parser stands in front of the records of the edge IDs `ids` followed by the
terminator; `data` has its declared size and the buffer too. -/
def BT9Reader.Pending (cfg : BT9Config) (r : BT9Reader) (ids : List Nat) : Prop :=
  r.data.length = cfg.BT10_PARSER_BUFFER_SIZE ∧
  r.ptr ≤ cfg.BT10_PARSER_BUFFER_SIZE ∧
  r.buffer_.length = cfg.EDGE_SEQUENCE_BUFFER_SIZE ∧
  ∃ junk, r.avail = encodeBT10 ids ++ junk

/-- What a call of the loop of `parser_BT10` achieves when it starts in front of the
records of `ids`, in terms of the reader `r` before and `r'` after: either all of `ids`
fit the buffer, they are appended and `reach_eof_` is set; or the buffer is filled to its
capacity with the first of them, `reach_eof_` keeps its value and the parser stands in
front of the others. -/
def BT9Reader.ParserPost (cfg : BT9Config) (r : BT9Reader) (ids : List Nat)
    (r' : BT9Reader) : Prop :=
  r'.edge_table_ = r.edge_table_ ∧ r'.node_table_ = r.node_table_ ∧
  r'.buffer_read_ptr_ = r.buffer_read_ptr_ ∧
  r'.buffer_.length = cfg.EDGE_SEQUENCE_BUFFER_SIZE ∧
  (ids.length < cfg.EDGE_SEQUENCE_BUFFER_SIZE - r.buffer_write_ptr_ →
    r'.reach_eof_ = true ∧ r'.buffer_write_ptr_ = r.buffer_write_ptr_ + ids.length ∧
    r'.buffer_.take (r.buffer_write_ptr_ + ids.length)
      = r.buffer_.take r.buffer_write_ptr_ ++ ids) ∧
  (cfg.EDGE_SEQUENCE_BUFFER_SIZE - r.buffer_write_ptr_ ≤ ids.length →
    r'.reach_eof_ = r.reach_eof_ ∧
    r'.buffer_write_ptr_ = cfg.EDGE_SEQUENCE_BUFFER_SIZE ∧
    r'.buffer_.take cfg.EDGE_SEQUENCE_BUFFER_SIZE
      = r.buffer_.take r.buffer_write_ptr_
          ++ ids.take (cfg.EDGE_SEQUENCE_BUFFER_SIZE - r.buffer_write_ptr_) ∧
    r'.Pending cfg (ids.drop (cfg.EDGE_SEQUENCE_BUFFER_SIZE - r.buffer_write_ptr_)))

/-- Invariant of the loop `for (it = begin(); it != end(); ++it)` at its test, when the
edge IDs `R` are still to be observed: the branch instance of the iterator is invalid;
an iterator at the end has nothing left to observe; otherwise the unread window
`buffer_[buffer_read_ptr_ .. buffer_write_ptr_)` is not empty, holds the next IDs, and
the parser stands in front of the records of the IDs after them (none when `reach_eof_`
is set). -/
def BT9Reader.LoopInv (cfg : BT9Config) (edges : List BT9ReaderEdgeRecord) (r : BT9Reader)
    (it : BranchInstanceIterator) (R : List Nat) : Prop :=
  r.edge_table_ = edges ∧
  it.br_inst_.valid_ = false ∧
  (it.reach_end_ = true → R = []) ∧
  (it.reach_end_ = false → ∃ W rest, R = W ++ rest ∧ W ≠ [] ∧
    r.buffer_read_ptr_ ≤ r.buffer_write_ptr_ ∧
    r.buffer_write_ptr_ ≤ cfg.EDGE_SEQUENCE_BUFFER_SIZE ∧
    r.buffer_.length = cfg.EDGE_SEQUENCE_BUFFER_SIZE ∧
    (r.buffer_.take r.buffer_write_ptr_).drop r.buffer_read_ptr_ = W ∧
    (r.reach_eof_ = true → rest = []) ∧
    (r.reach_eof_ = false → r.Pending cfg rest))

/-- A configuration for the examples: a staging array of 8 bytes and an edge buffer of 2
entries. -/
def sampleConfig : BT9Config :=
  { BT10_PARSER_BUFFER_SIZE := 8, EDGE_SEQUENCE_BUFFER_SIZE := 2 }

/-- An edge table of 300 rows for the examples. -/
def sampleEdges : List BT9ReaderEdgeRecord :=
  List.replicate 300
    { src_node_id_ := 1, dest_node_id_ := 2, isTakenPath := true, brVirtualTarget := 64 }

/-! ### `2bcgskew-EV8/src/predictor.h`: the 2bc-gskew predictor

Values of type `int` and `long long` are kept as their two's complement bit pattern
(below `2 ^ 32`, below `2 ^ 64`); the entries of the `char` tables and the `char`
counters are kept as integers (`char` is signed, as on x86-64). -/

/-- The build-time constants of the 2bc-gskew predictor (`build/parameters.h`, not part
of the sources): `LOGPRED`, the four history lengths, the mask `NR` (31 when not
defined otherwise) and the three exponents that size the tables. -/
structure GskewConfig where
  LOGPRED : Nat
  L_G0 : Nat
  L_G1 : Nat
  L_BIM : Nat
  L_META : Nat
  NR : Nat
  G0G1_SIZE : Nat
  BIM_META_SIZE : Nat
  HYST_SIZE : Nat
deriving DecidableEq, Repr

/-- `a << n` on a `long long`. -/
def shl64 (a n : Nat) : Nat := (a <<< n) % 2 ^ 64

/-- `a >> n` on a `long long` (arithmetic shift of the bit pattern). -/
def sar64 (a n : Nat) : Nat :=
  if a < 2 ^ 63 then a >>> n else (a >>> n) ||| (2 ^ 64 - 2 ^ (64 - n))

/-- `a >> n` on an `int` (arithmetic shift of the bit pattern). -/
def sar32 (a n : Nat) : Nat :=
  if a < 2 ^ 31 then a >>> n else (a >>> n) ||| (2 ^ 32 - 2 ^ (32 - n))

/-- Conversion of an `int` to `long long` (sign extension of the bit pattern). -/
def sext32 (x : Nat) : Nat := if x < 2 ^ 31 then x else x + (2 ^ 64 - 2 ^ 32)

/-- The `int` expression `(1 << n) - 1`. -/
def mask32 (n : Nat) : Nat := ((1 <<< n) % 2 ^ 32 + 2 ^ 32 - 1) % 2 ^ 32

/-- The function `H(a)`, the global `LOGSIZE` being passed along. -/
def H (LOGSIZE a : Nat) : Nat :=
  let res := a ^^^ shl64 a (LOGSIZE - 1)
  let res := res &&& sext32 ((1 <<< (LOGSIZE - 1)) % 2 ^ 32)
  let a := a &&& sext32 (mask32 LOGSIZE)
  let a := sar64 a 1
  let res := (res + a) % 2 ^ 64
  res % 2 ^ 32

/-- The function `Hi(a)`. -/
def Hi (LOGSIZE a : Nat) : Nat :=
  let res := sar64 a (LOGSIZE - 1)
  let res := (res ^^^ sar64 a (LOGSIZE - 2)) &&& 1
  let a := a &&& sext32 (mask32 (LOGSIZE - 1))
  let a := shl64 a 1
  let res := (res + a) % 2 ^ 64
  res % 2 ^ 32

/-- The function `F1(a)`. -/
def F1 (LOGSIZE a : Nat) : Nat :=
  let res := (sext32 (H LOGSIZE a ^^^ Hi LOGSIZE (sar64 a LOGSIZE)) ^^^ sar64 a LOGSIZE)
    &&& sext32 (mask32 LOGSIZE)
  res % 2 ^ 32

/-- The function `F2(a)`. -/
def F2 (LOGSIZE a : Nat) : Nat :=
  let res := (sext32 (H LOGSIZE a ^^^ Hi LOGSIZE (sar64 a LOGSIZE)) ^^^ a)
    &&& sext32 (mask32 LOGSIZE)
  res % 2 ^ 32

/-- The function `F3(a)`. -/
def F3 (LOGSIZE a : Nat) : Nat :=
  let res := (sext32 (Hi LOGSIZE a ^^^ H LOGSIZE (sar64 a LOGSIZE)) ^^^ sar64 a LOGSIZE)
    &&& sext32 (mask32 LOGSIZE)
  res % 2 ^ 32

/-- The function `F4(a)`. -/
def F4 (LOGSIZE a : Nat) : Nat :=
  let res := (sext32 (Hi LOGSIZE a ^^^ H LOGSIZE (sar64 a LOGSIZE)) ^^^ a)
    &&& sext32 (mask32 LOGSIZE)
  res % 2 ^ 32

/-- The `for` loop of `INDEX`: `i` runs from 0 in steps of `2 * (LOGSIZE - funct) + 1`
while `i < 64`; the result is `hm`.  The step is at least 1, so the 64 iterations that
`INDEX` grants as fuel are never exceeded. -/
def INDEX_loop (LOGSIZE funct : Nat) : Nat → Nat → Nat → Nat → Nat
  | 0, _, hm, _ => hm
  | fuel + 1, i, hm, inter =>
    if i < 64 then
      let inter := sar64 inter LOGSIZE
      let inter := sar64 inter (LOGSIZE - (funct + 1))
      let hm := hm ^^^ inter
      INDEX_loop LOGSIZE funct fuel (i + (2 * (LOGSIZE - funct) + 1)) hm inter
    else hm

/-- The function `INDEX(Add, histo, m, funct)`; `none` is the `exit(1)` of the `default`
case of its `switch`. -/
def INDEX (LOGSIZE Add histo m funct : Nat) : Option Nat :=
  let hm :=
    if m < 32 then ((histo &&& sext32 (mask32 m)) + shl64 Add m) % 2 ^ 64
    else if m ≠ 32 then shl64 histo (64 - m) ^^^ Add
    else shl64 (histo &&& 0xFFFFFFFF) 18 ^^^ Add
  let hm := hm ^^^ shl64 Add funct ^^^ shl64 Add (10 + funct)
  let hm := INDEX_loop LOGSIZE funct 64 0 hm hm
  if funct = 4 then some (F4 LOGSIZE hm)
  else if funct = 1 then some (F1 LOGSIZE hm)
  else if funct = 2 then some (F2 LOGSIZE hm)
  else if funct = 3 then some (F3 LOGSIZE hm)
  else none

/-- The globals of `predictor.h`: the three `char` tables, the history `ghist` and
`LOGSIZE`. -/
structure GskewState where
  GOG1 : Nat → Int
  BIMMETA : Nat → Int
  HYST : Nat → Int
  ghist : Nat
  LOGSIZE : Nat

/-- Number of entries of `GOG1`: `1 << (LOGPRED - G0G1_SIZE)`. -/
def GskewConfig.sizeGOG1 (cfg : GskewConfig) : Nat := 2 ^ (cfg.LOGPRED - cfg.G0G1_SIZE)

/-- Number of entries of `BIMMETA`: `1 << (LOGPRED - BIM_META_SIZE)`. -/
def GskewConfig.sizeBIMMETA (cfg : GskewConfig) : Nat := 2 ^ (cfg.LOGPRED - cfg.BIM_META_SIZE)

/-- Number of entries of `HYST`: `1 << (LOGPRED - HYST_SIZE)`. -/
def GskewConfig.sizeHYST (cfg : GskewConfig) : Nat := 2 ^ (cfg.LOGPRED - cfg.HYST_SIZE)

/-- Read of `table[index]` in an array of `size` entries, `index` being an `int` bit
pattern; a read outside the array is undefined. -/
def readTable (table : Nat → Int) (size index : Nat) : Option Int :=
  if index < size then some (table index) else none

/-- Write `table[index] = value` in an array of `size` entries. -/
def writeTable (table : Nat → Int) (size index : Nat) (value : Int) : Option (Nat → Int) :=
  if index < size then some (Function.update table index value) else none

/-- The four table indices that `get_prediction` and `update_predictor` compute, and
`NUMHYST`. -/
structure GskewIndices where
  indexg0 : Nat
  indexg1 : Nat
  indexbim : Nat
  indexmeta : Nat
  NUMHYST : Nat
deriving DecidableEq, Repr

/-- The index computation at the head of `get_prediction(PC)` (up to the `ASSERT`s). -/
def get_prediction_indices (cfg : GskewConfig) (ghist PC : Nat) : Option GskewIndices :=
  let add := PC % 2 ^ 32
  let add := sar32 add 4 ^^^ add
  let NUMHYST := (add ^^^ (ghist % 2 ^ 32)) &&& 3
  let Add := sext32 add
  let GHIST := ghist ^^^ shl64 (ghist &&& 3) 5
  let Add := Add ^^^ sar64 Add 5
  let LOGSIZE := cfg.LOGPRED - 3
  match INDEX LOGSIZE Add GHIST cfg.L_G0 1, INDEX LOGSIZE Add GHIST cfg.L_G1 2 with
  | some i0, some i1 =>
    let indexg0 := ((i0 <<< 2) % 2 ^ 32 + NUMHYST) % 2 ^ 32
    let indexg1 := ((i1 <<< 2) % 2 ^ 32 + (NUMHYST ^^^ 1)) % 2 ^ 32
    let LOGSIZE := cfg.LOGPRED - 4
    match INDEX LOGSIZE Add GHIST cfg.L_BIM 3, INDEX LOGSIZE Add GHIST cfg.L_META 4 with
    | some i2, some i3 =>
      let indexbim := ((i2 <<< 2) % 2 ^ 32 + (NUMHYST ^^^ 2)) % 2 ^ 32
      let indexmeta := ((i3 <<< 2) % 2 ^ 32 + (NUMHYST ^^^ 3)) % 2 ^ 32
      some { indexg0 := indexg0, indexg1 := indexg1, indexbim := indexbim,
             indexmeta := indexmeta, NUMHYST := NUMHYST }
    | _, _ => none
  | _, _ => none

/-- The method `TWOBCGSKEW::get_prediction(PC)`: the prediction and the globals after the
call (`LOGSIZE` is left at `LOGPRED - 4`); `none` is a failed `ASSERT` (`abort`) or a read
outside a table. -/
def get_prediction (cfg : GskewConfig) (s : GskewState) (PC : Nat) :
    Option (Bool × GskewState) :=
  match get_prediction_indices cfg s.ghist PC with
  | none => none
  | some ix =>
    if sar32 ix.indexg0 (cfg.LOGPRED - 1) ≠ 0 then none
    else if sar32 ix.indexg1 (cfg.LOGPRED - 1) ≠ 0 then none
    else if sar32 ix.indexbim (cfg.LOGPRED - 2) ≠ 0 then none
    else if sar32 ix.indexmeta (cfg.LOGPRED - 2) ≠ 0 then none
    else
      match readTable s.GOG1 cfg.sizeGOG1 ix.indexg0, readTable s.GOG1 cfg.sizeGOG1 ix.indexg1,
        readTable s.BIMMETA cfg.sizeBIMMETA ix.indexbim,
        readTable s.BIMMETA cfg.sizeBIMMETA ix.indexmeta with
      | some pg0, some pg1, some pbim, some pmeta =>
        let prediction := if pmeta ≠ 0 then decide (pbim + pg0 + pg1 > 1) else decide (pbim > 0)
        some (prediction, { s with LOGSIZE := cfg.LOGPRED - 4 })
      | _, _, _, _ => none

/-- Narrowing of an `int` value to `char`. -/
def toChar (x : Int) : Int := (x + 128) % 256 - 128

/-- The index computation at the head of `update_predictor(PC, taken)`. -/
def update_predictor_indices (cfg : GskewConfig) (ghist PC : Nat) : Option GskewIndices :=
  let add := PC % 2 ^ 32
  let add := sar32 add 4 ^^^ add
  let NUMHYST := (add ^^^ (ghist % 2 ^ 32)) &&& 3
  let Add := sext32 add
  let GHIST := ghist ^^^ shl64 (ghist &&& 3) 5
  let Add := Add ^^^ sar64 Add 5
  let LOGSIZE := cfg.LOGPRED - 3
  match INDEX LOGSIZE Add GHIST cfg.L_G0 1, INDEX LOGSIZE Add GHIST cfg.L_G1 2 with
  | some i0, some i1 =>
    let indexg0 := ((i0 <<< 2) % 2 ^ 32 + NUMHYST) % 2 ^ 32
    let indexg1 := ((i1 <<< 2) % 2 ^ 32 + (NUMHYST ^^^ 1)) % 2 ^ 32
    let LOGSIZE := cfg.LOGPRED - 4
    match INDEX LOGSIZE Add GHIST cfg.L_BIM 3, INDEX LOGSIZE Add GHIST cfg.L_META 4 with
    | some i2, some i3 =>
      let indexbim := ((i2 <<< 2) % 2 ^ 32 + (NUMHYST ^^^ 2)) % 2 ^ 32
      let indexmeta := ((i3 <<< 2) % 2 ^ 32 + (NUMHYST ^^^ 3)) % 2 ^ 32
      some { indexg0 := indexg0, indexg1 := indexg1, indexbim := indexbim,
             indexmeta := indexmeta, NUMHYST := NUMHYST }
    | _, _ => none
  | _, _ => none

/-- The local variables of `update_predictor` after "first recompute the prediction": the
prediction bits read from the tables and the three derived predictions. -/
structure GskewRecomputed where
  pg0 : Int
  pg1 : Int
  pbim : Int
  pmeta : Int
  PESKEW : Int
  peskew : Bool
  psmall : Bool
  prediction : Bool
deriving DecidableEq, Repr

/-- The part of `update_predictor` that recomputes the prediction from the tables. -/
def update_predictor_recompute (cfg : GskewConfig) (s : GskewState) (ix : GskewIndices) :
    Option GskewRecomputed :=
  match readTable s.GOG1 cfg.sizeGOG1 ix.indexg0, readTable s.GOG1 cfg.sizeGOG1 ix.indexg1,
    readTable s.BIMMETA cfg.sizeBIMMETA ix.indexbim,
    readTable s.BIMMETA cfg.sizeBIMMETA ix.indexmeta with
  | some pg0, some pg1, some pbim, some pmeta =>
    let PESKEW := toChar (pbim + pg0 + pg1)
    let peskew := decide (pbim + pg0 + pg1 > 1)
    let psmall := decide (pbim > 0)
    let prediction := if pmeta ≠ 0 then peskew else psmall
    some { pg0 := pg0, pg1 := pg1, pbim := pbim, pmeta := pmeta, PESKEW := PESKEW,
           peskew := peskew, psmall := psmall, prediction := prediction }
  | _, _, _, _ => none

/-- The four complete counters of `update_predictor`. -/
structure GskewCounters where
  pg0 : Int
  pg1 : Int
  pbim : Int
  pmeta : Int
deriving DecidableEq, Repr

/-- The update of one of the counters `pbim`, `pg1`, `pg0` in the normal path:
`if ((p & 2) == 2 * outcome) p = 3 * outcome; else if (prediction != taken) p = (p & 1) + 1;` -/
def gskewCounterStep (p outcome : Int) (mispredicted : Bool) : Int :=
  if Int.land p 2 = 2 * outcome then toChar (3 * outcome)
  else if mispredicted then toChar (Int.land p 1 + 1)
  else p

/-- The part of `update_predictor` between the reassembly of the counters and the write
back: the ping-pong breaker and the normal path.  `rnd` is the value that `random()`
returns in this call. -/
def update_predictor_counters (cfg : GskewConfig) (l : GskewRecomputed) (c : GskewCounters)
    (taken : Bool) (rnd : Nat) : GskewCounters :=
  let outcome : Int := if taken then 1 else 0
  let mispredicted := l.prediction != taken
  if mispredicted && decide (rnd &&& cfg.NR = 0) then
    if l.peskew = l.psmall then
      if taken then { c with pbim := 2, pg0 := 2, pg1 := 2 }
      else { c with pbim := 1, pg0 := 1, pg1 := 1 }
    else { c with pmeta := toChar (Int.xor (Int.land c.pmeta 2) 2) }
  else if l.PESKEW ≠ 3 * outcome then
    let pbim := gskewCounterStep c.pbim outcome mispredicted
    let pmeta :=
      if l.peskew ≠ l.psmall then
        if (if l.peskew then (1 : Int) else 0) = outcome then
          let pmeta := toChar (c.pmeta + 1)
          if pmeta > 3 then 3 else pmeta
        else
          let pmeta := toChar (c.pmeta - 1)
          if pmeta < 0 then 0 else pmeta
      else c.pmeta
    let pg1 := if decide (pmeta > 1) || mispredicted
      then gskewCounterStep c.pg1 outcome mispredicted else c.pg1
    let pg0 := if decide (pmeta > 1) || mispredicted
      then gskewCounterStep c.pg0 outcome mispredicted else c.pg0
    { pg0 := pg0, pg1 := pg1, pbim := pbim, pmeta := pmeta }
  else c

/-- The `int` expression `index & ((1 << (LOGPRED - 2)) - 1)` that addresses `HYST` for
the G0 and G1 counters. -/
def hystIndex (cfg : GskewConfig) (index : Nat) : Nat := index &&& mask32 (cfg.LOGPRED - 2)

/-- The method `TWOBCGSKEW::update_predictor(PC, taken)`; `rnd` is the value that
`random()` returns in this call.  `none` is an access outside a table. -/
def update_predictor (cfg : GskewConfig) (s : GskewState) (PC : Nat) (taken : Bool)
    (rnd : Nat) : Option GskewState :=
  match update_predictor_indices cfg s.ghist PC with
  | none => none
  | some ix =>
    match update_predictor_recompute cfg s ix with
    | none => none
    | some l =>
      match readTable s.HYST cfg.sizeHYST (hystIndex cfg ix.indexg0),
        readTable s.HYST cfg.sizeHYST (hystIndex cfg ix.indexg1),
        readTable s.HYST cfg.sizeHYST ix.indexbim,
        readTable s.HYST cfg.sizeHYST ix.indexmeta with
      | some h0, some h1, some h2, some h3 =>
        let c : GskewCounters :=
          { pg0 := toChar (2 * l.pg0 + h0), pg1 := toChar (2 * l.pg1 + h1),
            pbim := toChar (2 * l.pbim + h2), pmeta := toChar (2 * l.pmeta + h3) }
        let c := update_predictor_counters cfg l c taken rnd
        match writeTable s.HYST cfg.sizeHYST (hystIndex cfg ix.indexg0) (Int.land c.pg0 1) with
        | none => none
        | some HYST =>
        match writeTable HYST cfg.sizeHYST (hystIndex cfg ix.indexg1) (Int.land c.pg1 1) with
        | none => none
        | some HYST =>
        match writeTable HYST cfg.sizeHYST ix.indexbim (Int.land c.pbim 1) with
        | none => none
        | some HYST =>
        match writeTable HYST cfg.sizeHYST ix.indexmeta (Int.land c.pmeta 1) with
        | none => none
        | some HYST =>
        match writeTable s.GOG1 cfg.sizeGOG1 ix.indexg0 (Int.land (c.pg0 >>> 1) 1) with
        | none => none
        | some GOG1 =>
        match writeTable GOG1 cfg.sizeGOG1 ix.indexg1 (Int.land (c.pg1 >>> 1) 1) with
        | none => none
        | some GOG1 =>
        match writeTable s.BIMMETA cfg.sizeBIMMETA ix.indexbim (Int.land (c.pbim >>> 1) 1) with
        | none => none
        | some BIMMETA =>
        match writeTable BIMMETA cfg.sizeBIMMETA ix.indexmeta (Int.land (c.pmeta >>> 1) 1) with
        | none => none
        | some BIMMETA =>
          let ghist := shl64 s.ghist 1
          let ghist := if taken then (ghist + 1) % 2 ^ 64 else ghist
          some { GOG1 := GOG1, BIMMETA := BIMMETA, HYST := HYST, ghist := ghist,
                 LOGSIZE := cfg.LOGPRED - 4 }
      | _, _, _, _ => none

/-- The method `PREDICTOR::GetPrediction(PC)` of the 2bc-gskew predictor. -/
def Gskew.GetPrediction (cfg : GskewConfig) (s : GskewState) (PC : Nat) :
    Option (Bool × GskewState) :=
  get_prediction cfg s (PC ^^^ (PC >>> 2))

/-- The method `PREDICTOR::UpdatePredictor(PC, opType, resolveDir, predDir,
branchTarget)` of the 2bc-gskew predictor. -/
def Gskew.UpdatePredictor (cfg : GskewConfig) (s : GskewState) (PC : Nat) (_opType : OpType)
    (resolveDir : Bool) (_predDir : Bool) (_branchTarget : Nat) (rnd : Nat) :
    Option GskewState :=
  update_predictor cfg s (PC ^^^ (PC >>> 2)) resolveDir rnd

/-- The build-time constants for which every shift of the index functions is defined and
the tables have room for the indices: `9 <= LOGPRED <= 31`, history lengths in
`[0, 30]` or `[32, 64]`, `GOG1` of at least `2^(LOGPRED-1)` entries, `BIMMETA` and `HYST`
of at least `2^(LOGPRED-2)`. -/
def GskewConfig.Valid (cfg : GskewConfig) : Prop :=
  9 ≤ cfg.LOGPRED ∧ cfg.LOGPRED ≤ 31 ∧
  (cfg.L_G0 ≤ 30 ∨ (32 ≤ cfg.L_G0 ∧ cfg.L_G0 ≤ 64)) ∧
  (cfg.L_G1 ≤ 30 ∨ (32 ≤ cfg.L_G1 ∧ cfg.L_G1 ≤ 64)) ∧
  (cfg.L_BIM ≤ 30 ∨ (32 ≤ cfg.L_BIM ∧ cfg.L_BIM ≤ 64)) ∧
  (cfg.L_META ≤ 30 ∨ (32 ≤ cfg.L_META ∧ cfg.L_META ≤ 64)) ∧
  cfg.G0G1_SIZE ≤ 1 ∧ cfg.BIM_META_SIZE ≤ 2 ∧ cfg.HYST_SIZE ≤ 2

/-- Build constants for the examples: `LOGPRED = 18`, the reference history lengths 24,
64, 10 and 14, `NR = 31`, and tables of `2^17`, `2^16` and `2^16` entries. -/
def sampleGskew : GskewConfig :=
  { LOGPRED := 18, L_G0 := 24, L_G1 := 64, L_BIM := 10, L_META := 14, NR := 31,
    G0G1_SIZE := 1, BIM_META_SIZE := 2, HYST_SIZE := 2 }

/-- The globals at program start: zero initialised tables and history. -/
def GskewState.zero : GskewState :=
  { GOG1 := fun _ => 0, BIMMETA := fun _ => 0, HYST := fun _ => 0, ghist := 0, LOGSIZE := 0 }

/-! ### `main.cc`: the driver, further notions -/

/-- Whether a piece of `main` ran to its end without `exit`. -/
def Outcome.isOk {α : Type} : Outcome α → Bool
  | Outcome.ok _ => true
  | Outcome.exited _ => false

/-- The call `TrackOtherInst(PC, opType, branchTaken, branchTarget)` that the loop of
`main` makes for the branch instance `it`. -/
def trackOther {σ : Type} (P : PREDICTOR σ) (brpred : σ) (it : LoadedInstance) : σ :=
  P.TrackOtherInst brpred it.srcNode.brVirtualAddr
    (classify it.srcNode.brClass_brBehavior it.srcNode.brNodeIndex)
    it.edge.isTakenPath it.edge.brVirtualTarget

/-- The sentinel node of a trace (node index 0, unknown class) with its edge, as one
branch instance. -/
def sampleSentinel : LoadedInstance :=
  { srcNode := { brNodeIndex := 0, brVirtualAddr := 0,
                 brClass_brBehavior := { type := BrType.UNKNOWN,
                                         directness := Directness.UNKNOWN,
                                         conditionality := Conditionality.UNKNOWN } },
    edge := { src_node_id_ := 0, dest_node_id_ := 1, isTakenPath := true,
              brVirtualTarget := 64 } }

/-! ### `bt9_reader.h`: further notions for the edge buffer and the iterator -/

/-- Every edge ID in the filled part `buffer_[0 .. buffer_write_ptr_)` of the edge buffer
indexes a row of the edge table. -/
def BT9Reader.BufferValid (r : BT9Reader) : Prop :=
  ∀ i, i < r.buffer_write_ptr_ → ∀ v, r.buffer_[i]? = some v → v < r.edge_table_.length

/-- The states that the reader and the iterator of the loop of `main` go through: `r0` is
the reader that the constructor leaves, the iterator starts as `begin()`, and every
dereference and every advance that returns leads to a further state. -/
inductive BT9Reader.Reachable (cfg : BT9Config) (r0 : BT9Reader) :
    BT9Reader → BranchInstanceIterator → Prop where
  | start : BT9Reader.Reachable cfg r0 r0 BT9Reader.begin
  | deref {r r' : BT9Reader} {it it' : BranchInstanceIterator} {inst : BT9BranchInstance} :
      BT9Reader.Reachable cfg r0 r it → it.deref r = Except.ok (r', it', inst) →
      BT9Reader.Reachable cfg r0 r' it'
  | increment {r r' : BT9Reader} {it it' : BranchInstanceIterator} :
      BT9Reader.Reachable cfg r0 r it → it.increment cfg r = Except.ok (r', it') →
      BT9Reader.Reachable cfg r0 r' it'

/-- The pointers of the edge buffer are within the buffer, and the read pointer is not
beyond the write pointer unless the iterator has reached the end on a refill that found
nothing but the EOF marker. -/
def BT9Reader.PtrInv (cfg : BT9Config) (r : BT9Reader) (it : BranchInstanceIterator) : Prop :=
  r.buffer_write_ptr_ ≤ cfg.EDGE_SEQUENCE_BUFFER_SIZE ∧
  r.buffer_read_ptr_ ≤ cfg.EDGE_SEQUENCE_BUFFER_SIZE ∧
  (r.buffer_read_ptr_ ≤ r.buffer_write_ptr_ ∨
    (it.reach_end_ = true ∧ r.reach_eof_ = true ∧ r.buffer_write_ptr_ = 0))

/-- The reader as seen by the loop of `main`: the constructor reaches the binary section
and fills the buffer, then the loop `for (it = begin(); it != end(); ++it)` runs; the
result is the list of the branch instances met and the final reader and iterator. -/
def BT9Reader.run (cfg : BT9Config) (nodes : List BT9ReaderNodeRecord)
    (edges : List BT9ReaderEdgeRecord) (stream : List Nat) (fuel : Nat) :
    Except BT9Error (List BT9BranchInstance × BT9Reader × BranchInstanceIterator) :=
  match BT9Reader.initBT9EdgeSeqListAccessWindow_ cfg
      (BT9Reader.atBinarySection cfg nodes edges stream) with
  | Except.error e => Except.error e
  | Except.ok r => BT9Reader.forEachInstance cfg fuel r BT9Reader.begin

/-- Equality of the results of the fallible functions of the reader is decidable. -/
instance instDecidableEqExcept {ε α : Type} [DecidableEq ε] [DecidableEq α] :
    DecidableEq (Except ε α)
  | Except.ok a, Except.ok b =>
    if h : a = b then isTrue (congrArg Except.ok h)
    else isFalse (fun h' => h (Except.ok.inj h'))
  | Except.error a, Except.error b =>
    if h : a = b then isTrue (congrArg Except.error h)
    else isFalse (fun h' => h (Except.error.inj h'))
  | Except.ok _, Except.error _ => isFalse (fun h => Except.noConfusion h)
  | Except.error _, Except.ok _ => isFalse (fun h => Except.noConfusion h)

/-- The loop of `main` as seen from the reader, cut after `k` iterations: each
dereferences the iterator, then advances it. -/
def BT9Reader.derefAdvance (cfg : BT9Config) :
    Nat → BT9Reader → BranchInstanceIterator →
      Except BT9Error (BT9Reader × BranchInstanceIterator)
  | 0, r, it => Except.ok (r, it)
  | k + 1, r, it =>
    match it.deref r with
    | Except.error e => Except.error e
    | Except.ok (r, it, _) =>
      match it.increment cfg r with
      | Except.error e => Except.error e
      | Except.ok (r, it) => BT9Reader.derefAdvance cfg k r it

/-- The reader that the constructor leaves for the edge sequence 1, 2 with the
configuration of the examples: the two IDs fill the edge buffer. -/
def sampleReaderFull : BT9Reader :=
  { data := [1, 2, 255, 0, 0, 0, 0, 0], initiliazed := 1, ptr := 2, pinfile_ := [],
    node_table_ := [], edge_table_ := sampleEdges, line_num_ := 2, reach_eof_ := false,
    buffer_ := [1, 2], buffer_read_ptr_ := 0, buffer_write_ptr_ := 2 }

/-- The reader that the constructor leaves for the empty edge sequence with the
configuration of the examples: the buffer is empty and `reach_eof_` is set. -/
def sampleReaderEmpty : BT9Reader :=
  { data := [255, 0, 0, 0, 0, 0, 0, 0], initiliazed := 1, ptr := 5, pinfile_ := [],
    node_table_ := [], edge_table_ := sampleEdges, line_num_ := 0, reach_eof_ := true,
    buffer_ := [0, 0], buffer_read_ptr_ := 0, buffer_write_ptr_ := 0 }

/-! ### `bt9_reader.h`: loading the node table and the edge table -/

/-- The loop at the end of `readBT9NodeTable_` that moves the parsed records
`node_table_temp_` into `node_table_` (the `id_` of a node record is what `brNodeIndex()`
returns): a record is stored at the index `id_` if the entry there "has not been used
yet", that is if its conditionality is `UNKNOWN`; if not, the record is reported as a
duplicate and dropped.  An `id_` outside the table is an access outside the vector
(`none`). -/
def BT9Reader.fillNodeTable :
    List BT9ReaderNodeRecord → List BT9ReaderNodeRecord → Option (List BT9ReaderNodeRecord)
  | node_table_, [] => some node_table_
  | node_table_, node :: rest =>
    match node_table_[node.brNodeIndex]? with
    | none => none
    | some slot =>
      if slot.brClass_brBehavior.conditionality = Conditionality.UNKNOWN then
        BT9Reader.fillNodeTable (node_table_.set node.brNodeIndex node) rest
      else BT9Reader.fillNodeTable node_table_ rest

/-- The end of `readBT9NodeTable_`: `node_table_.resize(node_table_temp_.size())`, then
the loop.  `dflt` is the default constructed node record, whose class is declared in a
header that is not part of the sources. -/
def BT9Reader.readBT9NodeTable_ (dflt : BT9ReaderNodeRecord)
    (node_table_temp_ : List BT9ReaderNodeRecord) : Option (List BT9ReaderNodeRecord) :=
  BT9Reader.fillNodeTable (List.replicate node_table_temp_.length dflt) node_table_temp_

/-- The conversions `std::stoi`, `std::stoull` and `std::stoul` of the C++ library as the
reader calls them (`std::stoi(token, nullptr, 0)`), on the bytes of a token: the value, or
`none` if the call throws.  The reader answers `std::invalid_argument` with `exit(-1)` and
catches nothing else, so a call that throws ends the process.  The library is not part of
the sources: the three functions are parameters. -/
structure std where
  stoi : List Nat → Option Int
  stoull : List Nat → Option Nat
  stoul : List Nat → Option Nat

/-- The conversion of the `int` that `std::stoi` returns to the `uint32_t` of an id (`id_`
is compared with the `uint32_t max_id`, and `isValidNodeIndex_` takes a `uint32_t`). -/
def uint32_of_int (v : Int) : Nat := (v % 2 ^ 32).toNat

/-- The token `EDGE`. -/
def tokenEDGE : List Nat := [69, 68, 71, 69]

/-- The token `BT10_SMALL_INDEX_SIZE_8`. -/
def tokenBT10_SMALL_INDEX_SIZE_8 : List Nat :=
  [66, 84, 49, 48, 95, 83, 77, 65, 76, 76, 95, 73, 78, 68, 69, 88, 95, 83, 73, 90, 69, 95, 56]

/-- The token `BT10_BIG_INDEX_SIZE_32`. -/
def tokenBT10_BIG_INDEX_SIZE_32 : List Nat :=
  [66, 84, 49, 48, 95, 66, 73, 71, 95, 73, 78, 68, 69, 88, 95, 83, 73, 90, 69, 95, 51, 50]

/-- The token `traverse_cnt:`. -/
def token_traverse_cnt : List Nat :=
  [116, 114, 97, 118, 101, 114, 115, 101, 95, 99, 110, 116, 58]

/-- The method `isValidNodeIndex_(idx)`, which reads `node_table_`. -/
def BT9Reader.isValidNodeIndex_ (node_table_ : List BT9ReaderNodeRecord) (idx : Nat) : Bool :=
  decide (idx < node_table_.length)

/-- The loop at the end of `readBT9EdgeTable_` that moves the parsed records
`edge_table_temp_`, each given with its `id_`, into `edge_table_`: every record is stored
at the index `id_` (the check for duplicates is `if(1)`).  An `id_` outside the table is an
access outside the vector (`none`). -/
def BT9Reader.fillEdgeTable :
    List BT9ReaderEdgeRecord → List (Nat × BT9ReaderEdgeRecord) →
      Option (List BT9ReaderEdgeRecord)
  | edge_table_, [] => some edge_table_
  | edge_table_, edge :: rest =>
    if edge.1 < edge_table_.length then
      BT9Reader.fillEdgeTable (edge_table_.set edge.1 edge.2) rest
    else none

/-- The method `parseEdgeRecordFixedFields_(edge_record, ss, token)`, from the value
`index` of its counter on: `ss` is the list of the tokens that `ss >> token` still
delivers, the record is given with its `id_`, and `NUM_VALUE_FIELD_` is the constant
`BT9ReaderEdgeRecord::NUM_VALUE_FIELD_`, declared in a header that is not part of the
sources.  The loop ends when `index` reaches `NUM_VALUE_FIELD_` or when the line has no
further token, so a field is converted and checked only if its token is there; the result
is the record and the tokens left.  `none` is `exit(-1)` (or a conversion that throws): an
id, source or destination that `std::stoi` refuses, a source or destination that fails
`isValidNodeIndex_`, a taken indicator other than `T` (84) and `N` (78), a target or a
count that `std::stoull` refuses (`-`, 45, is accepted for the physical target).  The
fields `br_phy_tgt_`, `br_phy_tgt_valid_` and `inst_cnt_` are not among those of the
model's record.  The `switch` has no `default`: from index 7 on a token is consumed
without effect. -/
def BT9Reader.parseEdgeRecordFixedFields_ (lib : std) (NUM_VALUE_FIELD_ : Nat)
    (node_table_ : List BT9ReaderNodeRecord) :
    Nat → Nat × BT9ReaderEdgeRecord → List (List Nat) →
      Option ((Nat × BT9ReaderEdgeRecord) × List (List Nat))
  | _, edge_record, [] => some (edge_record, [])
  | index, edge_record, token :: ss =>
    if index < NUM_VALUE_FIELD_ then
      match index with
      | 0 =>
        match lib.stoi token with
        | none => none
        | some v =>
          BT9Reader.parseEdgeRecordFixedFields_ lib NUM_VALUE_FIELD_ node_table_ 1
            (uint32_of_int v, edge_record.2) ss
      | 1 =>
        match lib.stoi token with
        | none => none
        | some v =>
          if BT9Reader.isValidNodeIndex_ node_table_ (uint32_of_int v) then
            BT9Reader.parseEdgeRecordFixedFields_ lib NUM_VALUE_FIELD_ node_table_ 2
              (edge_record.1, { edge_record.2 with src_node_id_ := uint32_of_int v }) ss
          else none
      | 2 =>
        match lib.stoi token with
        | none => none
        | some v =>
          if BT9Reader.isValidNodeIndex_ node_table_ (uint32_of_int v) then
            BT9Reader.parseEdgeRecordFixedFields_ lib NUM_VALUE_FIELD_ node_table_ 3
              (edge_record.1, { edge_record.2 with dest_node_id_ := uint32_of_int v }) ss
          else none
      | 3 =>
        if token = [84] then
          BT9Reader.parseEdgeRecordFixedFields_ lib NUM_VALUE_FIELD_ node_table_ 4
            (edge_record.1, { edge_record.2 with isTakenPath := true }) ss
        else if token = [78] then
          BT9Reader.parseEdgeRecordFixedFields_ lib NUM_VALUE_FIELD_ node_table_ 4
            (edge_record.1, { edge_record.2 with isTakenPath := false }) ss
        else none
      | 4 =>
        match lib.stoull token with
        | none => none
        | some v =>
          BT9Reader.parseEdgeRecordFixedFields_ lib NUM_VALUE_FIELD_ node_table_ 5
            (edge_record.1, { edge_record.2 with brVirtualTarget := v }) ss
      | 5 =>
        if token = [45] then
          BT9Reader.parseEdgeRecordFixedFields_ lib NUM_VALUE_FIELD_ node_table_ 6
            edge_record ss
        else
          match lib.stoull token with
          | none => none
          | some _ =>
            BT9Reader.parseEdgeRecordFixedFields_ lib NUM_VALUE_FIELD_ node_table_ 6
              edge_record ss
      | 6 =>
        match lib.stoull token with
        | none => none
        | some _ =>
          BT9Reader.parseEdgeRecordFixedFields_ lib NUM_VALUE_FIELD_ node_table_ 7
            edge_record ss
      | index =>
        BT9Reader.parseEdgeRecordFixedFields_ lib NUM_VALUE_FIELD_ node_table_ index
          edge_record ss
    else some (edge_record, token :: ss)

/-- The method `parseEdgeRecordOptionalFields_(edge_record, ss, token)` on the tokens left
on the line: `true` if it returns, `false` if it ends the process.  After the key
`traverse_cnt:` the next token is converted by `std::stoul`; at the end of the line
`ss >> token` fails and leaves the key itself in `token`, which is then what `std::stoul`
is called with.  Another key is skipped with its value.  The field
`observed_traverse_cnt_` is not among those of the model's record. -/
def BT9Reader.parseEdgeRecordOptionalFields_ (lib : std) : List (List Nat) → Bool
  | [] => true
  | [token] =>
    if token = token_traverse_cnt then (lib.stoul token).isSome else true
  | token :: value :: ss =>
    if token = token_traverse_cnt then
      (lib.stoul value).isSome && BT9Reader.parseEdgeRecordOptionalFields_ lib ss
    else BT9Reader.parseEdgeRecordOptionalFields_ lib ss

/-- The `while (std::getline(pinfile_, line, '\n'))` loop of `readBT9EdgeTable_`; every
line is given by the tokens that `ss >> token` delivers once the comment is cut off, and
`dflt` is the default constructed edge record with its `id_`.  A line without token
(`token.empty()`) is skipped; after `EDGE` the two parsers run and the record is appended to
`edge_table_temp_`; `BT10_SMALL_INDEX_SIZE_8` sets `reach_edge_seq_list_`; once that is
set `BT10_BIG_INDEX_SIZE_32` ends the loop; any other first token is `exit(-1)`
(`none`).  The result is `edge_table_temp_`. -/
def BT9Reader.readBT9EdgeTable_loop (lib : std) (NUM_VALUE_FIELD_ : Nat)
    (node_table_ : List BT9ReaderNodeRecord) (dflt : Nat × BT9ReaderEdgeRecord) :
    Bool → List (Nat × BT9ReaderEdgeRecord) → List (List (List Nat)) →
      Option (List (Nat × BT9ReaderEdgeRecord))
  | _, edge_table_temp_, [] => some edge_table_temp_
  | reach_edge_seq_list_, edge_table_temp_, [] :: rest =>
    BT9Reader.readBT9EdgeTable_loop lib NUM_VALUE_FIELD_ node_table_ dflt
      reach_edge_seq_list_ edge_table_temp_ rest
  | reach_edge_seq_list_, edge_table_temp_, (token :: ss) :: rest =>
    if token = [] then
      BT9Reader.readBT9EdgeTable_loop lib NUM_VALUE_FIELD_ node_table_ dflt
        reach_edge_seq_list_ edge_table_temp_ rest
    else if token = tokenEDGE then
      match BT9Reader.parseEdgeRecordFixedFields_ lib NUM_VALUE_FIELD_ node_table_ 0 dflt
          ss with
      | none => none
      | some (edge_record, ss') =>
        if BT9Reader.parseEdgeRecordOptionalFields_ lib ss' then
          BT9Reader.readBT9EdgeTable_loop lib NUM_VALUE_FIELD_ node_table_ dflt
            reach_edge_seq_list_ (edge_table_temp_ ++ [edge_record]) rest
        else none
    else if token = tokenBT10_SMALL_INDEX_SIZE_8 then
      BT9Reader.readBT9EdgeTable_loop lib NUM_VALUE_FIELD_ node_table_ dflt true
        edge_table_temp_ rest
    else if reach_edge_seq_list_ && decide (token = tokenBT10_BIG_INDEX_SIZE_32) then
      some edge_table_temp_
    else none

/-- The method `readBT9EdgeTable_` on the lines that follow the line `BT9_EDGES`:
`exit(-1)` (`none`) if `reach_edge_table_` is not set, the loop over the lines with
`reach_edge_seq_list_` still `false`, then `edge_table_.resize(edge_table_temp_.size())`
and the loop that fills the table. -/
def BT9Reader.readBT9EdgeTable_ (lib : std) (NUM_VALUE_FIELD_ : Nat)
    (node_table_ : List BT9ReaderNodeRecord) (dflt : Nat × BT9ReaderEdgeRecord)
    (reach_edge_table_ : Bool) (lines : List (List (List Nat))) :
    Option (List BT9ReaderEdgeRecord) :=
  if reach_edge_table_ then
    match BT9Reader.readBT9EdgeTable_loop lib NUM_VALUE_FIELD_ node_table_ dflt false []
        lines with
    | none => none
    | some edge_table_temp_ =>
      BT9Reader.fillEdgeTable (List.replicate edge_table_temp_.length dflt.2)
        edge_table_temp_
  else none

/-- What the claim on branch instances asks of an instance, its pointers being indices
into the tables: the edge pointer indexes a row of the edge table, the node pointers are
the rows of the node table that the source and destination ids of the edge index, and the
`id_` of these node records are the ids that the edge names. -/
def BT9BranchInstance.consistent (nodes : List BT9ReaderNodeRecord)
    (edges : List BT9ReaderEdgeRecord) (inst : BT9BranchInstance) : Bool :=
  match inst.edge_rec_ptr_, inst.src_node_rec_ptr_, inst.dest_node_rec_ptr_ with
  | some e, some s, some d =>
    match edges[e]?, nodes[s]?, nodes[d]? with
    | some edge, some src, some dst =>
      decide (edge.src_node_id_ = s) && decide (edge.dest_node_id_ = d) &&
      decide (src.brNodeIndex = edge.src_node_id_) &&
      decide (dst.brNodeIndex = edge.dest_node_id_)
    | _, _, _ => false
  | _, _, _ => false

/-- A default constructed node record for the examples: all fields zero, unknown
class. -/
def sampleDefaultNode : BT9ReaderNodeRecord :=
  { brNodeIndex := 0, brVirtualAddr := 0,
    brClass_brBehavior := { type := BrType.UNKNOWN, directness := Directness.UNKNOWN,
                            conditionality := Conditionality.UNKNOWN } }

/-- A default constructed edge record for the examples. -/
def sampleDefaultEdge : BT9ReaderEdgeRecord :=
  { src_node_id_ := 0, dest_node_id_ := 0, isTakenPath := false, brVirtualTarget := 0 }

/-- The node record of a conditional direct jump at `pc` with the given `id_`. -/
def sampleNode (id_ pc : Nat) : BT9ReaderNodeRecord :=
  { brNodeIndex := id_, brVirtualAddr := pc,
    brClass_brBehavior := { type := BrType.JMP, directness := Directness.DIRECT,
                            conditionality := Conditionality.CONDITIONAL } }

/-- The value of a token made of decimal digits (48 to 57), most significant first, on
top of `acc`; `none` if a byte is no digit. -/
def decimalValue : Nat → List Nat → Option Nat
  | acc, [] => some acc
  | acc, c :: cs =>
    if 48 ≤ c ∧ c ≤ 57 then decimalValue (10 * acc + (c - 48)) cs else none

/-- The conversions for the examples: the value of a decimal numeral without leading zero
(or of `0`), which is what the three functions of the library return for such a token; the
examples use no other token where a number stands, and any other token is refused here. -/
def sampleStd : std :=
  { stoi := fun token =>
      match token with
      | [] => none
      | [48] => some 0
      | 48 :: _ => none
      | _ => (decimalValue 0 token).map Int.ofNat,
    stoull := fun token =>
      match token with
      | [] => none
      | [48] => some 0
      | 48 :: _ => none
      | _ => decimalValue 0 token,
    stoul := fun token =>
      match token with
      | [] => none
      | [48] => some 0
      | 48 :: _ => none
      | _ => decimalValue 0 token }

/-! ### `gshare/src/predictor.cc`: the gshare predictor -/

/-- The data members of the gshare `PREDICTOR` (`gshare/src/predictor.h`): the table
`pht<numPhtEntries, CTR_INIT, counter_t, 1, HYST>`, the `uint64_t` members `index` and
`ghr`, and `counter`. -/
structure GshareState where
  pht : pht
  index : Nat
  ghr : Nat
  counter : sat_ctr
deriving DecidableEq, Repr

/-- The method `PREDICTOR::GetPrediction(PC)` of the gshare predictor:
`index = (ghr ^ PC) & (numPhtEntries - 1); counter = pht.get_counter(index);
return counter.Dir;` (`numPhtEntries - 1` is computed in `uint32_t`, the parameter of
`get_counter` is a `uint32_t`). -/
def Gshare.GetPrediction (PHT_SIZE : Nat) (s : GshareState) (PC : Nat) :
    Option (Bool × GshareState) :=
  let index := (s.ghr ^^^ PC) &&& (if numPhtEntries PHT_SIZE = 0 then 2 ^ 32 - 1
    else numPhtEntries PHT_SIZE - 1)
  match pht.get_counter s.pht (index % 2 ^ 32) with
  | none => none
  | some counter => some (decide (counter.Dir ≠ 0), { s with index := index, counter := counter })

/-- The method `PREDICTOR::UpdatePredictor(PC, opType, resolveDir, predDir,
branchTarget)` of the gshare predictor:
`new_counter = counter.updateCounter(resolveDir); pht.save_counter(index, new_counter);
ghr = ghr << 1; ghr |= resolveDir;`. -/
def Gshare.UpdatePredictor (CTR_WIDTH : Nat) (s : GshareState) (_PC : Nat)
    (_opType : OpType) (resolveDir : Bool) (_predDir : Bool) (_branchTarget : Nat) :
    Option GshareState :=
  let new_counter := sat_ctr.updateCounter CTR_WIDTH s.counter (if resolveDir then 1 else 0)
  match pht.save_counter CTR_WIDTH s.pht (s.index % 2 ^ 32) new_counter with
  | none => none
  | some t =>
    some { s with pht := t,
                  ghr := ((s.ghr <<< 1) % 2 ^ 64) ||| (if resolveDir then 1 else 0) }

/-- The gshare predictor as constructed: the initialised table and `ghr = 0`; `index` is
not set by the constructor (taken as 0), `counter` is the default counter. -/
def Gshare.init (PHT_SIZE CTR_INIT CTR_WIDTH HYST : Nat) : GshareState :=
  { pht := pht.init_arrays (numPhtEntries PHT_SIZE) CTR_INIT CTR_WIDTH [1, HYST],
    index := 0,
    ghr := 0,
    counter := { Dir := 0, Strenght := 0 } }

/-! ### `counter_types.h`: `sat_ctr::rawVal` -/

/-- The two assertions of `sat_ctr::rawVal()`: `Strenght <= MaxStrenght` and
`Dir < 2`. -/
def sat_ctr.rawValAsserts (CTR_WIDTH : Nat) (self : sat_ctr) : Bool :=
  decide (self.Strenght ≤ MaxStrenght CTR_WIDTH) && decide (self.Dir < 2)

/-- The method `sat_ctr::rawVal()`: after its assertions it returns
`(Dir << (CTR_WIDTH - 1)) | Strenght` in `uint32_t`; `none` is a failed assertion or a
shift by 32 or more (undefined). -/
def sat_ctr.rawVal (CTR_WIDTH : Nat) (self : sat_ctr) : Option Nat :=
  if sat_ctr.rawValAsserts CTR_WIDTH self then
    let shift := if CTR_WIDTH = 0 then 2 ^ 32 - 1 else CTR_WIDTH - 1
    if shift < 32 then some (((self.Dir <<< shift) % 2 ^ 32) ||| self.Strenght) else none
  else none

/-! ### A run of taken branches on the bimodal predictor -/

/-- A run of `n` conditional branches to `PC` that are all taken, each handled as in the
loop of `main`: `GetPrediction(PC)`, then
`UpdatePredictor(PC, opType, true, predDir, branchTarget)`.  The result is the list of the
predictions, in order, and the predictor after the run. -/
def Bimodal.runTaken (PHT_SIZE CTR_WIDTH PC : Nat) (opType : OpType) (branchTarget : Nat) :
    Nat → BimodalState → Option (List Bool × BimodalState)
  | 0, s => some ([], s)
  | n + 1, s =>
    match Bimodal.GetPrediction PHT_SIZE s PC with
    | none => none
    | some (predDir, s1) =>
      match Bimodal.UpdatePredictor CTR_WIDTH s1 PC opType true predDir branchTarget with
      | none => none
      | some s2 =>
        match Bimodal.runTaken PHT_SIZE CTR_WIDTH PC opType branchTarget n s2 with
        | none => none
        | some (preds, s3) => some (predDir :: preds, s3)

/-! ### `decompress.h` and `bt9_reader.h`: the decompressed stream -/

/-- The coroutine `zstd_decompress` between two resumptions.  The trace file and the
library zstd are outside the sources, so the coroutine is given by what its remaining
calls of `ZSTD_decompressStream` do: for each call, in order, the bytes it writes at the
start of `buffOut` (`output.pos` of them, `output` being `{ buffOut, buffOutSize, 0 }`) and
its return value, which is 0 exactly when a frame is completed. -/
structure zstd_decompress where
  calls : List (List Nat × Nat)
deriving DecidableEq, Repr

/-- The bytes that the remaining calls of `ZSTD_decompressStream` write, in order: the
rest of the decompressed stream. -/
def zstd_decompress.written (co : zstd_decompress) : List Nat :=
  (co.calls.map Prod.fst).flatten

/-- Resuming the coroutine `zstd_decompress`: it runs to the next `co_yield ret`, which
stores `ret` in the `unsigned` member `return_value_` of the promise; the result is that
value, the coroutine, and the memory `buffOut`.  With no call left the coroutine leaves its
loops: it ends the process (`isEmpty`, or `lastRet != 0`) or runs to `co_return 0`, after
which `final_suspend` (`suspend_never`) destroys the coroutine and its promise; there is no
value to read then (`none`). -/
def zstd_decompress.resume (co : zstd_decompress) (buffOut : List Nat) :
    Option (Nat × zstd_decompress × List Nat) :=
  match co.calls with
  | [] => none
  | (written, ret) :: rest =>
    some (ret % 2 ^ 32, { calls := rest }, written ++ buffOut.drop written.length)

/-- The class `BT9Reader::my_source`: `buffer` is the memory the member `buffer` points
to (`buffOut`, of `bufferSize` bytes), and `reader` stands for the coroutine reached through
`reader->call_coroutine()`. -/
structure my_source where
  pos_ : Nat
  eof_ : Nat
  bufferSize : Nat
  buffer : List Nat
  reader : zstd_decompress
deriving DecidableEq, Repr

/-- The method `BT9Reader::call_coroutine()`: resumes the coroutine and returns
`promise.return_value_`. -/
def BT9Reader.call_coroutine (co : zstd_decompress) (buffOut : List Nat) :
    Option (Nat × zstd_decompress × List Nat) :=
  zstd_decompress.resume co buffOut

/-- The members `decompress_coroutine` and `fpstream_` as the constructor of `BT9Reader`
initialises them: the coroutine starts at once (`initial_suspend` is `suspend_never`) and
runs to its first `co_yield`, whose value nobody reads; then
`my_source(buffOutSize, buffOut, this)` sets `pos_` and `eof_` to 0. -/
def BT9Reader.fpstream_ (buffOutSize : Nat) (buffOut : List Nat) (co : zstd_decompress) :
    Option my_source :=
  match zstd_decompress.resume co buffOut with
  | none => none
  | some (_, co1, buffOut1) =>
    some { pos_ := 0, eof_ := 0, bufferSize := buffOutSize, buffer := buffOut1, reader := co1 }

/-- The call `memcpy(dst, src, src.length)`, `dst` being the bytes from the destination
pointer on. -/
def memcpy (dst src : List Nat) : List Nat :=
  src ++ dst.drop src.length

/-- The loop `while(outputted < n)` of `my_source::read(s, n)`, at most `fuel` iterations.
`s` is the memory at the pointer `s` (at least `n` bytes).  The result is the returned
value, the memory at `s` and the object. -/
def my_source.readLoop (n : Nat) :
    Nat → my_source → List Nat → Nat → Option (Int × List Nat × my_source)
  | 0, _, _, _ => none
  | fuel + 1, self, s, outputted =>
    if outputted < n then
      if self.eof_ &&& (if self.pos_ = self.bufferSize then 1 else 0) ≠ 0 then
        some (-1, s, self)
      else if self.pos_ < self.bufferSize then
        let bytes_to_copy := min (n - outputted) (self.bufferSize - self.pos_)
        let s1 := memcpy s ((self.buffer.drop self.pos_).take bytes_to_copy)
        my_source.readLoop n fuel { self with pos_ := self.pos_ + bytes_to_copy } s1
          (outputted + bytes_to_copy)
      else
        match BT9Reader.call_coroutine self.reader self.buffer with
        | none => none
        | some (ret, co, buffOut) =>
          my_source.readLoop n fuel
            { self with eof_ := if 0 = ret then 1 else 0, pos_ := 0, reader := co,
                        buffer := buffOut } s outputted
    else some ((n : Int), s, self)

/-- The method `my_source::read(s, n)`.  Every second iteration at least copies a byte
(for `bufferSize >= 1`), so `2 * n + 2` iterations are enough. -/
def my_source.read (self : my_source) (s : List Nat) (n : Nat) :
    Option (Int × List Nat × my_source) :=
  my_source.readLoop n (2 * n + 2) self s 0

/-! ### `bt9_reader.h`: the title line of the header -/

/-- The call `std::getline(pinfile_, line, '\n')` on the bytes that the stream still
holds: the line (without the newline) and the bytes left in the stream. -/
def getline : List Nat → List Nat × List Nat
  | [] => ([], [])
  | c :: cs => if c = 10 then ([], cs) else (c :: (getline cs).1, (getline cs).2)

/-- The white space that formatted extraction skips (`std::isspace` in the "C" locale):
the space and the characters `\t`, `\n`, `\v`, `\f`, `\r`. -/
def isspace (c : Nat) : Bool :=
  decide (c = 32) || (decide (9 ≤ c) && decide (c ≤ 13))

/-- The extraction `ss >> token` from a fresh `std::stringstream ss(line)` into the empty
string `token`: leading white space is skipped, then the characters up to the next white
space are taken. -/
def extractToken (line : List Nat) : List Nat :=
  (line.dropWhile isspace).takeWhile (fun c => !isspace c)

/-- The bytes of the string literal `"BT9_SPA_TRACE_FORMAT"`. -/
def BT9_SPA_TRACE_FORMAT : List Nat :=
  [66, 84, 57, 95, 83, 80, 65, 95, 84, 82, 65, 67, 69, 95, 70, 79, 82, 77, 65, 84]

/-- The check of the title line at the start of `readBT9Header_`, on the bytes of the
stream: one `std::getline`, `ss >> token`, and `exit(-1)` with the message "is not BT9
file" (`none`) if the token is not `BT9_SPA_TRACE_FORMAT`; if it is, the function goes on
with the bytes left in the stream. -/
def BT9Reader.readBT9Header_title (pinfile_ : List Nat) : Option (List Nat) :=
  let line := (getline pinfile_).1
  let token := extractToken line
  if token ≠ BT9_SPA_TRACE_FORMAT then none else some (getline pinfile_).2

/-! ### `2bcgskew-EV8/src/predictor.h`: the complete counters -/

/-- The part of `update_predictor` under "recompute the complete counter values": each of
the four counters is its prediction bit shifted left by one plus the hysteresis bit read
from `HYST` (for G0 and G1 at the index reduced to `LOGPRED - 2` bits). -/
def update_predictor_complete (cfg : GskewConfig) (s : GskewState) (ix : GskewIndices)
    (l : GskewRecomputed) : Option GskewCounters :=
  match readTable s.HYST cfg.sizeHYST (hystIndex cfg ix.indexg0),
    readTable s.HYST cfg.sizeHYST (hystIndex cfg ix.indexg1),
    readTable s.HYST cfg.sizeHYST ix.indexbim,
    readTable s.HYST cfg.sizeHYST ix.indexmeta with
  | some h0, some h1, some h2, some h3 =>
    some { pg0 := toChar (2 * l.pg0 + h0), pg1 := toChar (2 * l.pg1 + h1),
           pbim := toChar (2 * l.pbim + h2), pmeta := toChar (2 * l.pmeta + h3) }
  | _, _, _, _ => none

/-- The local variables of `update_predictor` after "first recompute the prediction", as
computed from the four prediction bits read from the tables. -/
def GskewRecomputed.ofBits (pg0 pg1 pbim pmeta : Int) : GskewRecomputed :=
  { pg0 := pg0, pg1 := pg1, pbim := pbim, pmeta := pmeta,
    PESKEW := toChar (pbim + pg0 + pg1),
    peskew := decide (pbim + pg0 + pg1 > 1),
    psmall := decide (pbim > 0),
    prediction := if pmeta ≠ 0 then decide (pbim + pg0 + pg1 > 1) else decide (pbim > 0) }

/-- The four complete counters, as computed from the prediction bits and the four
hysteresis bits read from `HYST`. -/
def GskewCounters.ofBits (l : GskewRecomputed) (h0 h1 h2 h3 : Int) : GskewCounters :=
  { pg0 := toChar (2 * l.pg0 + h0), pg1 := toChar (2 * l.pg1 + h1),
    pbim := toChar (2 * l.pbim + h2), pmeta := toChar (2 * l.pmeta + h3) }

/-- Every entry of the three tables is 0 or 1. -/
def GskewState.Binary (s : GskewState) : Prop :=
  ∀ i, (s.GOG1 i = 0 ∨ s.GOG1 i = 1) ∧ (s.BIMMETA i = 0 ∨ s.BIMMETA i = 1) ∧
    (s.HYST i = 0 ∨ s.HYST i = 1)

/-- A sequence of calls `update_predictor(PC, taken)`, each given with the value that
`random()` returns in it. -/
def update_predictor_calls (cfg : GskewConfig) :
    GskewState → List (Nat × Bool × Nat) → Option GskewState
  | s, [] => some s
  | s, call :: rest =>
    match update_predictor cfg s call.1 call.2.1 call.2.2 with
    | none => none
    | some s1 => update_predictor_calls cfg s1 rest

/-- The four counters of `update_predictor` are in `[0, 3]`. -/
def GskewCounters.inRange (c : GskewCounters) : Bool :=
  decide (0 ≤ c.pg0) && decide (c.pg0 ≤ 3) && decide (0 ≤ c.pg1) && decide (c.pg1 ≤ 3) &&
    decide (0 ≤ c.pbim) && decide (c.pbim ≤ 3) && decide (0 ≤ c.pmeta) && decide (c.pmeta ≤ 3)

/-! ## Part II. Lemmas and theorems -/

/-! ### `sat_ctr` -/

theorem maxStrenghtLoop_step :
    ∀ k, k ≤ 32 → (((2 ^ k - 1) <<< 1) % 2 ^ 32 ||| 1) = 2 ^ (min (k + 1) 32) - 1 := by
  decide

theorem maxStrenghtLoop_eq (n : Nat) :
    ∀ k, k ≤ 32 → MaxStrenghtLoop n (2 ^ k - 1) = 2 ^ (min (n + k) 32) - 1 := by
  induction n with
  | zero =>
    intro k hk
    simp [MaxStrenghtLoop, Nat.min_eq_left hk]
  | succ n ih =>
    intro k hk
    rw [MaxStrenghtLoop, maxStrenghtLoop_step k hk, ih _ (Nat.min_le_right _ _)]
    congr 2
    omega

/-- Closed form of the constant: the `uint32_t` accumulator holds at most 32 one bits. -/
theorem maxStrenght_eq (W : Nat) (h1 : 1 ≤ W) (h2 : W < 2 ^ 32) :
    MaxStrenght W = 2 ^ (min (W - 1) 32) - 1 := by
  have h := maxStrenghtLoop_eq (W - 1) 0 (by omega)
  rw [show (2 : Nat) ^ 0 - 1 = 0 from rfl, Nat.add_zero] at h
  unfold MaxStrenght
  rw [if_neg (by omega), h]

theorem maxStrenght_lt (W : Nat) (h1 : 1 ≤ W) (h2 : W < 2 ^ 32) :
    MaxStrenght W < 2 ^ 32 := by
  rw [maxStrenght_eq W h1 h2]
  have : 2 ^ (min (W - 1) 32) ≤ 2 ^ 32 := Nat.pow_le_pow_right (by omega) (Nat.min_le_right _ _)
  have : 0 < 2 ^ (min (W - 1) 32) := Nat.pow_pos (by omega)
  omega

theorem xor_one_of_le_one (d : Nat) (h : d ≤ 1) : d ^^^ 1 = 1 - d := by
  interval_cases d <;> rfl

/-- The three cases of `updateCounter`, for any value `M` of the saturation constant
that fits a `uint32_t`. -/
theorem updateCounter_cases (W : Nat) (c : sat_ctr) (d : Nat)
    (hM : MaxStrenght W < 2 ^ 32) (hD : c.Dir ≤ 1) (hS : c.Strenght ≤ MaxStrenght W) :
    (d = c.Dir → sat_ctr.updateCounter W c d
        = { Dir := c.Dir, Strenght := min (c.Strenght + 1) (MaxStrenght W) }) ∧
    (d ≠ c.Dir → c.Strenght = 0 → sat_ctr.updateCounter W c d
        = { Dir := 1 - c.Dir, Strenght := 0 }) ∧
    (d ≠ c.Dir → 0 < c.Strenght → sat_ctr.updateCounter W c d
        = { Dir := c.Dir, Strenght := c.Strenght - 1 }) := by
  refine ⟨?_, ?_, ?_⟩
  · intro hd
    by_cases hs : c.Strenght = MaxStrenght W
    · simp [sat_ctr.updateCounter, sat_ctr.updateCounterM, hd, hs]
    · have hlt : c.Strenght + 1 < 2 ^ 32 := by omega
      have hmin : min (c.Strenght + 1) (MaxStrenght W) = c.Strenght + 1 := by
        apply Nat.min_eq_left; omega
      simp only [sat_ctr.updateCounter, sat_ctr.updateCounterM, hd, hs, hmin,
        Nat.mod_eq_of_lt hlt, ne_eq, not_false_eq_true, if_true]
  · intro hd hs
    simp [sat_ctr.updateCounter, sat_ctr.updateCounterM, hd, hs, xor_one_of_le_one c.Dir hD]
  · intro hd hs
    have h0 : c.Strenght ≠ 0 := by omega
    simp only [sat_ctr.updateCounter, sat_ctr.updateCounterM, hd, h0, if_false]

/-- Validity of a counter: `Dir < 2` and `Strenght <= MaxStrenght` (the assertions of
`rawVal`). -/
theorem updateCounter_valid (W : Nat) (c : sat_ctr) (d : Nat)
    (hM : MaxStrenght W < 2 ^ 32) (hD : c.Dir ≤ 1) (hS : c.Strenght ≤ MaxStrenght W) :
    (sat_ctr.updateCounter W c d).Dir ≤ 1 ∧
    (sat_ctr.updateCounter W c d).Strenght ≤ MaxStrenght W := by
  obtain ⟨h1, h2, h3⟩ := updateCounter_cases W c d hM hD hS
  by_cases hd : d = c.Dir
  · rw [h1 hd]
    exact ⟨hD, Nat.min_le_right _ _⟩
  · by_cases hs : c.Strenght = 0
    · rw [h2 hd hs]
      exact ⟨by simp only; omega, Nat.zero_le _⟩
    · rw [h3 hd (by omega)]
      exact ⟨hD, by simp only; omega⟩

theorem updateCounter_stepsToSaturation (W : Nat) (c : sat_ctr) (d : Nat)
    (hM : MaxStrenght W < 2 ^ 32) (hD : c.Dir ≤ 1) (hS : c.Strenght ≤ MaxStrenght W)
    (hd : d ≤ 1) :
    stepsToSaturation W (sat_ctr.updateCounter W c d) d = stepsToSaturation W c d - 1 := by
  obtain ⟨h1, h2, h3⟩ := updateCounter_cases W c d hM hD hS
  by_cases hdd : d = c.Dir
  · rw [h1 hdd]
    simp only [stepsToSaturation, hdd, if_true]
    omega
  · have hne : ¬ c.Dir = d := fun h => hdd h.symm
    by_cases hs : c.Strenght = 0
    · rw [h2 hdd hs]
      have : 1 - c.Dir = d := by omega
      simp only [stepsToSaturation, this, hne, if_true, if_false, hs]
      omega
    · rw [h3 hdd (by omega)]
      simp only [stepsToSaturation, hne, if_false]
      omega

theorem iterate_updateCounter_saturates (W d : Nat) (hM : MaxStrenght W < 2 ^ 32)
    (hd : d ≤ 1) :
    ∀ (n : Nat) (c : sat_ctr), c.Dir ≤ 1 → c.Strenght ≤ MaxStrenght W →
      stepsToSaturation W c d ≤ n →
      (fun x => sat_ctr.updateCounter W x d)^[n] c = { Dir := d, Strenght := MaxStrenght W } := by
  intro n
  induction n with
  | zero =>
    intro c hD hS hn
    simp only [Function.iterate_zero, id_eq]
    unfold stepsToSaturation at hn
    by_cases h : c.Dir = d
    · rw [if_pos h] at hn
      cases c
      simp only [sat_ctr.mk.injEq] at *
      omega
    · rw [if_neg h] at hn
      omega
  | succ n ih =>
    intro c hD hS hn
    rw [Function.iterate_succ_apply]
    obtain ⟨hD1, hS1⟩ := updateCounter_valid W c d hM hD hS
    apply ih _ hD1 hS1
    rw [updateCounter_stepsToSaturation W c d hM hD hS hd]
    omega

theorem two_maxStrenght_lt (W : Nat) (h1 : 1 ≤ W) (h2 : W < 2 ^ 32) :
    2 * MaxStrenght W + 1 ≤ 2 ^ W - 1 := by
  rw [maxStrenght_eq W h1 h2]
  have hp : 0 < 2 ^ (min (W - 1) 32) := Nat.pow_pos (by omega)
  have hle : 2 ^ (min (W - 1) 32 + 1) ≤ 2 ^ W :=
    Nat.pow_le_pow_right (by omega) (by omega)
  rw [Nat.pow_succ] at hle
  omega

/-! #### Claim C6 -/

/-- C6 (as amended): for every counter width `1 <= W <= 33`, every counter with
`Dir` in {0,1} and `Strenght <= MaxStrenght` and every `updateDir` (in particular
every `updateDir` in {0,1}):
`MaxStrenght = 2^(W-1) - 1`, and `updateCounter(updateDir)` returns
`(Dir, min(Strenght+1, MaxStrenght))` when `updateDir = Dir`, `(1 - Dir, 0)` when
`updateDir != Dir` and `Strenght = 0`, `(Dir, Strenght - 1)` when `updateDir != Dir` and
`Strenght > 0`; the receiver is not modified. -/
theorem C6_updateCounter_spec (W : Nat) (c : sat_ctr) (d : Nat)
    (hW1 : 1 ≤ W) (hW2 : W ≤ 33) (hD : c.Dir ≤ 1) (hS : c.Strenght ≤ MaxStrenght W) :
    MaxStrenght W = 2 ^ (W - 1) - 1 ∧
    (d = c.Dir → sat_ctr.updateCounter W c d
        = { Dir := c.Dir, Strenght := min (c.Strenght + 1) (MaxStrenght W) }) ∧
    (d ≠ c.Dir → c.Strenght = 0 → sat_ctr.updateCounter W c d
        = { Dir := 1 - c.Dir, Strenght := 0 }) ∧
    (d ≠ c.Dir → 0 < c.Strenght → sat_ctr.updateCounter W c d
        = { Dir := c.Dir, Strenght := c.Strenght - 1 }) ∧
    (sat_ctr.updateCounterM W c d).1 = c := by
  have hW3 : W < 2 ^ 32 := by omega
  refine ⟨?_, ?_⟩
  · rw [maxStrenght_eq W hW1 hW3, Nat.min_eq_left (by omega)]
  · obtain ⟨h1, h2, h3⟩ := updateCounter_cases W c d (maxStrenght_lt W hW1 hW3) hD hS
    exact ⟨h1, h2, h3, rfl⟩

/-- C6, witness: a weakly not-taken 2-bit counter updated with a taken outcome. -/
theorem C6_updateCounter_spec_witness :
    MaxStrenght 2 = 2 ^ (2 - 1) - 1 ∧
    ((1 : Nat) = (sat_ctr.mk 0 0).Dir → sat_ctr.updateCounter 2 (sat_ctr.mk 0 0) 1
        = { Dir := (sat_ctr.mk 0 0).Dir,
            Strenght := min ((sat_ctr.mk 0 0).Strenght + 1) (MaxStrenght 2) }) ∧
    ((1 : Nat) ≠ (sat_ctr.mk 0 0).Dir → (sat_ctr.mk 0 0).Strenght = 0 →
      sat_ctr.updateCounter 2 (sat_ctr.mk 0 0) 1
        = { Dir := 1 - (sat_ctr.mk 0 0).Dir, Strenght := 0 }) ∧
    ((1 : Nat) ≠ (sat_ctr.mk 0 0).Dir → 0 < (sat_ctr.mk 0 0).Strenght →
      sat_ctr.updateCounter 2 (sat_ctr.mk 0 0) 1
        = { Dir := (sat_ctr.mk 0 0).Dir, Strenght := (sat_ctr.mk 0 0).Strenght - 1 }) ∧
    (sat_ctr.updateCounterM 2 (sat_ctr.mk 0 0) 1).1 = sat_ctr.mk 0 0 :=
  C6_updateCounter_spec 2 (sat_ctr.mk 0 0) 1 (by decide) (by decide) (by decide) (by decide)

/-- C6, counterexample to the claim as stated: at width 34 the `uint32_t` constant
`MaxStrenght` is `2^32 - 1`, not `2^33 - 1`. -/
theorem C6_counterexample_width_34 :
    MaxStrenght 34 = 4294967295 ∧ MaxStrenght 34 ≠ 2 ^ (34 - 1) - 1 := by
  decide

/-! #### Claim C8 -/

/-- C8: for every counter width `W` (at least the direction bit, `W >= 1`, and a
`uint32_t` template argument), every valid start counter and every direction `d` in
{0,1}, applying `updateCounter(d)` `2^W - 1` times yields the saturated counter
`(d, MaxStrenght)`, and every further `updateCounter(d)` leaves it unchanged. -/
theorem C8_saturates_after_pow_updates (W : Nat) (c : sat_ctr) (d : Nat)
    (hW1 : 1 ≤ W) (hW2 : W < 2 ^ 32) (hD : c.Dir ≤ 1) (hS : c.Strenght ≤ MaxStrenght W)
    (hd : d ≤ 1) :
    (fun x => sat_ctr.updateCounter W x d)^[2 ^ W - 1] c
        = { Dir := d, Strenght := MaxStrenght W } ∧
    ∀ n : Nat, (fun x => sat_ctr.updateCounter W x d)^[n]
        ((fun x => sat_ctr.updateCounter W x d)^[2 ^ W - 1] c)
        = { Dir := d, Strenght := MaxStrenght W } := by
  have hM := maxStrenght_lt W hW1 hW2
  have h2 := two_maxStrenght_lt W hW1 hW2
  have hsat : (fun x => sat_ctr.updateCounter W x d)^[2 ^ W - 1] c
      = { Dir := d, Strenght := MaxStrenght W } := by
    apply iterate_updateCounter_saturates W d hM hd _ c hD hS
    unfold stepsToSaturation
    split <;> omega
  refine ⟨hsat, ?_⟩
  intro n
  rw [hsat]
  refine iterate_updateCounter_saturates W d hM hd n _ hd (Nat.le_refl _) ?_
  simp only [stepsToSaturation, if_true, Nat.sub_self, Nat.zero_le]

/-- C8, witness: a strongly not-taken 2-bit counter driven three times towards taken. -/
theorem C8_saturates_after_pow_updates_witness :
    (fun x => sat_ctr.updateCounter 2 x 1)^[2 ^ 2 - 1] (sat_ctr.mk 0 1)
        = { Dir := 1, Strenght := MaxStrenght 2 } ∧
    ∀ n : Nat, (fun x => sat_ctr.updateCounter 2 x 1)^[n]
        ((fun x => sat_ctr.updateCounter 2 x 1)^[2 ^ 2 - 1] (sat_ctr.mk 0 1))
        = { Dir := 1, Strenght := MaxStrenght 2 } :=
  C8_saturates_after_pow_updates 2 (sat_ctr.mk 0 1) 1 (by decide) (by simp) (by decide)
    (by decide) (by decide)

/-! ### `pht` -/

theorem mask_testBit : ∀ p, p < 64 → (2 ^ 64 - 1 - 2 ^ p).testBit p = false := by
  decide

theorem shr_and_one (x p : Nat) : (x >>> p) &&& 1 = (x.testBit p).toNat := by
  rw [Nat.and_one_is_mod, Nat.shiftRight_eq_div_pow, Nat.toNat_testBit]

theorem shr_and_one_le (x p : Nat) : (x >>> p) &&& 1 ≤ 1 := by
  rw [Nat.and_one_is_mod]; omega

theorem testBit_zero_of_le_one (b : Nat) (h : b ≤ 1) : (b.testBit 0).toNat = b := by
  interval_cases b <;> rfl

/-- The bit written by `save_counter` is the bit read back by `get_counter`. -/
theorem newLine_bit (line bit p : Nat) (hp : p < 64) (hb : bit ≤ 1) :
    (((line &&& (2 ^ 64 - 1 - 2 ^ p)) ||| ((bit <<< p) % 2 ^ 64)) >>> p) &&& 1 = bit := by
  rw [shr_and_one, Nat.testBit_or, Nat.testBit_and, mask_testBit p hp,
    Nat.testBit_mod_two_pow, Nat.testBit_shiftLeft]
  simp only [Bool.and_false, Bool.false_or, hp, decide_True, Bool.true_and, ge_iff_le,
    Nat.le_refl, Nat.sub_self]
  exact testBit_zero_of_le_one bit hb
theorem planeIndex_eq (shared i : Nat) (h1 : 1 ≤ shared) (h2 : shared ≤ 32) :
    pht.planeIndex shared i = some (i >>> (shared - 1)) := by
  unfold pht.planeIndex
  have h0 : shared ≠ 0 := by omega
  simp only [h0, if_false]
  rw [if_pos (by omega)]

/-- Every logical index below `size` addresses a word of the plane. -/
theorem plane_word_in_bounds (size shared i : Nat) (h1 : 1 ≤ shared)
    (hdvd : 64 * shared ∣ size) (hi : i < size) :
    (i >>> (shared - 1)) >>> 6 < size / 64 / shared := by
  rw [Nat.shiftRight_eq_div_pow, Nat.shiftRight_eq_div_pow, Nat.div_div_eq_div_mul size]
  have hs : shared ≤ 2 ^ (shared - 1) := by
    have := Nat.lt_two_pow (shared - 1)
    omega
  have h3 : i / 2 ^ (shared - 1) ≤ i / shared := Nat.div_le_div_left hs (by omega)
  have h4 : i / 2 ^ (shared - 1) / 2 ^ 6 ≤ i / shared / 2 ^ 6 := Nat.div_le_div_right h3
  have h5 : i / shared / 2 ^ 6 = i / (64 * shared) := by
    rw [Nat.div_div_eq_div_mul, Nat.mul_comm shared]
    norm_num
  have h6 : i / (64 * shared) < size / (64 * shared) :=
    Nat.div_lt_div_of_lt_of_dvd hdvd hi
  omega

theorem and_63_lt (x : Nat) : x &&& 0x3F < 64 := by
  have : x &&& 0x3F ≤ 0x3F := Nat.and_le_right
  omega

/-- Planes: what `save_counter` writes is what `get_counter` reads, and the shape of
the planes is kept. -/
theorem get_bits_save_bits (size i : Nat) (hi : i < size) :
    ∀ (planes : List (List Nat)) (tmp_arr array : List Nat),
      pht.planesOk size planes tmp_arr = true → array.length = planes.length →
      (∀ b ∈ array, b ≤ 1) →
      ∃ planes', pht.save_bits planes tmp_arr array i = some planes' ∧
        pht.get_bits planes' tmp_arr i = some array ∧
        pht.planesOk size planes' tmp_arr = true ∧ planes'.length = planes.length := by
  intro planes
  induction planes with
  | nil =>
    intro tmp_arr array hok hlen _
    cases array with
    | nil => exact ⟨[], by simp [pht.save_bits], by simp [pht.get_bits], hok, rfl⟩
    | cons b bs => simp at hlen
  | cons elem elems ih =>
    intro tmp_arr array hok hlen hbits
    cases tmp_arr with
    | nil => simp [pht.planesOk] at hok
    | cons shared ss =>
      cases array with
      | nil => simp at hlen
      | cons bit bs =>
        simp only [pht.planesOk, Bool.and_eq_true, decide_eq_true_eq] at hok
        obtain ⟨⟨⟨⟨h1, h2⟩, hdvd⟩, hlenE⟩, hrest⟩ := hok
        have hb : bit ≤ 1 := hbits bit (List.mem_cons_self _ _)
        have hbs : ∀ b ∈ bs, b ≤ 1 := fun b hb => hbits b (List.mem_cons_of_mem _ hb)
        obtain ⟨rest, hsave, hget, hok', hlen'⟩ :=
          ih ss bs hrest (by simpa using hlen) hbs
        have hin := plane_word_in_bounds size shared i h1 hdvd hi
        rw [← hlenE] at hin
        simp only [pht.save_bits, planeIndex_eq shared i h1 h2,
            List.getElem?_eq_getElem hin, hsave, Option.some.injEq, exists_eq_left']
        refine ⟨?_, ?_, ?_⟩
        · simp only [pht.get_bits, planeIndex_eq shared i h1 h2,
            List.getElem?_set_self hin, hget,
            newLine_bit _ bit _ (and_63_lt _) hb]
        · simp only [pht.planesOk, Bool.and_eq_true, decide_eq_true_eq, List.length_set]
          exact ⟨⟨⟨⟨h1, h2⟩, hdvd⟩, hlenE⟩, hok'⟩
        · simp [hlen']
theorem strenght_bit_step (S k n : Nat) (h : k + n + 1 ≤ 32) :
    ((((S >>> k) &&& 1) <<< k) % 2 ^ 32) ||| (((S >>> (k + 1)) % 2 ^ n) <<< (k + 1))
      = ((S >>> k) % 2 ^ (n + 1)) <<< k := by
  have hx : S >>> (k + 1) = (S >>> k) / 2 := by
    rw [Nat.shiftRight_succ]
  rw [hx, Nat.and_one_is_mod]
  generalize S >>> k = x
  have hb : x % 2 * 2 ^ k < 2 ^ (k + 1) := by
    rw [Nat.pow_succ]
    have : x % 2 < 2 := Nat.mod_lt _ (by omega)
    have hk0 : 0 < (2 : Nat) ^ k := Nat.pow_pos (by omega)
    nlinarith
  have hlt : x % 2 * 2 ^ k < 2 ^ 32 := by
    have : (2 : Nat) ^ (k + 1) ≤ 2 ^ 32 := Nat.pow_le_pow_right (by omega) (by omega)
    omega
  rw [Nat.shiftLeft_eq, Nat.shiftLeft_eq, Nat.shiftLeft_eq, Nat.mod_eq_of_lt hlt,
    Nat.or_comm, Nat.mul_comm (x / 2 % 2 ^ n), ← Nat.mul_add_lt_is_or hb,
    show (2 : Nat) ^ (n + 1) = 2 * 2 ^ n from by ring, Nat.mod_mul, Nat.pow_succ]
  ring

/-- The bits produced by `getArray` are reassembled by the constructor. -/
theorem ofArrayLoop_getArrayLoop (S : Nat) :
    ∀ (n i acc : Nat), 1 ≤ i → i - 1 + n ≤ 32 →
      ∃ bits, sat_ctr.getArrayLoop S i n = some bits ∧ bits.length = n ∧
        (∀ b ∈ bits, b ≤ 1) ∧
        sat_ctr.ofArrayLoop acc i bits
          = some (acc ||| (((S >>> (i - 1)) % 2 ^ n) <<< (i - 1))) := by
  intro n
  induction n with
  | zero =>
    intro i acc _ _
    refine ⟨[], rfl, rfl, by simp, ?_⟩
    simp [sat_ctr.ofArrayLoop, Nat.mod_one]
  | succ n ih =>
    intro i acc h1 h2
    have hlt : i - 1 < 32 := by omega
    obtain ⟨rest, hget, hlen, hbits, hof⟩ :=
      ih (i + 1) (acc ||| ((((S >>> (i - 1)) &&& 1) <<< (i - 1)) % 2 ^ 32)) (by omega)
        (by omega)
    refine ⟨((S >>> (i - 1)) &&& 1) :: rest, ?_, by simp [hlen], ?_, ?_⟩
    · simp only [sat_ctr.getArrayLoop, hlt, if_true, hget]
    · intro b hb
      rcases List.mem_cons.mp hb with h | h
      · rw [h]; exact shr_and_one_le _ _
      · exact hbits b h
    · simp only [sat_ctr.ofArrayLoop, hlt, if_true, hof]
      have e : i + 1 - 1 = (i - 1) + 1 := by omega
      rw [e, Nat.or_assoc, strenght_bit_step S (i - 1) n (by omega)]

theorem ofArray_getArray (W : Nat) (c : sat_ctr) (hW1 : 1 ≤ W) (hW2 : W ≤ 33)
    (hD : c.Dir ≤ 1) (hS : c.Strenght ≤ MaxStrenght W) :
    ∃ array, sat_ctr.getArray W c = some array ∧ array.length = W ∧
      (∀ b ∈ array, b ≤ 1) ∧ sat_ctr.ofArray array = some c := by
  obtain ⟨rest, hget, hlen, hbits, hof⟩ :=
    ofArrayLoop_getArrayLoop c.Strenght (W - 1) 1 0 (by omega) (by omega)
  have hW0 : W ≠ 0 := by omega
  refine ⟨c.Dir :: rest, ?_, by simp [hlen]; omega, ?_, ?_⟩
  · simp only [sat_ctr.getArray, hW0, if_false, hget]
  · intro b hb
    rcases List.mem_cons.mp hb with h | h
    · rw [h]; exact hD
    · exact hbits b h
  · have hmax := maxStrenght_eq W hW1 (by omega)
    rw [Nat.min_eq_left (by omega)] at hmax
    have hp : 0 < 2 ^ (W - 1) := Nat.pow_pos (by omega)
    have hmod : c.Strenght % 2 ^ (W - 1) = c.Strenght := Nat.mod_eq_of_lt (by omega)
    simp only [sat_ctr.ofArray, hof, Nat.sub_self, Nat.shiftRight_zero, Nat.shiftLeft_zero,
      Nat.zero_or, hmod]
theorem ofArrayLoop_lt :
    ∀ (bits : List Nat) (i acc : Nat), 1 ≤ i → i - 1 + bits.length ≤ 32 →
      (∀ b ∈ bits, b ≤ 1) → acc < 2 ^ (i - 1) →
      ∃ r, sat_ctr.ofArrayLoop acc i bits = some r ∧ r < 2 ^ (i - 1 + bits.length) := by
  intro bits
  induction bits with
  | nil =>
    intro i acc _ _ _ hacc
    exact ⟨acc, rfl, by simpa using hacc⟩
  | cons b bs ih =>
    intro i acc h1 h2 hbits hacc
    simp only [List.length_cons] at h2
    have hlt : i - 1 < 32 := by omega
    have hb : b ≤ 1 := hbits b (List.mem_cons_self _ _)
    have hpow : (2 : Nat) ^ (i - 1) < 2 ^ i := Nat.pow_lt_pow_right (by omega) (by omega)
    have hsh : (b <<< (i - 1)) % 2 ^ 32 < 2 ^ i := by
      apply Nat.lt_of_le_of_lt (Nat.mod_le _ _)
      rw [Nat.shiftLeft_eq]
      have : b * 2 ^ (i - 1) ≤ 1 * 2 ^ (i - 1) := Nat.mul_le_mul_right _ hb
      omega
    have hacc' : acc ||| ((b <<< (i - 1)) % 2 ^ 32) < 2 ^ (i + 1 - 1) := by
      rw [Nat.add_sub_cancel]
      exact Nat.or_lt_two_pow (by omega) hsh
    obtain ⟨r, hr, hrlt⟩ := ih (i + 1) _ (by omega) (by omega)
      (fun x hx => hbits x (List.mem_cons_of_mem _ hx)) hacc'
    refine ⟨r, ?_, ?_⟩
    · simp only [sat_ctr.ofArrayLoop, hlt, if_true, hr]
    · have e : i + 1 - 1 + bs.length = i - 1 + (bs.length + 1) := by omega
      rw [List.length_cons, ← e]
      exact hrlt

theorem get_bits_some (size i : Nat) (hi : i < size) :
    ∀ (planes : List (List Nat)) (tmp_arr : List Nat),
      pht.planesOk size planes tmp_arr = true →
      ∃ bits, pht.get_bits planes tmp_arr i = some bits ∧ bits.length = planes.length ∧
        ∀ b ∈ bits, b ≤ 1 := by
  intro planes
  induction planes with
  | nil =>
    intro tmp_arr _
    exact ⟨[], by simp [pht.get_bits], rfl, by simp⟩
  | cons elem elems ih =>
    intro tmp_arr hok
    cases tmp_arr with
    | nil => simp [pht.planesOk] at hok
    | cons shared ss =>
      simp only [pht.planesOk, Bool.and_eq_true, decide_eq_true_eq] at hok
      obtain ⟨⟨⟨⟨h1, h2⟩, hdvd⟩, hlenE⟩, hrest⟩ := hok
      obtain ⟨rest, hget, hlen, hbits⟩ := ih ss hrest
      have hin := plane_word_in_bounds size shared i h1 hdvd hi
      rw [← hlenE] at hin
      simp only [pht.get_bits, planeIndex_eq shared i h1 h2, List.getElem?_eq_getElem hin,
        hget, Option.some.injEq, exists_eq_left']
      refine ⟨by simp [hlen], ?_⟩
      intro b hb
      rcases List.mem_cons.mp hb with h | h
      · rw [h]; exact shr_and_one_le _ _
      · exact hbits b h

/-- Every counter read from a well-formed table is valid. -/
theorem get_counter_valid (size W : Nat) (t : pht) (i : Nat) (hwf : pht.WellFormed size W t)
    (hW1 : 1 ≤ W) (hW2 : W ≤ 33) (hi : i < size) :
    ∃ c, pht.get_counter t i = some c ∧ c.Dir ≤ 1 ∧ c.Strenght ≤ MaxStrenght W := by
  obtain ⟨hlenW, hok⟩ := hwf
  obtain ⟨bits, hget, hlen, hbits⟩ := get_bits_some size i hi t.arrays t.tmp_arr hok
  cases bits with
  | nil => simp at hlen; omega
  | cons a0 rest =>
    simp only [List.length_cons] at hlen
    obtain ⟨r, hr, hrlt⟩ := ofArrayLoop_lt rest 1 0 (by omega) (by omega)
      (fun x hx => hbits x (List.mem_cons_of_mem _ hx)) (by simp)
    refine ⟨{ Dir := a0, Strenght := r }, ?_, hbits a0 (List.mem_cons_self _ _), ?_⟩
    · simp only [pht.get_counter, hget, sat_ctr.ofArray, hr]
    · rw [maxStrenght_eq W hW1 (by omega), Nat.min_eq_left (by omega)]
      have e : 1 - 1 + rest.length = W - 1 := by omega
      rw [e] at hrlt
      show r ≤ 2 ^ (W - 1) - 1
      omega

/-! #### Claim C7 -/

/-- C7: in a table of the declared shape (`CTR_WIDTH` planes, plane `k` of
`(size / 64) / S_k` words, widths up to 33 so that a strength fits `uint32_t`), for
every logical index `i < size` and every counter `c` with `Dir` in {0,1} and
`Strenght <= MaxStrenght`, `save_counter(i, c)` succeeds and `get_counter(i)` evaluated
afterwards returns `c`; in particular after
`save_counter(i, get_counter(i).updateCounter(d))` the next `get_counter(i)` returns the
updated counter. -/
theorem C7_get_counter_after_save_counter (size W : Nat) (t : pht) (i : Nat)
    (hwf : pht.WellFormed size W t) (hW1 : 1 ≤ W) (hW2 : W ≤ 33) (hi : i < size) :
    (∀ c : sat_ctr, c.Dir ≤ 1 → c.Strenght ≤ MaxStrenght W →
      ∃ t', pht.save_counter W t i c = some t' ∧ pht.get_counter t' i = some c) ∧
    (∀ d : Nat, ∃ c0 t', pht.get_counter t i = some c0 ∧
      pht.save_counter W t i (sat_ctr.updateCounter W c0 d) = some t' ∧
      pht.get_counter t' i = some (sat_ctr.updateCounter W c0 d)) := by
  have hsave : ∀ c : sat_ctr, c.Dir ≤ 1 → c.Strenght ≤ MaxStrenght W →
      ∃ t', pht.save_counter W t i c = some t' ∧ pht.get_counter t' i = some c := by
    intro c hD hS
    obtain ⟨array, hga, hlen, hbits, hof⟩ := ofArray_getArray W c hW1 hW2 hD hS
    obtain ⟨planes', hsv, hgt, _, _⟩ :=
      get_bits_save_bits size i hi t.arrays t.tmp_arr array hwf.2 (by rw [hlen, hwf.1]) hbits
    refine ⟨{ t with arrays := planes' }, ?_, ?_⟩
    · simp only [pht.save_counter, hga, hsv]
    · simp only [pht.get_counter, hgt, hof]
  refine ⟨hsave, ?_⟩
  intro d
  obtain ⟨c0, hget, hD, hS⟩ := get_counter_valid size W t i hwf hW1 hW2 hi
  obtain ⟨hD', hS'⟩ := updateCounter_valid W c0 d (maxStrenght_lt W hW1 (by omega)) hD hS
  obtain ⟨t', h1, h2⟩ := hsave _ hD' hS'
  exact ⟨c0, t', hget, h1, h2⟩

/-- C7, witness: a 64-entry table of 2-bit counters without sharing, index 5. -/
theorem C7_get_counter_after_save_counter_witness :
    pht.WellFormed 64 2 { arrays := [[0], [0]], tmp_arr := [1, 1] } ∧
    (∀ c : sat_ctr, c.Dir ≤ 1 → c.Strenght ≤ MaxStrenght 2 →
      ∃ t', pht.save_counter 2 { arrays := [[0], [0]], tmp_arr := [1, 1] } 5 c = some t' ∧
        pht.get_counter t' 5 = some c) ∧
    (∀ d : Nat, ∃ c0 t',
      pht.get_counter { arrays := [[0], [0]], tmp_arr := [1, 1] } 5 = some c0 ∧
      pht.save_counter 2 { arrays := [[0], [0]], tmp_arr := [1, 1] } 5
        (sat_ctr.updateCounter 2 c0 d) = some t' ∧
      pht.get_counter t' 5 = some (sat_ctr.updateCounter 2 c0 d)) :=
  ⟨⟨rfl, by decide⟩,
   C7_get_counter_after_save_counter 64 2 { arrays := [[0], [0]], tmp_arr := [1, 1] } 5
    ⟨rfl, by decide⟩ (by decide) (by decide) (by decide)⟩

/-! ### Classification (`main.cc`) -/

/-! #### Claim C9 -/

/-- C9: the classification is a total function of (type, directness, conditionality)
(the node index does not change its value); it is not `OPTYPE_ERROR` if and only if the
type is JMP, CALL or RET, the conditionality is CONDITIONAL or UNCONDITIONAL and either
the type is RET or the directness is DIRECT or INDIRECT; then the `OpType` names that
type and conditionality and, for JMP and CALL, that directness (none for RET).  Every
other combination, type UNKNOWN included, gives `OPTYPE_ERROR`. -/
theorem C9_classify_spec (b : BrClass_BrBehavior) (brNodeIndex : Nat) :
    classify b brNodeIndex = classify b 0 ∧
    (classify b brNodeIndex ≠ OpType.OPTYPE_ERROR ↔
      (b.type = BrType.JMP ∨ b.type = BrType.CALL ∨ b.type = BrType.RET) ∧
      (b.conditionality = Conditionality.CONDITIONAL ∨
        b.conditionality = Conditionality.UNCONDITIONAL) ∧
      (b.type = BrType.RET ∨ b.directness = Directness.DIRECT ∨
        b.directness = Directness.INDIRECT)) ∧
    (classify b brNodeIndex ≠ OpType.OPTYPE_ERROR →
      (classify b brNodeIndex).type = some b.type ∧
      (classify b brNodeIndex).conditionality = some b.conditionality ∧
      (classify b brNodeIndex).directness
        = if b.type = BrType.RET then none else some b.directness) ∧
    (b.type = BrType.UNKNOWN → classify b brNodeIndex = OpType.OPTYPE_ERROR) := by
  obtain ⟨t, d, c⟩ := b
  by_cases h : brNodeIndex = 0 <;> cases t <;> cases d <;> cases c <;>
    simp [classify, h, OpType.type, OpType.conditionality, OpType.directness]

/-! ### The driver loop (`main.cc`) -/

theorem loopHead_fields {σ : Type} (s : MainState σ) :
    (loopHead s).brpred = s.brpred ∧ (loopHead s).numMispred = s.numMispred ∧
    (loopHead s).cond_branch_instruction_counter = s.cond_branch_instruction_counter ∧
    (loopHead s).uncond_branch_instruction_counter = s.uncond_branch_instruction_counter ∧
    (loopHead s).numIter = (s.numIter + 1) % 2 ^ 64 := by
  unfold loopHead
  by_cases h : (s.CheckHeartBeat_numIter + 1) % 2 ^ 64 = 1000
  · simp only [h, if_true, and_self]
  · simp only [h, if_false, and_self]

/-! #### Claim C1 -/

/-- C1: for a branch instance whose source node classifies as a non-error CONDITIONAL
branch, the loop body goes on; the misprediction counter grows by exactly one if and only
if `GetPrediction(PC)`, evaluated on the predictor state of before the update, differs
from the taken flag of the edge, and is unchanged otherwise; the conditional branch
counter grows by exactly one; the predictor is updated once, after the prediction, with
that prediction as `predDir`.  (The `uint64_t` counters are below their maximum.) -/
theorem C1_conditional_branch_tally {σ : Type} (P : PREDICTOR σ) (s : MainState σ)
    (it : LoadedInstance)
    (hop : classify it.srcNode.brClass_brBehavior it.srcNode.brNodeIndex
      ≠ OpType.OPTYPE_ERROR)
    (hcond : it.srcNode.brClass_brBehavior.conditionality = Conditionality.CONDITIONAL)
    (hm : s.numMispred + 1 < 2 ^ 64)
    (hc : s.cond_branch_instruction_counter + 1 < 2 ^ 64) :
    ∃ s', loopBody P s it = Outcome.ok s' ∧
      (s'.numMispred = s.numMispred + 1 ↔
        (P.GetPrediction s.brpred it.srcNode.brVirtualAddr).1 ≠ it.edge.isTakenPath) ∧
      ((P.GetPrediction s.brpred it.srcNode.brVirtualAddr).1 = it.edge.isTakenPath →
        s'.numMispred = s.numMispred) ∧
      s'.cond_branch_instruction_counter = s.cond_branch_instruction_counter + 1 ∧
      s'.uncond_branch_instruction_counter = s.uncond_branch_instruction_counter ∧
      s'.brpred = P.UpdatePredictor (P.GetPrediction s.brpred it.srcNode.brVirtualAddr).2
        it.srcNode.brVirtualAddr
        (classify it.srcNode.brClass_brBehavior it.srcNode.brNodeIndex)
        it.edge.isTakenPath (P.GetPrediction s.brpred it.srcNode.brVirtualAddr).1
        it.edge.brVirtualTarget := by
  have e1 : (s.numMispred + 1) % 2 ^ 64 = s.numMispred + 1 := Nat.mod_eq_of_lt hm
  have e2 : (s.cond_branch_instruction_counter + 1) % 2 ^ 64
      = s.cond_branch_instruction_counter + 1 := Nat.mod_eq_of_lt hc
  obtain ⟨h1, h2, h3, h4, _⟩ := loopHead_fields s
  unfold loopBody
  simp only [hop, hcond, if_false, if_true, h1, h2, h3, h4, e1, e2]
  refine ⟨_, rfl, ?_⟩
  by_cases hp : (P.GetPrediction s.brpred it.srcNode.brVirtualAddr).1 = it.edge.isTakenPath
  · simp [hp]
  · simp [hp]

/-- C1, witness: a taken conditional branch met by the freshly initialised bimodal
predictor (64 two-bit counters, initial value 0), which predicts not taken. -/
theorem C1_conditional_branch_tally_witness :
    ∃ s', loopBody (Bimodal.predictor 6 2) { brpred := Bimodal.init 6 0 2 [1, 1] }
        (sampleCond 68 true) = Outcome.ok s' ∧
      (s'.numMispred = 0 + 1 ↔
        ((Bimodal.predictor 6 2).GetPrediction (Bimodal.init 6 0 2 [1, 1]) 68).1 ≠ true) ∧
      (((Bimodal.predictor 6 2).GetPrediction (Bimodal.init 6 0 2 [1, 1]) 68).1 = true →
        s'.numMispred = 0) ∧
      s'.cond_branch_instruction_counter = 0 + 1 ∧
      s'.uncond_branch_instruction_counter = 0 ∧
      s'.brpred = (Bimodal.predictor 6 2).UpdatePredictor
        ((Bimodal.predictor 6 2).GetPrediction (Bimodal.init 6 0 2 [1, 1]) 68).2 68
        (classify (sampleCond 68 true).srcNode.brClass_brBehavior 2) true
        ((Bimodal.predictor 6 2).GetPrediction (Bimodal.init 6 0 2 [1, 1]) 68).1 68 :=
  C1_conditional_branch_tally (Bimodal.predictor 6 2)
    { brpred := Bimodal.init 6 0 2 [1, 1] } (sampleCond 68 true) (by decide) rfl
    (by norm_num) (by norm_num)

set_option maxRecDepth 4000 in
theorem checkHeartBeat_MPKBr (stats : stats_t) (n m T : Nat) (hT : T ∈ snapshotPoints) :
    (CheckHeartBeat stats n m).MPKBr T
      = if n = T then some { numMispred := m, numIter := n } else stats.MPKBr T := by
  simp only [snapshotPoints, List.mem_cons, List.mem_singleton, List.not_mem_nil, or_false] at hT
  rcases hT with h | h | h | h | h | h | h | h | h | h | h | h <;> subst h <;>
    split_ifs with hn
  all_goals first
    | (subst hn; simp [CheckHeartBeat, stats_t.MPKBr])
    | (simp only [CheckHeartBeat, stats_t.MPKBr, hn, if_false]
       simp only [apply_ite stats_t.MPKBr_1K, apply_ite stats_t.MPKBr_10K,
         apply_ite stats_t.MPKBr_100K, apply_ite stats_t.MPKBr_1M,
         apply_ite stats_t.MPKBr_10M, apply_ite stats_t.MPKBr_30M,
         apply_ite stats_t.MPKBr_60M, apply_ite stats_t.MPKBr_100M,
         apply_ite stats_t.MPKBr_300M, apply_ite stats_t.MPKBr_600M,
         apply_ite stats_t.MPKBr_1B, apply_ite stats_t.MPKBr_10B, ite_self]
       simp)
theorem tally_snd_le {σ : Type} (P : PREDICTOR σ) (tr : List LoadedInstance) :
    ∀ acc : σ × Nat, (tr.foldl (tallyStep P) acc).2 ≤ acc.2 + tr.length := by
  induction tr with
  | nil => intro acc; simp
  | cons x xs ih =>
    intro acc
    rw [List.foldl_cons]
    have h := ih (tallyStep P acc x)
    have hstep : (tallyStep P acc x).2 ≤ acc.2 + 1 := by
      unfold tallyStep
      simp only
      split_ifs <;> simp
    simp only [List.length_cons]
    omega

theorem mispredictedAmong_le {σ : Type} (P : PREDICTOR σ) (s0 : σ)
    (tr : List LoadedInstance) : mispredictedAmong P s0 tr ≤ tr.length := by
  have h := tally_snd_le P tr (s0, 0)
  simpa [mispredictedAmong] using h

theorem snapshotPoints_multiple (T : Nat) (hT : T ∈ snapshotPoints) : T % 1000 = 0 ∧ 0 < T := by
  simp only [snapshotPoints, List.mem_cons, List.mem_singleton, List.not_mem_nil, or_false] at hT
  rcases hT with h | h | h | h | h | h | h | h | h | h | h | h <;> subst h <;> decide

theorem loopHead_inv {σ : Type} (P : PREDICTOR σ) (s0 : σ) (done : List LoadedInstance)
    (x : LoadedInstance) (s : MainState σ) (hinv : MainInv P s0 done s)
    (hlen : done.length + 1 < 2 ^ 64) :
    (loopHead s).numIter = (done ++ [x]).length ∧
    (loopHead s).CheckHeartBeat_numIter = (done ++ [x]).length % 1000 ∧
    ((loopHead s).brpred, (loopHead s).numMispred) = done.foldl (tallyStep P) (s0, 0) ∧
    ∀ T ∈ snapshotPoints, (loopHead s).stats.MPKBr T
      = if T ≤ (done ++ [x]).length then
          some { numMispred := mispredictedAmong P s0 ((done ++ [x]).take (T - 1)),
                 numIter := T }
        else none := by
  obtain ⟨h1, h2, h3, h4⟩ := hinv
  have hm : s.numMispred = mispredictedAmong P s0 done := by
    have := congrArg Prod.snd h3
    simpa [mispredictedAmong] using this
  have e1 : (s.numIter + 1) % 2 ^ 64 = done.length + 1 := by
    rw [h1]; exact Nat.mod_eq_of_lt hlen
  have e2 : (s.CheckHeartBeat_numIter + 1) % 2 ^ 64 = done.length % 1000 + 1 := by
    rw [h2]; apply Nat.mod_eq_of_lt; omega
  have hlen' : (done ++ [x]).length = done.length + 1 := by simp
  have htake : ∀ T, T - 1 ≤ done.length →
      (done ++ [x]).take (T - 1) = done.take (T - 1) := by
    intro T hT
    exact List.take_append_of_le_length hT
  unfold loopHead
  simp only [e1, e2, hlen']
  by_cases hb : done.length % 1000 + 1 = 1000
  · simp only [hb, if_true]
    refine ⟨trivial, by omega, h3, ?_⟩
    intro T hT
    rw [checkHeartBeat_MPKBr _ _ _ _ hT, h4 T hT]
    obtain ⟨hT1, hT2⟩ := snapshotPoints_multiple T hT
    by_cases hTn : done.length + 1 = T
    · have e : T - 1 = done.length := by omega
      have ht : (done ++ [x]).take (T - 1) = done := by
        rw [htake T (by omega), e, List.take_length]
      rw [if_pos hTn, if_pos (by omega), ht, hm, hTn]
    · rw [if_neg hTn]
      by_cases hle : T ≤ done.length
      · rw [if_pos hle, if_pos (by omega), htake T (by omega)]
      · rw [if_neg hle, if_neg (by omega)]
  · simp only [hb, if_false]
    refine ⟨trivial, by omega, h3, ?_⟩
    intro T hT
    rw [h4 T hT]
    obtain ⟨hT1, hT2⟩ := snapshotPoints_multiple T hT
    have hTn : done.length + 1 ≠ T := by omega
    by_cases hle : T ≤ done.length
    · rw [if_pos hle, if_pos (by omega), htake T (by omega)]
    · rw [if_neg hle, if_neg (by omega)]
theorem loopBody_inv {σ : Type} (P : PREDICTOR σ) (s0 : σ) (done : List LoadedInstance)
    (x : LoadedInstance) (s : MainState σ) (hinv : MainInv P s0 done s)
    (hlen : done.length + 1 < 2 ^ 64) :
    MainInv P s0 (done ++ [x]) (loopBody P s x).state := by
  obtain ⟨g1, g2, g3, g4⟩ := loopHead_inv P s0 done x s hinv hlen
  have hm : (loopHead s).numMispred = mispredictedAmong P s0 done := by
    have := congrArg Prod.snd g3
    simpa [mispredictedAmong] using this
  have hmle := mispredictedAmong_le P s0 done
  have e1 : ((loopHead s).numMispred + 1) % 2 ^ 64 = (loopHead s).numMispred + 1 := by
    apply Nat.mod_eq_of_lt; omega
  have hfold : (done ++ [x]).foldl (tallyStep P) (s0, 0)
      = tallyStep P ((loopHead s).brpred, (loopHead s).numMispred) x := by
    rw [List.foldl_append, ← g3]; rfl
  unfold MainInv
  rw [hfold]
  unfold loopBody tallyStep
  by_cases hop : classify x.srcNode.brClass_brBehavior x.srcNode.brNodeIndex
      = OpType.OPTYPE_ERROR
  · simp only [hop, if_true]
    by_cases hidx : x.srcNode.brNodeIndex = 0
    · simp only [hidx, ne_eq, not_true_eq_false, if_false, Outcome.state]
      exact ⟨g1, g2, trivial, g4⟩
    · simp only [hidx, ne_eq, not_false_eq_true, if_true, Outcome.state]
      exact ⟨g1, g2, trivial, g4⟩
  · simp only [hop, if_false]
    by_cases hc : x.srcNode.brClass_brBehavior.conditionality = Conditionality.CONDITIONAL
    · simp only [hc, if_true, Outcome.state, e1]
      refine ⟨g1, g2, ?_, g4⟩
      by_cases hp : (P.GetPrediction (loopHead s).brpred x.srcNode.brVirtualAddr).1
          = x.edge.isTakenPath
      · simp [hp]
      · simp [hp]
    · simp only [hc, if_false]
      by_cases hu : x.srcNode.brClass_brBehavior.conditionality
          = Conditionality.UNCONDITIONAL
      · simp only [hu, if_true, Outcome.state]
        exact ⟨g1, g2, trivial, g4⟩
      · simp only [hu, if_false, Outcome.state]
        exact ⟨g1, g2, trivial, g4⟩

/-- The state in which the loop of `main` ends satisfies the invariant for the instances
that were handled: all of them, or those up to the one on which the process exits. -/
theorem mainLoop_inv {σ : Type} (P : PREDICTOR σ) (s0 : σ) :
    ∀ (rest done : List LoadedInstance) (s : MainState σ), MainInv P s0 done s →
      (done ++ rest).length < 2 ^ 64 →
      ∃ k, k ≤ rest.length ∧ MainInv P s0 (done ++ rest.take k) (mainLoop P s rest).state ∧
        (∀ f, mainLoop P s rest = Outcome.ok f → k = rest.length) := by
  intro rest
  induction rest with
  | nil =>
    intro done s hinv _
    exact ⟨0, Nat.le_refl _, by simpa [mainLoop, Outcome.state] using hinv, fun _ _ => rfl⟩
  | cons x xs ih =>
    intro done s hinv hlen
    have hlen1 : done.length + 1 < 2 ^ 64 := by
      simp only [List.length_append, List.length_cons] at hlen; omega
    have hstep := loopBody_inv P s0 done x s hinv hlen1
    unfold mainLoop
    cases hb : loopBody P s x with
    | ok s' =>
      rw [hb] at hstep
      simp only [Outcome.state] at hstep
      obtain ⟨k, hk, hinv', hok⟩ := ih (done ++ [x]) s' hstep (by simpa using hlen)
      refine ⟨k + 1, by simp only [List.length_cons]; omega, ?_, ?_⟩
      · simpa [List.take_succ_cons, List.append_assoc] using hinv'
      · intro f hf
        have := hok f hf
        simp only [List.length_cons]; omega
    | exited s' =>
      rw [hb] at hstep
      simp only [Outcome.state] at hstep
      refine ⟨1, by simp, ?_, ?_⟩
      · simpa [Outcome.state] using hstep
      · intro f hf; simp at hf

theorem mainInv_init {σ : Type} (P : PREDICTOR σ) (s0 : σ) :
    MainInv P s0 [] { brpred := s0 } := by
  refine ⟨rfl, rfl, rfl, ?_⟩
  intro T hT
  obtain ⟨_, hT2⟩ := snapshotPoints_multiple T hT
  have : ¬ T ≤ 0 := by omega
  simp only [snapshotPoints, List.mem_cons, List.mem_singleton, List.not_mem_nil, or_false] at hT
  rcases hT with h | h | h | h | h | h | h | h | h | h | h | h <;> subst h <;> rfl

/-! #### Claim C10 -/

/-- C10 (as amended): for every trace of fewer than `2^64` instances, every predictor and
every snapshot point `T` of {1K, ..., 10B} that the run reaches (the loop starts its
`T`-th iteration), the recorded `MPKBr_T` is `1000 * m / T` where `m` is the number of
mispredicted conditional branches among the first `T - 1` branch instances: the
numerator passed to `CheckHeartBeat` at `numIter = T` is the misprediction count of
before the `T`-th instance is processed. -/
theorem C10_snapshot_excludes_current_instance {σ : Type} (P : PREDICTOR σ) (s0 : σ)
    (tr : List LoadedInstance) (T : Nat) (hlen : tr.length < 2 ^ 64)
    (hT : T ∈ snapshotPoints)
    (hreach : T ≤ (mainLoop P { brpred := s0 } tr).state.numIter) :
    ∃ snap, (mainLoop P { brpred := s0 } tr).state.stats.MPKBr T = some snap ∧
      snap.numMispred = mispredictedAmong P s0 (tr.take (T - 1)) ∧ snap.numIter = T ∧
      snap.value = 1000 * (mispredictedAmong P s0 (tr.take (T - 1)) : ℚ) / (T : ℚ) := by
  obtain ⟨k, hk, ⟨h1, _, _, h4⟩, _⟩ :=
    mainLoop_inv P s0 tr [] { brpred := s0 } (mainInv_init P s0) (by simpa using hlen)
  simp only [List.nil_append] at h1 h4
  rw [h1] at hreach
  have hT4 := h4 T hT
  rw [if_pos hreach] at hT4
  have hlt : T ≤ k := by
    have := List.length_take_le k tr
    omega
  obtain ⟨_, hT0⟩ := snapshotPoints_multiple T hT
  have htake : (tr.take k).take (T - 1) = tr.take (T - 1) := by
    rw [List.take_take, Nat.min_eq_left (by omega)]
  rw [htake] at hT4
  exact ⟨_, hT4, rfl, rfl, rfl⟩

/-- C10, witness: the 1000 instance trace run on the bimodal predictor reaches the 1K
snapshot point. -/
theorem C10_snapshot_excludes_current_instance_witness :
    ∃ snap, (mainLoop (Bimodal.predictor 6 2) { brpred := Bimodal.init 6 0 2 [1, 1] }
        sampleTrace1000).state.stats.MPKBr 1000 = some snap ∧
      snap.numMispred = mispredictedAmong (Bimodal.predictor 6 2)
        (Bimodal.init 6 0 2 [1, 1]) (sampleTrace1000.take (1000 - 1)) ∧
      snap.numIter = 1000 ∧
      snap.value = 1000 * (mispredictedAmong (Bimodal.predictor 6 2)
        (Bimodal.init 6 0 2 [1, 1]) (sampleTrace1000.take (1000 - 1)) : ℚ) / ((1000 : Nat) : ℚ) :=
  C10_snapshot_excludes_current_instance (Bimodal.predictor 6 2) (Bimodal.init 6 0 2 [1, 1])
    sampleTrace1000 1000 (by decide!) (by decide) (by decide!)

/-- C10, counterexample to the claim as stated: on the bimodal predictor (64 two-bit
counters, initial value 0) the trace of 999 unconditional jumps followed by one taken
conditional branch has one mispredicted conditional branch among its first 1000
instances, but the 1K snapshot records the numerator 0, that is MPKBr_1K = 0 and not
1000 * 1 / 1000. -/
theorem C10_counterexample_thousandth_instance :
    (mainLoop (Bimodal.predictor 6 2) { brpred := Bimodal.init 6 0 2 [1, 1] }
        sampleTrace1000).state.stats.MPKBr 1000
      = some { numMispred := 0, numIter := 1000 } ∧
    mispredictedAmong (Bimodal.predictor 6 2) (Bimodal.init 6 0 2 [1, 1])
      (sampleTrace1000.take 1000) = 1 ∧
    (MPKBr.mk 0 1000).value ≠ 1000 * ((1 : Nat) : ℚ) / ((1000 : Nat) : ℚ) := by
  refine ⟨by decide!, by decide!, ?_⟩
  norm_num [MPKBr.value]

/-! ### The BT10 parser (`bt9_reader.h`) -/

theorem encodeEdgeId_small (id : Nat) (h : id < 255) : encodeEdgeId id = [id] := by
  simp [encodeEdgeId, h]

theorem encodeEdgeId_big (id : Nat) (h : 255 ≤ id) (h32 : id < 2 ^ 32) :
    ∃ b1 b2 b3 b4, encodeEdgeId id = [255, b1, b2, b3, b4] ∧
      b1 + 256 * b2 + 65536 * b3 + 16777216 * b4 = id := by
  refine ⟨id % 256, id / 256 % 256, id / 65536 % 256, id / 16777216 % 256, ?_, ?_⟩
  · have : ¬ id < 255 := by omega
    simp [encodeEdgeId, this]
  · omega

theorem list_front1 {l p q : List Nat} {a : Nat} (hl : 1 ≤ l.length)
    (h : l ++ p = a :: q) : l[0]? = some a ∧ l.drop 1 ++ p = q := by
  cases l with
  | nil => simp at hl
  | cons x xs =>
    simp only [List.cons_append, List.cons.injEq] at h
    simp [h.1, h.2]

theorem list_front5 {l p q : List Nat} {a b c d e : Nat} (hl : 5 ≤ l.length)
    (h : l ++ p = a :: b :: c :: d :: e :: q) :
    l[0]? = some a ∧ l[1]? = some b ∧ l[2]? = some c ∧ l[3]? = some d ∧ l[4]? = some e ∧
      l.drop 5 ++ p = q := by
  match l, hl, h with
  | x0 :: x1 :: x2 :: x3 :: x4 :: xs, _, h =>
    simp only [List.cons_append, List.cons.injEq] at h
    obtain ⟨h0, h1, h2, h3, h4, h5⟩ := h
    simp [h0, h1, h2, h3, h4, h5]

theorem take_set_succ (l : List Nat) (w x : Nat) (hw : w < l.length) :
    (l.set w x).take (w + 1) = l.take w ++ [x] := by
  induction l generalizing w with
  | nil => simp at hw
  | cons a as ih =>
    cases w with
    | zero => simp
    | succ w =>
      simp only [List.length_cons] at hw
      simp [ih w (by omega)]

/-- The state in which the loop of `parser_BT10` decodes a record: after the refill, if
one was due, at least five bytes of `data` are in front of `ptr` and the pending bytes
are the same, possibly followed by bytes that no read has overwritten. -/
theorem refill_front (cfg : BT9Config) (r : BT9Reader) (ids : List Nat)
    (hP : r.Pending cfg ids) (h5 : 5 ≤ cfg.BT10_PARSER_BUFFER_SIZE)
    (h32 : cfg.BT10_PARSER_BUFFER_SIZE < 2 ^ 32) :
    (r.refillIfShort cfg).initiliazed ≠ 0 ∧
      (r.refillIfShort cfg).data.length = cfg.BT10_PARSER_BUFFER_SIZE ∧
      (r.refillIfShort cfg).ptr + 5 ≤ cfg.BT10_PARSER_BUFFER_SIZE ∧
      (∃ junk, (r.refillIfShort cfg).data.drop (r.refillIfShort cfg).ptr
          ++ (r.refillIfShort cfg).pinfile_ = encodeBT10 ids ++ junk) ∧
      (r.refillIfShort cfg).node_table_ = r.node_table_ ∧
      (r.refillIfShort cfg).edge_table_ = r.edge_table_ ∧
      (r.refillIfShort cfg).line_num_ = r.line_num_ ∧
      (r.refillIfShort cfg).reach_eof_ = r.reach_eof_ ∧
      (r.refillIfShort cfg).buffer_ = r.buffer_ ∧
      (r.refillIfShort cfg).buffer_read_ptr_ = r.buffer_read_ptr_ ∧
      (r.refillIfShort cfg).buffer_write_ptr_ = r.buffer_write_ptr_ := by
  obtain ⟨hlen, hptr, _, junk, hav⟩ := hP
  by_cases hinit : r.initiliazed ≠ 0
  · have hbl : r.bytes_left cfg = cfg.BT10_PARSER_BUFFER_SIZE - r.ptr := by
      unfold BT9Reader.bytes_left
      rw [if_pos hinit]
      omega
    unfold BT9Reader.refillIfShort
    rw [hbl]
    simp only [BT9Reader.avail, if_pos hinit] at hav
    by_cases hlt : cfg.BT10_PARSER_BUFFER_SIZE - r.ptr < 5
    · simp only [hlt, if_true, BT9Reader.refillData]
      have htail : (r.data.drop r.ptr).take (cfg.BT10_PARSER_BUFFER_SIZE - r.ptr)
          = r.data.drop r.ptr := by
        apply List.take_of_length_le
        simp [hlen]
      refine ⟨by simp, ?_, by simp; omega, ?_, trivial, trivial, trivial, trivial, trivial, trivial, trivial⟩
      · simp only [List.length_append, List.length_take, List.length_drop, hlen]
        omega
      · simp only [htail, List.drop_zero]
        by_cases hfull : cfg.BT10_PARSER_BUFFER_SIZE - (cfg.BT10_PARSER_BUFFER_SIZE - r.ptr)
            ≤ r.pinfile_.length
        · refine ⟨junk, ?_⟩
          have hdrop : List.drop (cfg.BT10_PARSER_BUFFER_SIZE - r.ptr +
              (List.take (cfg.BT10_PARSER_BUFFER_SIZE -
                (cfg.BT10_PARSER_BUFFER_SIZE - r.ptr)) r.pinfile_).length) r.data = [] := by
            apply List.drop_of_length_le
            simp only [List.length_take, hlen]
            omega
          rw [hdrop, List.append_nil, List.append_assoc, List.take_append_drop]
          exact hav
        · refine ⟨junk ++ List.drop (cfg.BT10_PARSER_BUFFER_SIZE - r.ptr +
              (List.take (cfg.BT10_PARSER_BUFFER_SIZE -
                (cfg.BT10_PARSER_BUFFER_SIZE - r.ptr)) r.pinfile_).length) r.data, ?_⟩
          have htk : List.take (cfg.BT10_PARSER_BUFFER_SIZE -
              (cfg.BT10_PARSER_BUFFER_SIZE - r.ptr)) r.pinfile_ = r.pinfile_ :=
            List.take_of_length_le (by omega)
          have hdr : List.drop (cfg.BT10_PARSER_BUFFER_SIZE -
              (cfg.BT10_PARSER_BUFFER_SIZE - r.ptr)) r.pinfile_ = [] :=
            List.drop_of_length_le (by omega)
          rw [htk, hdr, List.append_nil, ← List.append_assoc (encodeBT10 ids), ← hav]
    · simp only [hlt, if_false]
      exact ⟨hinit, hlen, by omega, ⟨junk, hav⟩, trivial, trivial, trivial, trivial, trivial, trivial, trivial⟩
  · have hbl : r.bytes_left cfg = 0 := by
      unfold BT9Reader.bytes_left
      rw [if_neg hinit]
    unfold BT9Reader.refillIfShort
    rw [hbl]
    simp only [show (0 : Nat) < 5 from by omega, if_true, BT9Reader.refillData]
    simp only [BT9Reader.avail, if_neg hinit, List.nil_append] at hav
    refine ⟨by simp, ?_, by simp; omega, ?_, trivial, trivial, trivial, trivial, trivial, trivial, trivial⟩
    · simp only [List.take_zero, List.nil_append, List.length_append, List.length_take,
        List.length_drop, hlen, Nat.sub_zero, Nat.zero_add]
      omega
    · simp only [List.take_zero, List.nil_append, Nat.sub_zero, Nat.zero_add, List.drop_zero]
      by_cases hfull : cfg.BT10_PARSER_BUFFER_SIZE ≤ r.pinfile_.length
      · refine ⟨junk, ?_⟩
        have hdrop : List.drop (List.take cfg.BT10_PARSER_BUFFER_SIZE r.pinfile_).length
            r.data = [] := by
          apply List.drop_of_length_le
          simp only [List.length_take, hlen]
          omega
        rw [hdrop, List.append_nil, List.take_append_drop]
        exact hav
      · refine ⟨junk ++ List.drop (List.take cfg.BT10_PARSER_BUFFER_SIZE r.pinfile_).length
            r.data, ?_⟩
        have htk : List.take cfg.BT10_PARSER_BUFFER_SIZE r.pinfile_ = r.pinfile_ :=
          List.take_of_length_le (by omega)
        have hdr : List.drop cfg.BT10_PARSER_BUFFER_SIZE r.pinfile_ = [] :=
          List.drop_of_length_le (by omega)
        rw [htk, hdr, List.append_nil, ← List.append_assoc (encodeBT10 ids), ← hav]
/-- Storing a decoded edge ID and going on with the loop. -/
theorem append_and_continue (cfg : BT9Config) (fuel : Nat) (r r2 : BT9Reader)
    (id : Nat) (ids : List Nat)
    (hcap : cfg.EDGE_SEQUENCE_BUFFER_SIZE < 2 ^ 64)
    (hP : r2.Pending cfg ids)
    (hw : r2.buffer_write_ptr_ < cfg.EDGE_SEQUENCE_BUFFER_SIZE)
    (hvalid : id < r2.edge_table_.length)
    (hfuel : min (ids.length + 2) (cfg.EDGE_SEQUENCE_BUFFER_SIZE - r2.buffer_write_ptr_)
      ≤ fuel + 1)
    (hframe : r2.edge_table_ = r.edge_table_ ∧ r2.node_table_ = r.node_table_ ∧
      r2.buffer_read_ptr_ = r.buffer_read_ptr_ ∧ r2.buffer_ = r.buffer_ ∧
      r2.buffer_write_ptr_ = r.buffer_write_ptr_ ∧ r2.reach_eof_ = r.reach_eof_)
    (ih : ∀ r3 : BT9Reader, r3.Pending cfg ids →
      r3.buffer_write_ptr_ < cfg.EDGE_SEQUENCE_BUFFER_SIZE →
      r3.edge_table_ = r2.edge_table_ →
      min (ids.length + 1) (cfg.EDGE_SEQUENCE_BUFFER_SIZE - r3.buffer_write_ptr_) ≤ fuel →
      ∃ r', BT9Reader.parser_BT10_loop cfg fuel r3 = Except.ok r' ∧
        BT9Reader.ParserPost cfg r3 ids r') :
    ∃ r', (match r2.appendToBuffer cfg id with
        | Except.error e => Except.error e
        | Except.ok (r, is_buffer_full) =>
          if is_buffer_full then Except.ok r
          else BT9Reader.parser_BT10_loop cfg fuel r) = Except.ok r' ∧
      BT9Reader.ParserPost cfg r (id :: ids) r' := by
  obtain ⟨hdl, hptr, hbl, junk, hav⟩ := hP
  obtain ⟨f1, f2, f3, f4, f5, f6⟩ := hframe
  have hwl : r2.buffer_write_ptr_ < r2.buffer_.length := by omega
  have hmod : (r2.buffer_write_ptr_ + 1) % 2 ^ 64 = r2.buffer_write_ptr_ + 1 := by
    apply Nat.mod_eq_of_lt; omega
  have hv : r2.isValidEdgeIndex_ id = true := by
    simp [BT9Reader.isValidEdgeIndex_, hvalid]
  have happ : r2.appendToBuffer cfg id = Except.ok
      ({ r2 with buffer_ := r2.buffer_.set r2.buffer_write_ptr_ id,
                 buffer_write_ptr_ := r2.buffer_write_ptr_ + 1,
                 line_num_ := (r2.line_num_ + 1) % 2 ^ 64 },
        decide (r2.buffer_write_ptr_ + 1 ≥ cfg.EDGE_SEQUENCE_BUFFER_SIZE)) := by
    simp only [BT9Reader.appendToBuffer, hv, not_true_eq_false, if_false, hwl, hmod]
  rw [happ]
  have hP3 : BT9Reader.Pending cfg
      { r2 with buffer_ := r2.buffer_.set r2.buffer_write_ptr_ id,
                buffer_write_ptr_ := r2.buffer_write_ptr_ + 1,
                line_num_ := (r2.line_num_ + 1) % 2 ^ 64 } ids :=
    ⟨hdl, hptr, by simp [hbl], junk, hav⟩
  have htake := take_set_succ r2.buffer_ r2.buffer_write_ptr_ id hwl
  by_cases hfull : r2.buffer_write_ptr_ + 1 ≥ cfg.EDGE_SEQUENCE_BUFFER_SIZE
  · simp only [hfull, decide_True, if_true]
    refine ⟨_, rfl, f1, f2, f3, by simp [hbl], ?_, ?_⟩
    · intro hlt
      simp only [List.length_cons] at hlt
      omega
    · intro _
      have e1 : cfg.EDGE_SEQUENCE_BUFFER_SIZE - r.buffer_write_ptr_ = 1 := by omega
      have e2 : cfg.EDGE_SEQUENCE_BUFFER_SIZE = r2.buffer_write_ptr_ + 1 := by omega
      refine ⟨f6, e2.symm, ?_, ?_⟩
      · rw [e1]
        simp only [List.take_succ_cons, List.take_zero]
        rw [← f5, ← f4, ← htake, e2]
      · rw [e1]
        simpa using hP3
  · simp only [hfull, decide_False, Bool.false_eq_true, if_false]
    obtain ⟨r', hrun, g1, g2, g3, g4, g5, g6⟩ := ih _ hP3 (by simp only; omega) rfl
      (by simp only; omega)
    simp only at g1 g2 g3 g5 g6
    refine ⟨r', hrun, g1.trans f1, g2.trans f2, g3.trans f3, g4, ?_, ?_⟩
    · intro hlt
      simp only [List.length_cons] at hlt
      obtain ⟨k1, k2, k3⟩ := g5 (by omega)
      refine ⟨k1, by simp only [List.length_cons]; omega, ?_⟩
      have e : r.buffer_write_ptr_ + (id :: ids).length
          = r2.buffer_write_ptr_ + 1 + ids.length := by
        simp only [List.length_cons]; omega
      rw [e, k3, htake, f4, f5, List.append_assoc]
      rfl
    · intro hge
      simp only [List.length_cons] at hge
      obtain ⟨k1, k2, k3, k4⟩ := g6 (by omega)
      have e : cfg.EDGE_SEQUENCE_BUFFER_SIZE - r.buffer_write_ptr_
          = (cfg.EDGE_SEQUENCE_BUFFER_SIZE - (r2.buffer_write_ptr_ + 1)) + 1 := by omega
      refine ⟨k1.trans f6, k2, ?_, ?_⟩
      · rw [k3, htake, e, List.take_succ_cons, f4, f5, List.append_assoc]
        rfl
      · rw [e, List.drop_succ_cons]
        exact k4
theorem getElem?_drop_add (l : List Nat) (n k : Nat) : (l.drop n)[k]? = l[n + k]? := by
  simp [List.getElem?_drop]

/-- One call of the loop of `parser_BT10` in front of the records of `ids`. -/
theorem parser_BT10_loop_spec (cfg : BT9Config) (h5 : 5 ≤ cfg.BT10_PARSER_BUFFER_SIZE)
    (h32 : cfg.BT10_PARSER_BUFFER_SIZE < 2 ^ 32)
    (hcap : cfg.EDGE_SEQUENCE_BUFFER_SIZE < 2 ^ 64) :
    ∀ (ids : List Nat) (fuel : Nat) (r : BT9Reader), r.Pending cfg ids →
      r.buffer_write_ptr_ < cfg.EDGE_SEQUENCE_BUFFER_SIZE →
      (∀ id ∈ ids, id < r.edge_table_.length ∧ id < 2 ^ 32) →
      min (ids.length + 1) (cfg.EDGE_SEQUENCE_BUFFER_SIZE - r.buffer_write_ptr_) ≤ fuel →
      ∃ r', BT9Reader.parser_BT10_loop cfg fuel r = Except.ok r' ∧
        BT9Reader.ParserPost cfg r ids r' := by
  intro ids
  induction ids with
  | nil =>
    intro fuel r hP hw _ hfuel
    cases fuel with
    | zero => simp only [List.length_nil] at hfuel; omega
    | succ fuel =>
      obtain ⟨q1, q2, q3, ⟨junk, q4⟩, q5, q6, q7, q8, q9, q10, q11⟩ :=
        refill_front cfg r [] hP h5 h32
      have hl : 5 ≤ ((r.refillIfShort cfg).data.drop (r.refillIfShort cfg).ptr).length := by
        simp only [List.length_drop, q2]; omega
      obtain ⟨a0, a1, a2, a3, a4, _⟩ := list_front5 hl q4
      rw [getElem?_drop_add] at a0 a1 a2 a3 a4
      have hm1 : ((r.refillIfShort cfg).ptr + 1) % 2 ^ 32 = (r.refillIfShort cfg).ptr + 1 := by
        apply Nat.mod_eq_of_lt; omega
      have hm2 : ((r.refillIfShort cfg).ptr + 1 + 4) % 2 ^ 32
          = (r.refillIfShort cfg).ptr + 5 := by
        omega
      simp only [Nat.add_zero] at a0
      simp only [BT9Reader.parser_BT10_loop, a0, hm1, if_true,
        show (r.refillIfShort cfg).ptr + 1 + 1 = (r.refillIfShort cfg).ptr + 2 from rfl,
        show (r.refillIfShort cfg).ptr + 1 + 2 = (r.refillIfShort cfg).ptr + 3 from rfl,
        show (r.refillIfShort cfg).ptr + 1 + 3 = (r.refillIfShort cfg).ptr + 4 from rfl,
        a1, a2, a3, a4, Nat.mul_zero, Nat.add_zero]
      refine ⟨_, rfl, q6, q5, q10, by rw [q9]; exact hP.2.2.1, ?_, ?_⟩
      · intro _
        refine ⟨rfl, by simp [q11], ?_⟩
        simp [q9]
      · intro hge
        simp only [List.length_nil] at hge
        omega
  | cons id ids ih =>
    intro fuel r hP hw hvalid hfuel
    cases fuel with
    | zero => simp only [List.length_cons] at hfuel; omega
    | succ fuel =>
      obtain ⟨q1, q2, q3, ⟨junk, q4⟩, q5, q6, q7, q8, q9, q10, q11⟩ :=
        refill_front cfg r (id :: ids) hP h5 h32
      have hl : 5 ≤ ((r.refillIfShort cfg).data.drop (r.refillIfShort cfg).ptr).length := by
        simp only [List.length_drop, q2]; omega
      have hm1 : ((r.refillIfShort cfg).ptr + 1) % 2 ^ 32 = (r.refillIfShort cfg).ptr + 1 := by
        apply Nat.mod_eq_of_lt; omega
      obtain ⟨hid1, hid2⟩ := hvalid id (List.mem_cons_self _ _)
      have hvalid' : ∀ x ∈ ids, x < r.edge_table_.length ∧ x < 2 ^ 32 :=
        fun x hx => hvalid x (List.mem_cons_of_mem _ hx)
      have hfuel' : min (ids.length + 2)
          (cfg.EDGE_SEQUENCE_BUFFER_SIZE - r.buffer_write_ptr_) ≤ fuel + 1 := by
        simpa using hfuel
      by_cases hsmall : id < 255
      · -- one byte record
        have henc : encodeBT10 (id :: ids) ++ junk = id :: (encodeBT10 ids ++ junk) := by
          simp [encodeBT10, encodeEdgeIds, encodeEdgeId_small id hsmall]
        rw [henc] at q4
        obtain ⟨a0, hrest⟩ := list_front1 (by omega) q4
        rw [getElem?_drop_add] at a0
        simp only [Nat.add_zero] at a0
        rw [List.drop_drop] at hrest
        have hne : id ≠ 255 := by omega
        simp only [BT9Reader.parser_BT10_loop, a0, hm1, hne, if_false]
        refine append_and_continue cfg fuel r
          { r.refillIfShort cfg with ptr := (r.refillIfShort cfg).ptr + 1 } id ids hcap
          ?_ (by simp only [q11]; exact hw) (by simp only [q6]; exact hid1)
          (by simp only [q11]; exact hfuel') ⟨q6, q5, q10, q9, q11, q8⟩ ?_
        · refine ⟨q2, by simp only; omega, by rw [q9]; exact hP.2.2.1, junk, ?_⟩
          simp only [BT9Reader.avail, q1, if_true, ne_eq, not_false_eq_true]
          exact hrest
        · intro r3 h1 h2 h3 h4
          exact ih fuel r3 h1 h2 (by rw [h3]; simp only [q6]; exact hvalid') h4
      · -- five byte record
        obtain ⟨b1, b2, b3, b4, hb, hsum⟩ := encodeEdgeId_big id (by omega) hid2
        have henc : encodeBT10 (id :: ids) ++ junk
            = 255 :: b1 :: b2 :: b3 :: b4 :: (encodeBT10 ids ++ junk) := by
          simp [encodeBT10, encodeEdgeIds, hb]
        rw [henc] at q4
        obtain ⟨a0, a1, a2, a3, a4, hrest⟩ := list_front5 hl q4
        rw [getElem?_drop_add] at a0 a1 a2 a3 a4
        rw [List.drop_drop] at hrest
        have hm2 : ((r.refillIfShort cfg).ptr + 1 + 4) % 2 ^ 32
            = (r.refillIfShort cfg).ptr + 5 := by
          omega
        have hne0 : id ≠ 0 := by omega
        simp only [Nat.add_zero] at a0
        simp only [BT9Reader.parser_BT10_loop, a0, hm1, if_true,
          show (r.refillIfShort cfg).ptr + 1 + 1 = (r.refillIfShort cfg).ptr + 2 from rfl,
          show (r.refillIfShort cfg).ptr + 1 + 2 = (r.refillIfShort cfg).ptr + 3 from rfl,
          show (r.refillIfShort cfg).ptr + 1 + 3 = (r.refillIfShort cfg).ptr + 4 from rfl,
          a1, a2, a3, a4, hne0, if_false, hm2, hsum]
        refine append_and_continue cfg fuel r
          { r.refillIfShort cfg with ptr := (r.refillIfShort cfg).ptr + 5 } id ids hcap
          ?_ (by simp only [q11]; exact hw) (by simp only [q6]; exact hid1)
          (by simp only [q11]; exact hfuel') ⟨q6, q5, q10, q9, q11, q8⟩ ?_
        · refine ⟨q2, by simp only; omega, by rw [q9]; exact hP.2.2.1, junk, ?_⟩
          simp only [BT9Reader.avail, q1, if_true, ne_eq, not_false_eq_true]
          exact hrest
        · intro r3 h1 h2 h3 h4
          exact ih fuel r3 h1 h2 (by rw [h3]; simp only [q6]; exact hvalid') h4
/-- One refill of the edge buffer in front of the records of `ids`. -/
theorem shift_spec (cfg : BT9Config) (h5 : 5 ≤ cfg.BT10_PARSER_BUFFER_SIZE)
    (h32 : cfg.BT10_PARSER_BUFFER_SIZE < 2 ^ 32)
    (hcap1 : 1 ≤ cfg.EDGE_SEQUENCE_BUFFER_SIZE)
    (hcap : cfg.EDGE_SEQUENCE_BUFFER_SIZE < 2 ^ 64)
    (ids : List Nat) (r : BT9Reader) (hP : r.Pending cfg ids) (heof : r.reach_eof_ = false)
    (hvalid : ∀ id ∈ ids, id < r.edge_table_.length ∧ id < 2 ^ 32) :
    ∃ r', BT9Reader.shiftBT9EdgeSeqListAccessWindow_ cfg r = Except.ok r' ∧
      r'.edge_table_ = r.edge_table_ ∧ r'.node_table_ = r.node_table_ ∧
      r'.buffer_read_ptr_ = r.buffer_read_ptr_ ∧
      r'.buffer_.length = cfg.EDGE_SEQUENCE_BUFFER_SIZE ∧
      (ids.length < cfg.EDGE_SEQUENCE_BUFFER_SIZE →
        r'.reach_eof_ = true ∧ r'.buffer_write_ptr_ = ids.length ∧
        r'.buffer_.take ids.length = ids) ∧
      (cfg.EDGE_SEQUENCE_BUFFER_SIZE ≤ ids.length →
        r'.reach_eof_ = false ∧ r'.buffer_write_ptr_ = cfg.EDGE_SEQUENCE_BUFFER_SIZE ∧
        r'.buffer_.take cfg.EDGE_SEQUENCE_BUFFER_SIZE
          = ids.take cfg.EDGE_SEQUENCE_BUFFER_SIZE ∧
        r'.Pending cfg (ids.drop cfg.EDGE_SEQUENCE_BUFFER_SIZE)) := by
  have hP0 : BT9Reader.Pending cfg { r with buffer_write_ptr_ := 0 } ids := hP
  obtain ⟨r', hrun, g1, g2, g3, g4, g5, g6⟩ :=
    parser_BT10_loop_spec cfg h5 h32 hcap ids (cfg.EDGE_SEQUENCE_BUFFER_SIZE + 1)
      { r with buffer_write_ptr_ := 0 } hP0 (by simp only; omega) hvalid
      (by simp only [Nat.sub_zero]; omega)
  simp only [Nat.sub_zero, Nat.zero_add, List.take_zero, List.nil_append] at g5 g6
  have hle : r'.buffer_write_ptr_ ≤ cfg.EDGE_SEQUENCE_BUFFER_SIZE := by
    by_cases h : ids.length < cfg.EDGE_SEQUENCE_BUFFER_SIZE
    · have := (g5 h).2.1; omega
    · have := (g6 (by omega)).2.1; omega
  refine ⟨r', ?_, g1, g2, g3, g4, g5, ?_⟩
  · unfold BT9Reader.shiftBT9EdgeSeqListAccessWindow_
    rw [if_neg (by simp [heof])]
    unfold BT9Reader.parser_BT10
    rw [hrun]
    simp only [hle, if_true]
  · intro h
    obtain ⟨k1, k2, k3, k4⟩ := g6 h
    exact ⟨k1.trans heof, k2, k3, k4⟩

theorem refills_spec (cfg : BT9Config) (h5 : 5 ≤ cfg.BT10_PARSER_BUFFER_SIZE)
    (h32 : cfg.BT10_PARSER_BUFFER_SIZE < 2 ^ 32)
    (hcap1 : 1 ≤ cfg.EDGE_SEQUENCE_BUFFER_SIZE)
    (hcap : cfg.EDGE_SEQUENCE_BUFFER_SIZE < 2 ^ 64) :
    ∀ (fuel : Nat) (ids : List Nat) (r : BT9Reader), r.Pending cfg ids →
      r.reach_eof_ = false →
      (∀ id ∈ ids, id < r.edge_table_.length ∧ id < 2 ^ 32) →
      ids.length < fuel * cfg.EDGE_SEQUENCE_BUFFER_SIZE →
      ∃ r', BT9Reader.refills cfg fuel r = Except.ok (ids, r') ∧ r'.reach_eof_ = true := by
  intro fuel
  induction fuel with
  | zero => intro ids r _ _ _ h; simp at h
  | succ fuel ih =>
    intro ids r hP heof hvalid hfuel
    obtain ⟨r1, hrun, g1, _, _, _, g5, g6⟩ :=
      shift_spec cfg h5 h32 hcap1 hcap ids r hP heof hvalid
    by_cases hlt : ids.length < cfg.EDGE_SEQUENCE_BUFFER_SIZE
    · obtain ⟨k1, k2, k3⟩ := g5 hlt
      refine ⟨r1, ?_, k1⟩
      simp only [BT9Reader.refills, hrun, k1, if_true, k2, k3]
    · obtain ⟨k1, k2, k3, k4⟩ := g6 (by omega)
      have hlen : (ids.drop cfg.EDGE_SEQUENCE_BUFFER_SIZE).length
          < fuel * cfg.EDGE_SEQUENCE_BUFFER_SIZE := by
        simp only [List.length_drop]
        rw [Nat.succ_mul] at hfuel
        omega
      obtain ⟨r2, hrun2, heof2⟩ := ih (ids.drop cfg.EDGE_SEQUENCE_BUFFER_SIZE) r1 k4 k1
        (fun id hid => by rw [g1]; exact hvalid id (List.mem_of_mem_drop hid)) hlen
      refine ⟨r2, ?_, heof2⟩
      simp only [BT9Reader.refills, hrun, k1, Bool.false_eq_true, if_false, hrun2, k2, k3,
        List.take_append_drop]

theorem atBinarySection_pending (cfg : BT9Config) (nodes : List BT9ReaderNodeRecord)
    (edges : List BT9ReaderEdgeRecord) (S trailing : List Nat) :
    (BT9Reader.atBinarySection cfg nodes edges (encodeBT10 S ++ trailing)).Pending cfg S := by
  refine ⟨by simp [BT9Reader.atBinarySection], by simp [BT9Reader.atBinarySection],
    by simp [BT9Reader.atBinarySection], trailing, ?_⟩
  simp [BT9Reader.avail, BT9Reader.atBinarySection]

/-! #### Claim C3 -/

/-- C3 (BT10 round trip): with the records of the specification (one byte per ID in
[0,254], `0xFF` and a 32-bit little-endian word per ID >= 255, so 254 takes one byte and
255 five) and the terminator `0xFF 00 00 00 00`, for every sequence `S` of edge IDs of
the edge table (32-bit values), every staging buffer size `>= 5` (a `uint32_t` value),
every capacity of the edge buffer and whatever follows the terminator, the successive
refills of `parser_BT10` append exactly the IDs of `S`, in order, to the edge buffer, and
`reach_eof_` is set by the refill that appends the last of them and by no earlier one. -/
theorem C3_BT10_round_trip (cfg : BT9Config) (nodes : List BT9ReaderNodeRecord)
    (edges : List BT9ReaderEdgeRecord) (S trailing : List Nat)
    (h5 : 5 ≤ cfg.BT10_PARSER_BUFFER_SIZE) (h32 : cfg.BT10_PARSER_BUFFER_SIZE < 2 ^ 32)
    (hcap1 : 1 ≤ cfg.EDGE_SEQUENCE_BUFFER_SIZE)
    (hcap : cfg.EDGE_SEQUENCE_BUFFER_SIZE < 2 ^ 64)
    (hS : ∀ id ∈ S, id < edges.length ∧ id < 2 ^ 32) :
    encodeEdgeId 254 = [254] ∧ encodeEdgeId 255 = [255, 255, 0, 0, 0] ∧
    ∃ r', BT9Reader.refills cfg (S.length / cfg.EDGE_SEQUENCE_BUFFER_SIZE + 1)
        (BT9Reader.atBinarySection cfg nodes edges (encodeBT10 S ++ trailing))
        = Except.ok (S, r') ∧ r'.reach_eof_ = true := by
  refine ⟨by decide, by decide, ?_⟩
  apply refills_spec cfg h5 h32 hcap1 hcap _ S _
    (atBinarySection_pending cfg nodes edges S trailing) rfl hS
  exact Nat.lt_mul_of_div_lt (Nat.lt_succ_self _) (by omega)

/-- C3, witness: three edge IDs (one of them with a five byte record), a staging buffer
of 8 bytes and an edge buffer of 2 entries. -/
theorem C3_BT10_round_trip_witness :
    encodeEdgeId 254 = [254] ∧ encodeEdgeId 255 = [255, 255, 0, 0, 0] ∧
    ∃ r', BT9Reader.refills sampleConfig ([1, 256, 7].length / sampleConfig.EDGE_SEQUENCE_BUFFER_SIZE + 1)
        (BT9Reader.atBinarySection sampleConfig [] sampleEdges (encodeBT10 [1, 256, 7] ++ []))
        = Except.ok ([1, 256, 7], r') ∧ r'.reach_eof_ = true :=
  C3_BT10_round_trip sampleConfig [] sampleEdges [1, 256, 7] [] (by decide)
    (by norm_num [sampleConfig]) (by decide) (by norm_num [sampleConfig])
    (by decide!)

/-! ### The branch instance iterator (`bt9_reader.h`) -/

theorem window_head (buf : List Nat) (rp wp id : Nat) (W : List Nat)
    (h : (buf.take wp).drop rp = id :: W) :
    rp < wp ∧ buf[rp]? = some id ∧ (buf.take wp).drop (rp + 1) = W := by
  have hlen : ((buf.take wp).drop rp).length = W.length + 1 := by rw [h]; rfl
  simp only [List.length_drop, List.length_take] at hlen
  have h1 : rp < wp := by omega
  have h0 : ((buf.take wp).drop rp)[0]? = some id := by rw [h]; simp
  rw [getElem?_drop_add, Nat.add_zero, List.getElem?_take_of_lt h1] at h0
  refine ⟨h1, h0, ?_⟩
  have : (buf.take wp).drop (rp + 1) = ((buf.take wp).drop rp).drop 1 := by
    rw [List.drop_drop, Nat.add_comm]
  rw [this, h]
  rfl

theorem moveToNext_refill (cfg : BT9Config) (r1 r2 : BT9Reader) (idx : Nat)
    (hge : r1.buffer_read_ptr_ ≥ r1.buffer_write_ptr_) (hr : r1.reach_eof_ = false)
    (hshift : BT9Reader.shiftBT9EdgeSeqListAccessWindow_ cfg r1 = Except.ok r2) :
    BT9Reader.moveToNextEdgeSeqListEntry_ cfg r1 idx
      = if r2.reach_eof_ && decide (r2.buffer_write_ptr_ = 0)
        then Except.ok (r2, (idx + 1) % 2 ^ 64, true)
        else Except.ok ({ r2 with buffer_read_ptr_ := 0 }, (idx + 1) % 2 ^ 64, false) := by
  unfold BT9Reader.moveToNextEdgeSeqListEntry_
  simp only [hge, if_true, hr, Bool.false_eq_true, if_false, hshift]

/-- One iteration of the loop: the dereference yields the instance of the next edge ID
and the increment re-establishes the invariant for the IDs after it. -/
theorem loop_step (cfg : BT9Config) (h5 : 5 ≤ cfg.BT10_PARSER_BUFFER_SIZE)
    (h32 : cfg.BT10_PARSER_BUFFER_SIZE < 2 ^ 32)
    (hcap1 : 1 ≤ cfg.EDGE_SEQUENCE_BUFFER_SIZE)
    (hcap : cfg.EDGE_SEQUENCE_BUFFER_SIZE < 2 ^ 64)
    (edges : List BT9ReaderEdgeRecord) (r : BT9Reader) (it : BranchInstanceIterator)
    (id : Nat) (R : List Nat)
    (hinv : BT9Reader.LoopInv cfg edges r it (id :: R))
    (hvalid : ∀ x ∈ id :: R, x < edges.length ∧ x < 2 ^ 32) :
    it.ne BT9Reader.end_ = true ∧
    ∃ r1 it1 r2 it2, it.deref r = Except.ok (r1, it1, instanceOfEdge edges id) ∧
      it1.increment cfg r1 = Except.ok (r2, it2) ∧
      BT9Reader.LoopInv cfg edges r2 it2 R := by
  obtain ⟨he, hv, hend, hgo⟩ := hinv
  have hre : it.reach_end_ = false := by
    cases h : it.reach_end_ with
    | false => rfl
    | true => have := hend h; simp at this
  obtain ⟨W, rest, hR, hW, hrw, hwc, hbl, hwin, heof, hpend⟩ := hgo hre
  cases W with
  | nil => exact absurd rfl hW
  | cons w W' =>
    simp only [List.cons_append, List.cons.injEq] at hR
    obtain ⟨hid, hR'⟩ := hR
    subst hid
    obtain ⟨hlt, hget, hwin'⟩ := window_head _ _ _ _ _ hwin
    obtain ⟨hidv, _⟩ := hvalid id (List.mem_cons_self _ _)
    have hvalidR : ∀ x ∈ R, x < edges.length ∧ x < 2 ^ 32 :=
      fun x hx => hvalid x (List.mem_cons_of_mem _ hx)
    have hmod : (r.buffer_read_ptr_ + 1) % 2 ^ 64 = r.buffer_read_ptr_ + 1 := by
      apply Nat.mod_eq_of_lt; omega
    have hedge : r.edge_table_[id]? = some edges[id] := by
      rw [he]; exact List.getElem?_eq_getElem hidv
    have hinst : instanceOfEdge edges id
        = { src_node_rec_ptr_ := some edges[id].src_node_id_,
            dest_node_rec_ptr_ := some edges[id].dest_node_id_,
            edge_rec_ptr_ := some id, valid_ := true } := by
      simp [instanceOfEdge, List.getElem?_eq_getElem hidv]
    refine ⟨by simp [BranchInstanceIterator.ne, BranchInstanceIterator.eq, hre,
      BT9Reader.end_], ?_⟩
    have hderef : it.deref r = Except.ok
        ({ r with buffer_read_ptr_ := r.buffer_read_ptr_ + 1 },
         { it with br_inst_ := instanceOfEdge edges id }, instanceOfEdge edges id) := by
      simp only [BranchInstanceIterator.deref, hv, Bool.not_false, if_true,
        BT9Reader.loadBT9BranchInstance_, BT9Reader.getEdgeSeqListEntry_, hlt,
        not_true_eq_false, if_false, hget, hmod, hedge, hinst]
    refine ⟨{ r with buffer_read_ptr_ := r.buffer_read_ptr_ + 1 },
      { it with br_inst_ := instanceOfEdge edges id }, ?_⟩
    -- the increment
    have hincr : ∀ (r2 : BT9Reader) (flag : Bool),
        BT9Reader.moveToNextEdgeSeqListEntry_ cfg
          { r with buffer_read_ptr_ := r.buffer_read_ptr_ + 1 } it.index_
          = Except.ok (r2, (it.index_ + 1) % 2 ^ 64, flag) →
        BranchInstanceIterator.increment cfg
          { r with buffer_read_ptr_ := r.buffer_read_ptr_ + 1 }
          { it with br_inst_ := instanceOfEdge edges id }
          = Except.ok (r2, { reach_end_ := flag, index_ := (it.index_ + 1) % 2 ^ 64,
                             br_inst_ := BT9BranchInstance.invalid }) := by
      intro r2 flag h
      simp only [BranchInstanceIterator.increment, hre, Bool.not_false, if_true, h]
    by_cases hmore : r.buffer_read_ptr_ + 1 ≥ r.buffer_write_ptr_
    · -- the window is used up
      have hW' : W' = [] := by
        have hl : ((r.buffer_.take r.buffer_write_ptr_).drop (r.buffer_read_ptr_ + 1)).length
            = W'.length := by rw [hwin']
        simp only [List.length_drop, List.length_take] at hl
        apply List.eq_nil_of_length_eq_zero
        omega
      subst hW'
      simp only [List.nil_append] at hR'
      by_cases hr : r.reach_eof_ = true
      · have hrest := heof hr
        refine ⟨{ r with buffer_read_ptr_ := r.buffer_read_ptr_ + 1 }, _, hderef,
          hincr _ true ?_, ?_⟩
        · simp only [BT9Reader.moveToNextEdgeSeqListEntry_, hmore, hr, if_true]
        · refine ⟨he, rfl, ?_, ?_⟩
          · intro _; rw [hR', hrest]
          · intro h; simp at h
      · have hr : r.reach_eof_ = false := by simpa using hr
        have hP := hpend hr
        have hP1 : BT9Reader.Pending cfg
            { r with buffer_read_ptr_ := r.buffer_read_ptr_ + 1 } rest := hP
        obtain ⟨r2, hshift, s1, _, _, s4, s5, s6⟩ :=
          shift_spec cfg h5 h32 hcap1 hcap rest
            { r with buffer_read_ptr_ := r.buffer_read_ptr_ + 1 } hP1 hr
            (by simp only [he]; rw [← hR']; exact hvalidR)
        simp only at s1
        by_cases hshort : rest.length < cfg.EDGE_SEQUENCE_BUFFER_SIZE
        · obtain ⟨k1, k2, k3⟩ := s5 hshort
          by_cases hz : rest = []
          · refine ⟨r2, _, hderef, hincr _ true ?_, ?_⟩
            · rw [moveToNext_refill cfg { r with buffer_read_ptr_ := r.buffer_read_ptr_ + 1 } r2
                it.index_ hmore hr hshift]
              simp only [k1, k2, hz, List.length_nil, decide_True, Bool.and_self, if_true]
            · refine ⟨s1.trans he, rfl, ?_, ?_⟩
              · intro _; rw [hR', hz]
              · intro h; simp at h
          · have hnz : rest.length ≠ 0 := fun h => hz (List.eq_nil_of_length_eq_zero h)
            refine ⟨{ r2 with buffer_read_ptr_ := 0 }, _, hderef, hincr _ false ?_, ?_⟩
            · rw [moveToNext_refill cfg { r with buffer_read_ptr_ := r.buffer_read_ptr_ + 1 } r2
                it.index_ hmore hr hshift]
              simp only [k1, k2, hnz, decide_False, Bool.and_false, Bool.false_eq_true,
                if_false]
            · refine ⟨s1.trans he, rfl, ?_, ?_⟩
              · intro h; simp at h
              · intro _
                refine ⟨rest, [], by simp [hR'], hz, Nat.zero_le _, by simp only; omega,
                  s4, ?_, fun _ => rfl, ?_⟩
                · simp only [k2, k3, List.drop_zero]
                · intro h; simp only [k1] at h; exact absurd h (by simp)
        · obtain ⟨k1, k2, k3, k4⟩ := s6 (by omega)
          have hcz : cfg.EDGE_SEQUENCE_BUFFER_SIZE ≠ 0 := by omega
          refine ⟨{ r2 with buffer_read_ptr_ := 0 }, _, hderef, hincr _ false ?_, ?_⟩
          · rw [moveToNext_refill cfg { r with buffer_read_ptr_ := r.buffer_read_ptr_ + 1 } r2
                it.index_ hmore hr hshift]
            simp only [k1, Bool.false_and, Bool.false_eq_true, if_false]
          · refine ⟨s1.trans he, rfl, ?_, ?_⟩
            · intro h; simp at h
            · intro _
              refine ⟨rest.take cfg.EDGE_SEQUENCE_BUFFER_SIZE,
                rest.drop cfg.EDGE_SEQUENCE_BUFFER_SIZE,
                by rw [List.take_append_drop]; exact hR', ?_, Nat.zero_le _,
                by simp only; omega, s4, ?_, ?_, fun _ => k4⟩
              · intro h
                have := congrArg List.length h
                simp only [List.length_take, List.length_nil] at this
                omega
              · simp only [k2, k3, List.drop_zero]
              · intro h; simp only [k1] at h; exact absurd h (by simp)
    · -- the window holds more IDs
      refine ⟨{ r with buffer_read_ptr_ := r.buffer_read_ptr_ + 1 }, _, hderef,
        hincr _ false ?_, ?_⟩
      · simp only [BT9Reader.moveToNextEdgeSeqListEntry_, hmore, if_false]
      · refine ⟨he, rfl, ?_, ?_⟩
        · intro h; simp at h
        · intro _
          have hW'ne : W' ≠ [] := by
            intro h
            have hl : ((r.buffer_.take r.buffer_write_ptr_).drop
                (r.buffer_read_ptr_ + 1)).length = W'.length := by rw [hwin']
            simp only [List.length_drop, List.length_take, h, List.length_nil] at hl
            omega
          exact ⟨W', rest, hR', hW'ne, by simp only; omega, hwc, hbl, hwin', heof, hpend⟩
/-- The loop of `main` observes the instances of the edge IDs that are left, then ends. -/
theorem forEachInstance_spec (cfg : BT9Config) (h5 : 5 ≤ cfg.BT10_PARSER_BUFFER_SIZE)
    (h32 : cfg.BT10_PARSER_BUFFER_SIZE < 2 ^ 32)
    (hcap1 : 1 ≤ cfg.EDGE_SEQUENCE_BUFFER_SIZE)
    (hcap : cfg.EDGE_SEQUENCE_BUFFER_SIZE < 2 ^ 64)
    (edges : List BT9ReaderEdgeRecord) :
    ∀ (R : List Nat) (fuel : Nat) (r : BT9Reader) (it : BranchInstanceIterator),
      BT9Reader.LoopInv cfg edges r it R →
      (∀ x ∈ R, x < edges.length ∧ x < 2 ^ 32) → R.length + 1 ≤ fuel →
      ∃ r' it', BT9Reader.forEachInstance cfg fuel r it
          = Except.ok (R.map (instanceOfEdge edges), r', it') ∧
        it'.reach_end_ = true := by
  intro R
  induction R with
  | nil =>
    intro fuel r it hinv _ hfuel
    cases fuel with
    | zero => omega
    | succ fuel =>
      obtain ⟨_, _, _, hgo⟩ := hinv
      have hre : it.reach_end_ = true := by
        cases h : it.reach_end_ with
        | true => rfl
        | false =>
          obtain ⟨W, rest, hR, hW, _⟩ := hgo h
          cases W with
          | nil => exact absurd rfl hW
          | cons w W' => simp at hR
      refine ⟨r, it, ?_, hre⟩
      simp [BT9Reader.forEachInstance, BranchInstanceIterator.ne, BranchInstanceIterator.eq,
        hre, BT9Reader.end_]
  | cons id R ih =>
    intro fuel r it hinv hvalid hfuel
    cases fuel with
    | zero => omega
    | succ fuel =>
      obtain ⟨hne, r1, it1, r2, it2, hderef, hincr, hinv2⟩ :=
        loop_step cfg h5 h32 hcap1 hcap edges r it id R hinv hvalid
      obtain ⟨r', it', hrun, hend⟩ := ih fuel r2 it2 hinv2
        (fun x hx => hvalid x (List.mem_cons_of_mem _ hx))
        (by simp only [List.length_cons] at hfuel; omega)
      refine ⟨r', it', ?_, hend⟩
      simp only [BT9Reader.forEachInstance, hne, if_true, hderef, hincr, hrun, List.map_cons]

theorem init_loopInv (cfg : BT9Config) (h5 : 5 ≤ cfg.BT10_PARSER_BUFFER_SIZE)
    (h32 : cfg.BT10_PARSER_BUFFER_SIZE < 2 ^ 32)
    (hcap1 : 1 ≤ cfg.EDGE_SEQUENCE_BUFFER_SIZE)
    (hcap : cfg.EDGE_SEQUENCE_BUFFER_SIZE < 2 ^ 64)
    (nodes : List BT9ReaderNodeRecord) (edges : List BT9ReaderEdgeRecord)
    (S trailing : List Nat) (hne : S ≠ [])
    (hS : ∀ id ∈ S, id < edges.length ∧ id < 2 ^ 32) :
    ∃ r0, BT9Reader.initBT9EdgeSeqListAccessWindow_ cfg
        (BT9Reader.atBinarySection cfg nodes edges (encodeBT10 S ++ trailing)) = Except.ok r0 ∧
      BT9Reader.LoopInv cfg edges r0 BT9Reader.begin S := by
  obtain ⟨r0, hshift, s1, _, s3, s4, s5, s6⟩ :=
    shift_spec cfg h5 h32 hcap1 hcap S _ (atBinarySection_pending cfg nodes edges S trailing)
      rfl hS
  have hlen0 : S.length ≠ 0 := fun h => hne (List.eq_nil_of_length_eq_zero h)
  have hrp : r0.buffer_read_ptr_ = 0 := s3
  refine ⟨r0, hshift, s1, rfl, ?_, ?_⟩
  · intro h; simp [BT9Reader.begin] at h
  · intro _
    by_cases hshort : S.length < cfg.EDGE_SEQUENCE_BUFFER_SIZE
    · obtain ⟨k1, k2, k3⟩ := s5 hshort
      refine ⟨S, [], by simp, hne, by omega, by omega, s4, ?_, fun _ => rfl, ?_⟩
      · rw [hrp, k2, k3, List.drop_zero]
      · intro h; rw [k1] at h; exact absurd h (by simp)
    · obtain ⟨k1, k2, k3, k4⟩ := s6 (by omega)
      refine ⟨S.take cfg.EDGE_SEQUENCE_BUFFER_SIZE, S.drop cfg.EDGE_SEQUENCE_BUFFER_SIZE,
        (List.take_append_drop _ _).symm, ?_, by omega, by omega, s4, ?_, ?_, fun _ => k4⟩
      · intro h
        have := congrArg List.length h
        simp only [List.length_take, List.length_nil] at this
        omega
      · rw [hrp, k2, k3, List.drop_zero]
      · intro h; rw [k1] at h; exact absurd h (by simp)

/-! #### Claim C2 -/

/-- C2: for every non-empty sequence `S` of valid edge IDs stored in the binary section
(of any length), every staging buffer size `>= 5` and every capacity `>= 1` of the edge
buffer, the constructor fills the first window and the loop
`for (it = begin(); it != end(); ++it)` that dereferences the iterator in every
iteration observes exactly `|S|` branch instances, the `k`-th one being built from the
edge ID `S[k]`, and then stops with `it == end()`. -/
theorem C2_loop_observes_every_edge (cfg : BT9Config) (nodes : List BT9ReaderNodeRecord)
    (edges : List BT9ReaderEdgeRecord) (S trailing : List Nat)
    (h5 : 5 ≤ cfg.BT10_PARSER_BUFFER_SIZE) (h32 : cfg.BT10_PARSER_BUFFER_SIZE < 2 ^ 32)
    (hcap1 : 1 ≤ cfg.EDGE_SEQUENCE_BUFFER_SIZE)
    (hcap : cfg.EDGE_SEQUENCE_BUFFER_SIZE < 2 ^ 64)
    (hne : S ≠ []) (hS : ∀ id ∈ S, id < edges.length ∧ id < 2 ^ 32) :
    ∃ r0 r' it', BT9Reader.initBT9EdgeSeqListAccessWindow_ cfg
        (BT9Reader.atBinarySection cfg nodes edges (encodeBT10 S ++ trailing)) = Except.ok r0 ∧
      BT9Reader.forEachInstance cfg (S.length + 1) r0 BT9Reader.begin
        = Except.ok (S.map (instanceOfEdge edges), r', it') ∧
      (S.map (instanceOfEdge edges)).length = S.length ∧
      (∀ k (hk : k < S.length), (S.map (instanceOfEdge edges))[k]?
        = some (instanceOfEdge edges S[k])) ∧
      it'.ne BT9Reader.end_ = false := by
  obtain ⟨r0, hinit, hinv⟩ := init_loopInv cfg h5 h32 hcap1 hcap nodes edges S trailing hne hS
  obtain ⟨r', it', hrun, hend⟩ :=
    forEachInstance_spec cfg h5 h32 hcap1 hcap edges S (S.length + 1) r0 BT9Reader.begin hinv hS
      (Nat.le_refl _)
  refine ⟨r0, r', it', hinit, hrun, by simp, ?_, ?_⟩
  · intro k hk
    simp [List.getElem?_eq_getElem hk]
  · simp [BranchInstanceIterator.ne, BranchInstanceIterator.eq, hend, BT9Reader.end_]

/-- C2, witness: three edge IDs (one of them with a five byte record), a staging buffer
of 8 bytes and an edge buffer of 2 entries, so that the end of the sequence is met in
the second refill. -/
theorem C2_loop_observes_every_edge_witness :
    ∃ r0 r' it', BT9Reader.initBT9EdgeSeqListAccessWindow_ sampleConfig
        (BT9Reader.atBinarySection sampleConfig [] sampleEdges
          (encodeBT10 [1, 256, 7] ++ [])) = Except.ok r0 ∧
      BT9Reader.forEachInstance sampleConfig ([1, 256, 7].length + 1) r0 BT9Reader.begin
        = Except.ok ([1, 256, 7].map (instanceOfEdge sampleEdges), r', it') ∧
      ([1, 256, 7].map (instanceOfEdge sampleEdges)).length = [1, 256, 7].length ∧
      (∀ k (hk : k < [1, 256, 7].length), ([1, 256, 7].map (instanceOfEdge sampleEdges))[k]?
        = some (instanceOfEdge sampleEdges ([1, 256, 7][k]))) ∧
      it'.ne BT9Reader.end_ = false :=
  C2_loop_observes_every_edge sampleConfig [] sampleEdges [1, 256, 7] [] (by decide)
    (by norm_num [sampleConfig]) (by decide) (by norm_num [sampleConfig]) (by decide)
    (by decide!)

/-! ### The 2bc-gskew predictor -/

theorem mask32_eq (n : Nat) (h : n ≤ 31) : mask32 n = 2 ^ n - 1 := by
  unfold mask32
  have hp : (2 : Nat) ^ n ≤ 2 ^ 31 := Nat.pow_le_pow_right (by omega) h
  have h0 : 0 < (2 : Nat) ^ n := Nat.pow_pos (by omega)
  rw [Nat.one_shiftLeft]
  omega

theorem sext32_mask32 (n : Nat) (h : n ≤ 31) : sext32 (mask32 n) = 2 ^ n - 1 := by
  rw [mask32_eq n h]
  unfold sext32
  have hp : (2 : Nat) ^ n ≤ 2 ^ 31 := Nat.pow_le_pow_right (by omega) h
  have h0 : 0 < (2 : Nat) ^ n := Nat.pow_pos (by omega)
  rw [if_pos (by omega)]

theorem masked_lt (x n : Nat) (h : n ≤ 31) : (x &&& sext32 (mask32 n)) % 2 ^ 32 < 2 ^ n := by
  rw [sext32_mask32 n h]
  have h1 : x &&& (2 ^ n - 1) ≤ 2 ^ n - 1 := Nat.and_le_right
  have h0 : 0 < (2 : Nat) ^ n := Nat.pow_pos (by omega)
  have h2 := Nat.mod_le (x &&& (2 ^ n - 1)) (2 ^ 32)
  omega

/-- The loop of `INDEX` ends within the fuel that `INDEX` grants: more fuel does not
change its result once `64 <= i + fuel`. -/
theorem INDEX_loop_fuel (L funct : Nat) :
    ∀ (fuel k i hm inter : Nat), 64 ≤ i + fuel →
      INDEX_loop L funct (fuel + k) i hm inter = INDEX_loop L funct fuel i hm inter := by
  intro fuel
  induction fuel with
  | zero =>
    intro k i hm inter h
    have hi : ¬ i < 64 := by omega
    cases k with
    | zero => rfl
    | succ k => simp only [Nat.zero_add, INDEX_loop, hi, if_false]
  | succ fuel ih =>
    intro k i hm inter h
    have e : fuel + 1 + k = (fuel + k) + 1 := by omega
    rw [e]
    by_cases hi : i < 64
    · simp only [INDEX_loop, hi, if_true]
      exact ih k _ _ _ (by omega)
    · simp only [INDEX_loop, hi, if_false]

/-- Every index function returns a value of `LOGSIZE` bits. -/
theorem INDEX_lt (L Add histo m funct : Nat) (hL : L ≤ 31)
    (hf : funct = 1 ∨ funct = 2 ∨ funct = 3 ∨ funct = 4) :
    ∃ i, INDEX L Add histo m funct = some i ∧ i < 2 ^ L := by
  have k1 : ∀ a, F1 L a < 2 ^ L := fun a => masked_lt _ L hL
  have k2 : ∀ a, F2 L a < 2 ^ L := fun a => masked_lt _ L hL
  have k3 : ∀ a, F3 L a < 2 ^ L := fun a => masked_lt _ L hL
  have k4 : ∀ a, F4 L a < 2 ^ L := fun a => masked_lt _ L hL
  rcases hf with h | h | h | h <;> subst h
  · simp only [INDEX, show ¬ (1 = 4) from by decide, if_false, if_true]
    exact ⟨_, rfl, k1 _⟩
  · simp only [INDEX, show ¬ (2 = 4) from by decide, show ¬ (2 = 1) from by decide,
      if_false, if_true]
    exact ⟨_, rfl, k2 _⟩
  · simp only [INDEX, show ¬ (3 = 4) from by decide, show ¬ (3 = 1) from by decide,
      show ¬ (3 = 2) from by decide, if_false, if_true]
    exact ⟨_, rfl, k3 _⟩
  · simp only [INDEX, if_true]
    exact ⟨_, rfl, k4 _⟩

theorem xor_le_three : ∀ n, n ≤ 3 → ∀ k, k ≤ 3 → n ^^^ k ≤ 3 := by decide

/-- The `int` expression `(INDEX << 2) + bank` for an index of `L` bits and a bank
number: no wrap, and `L + 2` bits. -/
theorem banked_index_lt (i L bank : Nat) (hi : i < 2 ^ L) (hL : L + 2 ≤ 31)
    (hb : bank ≤ 3) :
    ((i <<< 2) % 2 ^ 32 + bank) % 2 ^ 32 < 2 ^ (L + 2) := by
  have hp : (2 : Nat) ^ (L + 2) ≤ 2 ^ 31 := Nat.pow_le_pow_right (by omega) hL
  have e : (2 : Nat) ^ (L + 2) = 4 * 2 ^ L := by ring
  rw [Nat.shiftLeft_eq]
  omega

theorem sar32_eq_zero (x k : Nat) (hx : x < 2 ^ k) (hk : k ≤ 31) : sar32 x k = 0 := by
  have hp : (2 : Nat) ^ k ≤ 2 ^ 31 := Nat.pow_le_pow_right (by omega) hk
  unfold sar32
  rw [if_pos (by omega), Nat.shiftRight_eq_div_pow]
  exact Nat.div_eq_of_lt hx

/-- The indices of `get_prediction`: they are always computed, the G0 and G1 indices have
`LOGPRED - 1` bits and the BIM and META indices `LOGPRED - 2` bits. -/
theorem get_prediction_indices_spec (cfg : GskewConfig) (hv : cfg.Valid) (ghist PC : Nat) :
    ∃ ix, get_prediction_indices cfg ghist PC = some ix ∧
      ix.indexg0 < 2 ^ (cfg.LOGPRED - 1) ∧ ix.indexg1 < 2 ^ (cfg.LOGPRED - 1) ∧
      ix.indexbim < 2 ^ (cfg.LOGPRED - 2) ∧ ix.indexmeta < 2 ^ (cfg.LOGPRED - 2) := by
  obtain ⟨h9, h31, -⟩ := hv
  unfold get_prediction_indices
  simp only
  obtain ⟨i0, e0, b0⟩ := INDEX_lt (cfg.LOGPRED - 3)
    (sext32 (sar32 (PC % 2 ^ 32) 4 ^^^ PC % 2 ^ 32)
      ^^^ sar64 (sext32 (sar32 (PC % 2 ^ 32) 4 ^^^ PC % 2 ^ 32)) 5)
    (ghist ^^^ shl64 (ghist &&& 3) 5) cfg.L_G0 1 (by omega) (Or.inl rfl)
  obtain ⟨i1, e1, b1⟩ := INDEX_lt (cfg.LOGPRED - 3)
    (sext32 (sar32 (PC % 2 ^ 32) 4 ^^^ PC % 2 ^ 32)
      ^^^ sar64 (sext32 (sar32 (PC % 2 ^ 32) 4 ^^^ PC % 2 ^ 32)) 5)
    (ghist ^^^ shl64 (ghist &&& 3) 5) cfg.L_G1 2 (by omega) (Or.inr (Or.inl rfl))
  obtain ⟨i2, e2, b2⟩ := INDEX_lt (cfg.LOGPRED - 4)
    (sext32 (sar32 (PC % 2 ^ 32) 4 ^^^ PC % 2 ^ 32)
      ^^^ sar64 (sext32 (sar32 (PC % 2 ^ 32) 4 ^^^ PC % 2 ^ 32)) 5)
    (ghist ^^^ shl64 (ghist &&& 3) 5) cfg.L_BIM 3 (by omega) (Or.inr (Or.inr (Or.inl rfl)))
  obtain ⟨i3, e3, b3⟩ := INDEX_lt (cfg.LOGPRED - 4)
    (sext32 (sar32 (PC % 2 ^ 32) 4 ^^^ PC % 2 ^ 32)
      ^^^ sar64 (sext32 (sar32 (PC % 2 ^ 32) 4 ^^^ PC % 2 ^ 32)) 5)
    (ghist ^^^ shl64 (ghist &&& 3) 5) cfg.L_META 4 (by omega) (Or.inr (Or.inr (Or.inr rfl)))
  rw [e0, e1]
  simp only
  rw [e2, e3]
  simp only
  have hn : ((sar32 (PC % 2 ^ 32) 4 ^^^ PC % 2 ^ 32) ^^^ ghist % 2 ^ 32) &&& 3 ≤ 3 :=
    Nat.and_le_right
  have g1 : cfg.LOGPRED - 3 + 2 = cfg.LOGPRED - 1 := by omega
  have g2 : cfg.LOGPRED - 4 + 2 = cfg.LOGPRED - 2 := by omega
  refine ⟨_, rfl, ?_, ?_, ?_, ?_⟩
  · have := banked_index_lt i0 (cfg.LOGPRED - 3) _ b0 (by omega) hn
    rwa [g1] at this
  · have := banked_index_lt i1 (cfg.LOGPRED - 3) _ b1 (by omega) (xor_le_three _ hn 1 (by omega))
    rwa [g1] at this
  · have := banked_index_lt i2 (cfg.LOGPRED - 4) _ b2 (by omega) (xor_le_three _ hn 2 (by omega))
    rwa [g2] at this
  · have := banked_index_lt i3 (cfg.LOGPRED - 4) _ b3 (by omega) (xor_le_three _ hn 3 (by omega))
    rwa [g2] at this

theorem update_predictor_indices_eq (cfg : GskewConfig) (ghist PC : Nat) :
    update_predictor_indices cfg ghist PC = get_prediction_indices cfg ghist PC := rfl

theorem gskew_sizes (cfg : GskewConfig) (hv : cfg.Valid) :
    2 ^ (cfg.LOGPRED - 1) ≤ cfg.sizeGOG1 ∧ 2 ^ (cfg.LOGPRED - 2) ≤ cfg.sizeBIMMETA ∧
    2 ^ (cfg.LOGPRED - 2) ≤ cfg.sizeHYST := by
  obtain ⟨h9, h31, _, _, _, _, s1, s2, s3⟩ := hv
  refine ⟨Nat.pow_le_pow_right (by omega) (by omega),
    Nat.pow_le_pow_right (by omega) (by omega), Nat.pow_le_pow_right (by omega) (by omega)⟩
theorem hystIndex_lt (cfg : GskewConfig) (hv : cfg.Valid) (index : Nat) :
    hystIndex cfg index < 2 ^ (cfg.LOGPRED - 2) := by
  obtain ⟨h9, h31, -⟩ := hv
  unfold hystIndex
  rw [mask32_eq _ (by omega)]
  have h1 : index &&& (2 ^ (cfg.LOGPRED - 2) - 1) ≤ 2 ^ (cfg.LOGPRED - 2) - 1 :=
    Nat.and_le_right
  have h0 : 0 < (2 : Nat) ^ (cfg.LOGPRED - 2) := Nat.pow_pos (by omega)
  omega

/-! #### Claim C4 -/

/-- C4: for build constants in the defined range, every PC and every state of the tables
and of the history, `get_prediction` computes its four indices, passes its `ASSERT`s and
returns `(pbim + pg0 + pg1 > 1)` when the META prediction bit read at the META index is
non-zero and `(pbim > 0)` otherwise, where `pg0`, `pg1` are the `GOG1` entries at the G0
and G1 indices and `pbim` is the `BIMMETA` entry at the BIM index; the tables and the
history are left as they are. -/
theorem C4_get_prediction_vote (cfg : GskewConfig) (hv : cfg.Valid) (s : GskewState)
    (PC : Nat) :
    ∃ ix s1, get_prediction_indices cfg s.ghist PC = some ix ∧
      get_prediction cfg s PC
        = some (if s.BIMMETA ix.indexmeta ≠ 0
            then decide (s.BIMMETA ix.indexbim + s.GOG1 ix.indexg0 + s.GOG1 ix.indexg1 > 1)
            else decide (s.BIMMETA ix.indexbim > 0), s1) ∧
      s1.GOG1 = s.GOG1 ∧ s1.BIMMETA = s.BIMMETA ∧ s1.HYST = s.HYST ∧ s1.ghist = s.ghist := by
  obtain ⟨ix, hix, b0, b1, b2, b3⟩ := get_prediction_indices_spec cfg hv s.ghist PC
  obtain ⟨z0, z1, z2⟩ := gskew_sizes cfg hv
  have h31 : cfg.LOGPRED ≤ 31 := hv.2.1
  have a0 := sar32_eq_zero _ _ b0 (by omega)
  have a1 := sar32_eq_zero _ _ b1 (by omega)
  have a2 := sar32_eq_zero _ _ b2 (by omega)
  have a3 := sar32_eq_zero _ _ b3 (by omega)
  have c0 : ix.indexg0 < cfg.sizeGOG1 := by omega
  have c1 : ix.indexg1 < cfg.sizeGOG1 := by omega
  have c2 : ix.indexbim < cfg.sizeBIMMETA := by omega
  have c3 : ix.indexmeta < cfg.sizeBIMMETA := by omega
  refine ⟨ix, { s with LOGSIZE := cfg.LOGPRED - 4 }, hix, ?_, rfl, rfl, rfl, rfl⟩
  simp only [get_prediction, hix, a0, a1, a2, a3, ne_eq, not_true_eq_false, if_false,
    readTable, c0, c1, c2, c3, if_true]
/-- C4, witness: the reference constants, the zero initialised tables and `PC = 1`. -/
theorem C4_get_prediction_vote_witness :
    ∃ ix s1, get_prediction_indices sampleGskew GskewState.zero.ghist 1 = some ix ∧
      get_prediction sampleGskew GskewState.zero 1
        = some (if GskewState.zero.BIMMETA ix.indexmeta ≠ 0
            then decide (GskewState.zero.BIMMETA ix.indexbim + GskewState.zero.GOG1 ix.indexg0
              + GskewState.zero.GOG1 ix.indexg1 > 1)
            else decide (GskewState.zero.BIMMETA ix.indexbim > 0), s1) ∧
      s1.GOG1 = GskewState.zero.GOG1 ∧ s1.BIMMETA = GskewState.zero.BIMMETA ∧
      s1.HYST = GskewState.zero.HYST ∧ s1.ghist = GskewState.zero.ghist :=
  C4_get_prediction_vote sampleGskew (by unfold GskewConfig.Valid; decide) GskewState.zero 1

/-! #### Claim C5 -/

/-- C5 (as amended): for build constants in the defined range, every state, PC, outcome
and random draw, `update_predictor(PC, taken)` computes its four table indices and its
internal prediction from the global history of before the call, so they are the indices
and the result that `get_prediction(PC)` computes on the same state (whatever `predDir`
the driver passes); it writes `GOG1` only at the G0 and G1 indices, `BIMMETA` only at the
BIM and META indices, and `HYST` only at the G0 and G1 indices reduced to
`LOGPRED - 2` bits and at the BIM and META indices; and the history becomes
`(ghist << 1) + taken` modulo `2^64`. -/
theorem C5_update_uses_pre_call_history (cfg : GskewConfig) (hv : cfg.Valid)
    (s : GskewState) (PC : Nat) (taken : Bool) (rnd : Nat) :
    update_predictor_indices cfg s.ghist PC = get_prediction_indices cfg s.ghist PC ∧
    (∀ (opType : OpType) (predDir predDir' : Bool) (branchTarget : Nat),
      Gskew.UpdatePredictor cfg s PC opType taken predDir branchTarget rnd
        = Gskew.UpdatePredictor cfg s PC opType taken predDir' branchTarget rnd) ∧
    ∃ ix l s1 s', update_predictor_indices cfg s.ghist PC = some ix ∧
      update_predictor_recompute cfg s ix = some l ∧
      get_prediction cfg s PC = some (l.prediction, s1) ∧
      update_predictor cfg s PC taken rnd = some s' ∧
      (∀ j, j ≠ ix.indexg0 → j ≠ ix.indexg1 → s'.GOG1 j = s.GOG1 j) ∧
      (∀ j, j ≠ ix.indexbim → j ≠ ix.indexmeta → s'.BIMMETA j = s.BIMMETA j) ∧
      (∀ j, j ≠ hystIndex cfg ix.indexg0 → j ≠ hystIndex cfg ix.indexg1 →
        j ≠ ix.indexbim → j ≠ ix.indexmeta → s'.HYST j = s.HYST j) ∧
      s'.ghist = (2 * s.ghist + (if taken then 1 else 0)) % 2 ^ 64 := by
  refine ⟨rfl, fun _ _ _ _ => rfl, ?_⟩
  obtain ⟨ix, hix, b0, b1, b2, b3⟩ := get_prediction_indices_spec cfg hv s.ghist PC
  obtain ⟨z0, z1, z2⟩ := gskew_sizes cfg hv
  have h31 : cfg.LOGPRED ≤ 31 := hv.2.1
  have a0 := sar32_eq_zero _ _ b0 (by omega)
  have a1 := sar32_eq_zero _ _ b1 (by omega)
  have a2 := sar32_eq_zero _ _ b2 (by omega)
  have a3 := sar32_eq_zero _ _ b3 (by omega)
  have c0 : ix.indexg0 < cfg.sizeGOG1 := by omega
  have c1 : ix.indexg1 < cfg.sizeGOG1 := by omega
  have c2 : ix.indexbim < cfg.sizeBIMMETA := by omega
  have c3 : ix.indexmeta < cfg.sizeBIMMETA := by omega
  have d0 : hystIndex cfg ix.indexg0 < cfg.sizeHYST := by
    have := hystIndex_lt cfg hv ix.indexg0; omega
  have d1 : hystIndex cfg ix.indexg1 < cfg.sizeHYST := by
    have := hystIndex_lt cfg hv ix.indexg1; omega
  have d2 : ix.indexbim < cfg.sizeHYST := by omega
  have d3 : ix.indexmeta < cfg.sizeHYST := by omega
  have hrec : update_predictor_recompute cfg s ix = some
      { pg0 := s.GOG1 ix.indexg0, pg1 := s.GOG1 ix.indexg1, pbim := s.BIMMETA ix.indexbim,
        pmeta := s.BIMMETA ix.indexmeta,
        PESKEW := toChar (s.BIMMETA ix.indexbim + s.GOG1 ix.indexg0 + s.GOG1 ix.indexg1),
        peskew := decide (s.BIMMETA ix.indexbim + s.GOG1 ix.indexg0 + s.GOG1 ix.indexg1 > 1),
        psmall := decide (s.BIMMETA ix.indexbim > 0),
        prediction := if s.BIMMETA ix.indexmeta ≠ 0
          then decide (s.BIMMETA ix.indexbim + s.GOG1 ix.indexg0 + s.GOG1 ix.indexg1 > 1)
          else decide (s.BIMMETA ix.indexbim > 0) } := by
    simp only [update_predictor_recompute, readTable, c0, c1, c2, c3, if_true]
  have hget : get_prediction cfg s PC = some
      (if s.BIMMETA ix.indexmeta ≠ 0
          then decide (s.BIMMETA ix.indexbim + s.GOG1 ix.indexg0 + s.GOG1 ix.indexg1 > 1)
          else decide (s.BIMMETA ix.indexbim > 0), { s with LOGSIZE := cfg.LOGPRED - 4 }) := by
    simp only [get_prediction, hix, a0, a1, a2, a3, ne_eq, not_true_eq_false, if_false,
      readTable, c0, c1, c2, c3, if_true]
  refine ⟨ix, _, _, ?_, hix, hrec, hget, ?_⟩
  · exact (update_predictor cfg s PC taken rnd).getD s
  · have hupd : ∃ s', update_predictor cfg s PC taken rnd = some s' ∧
        (∀ j, j ≠ ix.indexg0 → j ≠ ix.indexg1 → s'.GOG1 j = s.GOG1 j) ∧
        (∀ j, j ≠ ix.indexbim → j ≠ ix.indexmeta → s'.BIMMETA j = s.BIMMETA j) ∧
        (∀ j, j ≠ hystIndex cfg ix.indexg0 → j ≠ hystIndex cfg ix.indexg1 →
          j ≠ ix.indexbim → j ≠ ix.indexmeta → s'.HYST j = s.HYST j) ∧
        s'.ghist = (2 * s.ghist + (if taken then 1 else 0)) % 2 ^ 64 := by
      simp only [update_predictor, update_predictor_indices_eq, hix, hrec, readTable,
        writeTable, c0, c1, c2, c3, d0, d1, d2, d3, if_true]
      refine ⟨_, rfl, ?_, ?_, ?_, ?_⟩
      · intro j h0 h1
        simp only [Function.update_noteq h1, Function.update_noteq h0]
      · intro j h2 h3
        simp only [Function.update_noteq h3, Function.update_noteq h2]
      · intro j h0 h1 h2 h3
        simp only [Function.update_noteq h3, Function.update_noteq h2,
          Function.update_noteq h1, Function.update_noteq h0]
      · simp only [shl64, Nat.shiftLeft_eq]
        cases taken <;> simp <;> omega
    obtain ⟨s', hs', r1, r2, r3, r4⟩ := hupd
    rw [hs']
    exact ⟨rfl, r1, r2, r3, r4⟩

/-- C5, witness: the reference constants, the zero initialised tables, `PC = 1`, a taken
branch and a random draw that does not fire the ping-pong breaker. -/
theorem C5_update_uses_pre_call_history_witness :
    update_predictor_indices sampleGskew GskewState.zero.ghist 1
      = get_prediction_indices sampleGskew GskewState.zero.ghist 1 ∧
    (∀ (opType : OpType) (predDir predDir' : Bool) (branchTarget : Nat),
      Gskew.UpdatePredictor sampleGskew GskewState.zero 1 opType true predDir branchTarget 1
        = Gskew.UpdatePredictor sampleGskew GskewState.zero 1 opType true predDir'
            branchTarget 1) ∧
    ∃ ix l s1 s', update_predictor_indices sampleGskew GskewState.zero.ghist 1 = some ix ∧
      update_predictor_recompute sampleGskew GskewState.zero ix = some l ∧
      get_prediction sampleGskew GskewState.zero 1 = some (l.prediction, s1) ∧
      update_predictor sampleGskew GskewState.zero 1 true 1 = some s' ∧
      (∀ j, j ≠ ix.indexg0 → j ≠ ix.indexg1 → s'.GOG1 j = GskewState.zero.GOG1 j) ∧
      (∀ j, j ≠ ix.indexbim → j ≠ ix.indexmeta → s'.BIMMETA j = GskewState.zero.BIMMETA j) ∧
      (∀ j, j ≠ hystIndex sampleGskew ix.indexg0 → j ≠ hystIndex sampleGskew ix.indexg1 →
        j ≠ ix.indexbim → j ≠ ix.indexmeta → s'.HYST j = GskewState.zero.HYST j) ∧
      s'.ghist = (2 * GskewState.zero.ghist + (if true then 1 else 0)) % 2 ^ 64 :=
  C5_update_uses_pre_call_history sampleGskew (by unfold GskewConfig.Valid; decide)
    GskewState.zero 1 true 1

/-- C5, counterexample to the claim as stated: with the reference constants and zero
initialised tables, `update_predictor(1, taken)` computes the indices 2053 (G0), 90140
(G1), 8263 (BIM) and 194 (META), and changes `HYST[24604]` from 0 to 1, although 24604 is
none of them: it is the G1 index reduced to `LOGPRED - 2 = 16` bits. -/
theorem C5_counterexample_hysteresis_index :
    get_prediction_indices sampleGskew GskewState.zero.ghist 1
      = some { indexg0 := 2053, indexg1 := 90140, indexbim := 8263, indexmeta := 194,
               NUMHYST := 1 } ∧
    (update_predictor sampleGskew GskewState.zero 1 true 1).map (fun s' => s'.HYST 24604)
      = some 1 ∧
    GskewState.zero.HYST 24604 = 0 ∧
    hystIndex sampleGskew 90140 = 24604 := by
  decide!

/-! ### The driver loop (`main.cc`): snapshots, error class, unconditional branches -/

/-- A run of the loop of `main` that ends without `exit` has handled every instance, and
its final state satisfies the invariant for the whole trace. -/
theorem mainLoop_inv_of_isOk {σ : Type} (P : PREDICTOR σ) (s0 : σ) (tr : List LoadedInstance)
    (hlen : tr.length < 2 ^ 64)
    (hrun : (mainLoop P { brpred := s0 } tr).isOk = true) :
    MainInv P s0 tr (mainLoop P { brpred := s0 } tr).state := by
  obtain ⟨k, hk, hinv, hok⟩ :=
    mainLoop_inv P s0 tr [] { brpred := s0 } (mainInv_init P s0) (by simpa using hlen)
  cases hb : mainLoop P { brpred := s0 } tr with
  | ok f =>
    have hkl := hok f hb
    rw [hb] at hinv
    rw [hkl, List.take_length] at hinv
    simpa using hinv
  | exited f =>
    rw [hb] at hrun
    simp [Outcome.isOk] at hrun

/-! #### Claim C11 -/

/-- C11: for a trace of `n` branch instances (fewer than `2^64`) that runs to completion,
the snapshot `MPKBr_T` of a threshold `T` of the list {1K, ..., 10B} is populated if and
only if `n >= T`; in particular a trace of exactly 1000 instances populates `MPKBr_1K`
and no other snapshot, and a trace of exactly 999 instances populates none. -/
theorem C11_snapshot_populated_iff {σ : Type} (P : PREDICTOR σ) (s0 : σ)
    (tr : List LoadedInstance) (hlen : tr.length < 2 ^ 64)
    (hrun : (mainLoop P { brpred := s0 } tr).isOk = true) :
    (∀ T ∈ snapshotPoints,
      ((mainLoop P { brpred := s0 } tr).state.stats.MPKBr T).isSome = true ↔ T ≤ tr.length) ∧
    (tr.length = 1000 → ∀ T ∈ snapshotPoints,
      ((mainLoop P { brpred := s0 } tr).state.stats.MPKBr T).isSome = true ↔ T = 1000) ∧
    (tr.length = 999 → ∀ T ∈ snapshotPoints,
      (mainLoop P { brpred := s0 } tr).state.stats.MPKBr T = none) := by
  obtain ⟨_, _, _, h4⟩ := mainLoop_inv_of_isOk P s0 tr hlen hrun
  have key : ∀ T ∈ snapshotPoints,
      ((mainLoop P { brpred := s0 } tr).state.stats.MPKBr T).isSome = true ↔ T ≤ tr.length := by
    intro T hT
    rw [h4 T hT]
    by_cases hle : T ≤ tr.length
    · simp [hle]
    · simp [hle]
  refine ⟨key, ?_, ?_⟩
  · intro hn T hT
    rw [key T hT, hn]
    simp only [snapshotPoints, List.mem_cons, List.mem_singleton, List.not_mem_nil,
      or_false] at hT
    rcases hT with h | h | h | h | h | h | h | h | h | h | h | h <;> subst h <;> decide
  · intro hn T hT
    rw [h4 T hT, hn]
    simp only [snapshotPoints, List.mem_cons, List.mem_singleton, List.not_mem_nil,
      or_false] at hT
    rcases hT with h | h | h | h | h | h | h | h | h | h | h | h <;> subst h <;> rfl

/-- C11, witness: the trace of 1000 instances run on the bimodal predictor. -/
theorem C11_snapshot_populated_iff_witness :
    (∀ T ∈ snapshotPoints,
      ((mainLoop (Bimodal.predictor 6 2) { brpred := Bimodal.init 6 0 2 [1, 1] }
        sampleTrace1000).state.stats.MPKBr T).isSome = true ↔ T ≤ sampleTrace1000.length) ∧
    (sampleTrace1000.length = 1000 → ∀ T ∈ snapshotPoints,
      ((mainLoop (Bimodal.predictor 6 2) { brpred := Bimodal.init 6 0 2 [1, 1] }
        sampleTrace1000).state.stats.MPKBr T).isSome = true ↔ T = 1000) ∧
    (sampleTrace1000.length = 999 → ∀ T ∈ snapshotPoints,
      (mainLoop (Bimodal.predictor 6 2) { brpred := Bimodal.init 6 0 2 [1, 1] }
        sampleTrace1000).state.stats.MPKBr T = none) :=
  C11_snapshot_populated_iff (Bimodal.predictor 6 2) (Bimodal.init 6 0 2 [1, 1])
    sampleTrace1000 (by decide!) (by decide!)

/-! #### Claim C12 -/

/-- C12: when an instance classifies to `OPTYPE_ERROR`: if its source node index is 0 the
loop body goes on with the state that the head of the loop leaves (no method of the
predictor enters the result), and the predictor, the conditional, the unconditional and the
misprediction counters are unchanged; if its source node index is not 0 the run ends by
`exit(-1)` in that state, whatever instances follow. -/
theorem C12_optype_error {σ : Type} (P : PREDICTOR σ) (s : MainState σ)
    (it : LoadedInstance) (rest : List LoadedInstance)
    (hop : classify it.srcNode.brClass_brBehavior it.srcNode.brNodeIndex
      = OpType.OPTYPE_ERROR) :
    (it.srcNode.brNodeIndex = 0 →
      loopBody P s it = Outcome.ok (loopHead s) ∧
      mainLoop P s (it :: rest) = mainLoop P (loopHead s) rest ∧
      (loopHead s).brpred = s.brpred ∧
      (loopHead s).cond_branch_instruction_counter = s.cond_branch_instruction_counter ∧
      (loopHead s).uncond_branch_instruction_counter = s.uncond_branch_instruction_counter ∧
      (loopHead s).numMispred = s.numMispred) ∧
    (it.srcNode.brNodeIndex ≠ 0 →
      loopBody P s it = Outcome.exited (loopHead s) ∧
      mainLoop P s (it :: rest) = Outcome.exited (loopHead s)) := by
  obtain ⟨h1, h2, h3, h4, _⟩ := loopHead_fields s
  constructor
  · intro h0
    have hb : loopBody P s it = Outcome.ok (loopHead s) := by
      unfold loopBody
      simp only [hop, if_true]
      rw [if_neg (by simp [h0])]
    refine ⟨hb, ?_, h1, h3, h4, h2⟩
    rw [mainLoop, hb]
  · intro h0
    have hb : loopBody P s it = Outcome.exited (loopHead s) := by
      unfold loopBody
      simp only [hop, if_true]
      rw [if_pos h0]
    refine ⟨hb, ?_⟩
    rw [mainLoop, hb]

/-- C12, witness: the sentinel node (index 0, unknown class) followed by a conditional
branch. -/
theorem C12_optype_error_witness :
    (sampleSentinel.srcNode.brNodeIndex = 0 →
      loopBody (Bimodal.predictor 6 2) { brpred := Bimodal.init 6 0 2 [1, 1] } sampleSentinel
        = Outcome.ok (loopHead { brpred := Bimodal.init 6 0 2 [1, 1] }) ∧
      mainLoop (Bimodal.predictor 6 2) { brpred := Bimodal.init 6 0 2 [1, 1] }
          (sampleSentinel :: [sampleCond 68 true])
        = mainLoop (Bimodal.predictor 6 2) (loopHead { brpred := Bimodal.init 6 0 2 [1, 1] })
            [sampleCond 68 true] ∧
      (loopHead ({ brpred := Bimodal.init 6 0 2 [1, 1] } : MainState BimodalState)).brpred
        = Bimodal.init 6 0 2 [1, 1] ∧
      (loopHead ({ brpred := Bimodal.init 6 0 2 [1, 1] } : MainState BimodalState)
        ).cond_branch_instruction_counter = 0 ∧
      (loopHead ({ brpred := Bimodal.init 6 0 2 [1, 1] } : MainState BimodalState)
        ).uncond_branch_instruction_counter = 0 ∧
      (loopHead ({ brpred := Bimodal.init 6 0 2 [1, 1] } : MainState BimodalState)
        ).numMispred = 0) ∧
    (sampleSentinel.srcNode.brNodeIndex ≠ 0 →
      loopBody (Bimodal.predictor 6 2) { brpred := Bimodal.init 6 0 2 [1, 1] } sampleSentinel
        = Outcome.exited (loopHead { brpred := Bimodal.init 6 0 2 [1, 1] }) ∧
      mainLoop (Bimodal.predictor 6 2) { brpred := Bimodal.init 6 0 2 [1, 1] }
          (sampleSentinel :: [sampleCond 68 true])
        = Outcome.exited (loopHead { brpred := Bimodal.init 6 0 2 [1, 1] })) :=
  C12_optype_error (Bimodal.predictor 6 2) { brpred := Bimodal.init 6 0 2 [1, 1] }
    sampleSentinel [sampleCond 68 true] (by decide)
/-- A stretch of non-error unconditional branches: the loop of `main` goes through all of
them, counts each as unconditional and hands each to `TrackOtherInst`, nothing else. -/
theorem mainLoop_unconditional {σ : Type} (P : PREDICTOR σ) :
    ∀ (tr : List LoadedInstance) (s : MainState σ),
      (∀ it ∈ tr, classify it.srcNode.brClass_brBehavior it.srcNode.brNodeIndex
          ≠ OpType.OPTYPE_ERROR ∧
        it.srcNode.brClass_brBehavior.conditionality = Conditionality.UNCONDITIONAL) →
      s.uncond_branch_instruction_counter + tr.length < 2 ^ 64 →
      ∃ f, mainLoop P s tr = Outcome.ok f ∧
        f.cond_branch_instruction_counter = s.cond_branch_instruction_counter ∧
        f.uncond_branch_instruction_counter
          = s.uncond_branch_instruction_counter + tr.length ∧
        f.numMispred = s.numMispred ∧
        f.brpred = tr.foldl (trackOther P) s.brpred := by
  intro tr
  induction tr with
  | nil =>
    intro s _ _
    exact ⟨s, rfl, rfl, rfl, rfl, rfl⟩
  | cons x xs ih =>
    intro s hall hlen
    obtain ⟨hop, hu⟩ := hall x (List.mem_cons_self _ _)
    have hnc : x.srcNode.brClass_brBehavior.conditionality ≠ Conditionality.CONDITIONAL := by
      rw [hu]; decide
    obtain ⟨h1, h2, h3, h4, _⟩ := loopHead_fields s
    simp only [List.length_cons] at hlen
    have e : (s.uncond_branch_instruction_counter + 1) % 2 ^ 64
        = s.uncond_branch_instruction_counter + 1 := by
      apply Nat.mod_eq_of_lt; omega
    obtain ⟨s1, hb, k1, k2, k3, k4⟩ : ∃ s1 : MainState σ, loopBody P s x = Outcome.ok s1 ∧
        s1.cond_branch_instruction_counter = s.cond_branch_instruction_counter ∧
        s1.uncond_branch_instruction_counter = s.uncond_branch_instruction_counter + 1 ∧
        s1.numMispred = s.numMispred ∧ s1.brpred = trackOther P s.brpred x := by
      unfold loopBody
      simp only [hop, hnc, if_false, h1, h4, e]
      rw [if_pos hu]
      exact ⟨_, rfl, h3, rfl, h2, rfl⟩
    obtain ⟨f, hf, g1, g2, g3, g4⟩ := ih s1 (fun it hit => hall it (List.mem_cons_of_mem _ hit))
      (by rw [k2]; omega)
    refine ⟨f, ?_, ?_, ?_, ?_, ?_⟩
    · rw [mainLoop, hb]; exact hf
    · rw [g1]; exact k1
    · rw [g2, k2]; simp only [List.length_cons]; omega
    · rw [g3]; exact k3
    · rw [g4, k4]; rfl

/-! #### Claim C13 -/

/-- C13: for every trace of `n` instances (fewer than `2^64`) whose source nodes all
classify as non-error UNCONDITIONAL branches, the run goes to its end with
`cond_branch_instruction_counter = 0` (NUM_CONDITIONAL_BR), `uncond_branch_instruction_counter
= n` (NUM_UNCOND_BR) and `numMispred = 0` (NUM_MISPREDICTIONS); the predictor state at the
end is the result of the calls of `TrackOtherInst` alone, one per instance in order:
`GetPrediction` and `UpdatePredictor` are never called. -/
theorem C13_unconditional_only {σ : Type} (P : PREDICTOR σ) (s0 : σ)
    (tr : List LoadedInstance) (hlen : tr.length < 2 ^ 64)
    (hall : ∀ it ∈ tr, classify it.srcNode.brClass_brBehavior it.srcNode.brNodeIndex
        ≠ OpType.OPTYPE_ERROR ∧
      it.srcNode.brClass_brBehavior.conditionality = Conditionality.UNCONDITIONAL) :
    ∃ f, mainLoop P { brpred := s0 } tr = Outcome.ok f ∧
      f.cond_branch_instruction_counter = 0 ∧
      f.uncond_branch_instruction_counter = tr.length ∧
      f.numMispred = 0 ∧
      f.brpred = tr.foldl (trackOther P) s0 := by
  obtain ⟨f, hf, g1, g2, g3, g4⟩ :=
    mainLoop_unconditional P tr { brpred := s0 } hall (by simpa using hlen)
  exact ⟨f, hf, g1, by simpa using g2, g3, g4⟩

/-- C13, witness: three unconditional jumps run on the bimodal predictor. -/
theorem C13_unconditional_only_witness :
    ∃ f, mainLoop (Bimodal.predictor 6 2) { brpred := Bimodal.init 6 0 2 [1, 1] }
        [sampleJump 64, sampleJump 72, sampleJump 64] = Outcome.ok f ∧
      f.cond_branch_instruction_counter = 0 ∧
      f.uncond_branch_instruction_counter
        = [sampleJump 64, sampleJump 72, sampleJump 64].length ∧
      f.numMispred = 0 ∧
      f.brpred = [sampleJump 64, sampleJump 72, sampleJump 64].foldl
        (trackOther (Bimodal.predictor 6 2)) (Bimodal.init 6 0 2 [1, 1]) :=
  C13_unconditional_only (Bimodal.predictor 6 2) (Bimodal.init 6 0 2 [1, 1])
    [sampleJump 64, sampleJump 72, sampleJump 64] (by norm_num) (by decide)

/-! ### The edge buffer on arbitrary input (`bt9_reader.h`) -/

/-- What a call of `appendToBuffer` that returns has done. -/
theorem appendToBuffer_ok (cfg : BT9Config) (r r' : BT9Reader) (id : Nat) (full : Bool)
    (h : r.appendToBuffer cfg id = Except.ok (r', full)) :
    id < r.edge_table_.length ∧ r.buffer_write_ptr_ < r.buffer_.length ∧
    r'.edge_table_ = r.edge_table_ ∧ r'.node_table_ = r.node_table_ ∧
    r'.buffer_read_ptr_ = r.buffer_read_ptr_ ∧ r'.reach_eof_ = r.reach_eof_ ∧
    r'.buffer_ = r.buffer_.set r.buffer_write_ptr_ id ∧
    r'.buffer_write_ptr_ = (r.buffer_write_ptr_ + 1) % 2 ^ 64 ∧
    full = decide (r'.buffer_write_ptr_ ≥ cfg.EDGE_SEQUENCE_BUFFER_SIZE) := by
  unfold BT9Reader.appendToBuffer at h
  by_cases hv : r.isValidEdgeIndex_ id = true
  · by_cases hw : r.buffer_write_ptr_ < r.buffer_.length
    · simp only [hv, not_true_eq_false, if_false, hw, Except.ok.injEq, Prod.mk.injEq] at h
      obtain ⟨h1, h2⟩ := h
      subst h1
      refine ⟨?_, hw, rfl, rfl, rfl, rfl, rfl, rfl, h2.symm⟩
      simpa [BT9Reader.isValidEdgeIndex_] using hv
    · simp [hv, hw] at h
  · simp [hv] at h

/-- A call of `appendToBuffer` with an ID that does not index the edge table ends the
process before anything is stored. -/
theorem appendToBuffer_invalid (cfg : BT9Config) (r : BT9Reader) (id : Nat)
    (h : ¬ id < r.edge_table_.length) :
    r.appendToBuffer cfg id = Except.error (BT9Error.InvalidEdgeIndex id) := by
  unfold BT9Reader.appendToBuffer
  simp [BT9Reader.isValidEdgeIndex_, h]

theorem appendToBuffer_bufferValid (cfg : BT9Config) (r r' : BT9Reader) (id : Nat)
    (full : Bool) (h : r.appendToBuffer cfg id = Except.ok (r', full))
    (hv : r.BufferValid) : r'.BufferValid := by
  obtain ⟨h1, h2, h3, _, _, _, h7, h8, _⟩ := appendToBuffer_ok cfg r r' id full h
  intro i hi v hget
  rw [h3]
  rw [h8] at hi
  rw [h7] at hget
  have hle : (r.buffer_write_ptr_ + 1) % 2 ^ 64 ≤ r.buffer_write_ptr_ + 1 := Nat.mod_le _ _
  by_cases hiw : i = r.buffer_write_ptr_
  · subst hiw
    rw [List.getElem?_set_self h2] at hget
    simp only [Option.some.injEq] at hget
    omega
  · rw [List.getElem?_set_ne (Ne.symm hiw)] at hget
    exact hv i (by omega) v hget

theorem refillIfShort_frame (cfg : BT9Config) (r : BT9Reader) :
    (r.refillIfShort cfg).edge_table_ = r.edge_table_ ∧
    (r.refillIfShort cfg).node_table_ = r.node_table_ ∧
    (r.refillIfShort cfg).buffer_ = r.buffer_ ∧
    (r.refillIfShort cfg).buffer_read_ptr_ = r.buffer_read_ptr_ ∧
    (r.refillIfShort cfg).buffer_write_ptr_ = r.buffer_write_ptr_ := by
  unfold BT9Reader.refillIfShort
  split_ifs
  · exact ⟨rfl, rfl, rfl, rfl, rfl⟩
  · exact ⟨rfl, rfl, rfl, rfl, rfl⟩

/-- Whatever bytes the parser meets, a call of its loop that returns leaves the tables and
the read pointer alone, keeps the size of the buffer, and has stored valid edge IDs
only. -/
theorem parser_BT10_loop_frame (cfg : BT9Config) :
    ∀ (fuel : Nat) (r r' : BT9Reader), BT9Reader.parser_BT10_loop cfg fuel r = Except.ok r' →
      r'.edge_table_ = r.edge_table_ ∧ r'.node_table_ = r.node_table_ ∧
      r'.buffer_read_ptr_ = r.buffer_read_ptr_ ∧ r'.buffer_.length = r.buffer_.length ∧
      (r.BufferValid → r'.BufferValid) := by
  intro fuel
  induction fuel with
  | zero => intro r r' h; simp [BT9Reader.parser_BT10_loop] at h
  | succ fuel ih =>
    intro r r' h
    obtain ⟨q1, q2, q3, q4, q5⟩ := refillIfShort_frame cfg r
    have hbv : r.BufferValid → (r.refillIfShort cfg).BufferValid := by
      intro hv i hi v hget
      rw [q1]
      rw [q5] at hi
      rw [q3] at hget
      exact hv i hi v hget
    -- the common tail: store an ID and go on
    have tail : ∀ (r2 : BT9Reader) (id : Nat),
        r2.edge_table_ = r.edge_table_ → r2.node_table_ = r.node_table_ →
        r2.buffer_read_ptr_ = r.buffer_read_ptr_ → r2.buffer_.length = r.buffer_.length →
        (r.BufferValid → r2.BufferValid) →
        (match r2.appendToBuffer cfg id with
          | Except.error e => Except.error e
          | Except.ok (r, is_buffer_full) =>
            if is_buffer_full then Except.ok r
            else BT9Reader.parser_BT10_loop cfg fuel r) = Except.ok r' →
        r'.edge_table_ = r.edge_table_ ∧ r'.node_table_ = r.node_table_ ∧
        r'.buffer_read_ptr_ = r.buffer_read_ptr_ ∧ r'.buffer_.length = r.buffer_.length ∧
        (r.BufferValid → r'.BufferValid) := by
      intro r2 id e1 e2 e3 e4 e5 hrun
      cases happ : r2.appendToBuffer cfg id with
      | error e => rw [happ] at hrun; simp at hrun
      | ok p =>
        obtain ⟨r3, full⟩ := p
        rw [happ] at hrun
        obtain ⟨_, _, a3, a4, a5, _, a7, _, _⟩ := appendToBuffer_ok cfg r2 r3 id full happ
        have hlen3 : r3.buffer_.length = r.buffer_.length := by
          rw [a7, List.length_set, e4]
        have hbv3 : r.BufferValid → r3.BufferValid :=
          fun hv => appendToBuffer_bufferValid cfg r2 r3 id full happ (e5 hv)
        cases full with
        | true =>
          simp only [if_true, Except.ok.injEq] at hrun
          subst hrun
          exact ⟨a3.trans e1, a4.trans e2, a5.trans e3, hlen3, hbv3⟩
        | false =>
          simp only [Bool.false_eq_true, if_false] at hrun
          obtain ⟨g1, g2, g3, g4, g5⟩ := ih r3 r' hrun
          exact ⟨g1.trans (a3.trans e1), g2.trans (a4.trans e2), g3.trans (a5.trans e3),
            g4.trans hlen3, fun hv => g5 (hbv3 hv)⟩
    rw [BT9Reader.parser_BT10_loop] at h
    simp only at h
    split at h
    · simp at h
    · rename_i b0 hb0
      by_cases h255 : b0 = 255
      · simp only [h255, if_true] at h
        split at h
        · rename_i b1 b2 b3 b4 _ _ _ _
          generalize b1 + 256 * b2 + 65536 * b3 + 16777216 * b4 = new_edge at h
          by_cases hz : new_edge = 0
          · simp only [hz, if_true, Except.ok.injEq] at h
            subst h
            refine ⟨q1, q2, q4, by rw [← q3], ?_⟩
            intro hv
            exact hbv hv
          · simp only [hz, if_false] at h
            refine tail _ _ ?_ ?_ ?_ ?_ ?_ h
            · exact q1
            · exact q2
            · exact q4
            · show (r.refillIfShort cfg).buffer_.length = r.buffer_.length
              rw [q3]
            · exact hbv
        · simp at h
      · simp only [h255, if_false] at h
        refine tail _ _ ?_ ?_ ?_ ?_ ?_ h
        · exact q1
        · exact q2
        · exact q4
        · show (r.refillIfShort cfg).buffer_.length = r.buffer_.length
          rw [q3]
        · exact hbv

/-- Whatever bytes follow, a refill of the edge buffer that returns leaves the tables and
the read pointer alone, and the buffer holds valid edge IDs only, at most
`EDGE_SEQUENCE_BUFFER_SIZE` of them. -/
theorem shift_frame (cfg : BT9Config) (r r' : BT9Reader)
    (h : BT9Reader.shiftBT9EdgeSeqListAccessWindow_ cfg r = Except.ok r') :
    r'.edge_table_ = r.edge_table_ ∧ r'.node_table_ = r.node_table_ ∧
    r'.buffer_read_ptr_ = r.buffer_read_ptr_ ∧ r'.buffer_.length = r.buffer_.length ∧
    r'.buffer_write_ptr_ ≤ cfg.EDGE_SEQUENCE_BUFFER_SIZE ∧ r'.BufferValid := by
  unfold BT9Reader.shiftBT9EdgeSeqListAccessWindow_ at h
  by_cases he : r.reach_eof_ = true
  · simp [he] at h
  · rw [if_neg he] at h
    cases hp : BT9Reader.parser_BT10 cfg { r with buffer_write_ptr_ := 0 } with
    | error e => rw [hp] at h; simp at h
    | ok r1 =>
      rw [hp] at h
      simp only at h
      by_cases hle : r1.buffer_write_ptr_ ≤ cfg.EDGE_SEQUENCE_BUFFER_SIZE
      · simp only [hle, if_true, Except.ok.injEq] at h
        subst h
        obtain ⟨g1, g2, g3, g4, g5⟩ := parser_BT10_loop_frame cfg _ _ _ hp
        refine ⟨g1, g2, g3, g4, hle, g5 ?_⟩
        intro i hi
        simp at hi
      · simp [hle] at h
theorem appendToBuffer_valid (cfg : BT9Config) (r : BT9Reader) (id : Nat)
    (hv : id < r.edge_table_.length) (hw : r.buffer_write_ptr_ < r.buffer_.length)
    (h64 : r.buffer_write_ptr_ + 1 < 2 ^ 64) :
    r.appendToBuffer cfg id = Except.ok
      ({ r with buffer_ := r.buffer_.set r.buffer_write_ptr_ id,
                buffer_write_ptr_ := r.buffer_write_ptr_ + 1,
                line_num_ := (r.line_num_ + 1) % 2 ^ 64 },
        decide (r.buffer_write_ptr_ + 1 ≥ cfg.EDGE_SEQUENCE_BUFFER_SIZE)) := by
  have hmod : (r.buffer_write_ptr_ + 1) % 2 ^ 64 = r.buffer_write_ptr_ + 1 :=
    Nat.mod_eq_of_lt h64
  have hv' : r.isValidEdgeIndex_ id = true := by
    simp [BT9Reader.isValidEdgeIndex_, hv]
  simp only [BT9Reader.appendToBuffer, hv', not_true_eq_false, if_false, hw, hmod]

/-- One iteration of the loop of `parser_BT10` in front of the record of `id`: the record
is decoded and handed to `appendToBuffer`, the parser then stands in front of the records
that follow. -/
theorem parser_decode_step (cfg : BT9Config) (h5 : 5 ≤ cfg.BT10_PARSER_BUFFER_SIZE)
    (h32 : cfg.BT10_PARSER_BUFFER_SIZE < 2 ^ 32) (r : BT9Reader) (id : Nat) (ids : List Nat)
    (hP : r.Pending cfg (id :: ids)) (hid : id < 2 ^ 32) :
    ∃ r2 : BT9Reader, r2.Pending cfg ids ∧ r2.edge_table_ = r.edge_table_ ∧
      r2.buffer_write_ptr_ = r.buffer_write_ptr_ ∧
      ∀ fuel, BT9Reader.parser_BT10_loop cfg (fuel + 1) r =
        (match r2.appendToBuffer cfg id with
          | Except.error e => Except.error e
          | Except.ok (r, is_buffer_full) =>
            if is_buffer_full then Except.ok r
            else BT9Reader.parser_BT10_loop cfg fuel r) := by
  obtain ⟨q1, q2, q3, ⟨junk, q4⟩, q5, q6, q7, q8, q9, q10, q11⟩ :=
    refill_front cfg r (id :: ids) hP h5 h32
  have hl : 5 ≤ ((r.refillIfShort cfg).data.drop (r.refillIfShort cfg).ptr).length := by
    simp only [List.length_drop, q2]; omega
  have hm1 : ((r.refillIfShort cfg).ptr + 1) % 2 ^ 32 = (r.refillIfShort cfg).ptr + 1 := by
    apply Nat.mod_eq_of_lt; omega
  by_cases hsmall : id < 255
  · have henc : encodeBT10 (id :: ids) ++ junk = id :: (encodeBT10 ids ++ junk) := by
      simp [encodeBT10, encodeEdgeIds, encodeEdgeId_small id hsmall]
    rw [henc] at q4
    obtain ⟨a0, hrest⟩ := list_front1 (by omega) q4
    rw [getElem?_drop_add] at a0
    simp only [Nat.add_zero] at a0
    rw [List.drop_drop] at hrest
    have hne : id ≠ 255 := by omega
    refine ⟨{ r.refillIfShort cfg with ptr := (r.refillIfShort cfg).ptr + 1 }, ?_, q6, q11, ?_⟩
    · refine ⟨q2, by simp only; omega, by rw [q9]; exact hP.2.2.1, junk, ?_⟩
      simp only [BT9Reader.avail, q1, if_true, ne_eq, not_false_eq_true]
      exact hrest
    · intro fuel
      simp only [BT9Reader.parser_BT10_loop, a0, hm1, hne, if_false]
  · obtain ⟨b1, b2, b3, b4, hb, hsum⟩ := encodeEdgeId_big id (by omega) hid
    have henc : encodeBT10 (id :: ids) ++ junk
        = 255 :: b1 :: b2 :: b3 :: b4 :: (encodeBT10 ids ++ junk) := by
      simp [encodeBT10, encodeEdgeIds, hb]
    rw [henc] at q4
    obtain ⟨a0, a1, a2, a3, a4, hrest⟩ := list_front5 hl q4
    rw [getElem?_drop_add] at a0 a1 a2 a3 a4
    rw [List.drop_drop] at hrest
    have hm2 : ((r.refillIfShort cfg).ptr + 1 + 4) % 2 ^ 32
        = (r.refillIfShort cfg).ptr + 5 := by
      omega
    have hne0 : id ≠ 0 := by omega
    simp only [Nat.add_zero] at a0
    refine ⟨{ r.refillIfShort cfg with ptr := (r.refillIfShort cfg).ptr + 5 }, ?_, q6, q11, ?_⟩
    · refine ⟨q2, by simp only; omega, by rw [q9]; exact hP.2.2.1, junk, ?_⟩
      simp only [BT9Reader.avail, q1, if_true, ne_eq, not_false_eq_true]
      exact hrest
    · intro fuel
      simp only [BT9Reader.parser_BT10_loop, a0, hm1, if_true,
        show (r.refillIfShort cfg).ptr + 1 + 1 = (r.refillIfShort cfg).ptr + 2 from rfl,
        show (r.refillIfShort cfg).ptr + 1 + 2 = (r.refillIfShort cfg).ptr + 3 from rfl,
        show (r.refillIfShort cfg).ptr + 1 + 3 = (r.refillIfShort cfg).ptr + 4 from rfl,
        a1, a2, a3, a4, hne0, if_false, hm2, hsum]

/-- Outcome of a call of the loop of `parser_BT10` in front of the records of `ids`, of
which the call decodes at most as many as the buffer has room for: it returns when all of
these index the edge table, and ends the process on the first that does not. -/
theorem parser_BT10_loop_outcome (cfg : BT9Config) (h5 : 5 ≤ cfg.BT10_PARSER_BUFFER_SIZE)
    (h32 : cfg.BT10_PARSER_BUFFER_SIZE < 2 ^ 32)
    (hcap : cfg.EDGE_SEQUENCE_BUFFER_SIZE < 2 ^ 64) :
    ∀ (ids : List Nat) (fuel : Nat) (r : BT9Reader), r.Pending cfg ids →
      r.buffer_write_ptr_ < cfg.EDGE_SEQUENCE_BUFFER_SIZE →
      (∀ id ∈ ids, id < 2 ^ 32) →
      min (ids.length + 1) (cfg.EDGE_SEQUENCE_BUFFER_SIZE - r.buffer_write_ptr_) ≤ fuel →
      ((∀ id ∈ ids.take (cfg.EDGE_SEQUENCE_BUFFER_SIZE - r.buffer_write_ptr_),
          id < r.edge_table_.length) →
        ∃ r', BT9Reader.parser_BT10_loop cfg fuel r = Except.ok r' ∧
          r'.buffer_write_ptr_ ≤ cfg.EDGE_SEQUENCE_BUFFER_SIZE) ∧
      ((∃ id ∈ ids.take (cfg.EDGE_SEQUENCE_BUFFER_SIZE - r.buffer_write_ptr_),
          ¬ id < r.edge_table_.length) →
        ∃ e, e ∈ ids.take (cfg.EDGE_SEQUENCE_BUFFER_SIZE - r.buffer_write_ptr_) ∧
          ¬ e < r.edge_table_.length ∧
          BT9Reader.parser_BT10_loop cfg fuel r
            = Except.error (BT9Error.InvalidEdgeIndex e)) := by
  intro ids
  induction ids with
  | nil =>
    intro fuel r hP hw _ hfuel
    constructor
    · intro _
      obtain ⟨r', hrun, _, _, _, _, g5, _⟩ :=
        parser_BT10_loop_spec cfg h5 h32 hcap [] fuel r hP hw (by simp) hfuel
      have := (g5 (by simp only [List.length_nil]; omega)).2.1
      simp only [List.length_nil, Nat.add_zero] at this
      exact ⟨r', hrun, by omega⟩
    · rintro ⟨id, hid, _⟩
      simp at hid
  | cons id ids ih =>
    intro fuel r hP hw h32ids hfuel
    cases fuel with
    | zero => simp only [List.length_cons] at hfuel; omega
    | succ fuel =>
      obtain ⟨r2, hP2, e1, e2, hstep⟩ :=
        parser_decode_step cfg h5 h32 r id ids hP (h32ids id (List.mem_cons_self _ _))
      rw [hstep fuel, ← e1, ← e2]
      rw [← e2] at hw hfuel
      have hn : cfg.EDGE_SEQUENCE_BUFFER_SIZE - r2.buffer_write_ptr_
          = (cfg.EDGE_SEQUENCE_BUFFER_SIZE - (r2.buffer_write_ptr_ + 1)) + 1 := by omega
      rw [hn, List.take_succ_cons]
      by_cases hv : id < r2.edge_table_.length
      · have hwl : r2.buffer_write_ptr_ < r2.buffer_.length := by
          rw [hP2.2.2.1]; exact hw
        rw [appendToBuffer_valid cfg r2 id hv hwl (by omega)]
        by_cases hfull : r2.buffer_write_ptr_ + 1 ≥ cfg.EDGE_SEQUENCE_BUFFER_SIZE
        · simp only [hfull, decide_True, if_true]
          have h0 : cfg.EDGE_SEQUENCE_BUFFER_SIZE - (r2.buffer_write_ptr_ + 1) = 0 := by omega
          constructor
          · intro _
            exact ⟨_, rfl, by simp only; omega⟩
          · rintro ⟨x, hx, hxv⟩
            rw [h0, List.take_zero, List.mem_singleton] at hx
            subst hx
            exact absurd hv hxv
        · simp only [hfull, decide_False, Bool.false_eq_true, if_false]
          have hP3 : BT9Reader.Pending cfg
              { r2 with buffer_ := r2.buffer_.set r2.buffer_write_ptr_ id,
                        buffer_write_ptr_ := r2.buffer_write_ptr_ + 1,
                        line_num_ := (r2.line_num_ + 1) % 2 ^ 64 } ids := by
            obtain ⟨p1, p2, p3, p4⟩ := hP2
            exact ⟨p1, p2, by simp [p3], p4⟩
          obtain ⟨k1, k2⟩ := ih fuel _ hP3 (by simp only; omega)
            (fun x hx => h32ids x (List.mem_cons_of_mem _ hx))
            (by simp only [List.length_cons] at hfuel; simp only; omega)
          constructor
          · intro hall
            exact k1 (fun x hx => hall x (List.mem_cons_of_mem _ hx))
          · rintro ⟨x, hx, hxv⟩
            rw [List.mem_cons] at hx
            rcases hx with hx | hx
            · subst hx; exact absurd hv hxv
            · obtain ⟨e, he1, he2, he3⟩ := k2 ⟨x, hx, hxv⟩
              exact ⟨e, List.mem_cons_of_mem _ he1, he2, he3⟩
      · rw [appendToBuffer_invalid cfg r2 id hv]
        constructor
        · intro hall
          exact absurd (hall id (List.mem_cons_self _ _)) hv
        · intro _
          exact ⟨id, List.mem_cons_self _ _, hv, rfl⟩

/-- Outcome of a refill of the edge buffer in front of the records of `ids`. -/
theorem shift_outcome (cfg : BT9Config) (h5 : 5 ≤ cfg.BT10_PARSER_BUFFER_SIZE)
    (h32 : cfg.BT10_PARSER_BUFFER_SIZE < 2 ^ 32)
    (hcap1 : 1 ≤ cfg.EDGE_SEQUENCE_BUFFER_SIZE)
    (hcap : cfg.EDGE_SEQUENCE_BUFFER_SIZE < 2 ^ 64)
    (r : BT9Reader) (ids : List Nat) (hP : r.Pending cfg ids) (heof : r.reach_eof_ = false)
    (h32ids : ∀ id ∈ ids, id < 2 ^ 32) :
    ((∀ id ∈ ids.take cfg.EDGE_SEQUENCE_BUFFER_SIZE, id < r.edge_table_.length) →
      ∃ r', BT9Reader.shiftBT9EdgeSeqListAccessWindow_ cfg r = Except.ok r') ∧
    ((∃ id ∈ ids.take cfg.EDGE_SEQUENCE_BUFFER_SIZE, ¬ id < r.edge_table_.length) →
      ∃ e, e ∈ ids.take cfg.EDGE_SEQUENCE_BUFFER_SIZE ∧ ¬ e < r.edge_table_.length ∧
        BT9Reader.shiftBT9EdgeSeqListAccessWindow_ cfg r
          = Except.error (BT9Error.InvalidEdgeIndex e)) := by
  have hP0 : BT9Reader.Pending cfg { r with buffer_write_ptr_ := 0 } ids := hP
  obtain ⟨k1, k2⟩ := parser_BT10_loop_outcome cfg h5 h32 hcap ids
    (cfg.EDGE_SEQUENCE_BUFFER_SIZE + 1) { r with buffer_write_ptr_ := 0 } hP0
    (by simp only; omega) h32ids (by simp only [Nat.sub_zero]; omega)
  simp only [Nat.sub_zero] at k1 k2
  constructor
  · intro hall
    obtain ⟨r', hrun, hle⟩ := k1 hall
    refine ⟨r', ?_⟩
    unfold BT9Reader.shiftBT9EdgeSeqListAccessWindow_
    rw [if_neg (by simp [heof])]
    unfold BT9Reader.parser_BT10
    rw [hrun]
    simp only [hle, if_true]
  · intro hex
    obtain ⟨e, he1, he2, hrun⟩ := k2 hex
    refine ⟨e, he1, he2, ?_⟩
    unfold BT9Reader.shiftBT9EdgeSeqListAccessWindow_
    rw [if_neg (by simp [heof])]
    unfold BT9Reader.parser_BT10
    rw [hrun]
/-! #### Claim C14 -/

/-- C14: a refill of the edge buffer (`shiftBT9EdgeSeqListAccessWindow_`) in front of the
records of the 32-bit IDs `ids` and the EOF marker decodes the first
`EDGE_SEQUENCE_BUFFER_SIZE` of them at most; it fails with `InvalidEdgeIndex` if and only
if one of these is not smaller than the size of the edge table, and the ID it reports is
such a one.  `appendToBuffer` ends the process on such an ID before the store, it stores
an ID only if it is smaller than the size of the edge table, and after every refill that
returns, whatever the input bytes, every ID in the filled part of the buffer is smaller than
the size of the edge table. -/
theorem C14_refill_fails_iff_invalid_id (cfg : BT9Config)
    (h5 : 5 ≤ cfg.BT10_PARSER_BUFFER_SIZE) (h32 : cfg.BT10_PARSER_BUFFER_SIZE < 2 ^ 32)
    (hcap1 : 1 ≤ cfg.EDGE_SEQUENCE_BUFFER_SIZE)
    (hcap : cfg.EDGE_SEQUENCE_BUFFER_SIZE < 2 ^ 64)
    (r : BT9Reader) (ids : List Nat) (hP : r.Pending cfg ids) (heof : r.reach_eof_ = false)
    (h32ids : ∀ id ∈ ids, id < 2 ^ 32) :
    ((∃ e, BT9Reader.shiftBT9EdgeSeqListAccessWindow_ cfg r
          = Except.error (BT9Error.InvalidEdgeIndex e)) ↔
      ∃ id ∈ ids.take cfg.EDGE_SEQUENCE_BUFFER_SIZE, ¬ id < r.edge_table_.length) ∧
    (∀ e, BT9Reader.shiftBT9EdgeSeqListAccessWindow_ cfg r
          = Except.error (BT9Error.InvalidEdgeIndex e) →
      e ∈ ids.take cfg.EDGE_SEQUENCE_BUFFER_SIZE ∧ ¬ e < r.edge_table_.length) ∧
    (∀ (q : BT9Reader) (id : Nat), ¬ id < q.edge_table_.length →
      q.appendToBuffer cfg id = Except.error (BT9Error.InvalidEdgeIndex id)) ∧
    (∀ (q q' : BT9Reader) (id : Nat) (full : Bool),
      q.appendToBuffer cfg id = Except.ok (q', full) →
      id < q.edge_table_.length ∧ q'.buffer_ = q.buffer_.set q.buffer_write_ptr_ id) ∧
    (∀ q q' : BT9Reader, BT9Reader.shiftBT9EdgeSeqListAccessWindow_ cfg q = Except.ok q' →
      q'.BufferValid) := by
  obtain ⟨k1, k2⟩ := shift_outcome cfg h5 h32 hcap1 hcap r ids hP heof h32ids
  have key : ∀ e, BT9Reader.shiftBT9EdgeSeqListAccessWindow_ cfg r
        = Except.error (BT9Error.InvalidEdgeIndex e) →
      e ∈ ids.take cfg.EDGE_SEQUENCE_BUFFER_SIZE ∧ ¬ e < r.edge_table_.length := by
    intro e he
    by_cases hall : ∀ id ∈ ids.take cfg.EDGE_SEQUENCE_BUFFER_SIZE, id < r.edge_table_.length
    · obtain ⟨r', hr'⟩ := k1 hall
      rw [hr'] at he
      simp at he
    · have hex : ∃ id ∈ ids.take cfg.EDGE_SEQUENCE_BUFFER_SIZE,
          ¬ id < r.edge_table_.length := by
        by_contra hne
        apply hall
        intro id hid
        by_contra hlt
        exact hne ⟨id, hid, hlt⟩
      obtain ⟨e', he1, he2, hrun⟩ := k2 hex
      rw [hrun] at he
      simp only [Except.error.injEq, BT9Error.InvalidEdgeIndex.injEq] at he
      subst he
      exact ⟨he1, he2⟩
  refine ⟨⟨?_, ?_⟩, key, ?_, ?_, ?_⟩
  · rintro ⟨e, he⟩
    exact ⟨e, (key e he).1, (key e he).2⟩
  · intro hex
    obtain ⟨e, _, _, hrun⟩ := k2 hex
    exact ⟨e, hrun⟩
  · intro q id hid
    exact appendToBuffer_invalid cfg q id hid
  · intro q q' id full h
    obtain ⟨g1, _, _, _, _, _, g7, _, _⟩ := appendToBuffer_ok cfg q q' id full h
    exact ⟨g1, g7⟩
  · intro q q' h
    exact (shift_frame cfg q q' h).2.2.2.2.2

/-- C14, witness: an edge table of 300 rows and the sequence 1, 300, 7, read into an edge
buffer of two entries: the first refill decodes 1 and 300. -/
theorem C14_refill_fails_iff_invalid_id_witness :
    ((∃ e, BT9Reader.shiftBT9EdgeSeqListAccessWindow_ sampleConfig
          (BT9Reader.atBinarySection sampleConfig [] sampleEdges (encodeBT10 [1, 300, 7] ++ []))
          = Except.error (BT9Error.InvalidEdgeIndex e)) ↔
      ∃ id ∈ [1, 300, 7].take sampleConfig.EDGE_SEQUENCE_BUFFER_SIZE,
        ¬ id < (BT9Reader.atBinarySection sampleConfig [] sampleEdges
          (encodeBT10 [1, 300, 7] ++ [])).edge_table_.length) ∧
    (∀ e, BT9Reader.shiftBT9EdgeSeqListAccessWindow_ sampleConfig
          (BT9Reader.atBinarySection sampleConfig [] sampleEdges (encodeBT10 [1, 300, 7] ++ []))
          = Except.error (BT9Error.InvalidEdgeIndex e) →
      e ∈ [1, 300, 7].take sampleConfig.EDGE_SEQUENCE_BUFFER_SIZE ∧
      ¬ e < (BT9Reader.atBinarySection sampleConfig [] sampleEdges
          (encodeBT10 [1, 300, 7] ++ [])).edge_table_.length) ∧
    (∀ (q : BT9Reader) (id : Nat), ¬ id < q.edge_table_.length →
      q.appendToBuffer sampleConfig id = Except.error (BT9Error.InvalidEdgeIndex id)) ∧
    (∀ (q q' : BT9Reader) (id : Nat) (full : Bool),
      q.appendToBuffer sampleConfig id = Except.ok (q', full) →
      id < q.edge_table_.length ∧ q'.buffer_ = q.buffer_.set q.buffer_write_ptr_ id) ∧
    (∀ q q' : BT9Reader,
      BT9Reader.shiftBT9EdgeSeqListAccessWindow_ sampleConfig q = Except.ok q' →
      q'.BufferValid) :=
  C14_refill_fails_iff_invalid_id sampleConfig (by decide) (by norm_num [sampleConfig])
    (by decide) (by norm_num [sampleConfig])
    (BT9Reader.atBinarySection sampleConfig [] sampleEdges (encodeBT10 [1, 300, 7] ++ []))
    [1, 300, 7] (atBinarySection_pending sampleConfig [] sampleEdges [1, 300, 7] []) rfl
    (by decide)

/-! ### The iterator on arbitrary input: pointers of the edge buffer -/

theorem getEdgeSeqListEntry_ok (r r' : BT9Reader) (id : Nat)
    (h : r.getEdgeSeqListEntry_ = Except.ok (r', id)) :
    r.buffer_read_ptr_ < r.buffer_write_ptr_ ∧ r.buffer_[r.buffer_read_ptr_]? = some id ∧
    r' = { r with buffer_read_ptr_ := (r.buffer_read_ptr_ + 1) % 2 ^ 64 } := by
  unfold BT9Reader.getEdgeSeqListEntry_ at h
  by_cases hlt : r.buffer_read_ptr_ < r.buffer_write_ptr_
  · rw [if_neg (by simp [hlt])] at h
    cases hg : r.buffer_[r.buffer_read_ptr_]? with
    | none => rw [hg] at h; simp at h
    | some v =>
      rw [hg] at h
      simp only [Except.ok.injEq, Prod.mk.injEq] at h
      exact ⟨hlt, by rw [← h.2], h.1.symm⟩
  · rw [if_pos hlt] at h
    simp at h

theorem loadBT9BranchInstance_ok (r r' : BT9Reader) (inst : BT9BranchInstance)
    (h : r.loadBT9BranchInstance_ = Except.ok (r', inst)) :
    ∃ id edge_rec, r.buffer_read_ptr_ < r.buffer_write_ptr_ ∧
      r.buffer_[r.buffer_read_ptr_]? = some id ∧ r.edge_table_[id]? = some edge_rec ∧
      r' = { r with buffer_read_ptr_ := (r.buffer_read_ptr_ + 1) % 2 ^ 64 } ∧
      inst = { src_node_rec_ptr_ := some edge_rec.src_node_id_,
               dest_node_rec_ptr_ := some edge_rec.dest_node_id_,
               edge_rec_ptr_ := some id, valid_ := true } := by
  unfold BT9Reader.loadBT9BranchInstance_ at h
  cases hg : r.getEdgeSeqListEntry_ with
  | error e => rw [hg] at h; simp at h
  | ok p =>
    obtain ⟨r1, id⟩ := p
    rw [hg] at h
    simp only at h
    obtain ⟨g1, g2, g3⟩ := getEdgeSeqListEntry_ok r r1 id hg
    cases he : r1.edge_table_[id]? with
    | none => rw [he] at h; simp at h
    | some edge_rec =>
      rw [he] at h
      simp only [Except.ok.injEq, Prod.mk.injEq] at h
      refine ⟨id, edge_rec, g1, g2, ?_, h.1 ▸ g3, h.2.symm⟩
      rw [g3] at he
      exact he

/-- What a dereference that returns has done: nothing when the instance of the iterator
is valid, and otherwise it has read one edge ID from the buffer and loaded its
instance. -/
theorem deref_ok (r r' : BT9Reader) (it it' : BranchInstanceIterator)
    (inst : BT9BranchInstance) (h : it.deref r = Except.ok (r', it', inst)) :
    (it.br_inst_.valid_ = true ∧ r' = r ∧ it' = it ∧ inst = it.br_inst_) ∨
    (it.br_inst_.valid_ = false ∧ it' = { it with br_inst_ := inst } ∧
      r.loadBT9BranchInstance_ = Except.ok (r', inst)) := by
  unfold BranchInstanceIterator.deref at h
  cases hv : it.br_inst_.valid_ with
  | true =>
    left
    simp only [hv, Bool.not_true, Bool.false_eq_true, if_false, Except.ok.injEq,
      Prod.mk.injEq] at h
    exact ⟨rfl, h.1.symm, h.2.1.symm, h.2.2.symm⟩
  | false =>
    right
    simp only [hv, Bool.not_false, if_true] at h
    cases hl : r.loadBT9BranchInstance_ with
    | error e => rw [hl] at h; simp at h
    | ok p =>
      obtain ⟨r1, b⟩ := p
      rw [hl] at h
      simp only [Except.ok.injEq, Prod.mk.injEq] at h
      obtain ⟨h1, h2, h3⟩ := h
      subst h1; subst h3
      exact ⟨rfl, h2.symm, rfl⟩

/-- What an advance that returns has done. -/
theorem increment_ok (cfg : BT9Config) (r r' : BT9Reader) (it it' : BranchInstanceIterator)
    (h : it.increment cfg r = Except.ok (r', it')) :
    it'.br_inst_ = BT9BranchInstance.invalid ∧
    ((it.reach_end_ = true ∧ r' = r ∧ it'.reach_end_ = true) ∨
     (it.reach_end_ = false ∧ r.buffer_read_ptr_ < r.buffer_write_ptr_ ∧ r' = r ∧
        it'.reach_end_ = false) ∨
     (it.reach_end_ = false ∧ r.buffer_read_ptr_ ≥ r.buffer_write_ptr_ ∧
        r.reach_eof_ = true ∧ r' = r ∧ it'.reach_end_ = true) ∨
     (it.reach_end_ = false ∧ r.buffer_read_ptr_ ≥ r.buffer_write_ptr_ ∧
        r.reach_eof_ = false ∧
        ∃ r2, BT9Reader.shiftBT9EdgeSeqListAccessWindow_ cfg r = Except.ok r2 ∧
          ((r2.reach_eof_ = true ∧ r2.buffer_write_ptr_ = 0 ∧ r' = r2 ∧
              it'.reach_end_ = true) ∨
           (¬ (r2.reach_eof_ = true ∧ r2.buffer_write_ptr_ = 0) ∧
              r' = { r2 with buffer_read_ptr_ := 0 } ∧ it'.reach_end_ = false)))) := by
  unfold BranchInstanceIterator.increment at h
  cases hre : it.reach_end_ with
  | true =>
    simp only [hre, Bool.not_true, Bool.false_eq_true, if_false, Except.ok.injEq,
      Prod.mk.injEq] at h
    obtain ⟨h1, h2⟩ := h
    subst h1; subst h2
    exact ⟨rfl, Or.inl ⟨rfl, rfl, rfl⟩⟩
  | false =>
    simp only [hre, Bool.not_false, if_true] at h
    unfold BT9Reader.moveToNextEdgeSeqListEntry_ at h
    by_cases hge : r.buffer_read_ptr_ ≥ r.buffer_write_ptr_
    · simp only [hge, if_true] at h
      by_cases heof : r.reach_eof_ = true
      · simp only [heof, if_true, Except.ok.injEq, Prod.mk.injEq] at h
        obtain ⟨h1, h2⟩ := h
        subst h1; subst h2
        exact ⟨rfl, Or.inr (Or.inr (Or.inl ⟨rfl, hge, heof, rfl, rfl⟩))⟩
      · rw [if_neg heof] at h
        cases hs : BT9Reader.shiftBT9EdgeSeqListAccessWindow_ cfg r with
        | error e => rw [hs] at h; simp at h
        | ok r2 =>
          rw [hs] at h
          simp only at h
          by_cases hz : r2.reach_eof_ = true ∧ r2.buffer_write_ptr_ = 0
          · have hb : (r2.reach_eof_ && decide (r2.buffer_write_ptr_ = 0)) = true := by
              simp [hz.1, hz.2]
            rw [if_pos hb] at h
            simp only [Except.ok.injEq, Prod.mk.injEq] at h
            obtain ⟨h1, h2⟩ := h
            subst h1; subst h2
            exact ⟨rfl, Or.inr (Or.inr (Or.inr ⟨rfl, hge, by simpa using heof, _, rfl,
              Or.inl ⟨hz.1, hz.2, rfl, rfl⟩⟩))⟩
          · have hb : ¬ (r2.reach_eof_ && decide (r2.buffer_write_ptr_ = 0)) = true := by
              simpa using hz
            rw [if_neg hb] at h
            simp only [Except.ok.injEq, Prod.mk.injEq] at h
            obtain ⟨h1, h2⟩ := h
            subst h1; subst h2
            exact ⟨rfl, Or.inr (Or.inr (Or.inr ⟨rfl, hge, by simpa using heof, r2, rfl,
              Or.inr ⟨hz, rfl, rfl⟩⟩))⟩
    · simp only [hge, if_false, Except.ok.injEq, Prod.mk.injEq] at h
      obtain ⟨h1, h2⟩ := h
      subst h1; subst h2
      exact ⟨rfl, Or.inr (Or.inl ⟨rfl, by omega, rfl, rfl⟩)⟩

/-- The pointers of the edge buffer in every state that the loop of `main` can reach. -/
theorem reachable_ptrInv (cfg : BT9Config) (r0 : BT9Reader)
    (h0 : BT9Reader.PtrInv cfg r0 BT9Reader.begin) :
    ∀ r it, BT9Reader.Reachable cfg r0 r it → BT9Reader.PtrInv cfg r it := by
  intro r it hreach
  induction hreach with
  | start => exact h0
  | @deref ra rb ita itb inst _ hd ih =>
    obtain ⟨i1, i2, i3⟩ := ih
    rcases deref_ok _ _ _ _ _ hd with ⟨_, e1, e2, _⟩ | ⟨_, e2, hl⟩
    · rw [e1, e2]; exact ⟨i1, i2, i3⟩
    · obtain ⟨id, er, g1, _, _, g4, _⟩ := loadBT9BranchInstance_ok _ _ _ hl
      rw [g4, e2]
      have hle := Nat.mod_le (ra.buffer_read_ptr_ + 1) (2 ^ 64)
      refine ⟨i1, ?_, Or.inl ?_⟩
      · simp only; omega
      · simp only; omega
  | increment _ hi ih =>
    obtain ⟨i1, i2, i3⟩ := ih
    obtain ⟨_, hcase⟩ := increment_ok cfg _ _ _ _ hi
    rcases hcase with ⟨c1, c2, c3⟩ | ⟨c1, c2, c3, c4⟩ | ⟨c1, c2, c3, c4, c5⟩ |
      ⟨c1, c2, c3, r2, hs, hcase2⟩
    · rw [c2]
      refine ⟨i1, i2, ?_⟩
      rcases i3 with h | ⟨_, h2, h3⟩
      · exact Or.inl h
      · exact Or.inr ⟨c3, h2, h3⟩
    · rw [c3]
      exact ⟨i1, i2, Or.inl (by omega)⟩
    · rw [c4]
      refine ⟨i1, i2, Or.inl ?_⟩
      rcases i3 with h | ⟨h1, _, _⟩
      · exact h
      · rw [c1] at h1; simp at h1
    · obtain ⟨_, _, s3, _, s5, _⟩ := shift_frame cfg _ _ hs
      rcases hcase2 with ⟨d1, d2, d3, d4⟩ | ⟨_, d3, _⟩
      · rw [d3]
        exact ⟨s5, by rw [s3]; exact i2, Or.inr ⟨d4, d1, d2⟩⟩
      · rw [d3]
        exact ⟨s5, by simp, Or.inl (by simp)⟩

theorem init_ptrInv (cfg : BT9Config) (nodes : List BT9ReaderNodeRecord)
    (edges : List BT9ReaderEdgeRecord) (stream : List Nat) (r0 : BT9Reader)
    (h : BT9Reader.initBT9EdgeSeqListAccessWindow_ cfg
      (BT9Reader.atBinarySection cfg nodes edges stream) = Except.ok r0) :
    BT9Reader.PtrInv cfg r0 BT9Reader.begin ∧ r0.buffer_read_ptr_ = 0 := by
  obtain ⟨_, _, s3, _, s5, _⟩ := shift_frame cfg _ _ h
  have hz : r0.buffer_read_ptr_ = 0 := s3
  exact ⟨⟨s5, by rw [hz]; exact Nat.zero_le _, Or.inl (by rw [hz]; exact Nat.zero_le _)⟩, hz⟩
/-- The loop of `main` ends in a state that its dereferences and advances reach. -/
theorem forEachInstance_reachable (cfg : BT9Config) (r0 : BT9Reader) :
    ∀ (fuel : Nat) (r : BT9Reader) (it : BranchInstanceIterator)
      (seen : List BT9BranchInstance) (r' : BT9Reader) (it' : BranchInstanceIterator),
      BT9Reader.Reachable cfg r0 r it →
      BT9Reader.forEachInstance cfg fuel r it = Except.ok (seen, r', it') →
      BT9Reader.Reachable cfg r0 r' it' := by
  intro fuel
  induction fuel with
  | zero => intro r it seen r' it' _ h; simp [BT9Reader.forEachInstance] at h
  | succ fuel ih =>
    intro r it seen r' it' hreach h
    rw [BT9Reader.forEachInstance] at h
    by_cases hne : it.ne BT9Reader.end_ = true
    · rw [if_pos hne] at h
      cases hd : it.deref r with
      | error e => rw [hd] at h; simp at h
      | ok p =>
        obtain ⟨r1, it1, inst⟩ := p
        rw [hd] at h
        simp only at h
        cases hi : it1.increment cfg r1 with
        | error e => rw [hi] at h; simp at h
        | ok q =>
          obtain ⟨r2, it2⟩ := q
          rw [hi] at h
          simp only at h
          cases hf : BT9Reader.forEachInstance cfg fuel r2 it2 with
          | error e => rw [hf] at h; simp at h
          | ok t =>
            obtain ⟨seen2, r3, it3⟩ := t
            rw [hf] at h
            simp only [Except.ok.injEq, Prod.mk.injEq] at h
            obtain ⟨_, h2, h3⟩ := h
            subst h2; subst h3
            exact ih r2 it2 seen2 _ _
              (BT9Reader.Reachable.increment (BT9Reader.Reachable.deref hreach hd) hi) hf
    · rw [if_neg hne] at h
      simp only [Except.ok.injEq, Prod.mk.injEq] at h
      obtain ⟨_, h2, h3⟩ := h
      subst h2; subst h3
      exact hreach

/-! #### Claim C17 -/

/-- C17 (as amended): on every input, after the construction of the reader the read
pointer is 0 and `0 <= buffer_read_ptr_ <= buffer_write_ptr_ <= EDGE_SEQUENCE_BUFFER_SIZE`;
after every dereference and every advance of the iterator that returns, both pointers are
at most `EDGE_SEQUENCE_BUFFER_SIZE`, and `buffer_read_ptr_ <= buffer_write_ptr_` holds as
long as the iterator has not reached the end, and also at the end unless the final advance
met a refill that found nothing but the EOF marker: then `buffer_write_ptr_` is 0 and
`buffer_read_ptr_` keeps the value it had.  The same holds for the state in which the loop
`for (it = begin(); it != end(); ++it)` ends. -/
theorem C17_buffer_pointers (cfg : BT9Config) (nodes : List BT9ReaderNodeRecord)
    (edges : List BT9ReaderEdgeRecord) (stream : List Nat) (r0 : BT9Reader)
    (hinit : BT9Reader.initBT9EdgeSeqListAccessWindow_ cfg
      (BT9Reader.atBinarySection cfg nodes edges stream) = Except.ok r0) :
    (r0.buffer_read_ptr_ = 0 ∧ r0.buffer_read_ptr_ ≤ r0.buffer_write_ptr_ ∧
      r0.buffer_write_ptr_ ≤ cfg.EDGE_SEQUENCE_BUFFER_SIZE) ∧
    (∀ r it, BT9Reader.Reachable cfg r0 r it →
      r.buffer_write_ptr_ ≤ cfg.EDGE_SEQUENCE_BUFFER_SIZE ∧
      r.buffer_read_ptr_ ≤ cfg.EDGE_SEQUENCE_BUFFER_SIZE ∧
      (it.reach_end_ = false → r.buffer_read_ptr_ ≤ r.buffer_write_ptr_) ∧
      (r.buffer_read_ptr_ ≤ r.buffer_write_ptr_ ∨
        (it.reach_end_ = true ∧ r.reach_eof_ = true ∧ r.buffer_write_ptr_ = 0))) ∧
    (∀ fuel seen r it,
      BT9Reader.forEachInstance cfg fuel r0 BT9Reader.begin = Except.ok (seen, r, it) →
      r.buffer_write_ptr_ ≤ cfg.EDGE_SEQUENCE_BUFFER_SIZE ∧
      r.buffer_read_ptr_ ≤ cfg.EDGE_SEQUENCE_BUFFER_SIZE ∧
      (r.buffer_read_ptr_ ≤ r.buffer_write_ptr_ ∨
        (r.reach_eof_ = true ∧ r.buffer_write_ptr_ = 0))) := by
  obtain ⟨h0, hz⟩ := init_ptrInv cfg nodes edges stream r0 hinit
  have key := reachable_ptrInv cfg r0 h0
  refine ⟨⟨hz, by rw [hz]; exact Nat.zero_le _, h0.1⟩, ?_, ?_⟩
  · intro r it hreach
    obtain ⟨i1, i2, i3⟩ := key r it hreach
    refine ⟨i1, i2, ?_, i3⟩
    intro hne
    rcases i3 with h | ⟨h, _, _⟩
    · exact h
    · rw [hne] at h; simp at h
  · intro fuel seen r it hrun
    obtain ⟨i1, i2, i3⟩ := key r it
      (forEachInstance_reachable cfg r0 fuel r0 BT9Reader.begin seen r it
        BT9Reader.Reachable.start hrun)
    refine ⟨i1, i2, ?_⟩
    rcases i3 with h | ⟨_, h2, h3⟩
    · exact Or.inl h
    · exact Or.inr ⟨h2, h3⟩

/-- C17, witness: the sequence 1, 2 read into an edge buffer of two entries; the
constructor leaves the buffer full. -/
theorem C17_buffer_pointers_witness :
    (sampleReaderFull.buffer_read_ptr_ = 0 ∧
      sampleReaderFull.buffer_read_ptr_ ≤ sampleReaderFull.buffer_write_ptr_ ∧
      sampleReaderFull.buffer_write_ptr_ ≤ sampleConfig.EDGE_SEQUENCE_BUFFER_SIZE) ∧
    (∀ r it, BT9Reader.Reachable sampleConfig sampleReaderFull r it →
      r.buffer_write_ptr_ ≤ sampleConfig.EDGE_SEQUENCE_BUFFER_SIZE ∧
      r.buffer_read_ptr_ ≤ sampleConfig.EDGE_SEQUENCE_BUFFER_SIZE ∧
      (it.reach_end_ = false → r.buffer_read_ptr_ ≤ r.buffer_write_ptr_) ∧
      (r.buffer_read_ptr_ ≤ r.buffer_write_ptr_ ∨
        (it.reach_end_ = true ∧ r.reach_eof_ = true ∧ r.buffer_write_ptr_ = 0))) ∧
    (∀ fuel seen r it,
      BT9Reader.forEachInstance sampleConfig fuel sampleReaderFull BT9Reader.begin
        = Except.ok (seen, r, it) →
      r.buffer_write_ptr_ ≤ sampleConfig.EDGE_SEQUENCE_BUFFER_SIZE ∧
      r.buffer_read_ptr_ ≤ sampleConfig.EDGE_SEQUENCE_BUFFER_SIZE ∧
      (r.buffer_read_ptr_ ≤ r.buffer_write_ptr_ ∨
        (r.reach_eof_ = true ∧ r.buffer_write_ptr_ = 0))) :=
  C17_buffer_pointers sampleConfig [] sampleEdges (encodeBT10 [1, 2]) sampleReaderFull
    (by decide!)

/-- C17, counterexample to the claim as stated: with an edge buffer of two entries and
the sequence 1, 2, the loop of `main` meets two branch instances; its final advance finds
the window used up, refills, gets nothing but the EOF marker and returns with
`buffer_write_ptr_ = 0` while `buffer_read_ptr_` is still 2. -/
theorem C17_counterexample_final_advance :
    ∃ seen r it, BT9Reader.run sampleConfig [] sampleEdges (encodeBT10 [1, 2]) 3
        = Except.ok (seen, r, it) ∧
      seen = [instanceOfEdge sampleEdges 1, instanceOfEdge sampleEdges 2] ∧
      it.reach_end_ = true ∧ r.buffer_read_ptr_ = 2 ∧ r.buffer_write_ptr_ = 0 ∧
      ¬ (r.buffer_read_ptr_ ≤ r.buffer_write_ptr_) :=
  ⟨[instanceOfEdge sampleEdges 1, instanceOfEdge sampleEdges 2],
    { data := [1, 2, 255, 0, 0, 0, 0, 0], initiliazed := 1, ptr := 7, pinfile_ := [],
      node_table_ := [], edge_table_ := sampleEdges, line_num_ := 2,
      reach_eof_ := true, buffer_ := [1, 2], buffer_read_ptr_ := 2,
      buffer_write_ptr_ := 0 },
    { reach_end_ := true, index_ := 2, br_inst_ := BT9BranchInstance.invalid },
    by decide!, rfl, rfl, rfl, rfl, by decide⟩
/-! ### Dereference and advance -/

/-- After `k` iterations of the loop of `main`, the invariant of the loop holds for the
edge IDs that are left. -/
theorem derefAdvance_spec (cfg : BT9Config) (h5 : 5 ≤ cfg.BT10_PARSER_BUFFER_SIZE)
    (h32 : cfg.BT10_PARSER_BUFFER_SIZE < 2 ^ 32)
    (hcap1 : 1 ≤ cfg.EDGE_SEQUENCE_BUFFER_SIZE)
    (hcap : cfg.EDGE_SEQUENCE_BUFFER_SIZE < 2 ^ 64)
    (edges : List BT9ReaderEdgeRecord) :
    ∀ (k : Nat) (R : List Nat) (r : BT9Reader) (it : BranchInstanceIterator),
      BT9Reader.LoopInv cfg edges r it R →
      (∀ x ∈ R, x < edges.length ∧ x < 2 ^ 32) → k ≤ R.length →
      ∃ r' it', BT9Reader.derefAdvance cfg k r it = Except.ok (r', it') ∧
        BT9Reader.LoopInv cfg edges r' it' (R.drop k) := by
  intro k
  induction k with
  | zero =>
    intro R r it hinv _ _
    exact ⟨r, it, rfl, by simpa using hinv⟩
  | succ k ih =>
    intro R r it hinv hvalid hk
    cases R with
    | nil => simp at hk
    | cons id R =>
      obtain ⟨_, r1, it1, r2, it2, hderef, hincr, hinv2⟩ :=
        loop_step cfg h5 h32 hcap1 hcap edges r it id R hinv hvalid
      obtain ⟨r', it', hrun, hinv'⟩ := ih R r2 it2 hinv2
        (fun x hx => hvalid x (List.mem_cons_of_mem _ hx))
        (by simp only [List.length_cons] at hk; omega)
      refine ⟨r', it', ?_, by simpa using hinv'⟩
      simp only [BT9Reader.derefAdvance, hderef, hincr, hrun]

/-! #### Claim C16 -/

/-- C16 (as amended): it is the dereference that takes an edge ID from the buffer, the
advance only invalidates the instance of the iterator and refills the buffer when it is
used up.  For every sequence `S` of valid edge IDs and every `k < |S|`, after `k`
iterations of the loop of `main`, each of which dereferences the iterator and then applies
`operator++`, dereferencing the iterator yields the instance of the edge ID `S[k]`, and a
second dereference yields the same instance without reading the buffer again. -/
theorem C16_kth_dereference (cfg : BT9Config) (nodes : List BT9ReaderNodeRecord)
    (edges : List BT9ReaderEdgeRecord) (S trailing : List Nat)
    (h5 : 5 ≤ cfg.BT10_PARSER_BUFFER_SIZE) (h32 : cfg.BT10_PARSER_BUFFER_SIZE < 2 ^ 32)
    (hcap1 : 1 ≤ cfg.EDGE_SEQUENCE_BUFFER_SIZE)
    (hcap : cfg.EDGE_SEQUENCE_BUFFER_SIZE < 2 ^ 64)
    (hS : ∀ id ∈ S, id < edges.length ∧ id < 2 ^ 32) (k : Nat) (hk : k < S.length) :
    ∃ r0 r it r' it', BT9Reader.initBT9EdgeSeqListAccessWindow_ cfg
        (BT9Reader.atBinarySection cfg nodes edges (encodeBT10 S ++ trailing)) = Except.ok r0 ∧
      BT9Reader.derefAdvance cfg k r0 BT9Reader.begin = Except.ok (r, it) ∧
      it.deref r = Except.ok (r', it', instanceOfEdge edges S[k]) ∧
      it'.deref r' = Except.ok (r', it', instanceOfEdge edges S[k]) := by
  have hne : S ≠ [] := by
    intro h; rw [h] at hk; simp at hk
  obtain ⟨r0, hinit, hinv⟩ := init_loopInv cfg h5 h32 hcap1 hcap nodes edges S trailing hne hS
  obtain ⟨r, it, hrun, hinv'⟩ :=
    derefAdvance_spec cfg h5 h32 hcap1 hcap edges k S r0 BT9Reader.begin hinv hS (by omega)
  have hdrop : S.drop k = S[k] :: S.drop (k + 1) := List.drop_eq_getElem_cons hk
  rw [hdrop] at hinv'
  obtain ⟨_, r1, it1, _, _, hderef, _, _⟩ :=
    loop_step cfg h5 h32 hcap1 hcap edges r it S[k] (S.drop (k + 1)) hinv'
      (fun x hx => hS x (by
        rw [← hdrop] at hx
        exact List.mem_of_mem_drop hx))
  refine ⟨r0, r, it, r1, it1, hinit, hrun, hderef, ?_⟩
  rcases deref_ok _ _ _ _ _ hderef with ⟨hv, _, _, _⟩ | ⟨_, e2, _⟩
  · rw [hinv'.2.1] at hv; simp at hv
  · have hval : it1.br_inst_.valid_ = true := by rw [e2]; rfl
    have hbr : it1.br_inst_ = instanceOfEdge edges S[k] := by rw [e2]
    unfold BranchInstanceIterator.deref
    rw [if_neg (by simp [hval]), hbr]

/-- C16, witness: the sequence 1, 256, 7 read through an edge buffer of two entries; the
third dereference follows a refill. -/
theorem C16_kth_dereference_witness :
    ∃ r0 r it r' it', BT9Reader.initBT9EdgeSeqListAccessWindow_ sampleConfig
        (BT9Reader.atBinarySection sampleConfig [] sampleEdges
          (encodeBT10 [1, 256, 7] ++ [])) = Except.ok r0 ∧
      BT9Reader.derefAdvance sampleConfig 2 r0 BT9Reader.begin = Except.ok (r, it) ∧
      it.deref r = Except.ok (r', it', instanceOfEdge sampleEdges ([1, 256, 7][2])) ∧
      it'.deref r' = Except.ok (r', it', instanceOfEdge sampleEdges ([1, 256, 7][2])) :=
  C16_kth_dereference sampleConfig [] sampleEdges [1, 256, 7] [] (by decide)
    (by norm_num [sampleConfig]) (by decide) (by norm_num [sampleConfig]) (by decide!)
    2 (by decide)

/-- C16, counterexample to the claim as stated: with the sequence `S` = 1, 2, one
application of `operator++` to `begin()` without a dereference before it leaves the buffer
as it is, and the dereference that follows yields the instance of `S[0]` = 1, not that of
`S[1]` = 2. -/
theorem C16_counterexample_advance_without_dereference :
    BT9Reader.initBT9EdgeSeqListAccessWindow_ sampleConfig
        (BT9Reader.atBinarySection sampleConfig [] sampleEdges (encodeBT10 [1, 2]))
      = Except.ok sampleReaderFull ∧
    BT9Reader.begin.increment sampleConfig sampleReaderFull
      = Except.ok (sampleReaderFull,
          { reach_end_ := false, index_ := 1, br_inst_ := BT9BranchInstance.invalid }) ∧
    BranchInstanceIterator.deref sampleReaderFull
        { reach_end_ := false, index_ := 1, br_inst_ := BT9BranchInstance.invalid }
      = Except.ok ({ sampleReaderFull with buffer_read_ptr_ := 1 },
          { reach_end_ := false, index_ := 1, br_inst_ := instanceOfEdge sampleEdges 1 },
          instanceOfEdge sampleEdges 1) ∧
    instanceOfEdge sampleEdges 1 ≠ instanceOfEdge sampleEdges ([1, 2][1]) := by
  refine ⟨by decide!, by decide!, by decide!, by decide!⟩

/-! #### Claim C18 -/

/-- C18 (the code at the empty edge sequence): when the binary section consists of the EOF
marker only, the initial fill leaves the buffer empty (`buffer_write_ptr_ = 0`) with
`reach_eof_` set; but `begin()` is built with `reach_end_ = false`, so `begin() != end()`
holds, the loop of `main` enters its body, and the dereference there fails the assertion
`buffer_read_ptr_ < buffer_write_ptr_` of `getEdgeSeqListEntry_`. -/
theorem C18_empty_sequence_begin_differs_from_end :
    BT9Reader.initBT9EdgeSeqListAccessWindow_ sampleConfig
        (BT9Reader.atBinarySection sampleConfig [] sampleEdges (encodeBT10 []))
      = Except.ok sampleReaderEmpty ∧
    sampleReaderEmpty.buffer_write_ptr_ = 0 ∧ sampleReaderEmpty.reach_eof_ = true ∧
    BT9Reader.begin.eq BT9Reader.end_ = false ∧
    BT9Reader.begin.ne BT9Reader.end_ = true ∧
    BT9Reader.begin.deref sampleReaderEmpty = Except.error BT9Error.AssertFailed ∧
    BT9Reader.run sampleConfig [] sampleEdges (encodeBT10 []) 1
      = Except.error BT9Error.AssertFailed := by
  refine ⟨by decide!, rfl, rfl, rfl, rfl, by decide!, by decide!⟩

/-! ### Loading the tables -/

/-- A list of `n` distinct numbers below `n` holds every number below `n`. -/
theorem mem_of_nodup_of_lt (ids : List Nat) (hnd : ids.Nodup)
    (hlt : ∀ x ∈ ids, x < ids.length) (s : Nat) (hs : s < ids.length) : s ∈ ids := by
  have hsub : ids.toFinset ⊆ Finset.range ids.length := by
    intro x hx
    rw [List.mem_toFinset] at hx
    exact Finset.mem_range.mpr (hlt x hx)
  have hcard : (Finset.range ids.length).card ≤ ids.toFinset.card := by
    rw [Finset.card_range, List.toFinset_card_of_nodup hnd]
  have heq := Finset.eq_of_subset_of_card_le hsub hcard
  have : s ∈ ids.toFinset := by rw [heq]; exact Finset.mem_range.mpr hs
  exact List.mem_toFinset.mp this

theorem fillNodeTable_length :
    ∀ (rest table F : List BT9ReaderNodeRecord), BT9Reader.fillNodeTable table rest = some F →
      F.length = table.length ∧ ∀ x ∈ rest, x.brNodeIndex < table.length := by
  intro rest
  induction rest with
  | nil =>
    intro table F h
    simp only [BT9Reader.fillNodeTable, Option.some.injEq] at h
    subst h
    exact ⟨rfl, by simp⟩
  | cons x xs ih =>
    intro table F h
    rw [BT9Reader.fillNodeTable] at h
    cases hg : table[x.brNodeIndex]? with
    | none => rw [hg] at h; simp at h
    | some slot =>
      rw [hg] at h
      simp only at h
      have hx : x.brNodeIndex < table.length := by
        by_contra hge
        rw [List.getElem?_eq_none (by omega)] at hg
        simp at hg
      by_cases hc : slot.brClass_brBehavior.conditionality = Conditionality.UNKNOWN
      · rw [if_pos hc] at h
        obtain ⟨g1, g2⟩ := ih _ F h
        rw [List.length_set] at g1 g2
        refine ⟨g1, ?_⟩
        intro y hy
        rcases List.mem_cons.mp hy with rfl | hy
        · exact hx
        · exact g2 y hy
      · rw [if_neg hc] at h
        obtain ⟨g1, g2⟩ := ih _ F h
        refine ⟨g1, ?_⟩
        intro y hy
        rcases List.mem_cons.mp hy with rfl | hy
        · exact hx
        · exact g2 y hy

theorem fillNodeTable_frame :
    ∀ (rest table F : List BT9ReaderNodeRecord), BT9Reader.fillNodeTable table rest = some F →
      ∀ i, (∀ y ∈ rest, y.brNodeIndex ≠ i) → F[i]? = table[i]? := by
  intro rest
  induction rest with
  | nil =>
    intro table F h i _
    simp only [BT9Reader.fillNodeTable, Option.some.injEq] at h
    rw [h]
  | cons x xs ih =>
    intro table F h i hi
    rw [BT9Reader.fillNodeTable] at h
    cases hg : table[x.brNodeIndex]? with
    | none => rw [hg] at h; simp at h
    | some slot =>
      rw [hg] at h
      simp only at h
      have hxi : x.brNodeIndex ≠ i := hi x (List.mem_cons_self _ _)
      have hrest : ∀ y ∈ xs, y.brNodeIndex ≠ i := fun y hy => hi y (List.mem_cons_of_mem _ hy)
      by_cases hc : slot.brClass_brBehavior.conditionality = Conditionality.UNKNOWN
      · rw [if_pos hc] at h
        rw [ih _ F h i hrest, List.getElem?_set_ne hxi]
      · rw [if_neg hc] at h
        exact ih _ F h i hrest

/-- When the records to store have distinct ids and the entries at these ids are unused,
every record ends up at the index of its id. -/
theorem fillNodeTable_stored :
    ∀ (rest table F : List BT9ReaderNodeRecord),
      (rest.map (fun x => x.brNodeIndex)).Nodup →
      (∀ x ∈ rest, ∀ slot, table[x.brNodeIndex]? = some slot →
        slot.brClass_brBehavior.conditionality = Conditionality.UNKNOWN) →
      BT9Reader.fillNodeTable table rest = some F →
      ∀ x ∈ rest, F[x.brNodeIndex]? = some x := by
  intro rest
  induction rest with
  | nil => intro table F _ _ _ x hx; simp at hx
  | cons x xs ih =>
    intro table F hnd hfree h
    have hlen := (fillNodeTable_length (x :: xs) table F h).2
    rw [BT9Reader.fillNodeTable] at h
    simp only [List.map_cons, List.nodup_cons, List.mem_map, not_exists, not_and] at hnd
    obtain ⟨hxn, hnd'⟩ := hnd
    cases hg : table[x.brNodeIndex]? with
    | none => rw [hg] at h; simp at h
    | some slot =>
      rw [hg] at h
      simp only at h
      have hc := hfree x (List.mem_cons_self _ _) slot hg
      rw [if_pos hc] at h
      have hx : x.brNodeIndex < table.length := hlen x (List.mem_cons_self _ _)
      intro y hy
      rcases List.mem_cons.mp hy with rfl | hy
      · rw [fillNodeTable_frame xs _ F h y.brNodeIndex (fun z hz hzy => hxn z hz hzy),
          List.getElem?_set_self hx]
      · refine ih _ F hnd' ?_ h y hy
        intro z hz slot' hs
        have hne : x.brNodeIndex ≠ z.brNodeIndex := fun e => hxn z hz e.symm
        rw [List.getElem?_set_ne hne] at hs
        exact hfree z (List.mem_cons_of_mem _ hz) slot' hs

/-- A node table loaded from records with distinct ids is indexed by id. -/
theorem readBT9NodeTable_indexed (dflt : BT9ReaderNodeRecord)
    (temp nodes : List BT9ReaderNodeRecord)
    (hdflt : dflt.brClass_brBehavior.conditionality = Conditionality.UNKNOWN)
    (hnd : (temp.map (fun x => x.brNodeIndex)).Nodup)
    (h : BT9Reader.readBT9NodeTable_ dflt temp = some nodes) :
    ∀ s, s < nodes.length → ∃ nd, nodes[s]? = some nd ∧ nd.brNodeIndex = s := by
  unfold BT9Reader.readBT9NodeTable_ at h
  obtain ⟨hlen, hlt⟩ := fillNodeTable_length _ _ _ h
  rw [List.length_replicate] at hlen hlt
  have hstored := fillNodeTable_stored temp _ nodes hnd (by
    intro x _ slot hs
    rw [List.getElem?_replicate] at hs
    split at hs
    · simp only [Option.some.injEq] at hs
      rw [← hs]; exact hdflt
    · simp at hs) h
  intro s hs
  have hmem : s ∈ temp.map (fun x => x.brNodeIndex) :=
    mem_of_nodup_of_lt _ hnd (by
      intro x hx
      rw [List.length_map]
      obtain ⟨y, hy, rfl⟩ := List.mem_map.mp hx
      exact hlt y hy) s (by rw [List.length_map, ← hlen]; exact hs)
  obtain ⟨y, hy, rfl⟩ := List.mem_map.mp hmem
  exact ⟨y, hstored y hy, rfl⟩

theorem fillEdgeTable_length :
    ∀ (rest : List (Nat × BT9ReaderEdgeRecord)) (table F : List BT9ReaderEdgeRecord),
      BT9Reader.fillEdgeTable table rest = some F →
      F.length = table.length ∧ ∀ x ∈ rest, x.1 < table.length := by
  intro rest
  induction rest with
  | nil =>
    intro table F h
    simp only [BT9Reader.fillEdgeTable, Option.some.injEq] at h
    subst h
    exact ⟨rfl, by simp⟩
  | cons x xs ih =>
    intro table F h
    rw [BT9Reader.fillEdgeTable] at h
    by_cases hx : x.1 < table.length
    · rw [if_pos hx] at h
      obtain ⟨g1, g2⟩ := ih _ F h
      rw [List.length_set] at g1 g2
      refine ⟨g1, ?_⟩
      intro y hy
      rcases List.mem_cons.mp hy with rfl | hy
      · exact hx
      · exact g2 y hy
    · rw [if_neg hx] at h
      simp at h

theorem fillEdgeTable_frame :
    ∀ (rest : List (Nat × BT9ReaderEdgeRecord)) (table F : List BT9ReaderEdgeRecord),
      BT9Reader.fillEdgeTable table rest = some F →
      ∀ i, (∀ y ∈ rest, y.1 ≠ i) → F[i]? = table[i]? := by
  intro rest
  induction rest with
  | nil =>
    intro table F h i _
    simp only [BT9Reader.fillEdgeTable, Option.some.injEq] at h
    rw [h]
  | cons x xs ih =>
    intro table F h i hi
    rw [BT9Reader.fillEdgeTable] at h
    by_cases hx : x.1 < table.length
    · rw [if_pos hx] at h
      rw [ih _ F h i (fun y hy => hi y (List.mem_cons_of_mem _ hy)),
        List.getElem?_set_ne (hi x (List.mem_cons_self _ _))]
    · rw [if_neg hx] at h
      simp at h

theorem fillEdgeTable_stored :
    ∀ (rest : List (Nat × BT9ReaderEdgeRecord)) (table F : List BT9ReaderEdgeRecord),
      (rest.map Prod.fst).Nodup → BT9Reader.fillEdgeTable table rest = some F →
      ∀ x ∈ rest, F[x.1]? = some x.2 := by
  intro rest
  induction rest with
  | nil => intro table F _ _ x hx; simp at hx
  | cons x xs ih =>
    intro table F hnd h
    rw [BT9Reader.fillEdgeTable] at h
    simp only [List.map_cons, List.nodup_cons, List.mem_map, not_exists, not_and] at hnd
    obtain ⟨hxn, hnd'⟩ := hnd
    by_cases hx : x.1 < table.length
    · rw [if_pos hx] at h
      intro y hy
      rcases List.mem_cons.mp hy with rfl | hy
      · rw [fillEdgeTable_frame xs _ F h y.1 (fun z hz hzy => hxn z hz hzy),
          List.getElem?_set_self hx]
      · exact ih _ F hnd' h y hy
    · rw [if_neg hx] at h
      simp at h

/-- From the fourth field on, `parseEdgeRecordFixedFields_` keeps the id and the source and
destination node ids of the record. -/
theorem parseEdgeRecordFixedFields_keeps (lib : std) (NUM : Nat)
    (nodes : List BT9ReaderNodeRecord) :
    ∀ (ss : List (List Nat)) (index : Nat) (r r' : Nat × BT9ReaderEdgeRecord)
      (ss' : List (List Nat)), 3 ≤ index →
      BT9Reader.parseEdgeRecordFixedFields_ lib NUM nodes index r ss = some (r', ss') →
      r'.1 = r.1 ∧ r'.2.src_node_id_ = r.2.src_node_id_ ∧
        r'.2.dest_node_id_ = r.2.dest_node_id_ := by
  intro ss
  induction ss with
  | nil =>
    intro index r r' ss' _ h
    simp only [BT9Reader.parseEdgeRecordFixedFields_, Option.some.injEq, Prod.mk.injEq] at h
    obtain ⟨rfl, _⟩ := h
    exact ⟨rfl, rfl, rfl⟩
  | cons token ss ih =>
    intro index r r' ss' hidx h
    have hcases : index = 3 ∨ index = 4 ∨ index = 5 ∨ index = 6 ∨ 7 ≤ index := by omega
    have hstop : some (r, token :: ss) = some (r', ss') →
        r'.1 = r.1 ∧ r'.2.src_node_id_ = r.2.src_node_id_ ∧
          r'.2.dest_node_id_ = r.2.dest_node_id_ := by
      intro h
      simp only [Option.some.injEq, Prod.mk.injEq] at h
      obtain ⟨rfl, _⟩ := h
      exact ⟨rfl, rfl, rfl⟩
    rcases hcases with e | e | e | e | e
    · subst e
      rw [BT9Reader.parseEdgeRecordFixedFields_] at h
      split at h
      · split at h
        · exact (ih 4 _ r' ss' (by omega) h :)
        · split at h
          · exact (ih 4 _ r' ss' (by omega) h :)
          · simp at h
      · exact hstop h
    · subst e
      rw [BT9Reader.parseEdgeRecordFixedFields_] at h
      split at h
      · split at h
        · simp at h
        · exact (ih 5 _ r' ss' (by omega) h :)
      · exact hstop h
    · subst e
      rw [BT9Reader.parseEdgeRecordFixedFields_] at h
      split at h
      · split at h
        · exact ih _ _ _ _ (by omega) h
        · split at h
          · simp at h
          · exact ih _ _ _ _ (by omega) h
      · exact hstop h
    · subst e
      rw [BT9Reader.parseEdgeRecordFixedFields_] at h
      split at h
      · split at h
        · simp at h
        · exact ih _ _ _ _ (by omega) h
      · exact hstop h
    · rw [BT9Reader.parseEdgeRecordFixedFields_] at h
      · split at h
        · exact ih _ _ _ _ hidx h
        · exact hstop h
      all_goals omega

/-- An EDGE line with at least three fields that `parseEdgeRecordFixedFields_` accepts: the
id, the source and the destination are the converted tokens, and the source and the
destination are below the size of the node table. -/
theorem parseEdgeRecordFixedFields_checked (lib : std) (NUM : Nat)
    (nodes : List BT9ReaderNodeRecord) (hNUM : 3 ≤ NUM)
    (r r' : Nat × BT9ReaderEdgeRecord) (t0 t1 t2 : List Nat) (ss ss' : List (List Nat))
    (h : BT9Reader.parseEdgeRecordFixedFields_ lib NUM nodes 0 r (t0 :: t1 :: t2 :: ss)
      = some (r', ss')) :
    ∃ v0 v1 v2, lib.stoi t0 = some v0 ∧ lib.stoi t1 = some v1 ∧ lib.stoi t2 = some v2 ∧
      r'.1 = uint32_of_int v0 ∧
      r'.2.src_node_id_ = uint32_of_int v1 ∧ uint32_of_int v1 < nodes.length ∧
      r'.2.dest_node_id_ = uint32_of_int v2 ∧ uint32_of_int v2 < nodes.length := by
  rw [BT9Reader.parseEdgeRecordFixedFields_, if_pos (by omega)] at h
  cases h0 : lib.stoi t0 with
  | none => simp [h0] at h
  | some v0 =>
    simp only [h0] at h
    rw [BT9Reader.parseEdgeRecordFixedFields_, if_pos (by omega)] at h
    cases h1 : lib.stoi t1 with
    | none => simp [h1] at h
    | some v1 =>
      simp only [h1] at h
      split at h
      · rename_i hv1
        rw [BT9Reader.parseEdgeRecordFixedFields_, if_pos (by omega)] at h
        cases h2 : lib.stoi t2 with
        | none => simp [h2] at h
        | some v2 =>
          simp only [h2] at h
          split at h
          · rename_i hv2
            obtain ⟨k1, k2, k3⟩ :=
              parseEdgeRecordFixedFields_keeps lib NUM nodes ss 3 _ r' ss' (by omega) h
            simp only [BT9Reader.isValidNodeIndex_, decide_eq_true_eq] at hv1 hv2
            exact ⟨v0, v1, v2, rfl, rfl, rfl, k1, k2, hv1, k3, hv2⟩
          · simp at h
      · simp at h

/-- An EDGE line whose source token converts to a value that is not below the size of
the node table ends the process. -/
theorem parseEdgeRecordFixedFields_src (lib : std) (NUM : Nat)
    (nodes : List BT9ReaderNodeRecord) (hNUM : 2 ≤ NUM)
    (r : Nat × BT9ReaderEdgeRecord) (t0 t1 : List Nat) (ss : List (List Nat)) (v1 : Int)
    (h1 : lib.stoi t1 = some v1) (hbad : nodes.length ≤ uint32_of_int v1) :
    BT9Reader.parseEdgeRecordFixedFields_ lib NUM nodes 0 r (t0 :: t1 :: ss) = none := by
  rw [BT9Reader.parseEdgeRecordFixedFields_, if_pos (by omega)]
  cases h0 : lib.stoi t0 with
  | none => rfl
  | some v0 =>
    simp only
    rw [BT9Reader.parseEdgeRecordFixedFields_, if_pos (by omega)]
    simp only [h1]
    rw [if_neg]
    simp only [BT9Reader.isValidNodeIndex_, decide_eq_true_eq]
    omega

/-- An EDGE line whose destination token converts to a value that is not below the size
of the node table ends the process. -/
theorem parseEdgeRecordFixedFields_dest (lib : std) (NUM : Nat)
    (nodes : List BT9ReaderNodeRecord) (hNUM : 3 ≤ NUM)
    (r : Nat × BT9ReaderEdgeRecord) (t0 t1 t2 : List Nat) (ss : List (List Nat)) (v2 : Int)
    (h2 : lib.stoi t2 = some v2) (hbad : nodes.length ≤ uint32_of_int v2) :
    BT9Reader.parseEdgeRecordFixedFields_ lib NUM nodes 0 r (t0 :: t1 :: t2 :: ss) = none := by
  rw [BT9Reader.parseEdgeRecordFixedFields_, if_pos (by omega)]
  cases h0 : lib.stoi t0 with
  | none => rfl
  | some v0 =>
    simp only
    rw [BT9Reader.parseEdgeRecordFixedFields_, if_pos (by omega)]
    cases h1 : lib.stoi t1 with
    | none => rfl
    | some v1 =>
      simp only
      split
      · rw [BT9Reader.parseEdgeRecordFixedFields_, if_pos (by omega)]
        simp only [h2]
        rw [if_neg]
        simp only [BT9Reader.isValidNodeIndex_, decide_eq_true_eq]
        omega
      · rfl

/-- The records that the loop of `readBT9EdgeTable_` appends for EDGE lines with at least
three fields (four tokens) have a source and a destination below the size of the node table. -/
theorem readBT9EdgeTable_loop_checked (lib : std) (NUM : Nat)
    (nodes : List BT9ReaderNodeRecord) (dflt : Nat × BT9ReaderEdgeRecord) (hNUM : 3 ≤ NUM) :
    ∀ (lines : List (List (List Nat))) (reach : Bool)
      (temp out : List (Nat × BT9ReaderEdgeRecord)),
      (∀ line ∈ lines, line.head? = some tokenEDGE → 4 ≤ line.length) →
      BT9Reader.readBT9EdgeTable_loop lib NUM nodes dflt reach temp lines = some out →
      ∀ x ∈ out, x ∈ temp ∨
        (x.2.src_node_id_ < nodes.length ∧ x.2.dest_node_id_ < nodes.length) := by
  intro lines
  induction lines with
  | nil =>
    intro reach temp out _ h x hx
    simp only [BT9Reader.readBT9EdgeTable_loop, Option.some.injEq] at h
    subst h
    exact Or.inl hx
  | cons line rest ih =>
    intro reach temp out hfull h x hx
    have hrest : ∀ line ∈ rest, line.head? = some tokenEDGE → 4 ≤ line.length :=
      fun l hl => hfull l (List.mem_cons_of_mem _ hl)
    cases line with
    | nil =>
      rw [BT9Reader.readBT9EdgeTable_loop] at h
      exact ih reach temp out hrest h x hx
    | cons token ss =>
      rw [BT9Reader.readBT9EdgeTable_loop] at h
      split at h
      · exact ih reach temp out hrest h x hx
      split at h
      · rename_i htok
        subst htok
        have hlen : 3 ≤ ss.length := by
          have := hfull (tokenEDGE :: ss) (List.mem_cons_self _ _) rfl
          simpa using this
        split at h
        · simp at h
        · rename_i edge_record ss' hparse
          split at h
          · rcases ih reach _ out hrest h x hx with hmem | hok
            · rcases List.mem_append.mp hmem with hm | hm
              · exact Or.inl hm
              · simp only [List.mem_singleton] at hm
                subst hm
                match ss, hlen, hparse with
                | t0 :: t1 :: t2 :: ss2, _, hparse =>
                  obtain ⟨v0, v1, v2, _, _, _, _, k2, hv1, k3, hv2⟩ :=
                    parseEdgeRecordFixedFields_checked lib NUM nodes hNUM dflt x t0 t1 t2
                      ss2 ss' hparse
                  exact Or.inr ⟨by rw [k2]; exact hv1, by rw [k3]; exact hv2⟩
            · exact Or.inr hok
          · simp at h
      · split at h
        · exact ih true temp out hrest h x hx
        · split at h
          · simp only [Option.some.injEq] at h
            subst h
            exact Or.inl hx
          · simp at h

/-- Before the line that ends the section, a line that `parseEdgeRecordFixedFields_`
refuses makes the loop of `readBT9EdgeTable_` end the process. -/
theorem readBT9EdgeTable_loop_refused (lib : std) (NUM : Nat)
    (nodes : List BT9ReaderNodeRecord) (dflt : Nat × BT9ReaderEdgeRecord)
    (ss : List (List Nat)) (rest : List (List (List Nat)))
    (hbad : BT9Reader.parseEdgeRecordFixedFields_ lib NUM nodes 0 dflt ss = none) :
    ∀ (pre : List (List (List Nat))) (reach : Bool) (temp : List (Nat × BT9ReaderEdgeRecord)),
      (∀ l ∈ pre, l.head? ≠ some tokenBT10_BIG_INDEX_SIZE_32) →
      BT9Reader.readBT9EdgeTable_loop lib NUM nodes dflt reach temp
        (pre ++ (tokenEDGE :: ss) :: rest) = none := by
  intro pre
  induction pre with
  | nil =>
    intro reach temp _
    rw [List.nil_append, BT9Reader.readBT9EdgeTable_loop, if_neg (by decide), if_pos rfl,
      hbad]
  | cons line pre ih =>
    intro reach temp hpre
    have hpre2 : ∀ l ∈ pre, l.head? ≠ some tokenBT10_BIG_INDEX_SIZE_32 :=
      fun l hl => hpre l (List.mem_cons_of_mem _ hl)
    cases line with
    | nil =>
      rw [List.cons_append, BT9Reader.readBT9EdgeTable_loop]
      exact ih reach temp hpre2
    | cons token ts =>
      have htok : token ≠ tokenBT10_BIG_INDEX_SIZE_32 := by
        intro e
        exact hpre _ (List.mem_cons_self _ _) (by simp [e])
      rw [List.cons_append, BT9Reader.readBT9EdgeTable_loop]
      split
      · exact ih reach temp hpre2
      split
      · split
        · rfl
        · split
          · exact ih reach _ hpre2
          · rfl
      · split
        · exact ih true temp hpre2
        · rw [if_neg]
          simp [htok]

/-- An edge table loaded from EDGE lines with at least three fields and pairwise distinct
ids holds parsed records only, whose node ids index the node table. -/
theorem readBT9EdgeTable_checked (lib : std) (NUM : Nat) (nodes : List BT9ReaderNodeRecord)
    (dflt : Nat × BT9ReaderEdgeRecord) (reach_edge_table_ : Bool)
    (lines : List (List (List Nat))) (temp : List (Nat × BT9ReaderEdgeRecord))
    (edges : List BT9ReaderEdgeRecord) (hNUM : 3 ≤ NUM)
    (hfull : ∀ line ∈ lines, line.head? = some tokenEDGE → 4 ≤ line.length)
    (htemp : BT9Reader.readBT9EdgeTable_loop lib NUM nodes dflt false [] lines = some temp)
    (hnd : (temp.map Prod.fst).Nodup)
    (h : BT9Reader.readBT9EdgeTable_ lib NUM nodes dflt reach_edge_table_ lines
      = some edges) :
    ∀ e, e < edges.length → ∃ edge, edges[e]? = some edge ∧
      edge.src_node_id_ < nodes.length ∧ edge.dest_node_id_ < nodes.length := by
  unfold BT9Reader.readBT9EdgeTable_ at h
  split at h
  · rw [htemp] at h
    obtain ⟨hlen, hlt⟩ := fillEdgeTable_length _ _ _ h
    rw [List.length_replicate] at hlen hlt
    have hstored := fillEdgeTable_stored temp _ edges hnd h
    intro e he
    have hmem : e ∈ temp.map Prod.fst :=
      mem_of_nodup_of_lt _ hnd (by
        intro x hx
        rw [List.length_map]
        obtain ⟨y, hy, rfl⟩ := List.mem_map.mp hx
        exact hlt y hy) e (by rw [List.length_map, ← hlen]; exact he)
    obtain ⟨y, hy, rfl⟩ := List.mem_map.mp hmem
    refine ⟨y.2, hstored y hy, ?_⟩
    rcases readBT9EdgeTable_loop_checked lib NUM nodes dflt hNUM lines false [] temp hfull
      htemp y hy with hm | hok
    · simp at hm
    · exact hok
  · simp at h

/-! ### The instances that the iterator yields -/

/-- In every state that the loop of `main` can reach, the edge table is the one of the
constructor, the filled part of the buffer holds valid edge IDs, and a valid instance of
the iterator was loaded from a row of the edge table. -/
theorem reachable_instances (cfg : BT9Config) (r0 : BT9Reader)
    (P : BT9BranchInstance → Prop) (h0 : r0.BufferValid)
    (hP : ∀ id edge_rec, r0.edge_table_[id]? = some edge_rec →
      P { src_node_rec_ptr_ := some edge_rec.src_node_id_,
          dest_node_rec_ptr_ := some edge_rec.dest_node_id_,
          edge_rec_ptr_ := some id, valid_ := true }) :
    ∀ r it, BT9Reader.Reachable cfg r0 r it →
      r.edge_table_ = r0.edge_table_ ∧ r.BufferValid ∧
      (it.br_inst_.valid_ = true → P it.br_inst_) ∧
      ∀ r' it' inst, it.deref r = Except.ok (r', it', inst) → P inst := by
  have step : ∀ (r : BT9Reader) (it : BranchInstanceIterator),
      r.edge_table_ = r0.edge_table_ → (it.br_inst_.valid_ = true → P it.br_inst_) →
      ∀ r' it' inst, it.deref r = Except.ok (r', it', inst) → P inst := by
    intro r it he hv r' it' inst hd
    rcases deref_ok _ _ _ _ _ hd with ⟨v, _, _, e3⟩ | ⟨_, _, hl⟩
    · rw [e3]; exact hv v
    · obtain ⟨id, er, _, _, g3, _, g5⟩ := loadBT9BranchInstance_ok _ _ _ hl
      rw [g5]
      rw [he] at g3
      exact hP id er g3
  have main : ∀ r it, BT9Reader.Reachable cfg r0 r it →
      r.edge_table_ = r0.edge_table_ ∧ r.BufferValid ∧
      (it.br_inst_.valid_ = true → P it.br_inst_) := by
    intro r it hreach
    induction hreach with
    | start =>
      refine ⟨rfl, h0, ?_⟩
      intro h; simp [BT9Reader.begin, BT9BranchInstance.invalid] at h
    | @deref ra rb ita itb inst _ hd ih =>
      obtain ⟨i1, i2, i3⟩ := ih
      have hPi := step ra ita i1 i3 rb itb inst hd
      rcases deref_ok _ _ _ _ _ hd with ⟨_, e1, e2, _⟩ | ⟨_, e2, hl⟩
      · rw [e1, e2]; exact ⟨i1, i2, i3⟩
      · obtain ⟨id, er, _, _, _, g4, _⟩ := loadBT9BranchInstance_ok _ _ _ hl
        rw [g4, e2]
        exact ⟨i1, i2, fun _ => hPi⟩
    | @increment ra rb ita itb _ hi ih =>
      obtain ⟨i1, i2, i3⟩ := ih
      obtain ⟨hinv, hcase⟩ := increment_ok cfg _ _ _ _ hi
      have hv : itb.br_inst_.valid_ = true → P itb.br_inst_ := by
        intro h; rw [hinv] at h; simp [BT9BranchInstance.invalid] at h
      rcases hcase with ⟨_, c2, _⟩ | ⟨_, _, c3, _⟩ | ⟨_, _, _, c4, _⟩ |
        ⟨_, _, _, r2, hs, hcase2⟩
      · rw [c2]; exact ⟨i1, i2, hv⟩
      · rw [c3]; exact ⟨i1, i2, hv⟩
      · rw [c4]; exact ⟨i1, i2, hv⟩
      · obtain ⟨s1, _, _, _, _, s6⟩ := shift_frame cfg _ _ hs
        rcases hcase2 with ⟨_, _, d3, _⟩ | ⟨_, d3, _⟩
        · rw [d3]; exact ⟨s1.trans i1, s6, hv⟩
        · rw [d3]; exact ⟨s1.trans i1, s6, hv⟩
  intro r it hreach
  obtain ⟨i1, i2, i3⟩ := main r it hreach
  exact ⟨i1, i2, i3, step r it i1 i3⟩

/-- Every instance that the loop of `main` meets is the result of a dereference in a
reachable state. -/
theorem forEachInstance_seen (cfg : BT9Config) (r0 : BT9Reader) :
    ∀ (fuel : Nat) (r : BT9Reader) (it : BranchInstanceIterator)
      (seen : List BT9BranchInstance) (r' : BT9Reader) (it' : BranchInstanceIterator),
      BT9Reader.Reachable cfg r0 r it →
      BT9Reader.forEachInstance cfg fuel r it = Except.ok (seen, r', it') →
      ∀ inst ∈ seen, ∃ ra ita rb itb, BT9Reader.Reachable cfg r0 ra ita ∧
        ita.deref ra = Except.ok (rb, itb, inst) := by
  intro fuel
  induction fuel with
  | zero => intro r it seen r' it' _ h; simp [BT9Reader.forEachInstance] at h
  | succ fuel ih =>
    intro r it seen r' it' hreach h
    rw [BT9Reader.forEachInstance] at h
    by_cases hne : it.ne BT9Reader.end_ = true
    · rw [if_pos hne] at h
      cases hd : it.deref r with
      | error e => rw [hd] at h; simp at h
      | ok p =>
        obtain ⟨r1, it1, inst⟩ := p
        rw [hd] at h
        simp only at h
        cases hi : it1.increment cfg r1 with
        | error e => rw [hi] at h; simp at h
        | ok q =>
          obtain ⟨r2, it2⟩ := q
          rw [hi] at h
          simp only at h
          cases hf : BT9Reader.forEachInstance cfg fuel r2 it2 with
          | error e => rw [hf] at h; simp at h
          | ok t =>
            obtain ⟨seen2, r3, it3⟩ := t
            rw [hf] at h
            simp only [Except.ok.injEq, Prod.mk.injEq] at h
            obtain ⟨h1, _, _⟩ := h
            subst h1
            intro x hx
            rcases List.mem_cons.mp hx with rfl | hx
            · exact ⟨r, it, r1, it1, hreach, hd⟩
            · exact ih r2 it2 seen2 r3 it3
                (BT9Reader.Reachable.increment (BT9Reader.Reachable.deref hreach hd) hi) hf
                x hx
    · rw [if_neg hne] at h
      simp only [Except.ok.injEq, Prod.mk.injEq] at h
      obtain ⟨h1, _, _⟩ := h
      subst h1
      intro x hx
      simp at hx

/-! #### Claim C15 -/

/-- C15 (as amended): let the node table be loaded from parsed records whose ids are
pairwise distinct (the default constructed node record counting as unused), and the edge
table from an edge section whose EDGE lines carry at least their id, source and destination
fields, these being among the fixed fields (`3 <= NUM_VALUE_FIELD_`), and whose parsed edge
ids are pairwise distinct.  Then the node table is indexed by id, and for every input of
the binary section and every branch instance that a dereference of the iterator yields, in
any state that dereferences and advances reach after the constructor, the edge pointer
indexes a row of the edge table, the node pointers index the rows of the node table named
by the `src_node_id_` and `dest_node_id_` of that edge, and the ids of the two node records
are these ids.  The same holds for every instance that the loop of `main` meets. -/
theorem C15_instances_index_the_tables (cfg : BT9Config) (lib : std)
    (NUM_VALUE_FIELD_ : Nat) (dfltN : BT9ReaderNodeRecord)
    (dfltE : Nat × BT9ReaderEdgeRecord) (node_table_temp_ : List BT9ReaderNodeRecord)
    (reach_edge_table_ : Bool) (lines : List (List (List Nat)))
    (edge_table_temp_ : List (Nat × BT9ReaderEdgeRecord)) (stream : List Nat)
    (nodes : List BT9ReaderNodeRecord) (edges : List BT9ReaderEdgeRecord)
    (hdflt : dfltN.brClass_brBehavior.conditionality = Conditionality.UNKNOWN)
    (hnd : (node_table_temp_.map (fun x => x.brNodeIndex)).Nodup)
    (hNUM : 3 ≤ NUM_VALUE_FIELD_)
    (hfull : ∀ line ∈ lines, line.head? = some tokenEDGE → 4 ≤ line.length)
    (htemp : BT9Reader.readBT9EdgeTable_loop lib NUM_VALUE_FIELD_ nodes dfltE false [] lines
      = some edge_table_temp_)
    (hed : (edge_table_temp_.map Prod.fst).Nodup)
    (hnodes : BT9Reader.readBT9NodeTable_ dfltN node_table_temp_ = some nodes)
    (hedges : BT9Reader.readBT9EdgeTable_ lib NUM_VALUE_FIELD_ nodes dfltE reach_edge_table_
      lines = some edges) :
    (∀ s, s < nodes.length → ∃ nd, nodes[s]? = some nd ∧ nd.brNodeIndex = s) ∧
    (∀ r0, BT9Reader.initBT9EdgeSeqListAccessWindow_ cfg
        (BT9Reader.atBinarySection cfg nodes edges stream) = Except.ok r0 →
      ∀ r it, BT9Reader.Reachable cfg r0 r it →
      ∀ r' it' inst, it.deref r = Except.ok (r', it', inst) →
        inst.consistent nodes edges = true) ∧
    (∀ fuel seen r it, BT9Reader.run cfg nodes edges stream fuel = Except.ok (seen, r, it) →
      ∀ inst ∈ seen, inst.consistent nodes edges = true) := by
  have hN := readBT9NodeTable_indexed dfltN node_table_temp_ nodes hdflt hnd hnodes
  have hE := readBT9EdgeTable_checked lib NUM_VALUE_FIELD_ nodes dfltE reach_edge_table_
    lines edge_table_temp_ edges hNUM hfull htemp hed hedges
  have key : ∀ r0, BT9Reader.initBT9EdgeSeqListAccessWindow_ cfg
        (BT9Reader.atBinarySection cfg nodes edges stream) = Except.ok r0 →
      ∀ r it, BT9Reader.Reachable cfg r0 r it →
      ∀ r' it' inst, it.deref r = Except.ok (r', it', inst) →
        inst.consistent nodes edges = true := by
    intro r0 hinit r it hreach
    obtain ⟨s1, _, _, _, _, s6⟩ := shift_frame cfg _ _ hinit
    have he0 : r0.edge_table_ = edges := s1
    refine (reachable_instances cfg r0 (fun inst => inst.consistent nodes edges = true) s6 ?_
      r it hreach).2.2.2
    intro id er hget
    rw [he0] at hget
    have hid : id < edges.length := by
      by_contra hge
      rw [List.getElem?_eq_none (by omega)] at hget
      simp at hget
    obtain ⟨edge, hedge, hs, hd⟩ := hE id hid
    rw [hget] at hedge
    simp only [Option.some.injEq] at hedge
    subst hedge
    obtain ⟨ns, hns, hnsid⟩ := hN _ hs
    obtain ⟨ndst, hndst, hndstid⟩ := hN _ hd
    simp [BT9BranchInstance.consistent, hget, hns, hndst, hnsid, hndstid]
  refine ⟨hN, key, ?_⟩
  intro fuel seen r it hrun inst hinst
  unfold BT9Reader.run at hrun
  cases hinit : BT9Reader.initBT9EdgeSeqListAccessWindow_ cfg
      (BT9Reader.atBinarySection cfg nodes edges stream) with
  | error e => rw [hinit] at hrun; simp at hrun
  | ok r0 =>
    rw [hinit] at hrun
    simp only at hrun
    obtain ⟨ra, ita, rb, itb, hreach, hd⟩ :=
      forEachInstance_seen cfg r0 fuel r0 BT9Reader.begin seen r it
        BT9Reader.Reachable.start hrun inst hinst
    exact key r0 hinit ra ita hreach rb itb inst hd

/-- C15, witness: three nodes listed in the order of the ids 1, 0, 2, the edge section
`EDGE 1 1 2 N 72 - 0`, `EDGE 0 0 1 T 64 - 0`, `BT10_SMALL_INDEX_SIZE_8`,
`BT10_BIG_INDEX_SIZE_32` with seven fixed fields, and the edge sequence 0, 1. -/
theorem C15_instances_index_the_tables_witness :
    (∀ s, s < [sampleNode 0 68, sampleNode 1 64, sampleNode 2 72].length →
      ∃ nd, [sampleNode 0 68, sampleNode 1 64, sampleNode 2 72][s]? = some nd ∧
        nd.brNodeIndex = s) ∧
    (∀ r0, BT9Reader.initBT9EdgeSeqListAccessWindow_ sampleConfig
        (BT9Reader.atBinarySection sampleConfig
          [sampleNode 0 68, sampleNode 1 64, sampleNode 2 72]
          [{ src_node_id_ := 0, dest_node_id_ := 1, isTakenPath := true, brVirtualTarget := 64 },
           { src_node_id_ := 1, dest_node_id_ := 2, isTakenPath := false,
             brVirtualTarget := 72 }]
          (encodeBT10 [0, 1])) = Except.ok r0 →
      ∀ r it, BT9Reader.Reachable sampleConfig r0 r it →
      ∀ r' it' inst, it.deref r = Except.ok (r', it', inst) →
        inst.consistent [sampleNode 0 68, sampleNode 1 64, sampleNode 2 72]
          [{ src_node_id_ := 0, dest_node_id_ := 1, isTakenPath := true, brVirtualTarget := 64 },
           { src_node_id_ := 1, dest_node_id_ := 2, isTakenPath := false,
             brVirtualTarget := 72 }] = true) ∧
    (∀ fuel seen r it, BT9Reader.run sampleConfig
        [sampleNode 0 68, sampleNode 1 64, sampleNode 2 72]
        [{ src_node_id_ := 0, dest_node_id_ := 1, isTakenPath := true, brVirtualTarget := 64 },
         { src_node_id_ := 1, dest_node_id_ := 2, isTakenPath := false,
           brVirtualTarget := 72 }]
        (encodeBT10 [0, 1]) fuel = Except.ok (seen, r, it) →
      ∀ inst ∈ seen, inst.consistent [sampleNode 0 68, sampleNode 1 64, sampleNode 2 72]
        [{ src_node_id_ := 0, dest_node_id_ := 1, isTakenPath := true, brVirtualTarget := 64 },
         { src_node_id_ := 1, dest_node_id_ := 2, isTakenPath := false,
           brVirtualTarget := 72 }] = true) :=
  C15_instances_index_the_tables sampleConfig sampleStd 7 sampleDefaultNode
    (0, sampleDefaultEdge)
    [sampleNode 1 64, sampleNode 0 68, sampleNode 2 72] true
    [[tokenEDGE, [49], [49], [50], [78], [55, 50], [45], [48]],
     [tokenEDGE, [48], [48], [49], [84], [54, 52], [45], [48]],
     [tokenBT10_SMALL_INDEX_SIZE_8], [tokenBT10_BIG_INDEX_SIZE_32]]
    [(1, { src_node_id_ := 1, dest_node_id_ := 2, isTakenPath := false, brVirtualTarget := 72 }),
     (0, { src_node_id_ := 0, dest_node_id_ := 1, isTakenPath := true, brVirtualTarget := 64 })]
    (encodeBT10 [0, 1])
    [sampleNode 0 68, sampleNode 1 64, sampleNode 2 72]
    [{ src_node_id_ := 0, dest_node_id_ := 1, isTakenPath := true, brVirtualTarget := 64 },
     { src_node_id_ := 1, dest_node_id_ := 2, isTakenPath := false, brVirtualTarget := 72 }]
    rfl (by decide) (by decide) (by decide) (by decide) (by decide) (by decide) (by decide)

/-- C15, counterexample to the claim as stated: a node section that lists the id 0 three
times is accepted (the second and third record are reported as duplicates and dropped), so
the node table has three rows of which rows 1 and 2 keep the default constructed record;
the line `EDGE 0 1 2 T 64 - 0`, an edge from node 1 to node 2, passes `isValidNodeIndex_`
and the edge section is loaded.  The instance that the iterator yields for this edge points
to rows 1 and 2 of the node table, which hold the same record: their ids cannot be both 1
and 2, and the instance is not consistent. -/
theorem C15_counterexample_duplicate_node_ids :
    BT9Reader.readBT9NodeTable_ sampleDefaultNode
        [sampleNode 0 64, sampleNode 0 64, sampleNode 0 64]
      = some [sampleNode 0 64, sampleDefaultNode, sampleDefaultNode] ∧
    BT9Reader.readBT9EdgeTable_ sampleStd 7
        [sampleNode 0 64, sampleDefaultNode, sampleDefaultNode] (0, sampleDefaultEdge) true
        [[tokenEDGE, [48], [49], [50], [84], [54, 52], [45], [48]],
         [tokenBT10_SMALL_INDEX_SIZE_8], [tokenBT10_BIG_INDEX_SIZE_32]]
      = some [{ src_node_id_ := 1, dest_node_id_ := 2, isTakenPath := true,
                brVirtualTarget := 64 }] ∧
    (BT9Reader.run sampleConfig [sampleNode 0 64, sampleDefaultNode, sampleDefaultNode]
        [{ src_node_id_ := 1, dest_node_id_ := 2, isTakenPath := true, brVirtualTarget := 64 }]
        (encodeBT10 [0]) 2).toOption.map Prod.fst
      = some [{ src_node_rec_ptr_ := some 1, dest_node_rec_ptr_ := some 2,
                edge_rec_ptr_ := some 0, valid_ := true }] ∧
    BT9BranchInstance.consistent [sampleNode 0 64, sampleDefaultNode, sampleDefaultNode]
        [{ src_node_id_ := 1, dest_node_id_ := 2, isTakenPath := true, brVirtualTarget := 64 }]
        { src_node_rec_ptr_ := some 1, dest_node_rec_ptr_ := some 2,
          edge_rec_ptr_ := some 0, valid_ := true } = false ∧
    ([sampleNode 0 64, sampleDefaultNode, sampleDefaultNode][1]?).map
        (fun nd => nd.brNodeIndex) = some 0 := by
  refine ⟨by decide, by decide, by decide!, by decide, by decide⟩

/-! ### The counter table predictors (`bimodal`, `gshare`) -/

/-- A valid counter saved at an index of a well-formed table is read back from there, and
the table keeps its shape. -/
theorem save_counter_get_counter (size W : Nat) (t : pht) (i : Nat)
    (hwf : pht.WellFormed size W t) (hW1 : 1 ≤ W) (hW2 : W ≤ 33) (hi : i < size)
    (c : sat_ctr) (hD : c.Dir ≤ 1) (hS : c.Strenght ≤ MaxStrenght W) :
    ∃ t', pht.save_counter W t i c = some t' ∧ pht.get_counter t' i = some c ∧
      pht.WellFormed size W t' := by
  obtain ⟨array, hga, hlen, hbits, hof⟩ := ofArray_getArray W c hW1 hW2 hD hS
  obtain ⟨planes', hsv, hgt, hok, hl⟩ :=
    get_bits_save_bits size i hi t.arrays t.tmp_arr array hwf.2 (by rw [hlen, hwf.1]) hbits
  refine ⟨{ t with arrays := planes' }, ?_, ?_, ?_⟩
  · simp only [pht.save_counter, hga, hsv]
  · simp only [pht.get_counter, hgt, hof]
  · exact ⟨hl.trans hwf.1, hok⟩

/-- The table index `x & (numPhtEntries - 1)` is a `uint32_t` value below
`numPhtEntries`. -/
theorem pht_index_lt (PHT_SIZE x : Nat) (hP : PHT_SIZE ≤ 31) :
    numPhtEntries PHT_SIZE = 2 ^ PHT_SIZE ∧
    (x &&& (if numPhtEntries PHT_SIZE = 0 then 2 ^ 32 - 1 else numPhtEntries PHT_SIZE - 1))
      = x % 2 ^ PHT_SIZE ∧
    (x % 2 ^ PHT_SIZE) % 2 ^ 32 = x % 2 ^ PHT_SIZE ∧
    x % 2 ^ PHT_SIZE < numPhtEntries PHT_SIZE := by
  have hpow : 2 ^ PHT_SIZE < 2 ^ 32 := Nat.pow_lt_pow_right (by omega) (by omega)
  have hN : numPhtEntries PHT_SIZE = 2 ^ PHT_SIZE := by
    unfold numPhtEntries
    rw [Nat.one_shiftLeft]
    exact Nat.mod_eq_of_lt hpow
  have hpos : 0 < 2 ^ PHT_SIZE := Nat.pow_pos (by omega)
  have hlt : x % 2 ^ PHT_SIZE < 2 ^ PHT_SIZE := Nat.mod_lt _ hpos
  refine ⟨hN, ?_, ?_, by rw [hN]; exact hlt⟩
  · rw [hN, if_neg (by omega), Nat.and_pow_two_sub_one_eq_mod]
  · apply Nat.mod_eq_of_lt
    omega

/-! #### Claim C19 -/

/-- C19 (as amended): `UpdatePredictor` of the bimodal and of the gshare predictor does
not recompute the lookup; it uses the members `index` and `counter` that the last
`GetPrediction` left.  In a table of the declared shape (`numPhtEntries = 2^PHT_SIZE`
entries, `PHT_SIZE <= 31`, counters of 1 to 33 bits), when `UpdatePredictor` follows
`GetPrediction(pc)`, it updates the counter at the index that `GetPrediction` selected from
its own `pc` and the history of then (`pc AND (N-1)` for bimodal, `(ghr XOR pc) AND (N-1)`
for gshare), starting from the value stored in the table at that index, whatever values are
passed to `UpdatePredictor` as `PC`, `opType`, `predDir` and `branchTarget`; gshare then
shifts the outcome into `ghr`. -/
theorem C19_update_uses_last_lookup (PHT_SIZE W : Nat) (hP : PHT_SIZE ≤ 31)
    (hW1 : 1 ≤ W) (hW2 : W ≤ 33) :
    (∀ (s : BimodalState) (pc pc' : Nat) (op : OpType) (taken pred : Bool) (target : Nat),
      pht.WellFormed (numPhtEntries PHT_SIZE) W s.pht →
      ∃ c s1 s2, pht.get_counter s.pht (pc &&& (numPhtEntries PHT_SIZE - 1)) = some c ∧
        Bimodal.GetPrediction PHT_SIZE s pc = some (decide (c.Dir ≠ 0), s1) ∧
        Bimodal.UpdatePredictor W s1 pc' op taken pred target = some s2 ∧
        pht.get_counter s2.pht (pc &&& (numPhtEntries PHT_SIZE - 1))
          = some (sat_ctr.updateCounter W c (if taken then 1 else 0)) ∧
        pht.WellFormed (numPhtEntries PHT_SIZE) W s2.pht) ∧
    (∀ (s : GshareState) (pc pc' : Nat) (op : OpType) (taken pred : Bool) (target : Nat),
      pht.WellFormed (numPhtEntries PHT_SIZE) W s.pht →
      ∃ c s1 s2,
        pht.get_counter s.pht ((s.ghr ^^^ pc) &&& (numPhtEntries PHT_SIZE - 1)) = some c ∧
        Gshare.GetPrediction PHT_SIZE s pc = some (decide (c.Dir ≠ 0), s1) ∧
        Gshare.UpdatePredictor W s1 pc' op taken pred target = some s2 ∧
        pht.get_counter s2.pht ((s.ghr ^^^ pc) &&& (numPhtEntries PHT_SIZE - 1))
          = some (sat_ctr.updateCounter W c (if taken then 1 else 0)) ∧
        s2.ghr = ((s.ghr <<< 1) % 2 ^ 64) ||| (if taken then 1 else 0) ∧
        pht.WellFormed (numPhtEntries PHT_SIZE) W s2.pht) := by
  have hM := maxStrenght_lt W hW1 (by omega)
  constructor
  · intro s pc pc' op taken pred target hwf
    obtain ⟨hN, hidx, hmod, hlt⟩ := pht_index_lt PHT_SIZE pc hP
    have hmask : pc &&& (numPhtEntries PHT_SIZE - 1) = pc % 2 ^ PHT_SIZE := by
      rw [hN, Nat.and_pow_two_sub_one_eq_mod]
    rw [hmask]
    obtain ⟨c, hget, hD, hS⟩ :=
      get_counter_valid (numPhtEntries PHT_SIZE) W s.pht _ hwf hW1 hW2 hlt
    obtain ⟨hD', hS'⟩ := updateCounter_valid W c (if taken then 1 else 0) hM hD hS
    obtain ⟨t', hsave, hget', hwf'⟩ :=
      save_counter_get_counter (numPhtEntries PHT_SIZE) W s.pht _ hwf hW1 hW2 hlt _ hD' hS'
    refine ⟨c, { s with index := pc % 2 ^ PHT_SIZE, counter := c },
      { pht := t', index := pc % 2 ^ PHT_SIZE, counter := c }, hget, ?_, ?_, hget', hwf'⟩
    · simp only [Bimodal.GetPrediction, hidx, hmod, hget]
    · simp only [Bimodal.UpdatePredictor, hmod, hsave]
  · intro s pc pc' op taken pred target hwf
    obtain ⟨hN, hidx, hmod, hlt⟩ := pht_index_lt PHT_SIZE (s.ghr ^^^ pc) hP
    have hmask : (s.ghr ^^^ pc) &&& (numPhtEntries PHT_SIZE - 1)
        = (s.ghr ^^^ pc) % 2 ^ PHT_SIZE := by
      rw [hN, Nat.and_pow_two_sub_one_eq_mod]
    rw [hmask]
    obtain ⟨c, hget, hD, hS⟩ :=
      get_counter_valid (numPhtEntries PHT_SIZE) W s.pht _ hwf hW1 hW2 hlt
    obtain ⟨hD', hS'⟩ := updateCounter_valid W c (if taken then 1 else 0) hM hD hS
    obtain ⟨t', hsave, hget', hwf'⟩ :=
      save_counter_get_counter (numPhtEntries PHT_SIZE) W s.pht _ hwf hW1 hW2 hlt _ hD' hS'
    refine ⟨c, { s with index := (s.ghr ^^^ pc) % 2 ^ PHT_SIZE, counter := c },
      { pht := t', index := (s.ghr ^^^ pc) % 2 ^ PHT_SIZE,
        ghr := ((s.ghr <<< 1) % 2 ^ 64) ||| (if taken then 1 else 0), counter := c },
      hget, ?_, ?_, hget', rfl, hwf'⟩
    · simp only [Gshare.GetPrediction, hidx, hmod, hget]
    · simp only [Gshare.UpdatePredictor, hmod, hsave]

/-- C19, witness: tables of 64 two-bit counters. -/
theorem C19_update_uses_last_lookup_witness :
    (∀ (s : BimodalState) (pc pc' : Nat) (op : OpType) (taken pred : Bool) (target : Nat),
      pht.WellFormed (numPhtEntries 6) 2 s.pht →
      ∃ c s1 s2, pht.get_counter s.pht (pc &&& (numPhtEntries 6 - 1)) = some c ∧
        Bimodal.GetPrediction 6 s pc = some (decide (c.Dir ≠ 0), s1) ∧
        Bimodal.UpdatePredictor 2 s1 pc' op taken pred target = some s2 ∧
        pht.get_counter s2.pht (pc &&& (numPhtEntries 6 - 1))
          = some (sat_ctr.updateCounter 2 c (if taken then 1 else 0)) ∧
        pht.WellFormed (numPhtEntries 6) 2 s2.pht) ∧
    (∀ (s : GshareState) (pc pc' : Nat) (op : OpType) (taken pred : Bool) (target : Nat),
      pht.WellFormed (numPhtEntries 6) 2 s.pht →
      ∃ c s1 s2,
        pht.get_counter s.pht ((s.ghr ^^^ pc) &&& (numPhtEntries 6 - 1)) = some c ∧
        Gshare.GetPrediction 6 s pc = some (decide (c.Dir ≠ 0), s1) ∧
        Gshare.UpdatePredictor 2 s1 pc' op taken pred target = some s2 ∧
        pht.get_counter s2.pht ((s.ghr ^^^ pc) &&& (numPhtEntries 6 - 1))
          = some (sat_ctr.updateCounter 2 c (if taken then 1 else 0)) ∧
        s2.ghr = ((s.ghr <<< 1) % 2 ^ 64) ||| (if taken then 1 else 0) ∧
        pht.WellFormed (numPhtEntries 6) 2 s2.pht) :=
  C19_update_uses_last_lookup 6 2 (by decide) (by decide) (by decide)

/-- C19, counterexample to the claim as stated: on the bimodal and on the gshare
predictor (64 two-bit counters, all 0, `ghr = 0`), `GetPrediction(4)` followed by
`UpdatePredictor(5, ..., taken, ...)` leaves the counter at the index 5 that the `PC`
argument of `UpdatePredictor` selects as it was, and updates the counter at index 4, which
the preceding `GetPrediction` selected. -/
theorem C19_counterexample_update_with_other_pc :
    Bimodal.GetPrediction 6 (Bimodal.init 6 0 2 [1, 1]) 4
      = some (false, { pht := { arrays := [[0], [0]], tmp_arr := [1, 1] }, index := 4,
                       counter := { Dir := 0, Strenght := 0 } }) ∧
    Bimodal.UpdatePredictor 2
        { pht := { arrays := [[0], [0]], tmp_arr := [1, 1] }, index := 4,
          counter := { Dir := 0, Strenght := 0 } }
        5 OpType.OPTYPE_JMP_DIRECT_COND true false 0
      = some { pht := { arrays := [[16], [0]], tmp_arr := [1, 1] }, index := 4,
               counter := { Dir := 0, Strenght := 0 } } ∧
    pht.get_counter { arrays := [[0], [0]], tmp_arr := [1, 1] } (5 &&& (numPhtEntries 6 - 1))
      = some { Dir := 0, Strenght := 0 } ∧
    pht.get_counter { arrays := [[16], [0]], tmp_arr := [1, 1] } (5 &&& (numPhtEntries 6 - 1))
      = some { Dir := 0, Strenght := 0 } ∧
    sat_ctr.updateCounter 2 { Dir := 0, Strenght := 0 } 1 = { Dir := 1, Strenght := 0 } ∧
    pht.get_counter { arrays := [[16], [0]], tmp_arr := [1, 1] } (4 &&& (numPhtEntries 6 - 1))
      = some { Dir := 1, Strenght := 0 } ∧
    Gshare.GetPrediction 6 (Gshare.init 6 0 2 1) 4
      = some (false, { pht := { arrays := [[0], [0]], tmp_arr := [1, 1] }, index := 4,
                       ghr := 0, counter := { Dir := 0, Strenght := 0 } }) ∧
    Gshare.UpdatePredictor 2
        { pht := { arrays := [[0], [0]], tmp_arr := [1, 1] }, index := 4, ghr := 0,
          counter := { Dir := 0, Strenght := 0 } }
        5 OpType.OPTYPE_JMP_DIRECT_COND true false 0
      = some { pht := { arrays := [[16], [0]], tmp_arr := [1, 1] }, index := 4, ghr := 1,
               counter := { Dir := 0, Strenght := 0 } } ∧
    (0 ^^^ 5) &&& (numPhtEntries 6 - 1) = 5 := by
  refine ⟨by decide!, by decide!, by decide!, by decide!, by decide!, by decide!, by decide!,
    by decide!, by decide!⟩

/-! #### Claim C20 -/

/-- C20 (as amended): the pre-hash `p = PC XOR (PC >> 2)` is applied by the methods of the
2bc-gskew `PREDICTOR`, which hand `p` to `get_prediction` and `update_predictor`.  The loop
of `main` passes the address of the source node as it is, and the other predictors do not
hash: `GetPrediction(PC)` of gshare selects the index `(ghr XOR PC) AND (N-1)` and that of
bimodal the index `PC AND (N-1)` (`N = numPhtEntries = 2^PHT_SIZE`, `PHT_SIZE <= 31`). -/
theorem C20_pre_hash_in_gskew_only :
    (∀ (cfg : GskewConfig) (s : GskewState) (PC : Nat),
      Gskew.GetPrediction cfg s PC = get_prediction cfg s (PC ^^^ (PC >>> 2))) ∧
    (∀ (cfg : GskewConfig) (s : GskewState) (PC : Nat) (op : OpType) (taken pred : Bool)
        (target rnd : Nat),
      Gskew.UpdatePredictor cfg s PC op taken pred target rnd
        = update_predictor cfg s (PC ^^^ (PC >>> 2)) taken rnd) ∧
    (∀ (PHT_SIZE : Nat) (s : GshareState) (PC : Nat) (r : Bool × GshareState),
      PHT_SIZE ≤ 31 → Gshare.GetPrediction PHT_SIZE s PC = some r →
      r.2.index = (s.ghr ^^^ PC) &&& (numPhtEntries PHT_SIZE - 1) ∧
      pht.get_counter s.pht ((s.ghr ^^^ PC) &&& (numPhtEntries PHT_SIZE - 1))
        = some r.2.counter ∧
      r.1 = decide (r.2.counter.Dir ≠ 0)) ∧
    (∀ (PHT_SIZE : Nat) (s : BimodalState) (PC : Nat) (r : Bool × BimodalState),
      PHT_SIZE ≤ 31 → Bimodal.GetPrediction PHT_SIZE s PC = some r →
      r.2.index = PC &&& (numPhtEntries PHT_SIZE - 1) ∧
      pht.get_counter s.pht (PC &&& (numPhtEntries PHT_SIZE - 1)) = some r.2.counter ∧
      r.1 = decide (r.2.counter.Dir ≠ 0)) ∧
    (∀ {σ : Type} (P : PREDICTOR σ) (s : MainState σ) (it : LoadedInstance),
      classify it.srcNode.brClass_brBehavior it.srcNode.brNodeIndex ≠ OpType.OPTYPE_ERROR →
      it.srcNode.brClass_brBehavior.conditionality = Conditionality.CONDITIONAL →
      (loopBody P s it).state.brpred
        = P.UpdatePredictor (P.GetPrediction s.brpred it.srcNode.brVirtualAddr).2
            it.srcNode.brVirtualAddr
            (classify it.srcNode.brClass_brBehavior it.srcNode.brNodeIndex)
            it.edge.isTakenPath (P.GetPrediction s.brpred it.srcNode.brVirtualAddr).1
            it.edge.brVirtualTarget) := by
  refine ⟨fun _ _ _ => rfl, fun _ _ _ _ _ _ _ _ => rfl, ?_, ?_, ?_⟩
  · intro PHT_SIZE s PC r hP h
    obtain ⟨hN, hidx, hmod, _⟩ := pht_index_lt PHT_SIZE (s.ghr ^^^ PC) hP
    have hmask : (s.ghr ^^^ PC) &&& (numPhtEntries PHT_SIZE - 1)
        = (s.ghr ^^^ PC) % 2 ^ PHT_SIZE := by
      rw [hN, Nat.and_pow_two_sub_one_eq_mod]
    rw [hmask]
    unfold Gshare.GetPrediction at h
    simp only [hidx, hmod] at h
    cases hg : pht.get_counter s.pht ((s.ghr ^^^ PC) % 2 ^ PHT_SIZE) with
    | none => rw [hg] at h; simp at h
    | some c =>
      rw [hg] at h
      simp only [Option.some.injEq] at h
      subst h
      exact ⟨rfl, rfl, rfl⟩
  · intro PHT_SIZE s PC r hP h
    obtain ⟨hN, hidx, hmod, _⟩ := pht_index_lt PHT_SIZE PC hP
    have hmask : PC &&& (numPhtEntries PHT_SIZE - 1) = PC % 2 ^ PHT_SIZE := by
      rw [hN, Nat.and_pow_two_sub_one_eq_mod]
    rw [hmask]
    unfold Bimodal.GetPrediction at h
    simp only [hidx, hmod] at h
    cases hg : pht.get_counter s.pht (PC % 2 ^ PHT_SIZE) with
    | none => rw [hg] at h; simp at h
    | some c =>
      rw [hg] at h
      simp only [Option.some.injEq] at h
      subst h
      exact ⟨rfl, rfl, rfl⟩
  · intro σ P s it hop hcond
    obtain ⟨h1, _, _, _, _⟩ := loopHead_fields s
    unfold loopBody
    simp only [hop, hcond, if_false, if_true, Outcome.state, h1]

/-- C20, counterexample to the claim as stated: for the branch address 4 the pre-hash
gives `p = 4 XOR 1 = 5`; the bimodal predictor and the gshare predictor (64 entries,
`ghr = 0`) select the index 4, not `p AND 63 = 5`. -/
theorem C20_counterexample_raw_pc_index :
    (4 ^^^ (4 >>> 2)) &&& (numPhtEntries 6 - 1) = 5 ∧
    (0 ^^^ (4 ^^^ (4 >>> 2))) &&& (numPhtEntries 6 - 1) = 5 ∧
    (Bimodal.GetPrediction 6 (Bimodal.init 6 0 2 [1, 1]) 4).map (fun r => r.2.index)
      = some 4 ∧
    (Gshare.GetPrediction 6 (Gshare.init 6 0 2 1) 4).map (fun r => (r.2.ghr, r.2.index))
      = some (0, 4) := by
  refine ⟨by decide!, by decide!, by decide!, by decide!⟩

/-! ### `GetPrediction` leaves the counters alone -/

/-- For build constants in the defined range `get_prediction` returns, with the vote of
the four prediction bits, and changes nothing but `LOGSIZE`. -/
theorem get_prediction_total (cfg : GskewConfig) (hv : cfg.Valid) (s : GskewState)
    (PC : Nat) :
    ∃ ix, get_prediction_indices cfg s.ghist PC = some ix ∧
      ix.indexg0 < 2 ^ (cfg.LOGPRED - 1) ∧ ix.indexg1 < 2 ^ (cfg.LOGPRED - 1) ∧
      ix.indexbim < 2 ^ (cfg.LOGPRED - 2) ∧ ix.indexmeta < 2 ^ (cfg.LOGPRED - 2) ∧
      sar32 ix.indexg0 (cfg.LOGPRED - 1) = 0 ∧ sar32 ix.indexg1 (cfg.LOGPRED - 1) = 0 ∧
      sar32 ix.indexbim (cfg.LOGPRED - 2) = 0 ∧ sar32 ix.indexmeta (cfg.LOGPRED - 2) = 0 ∧
      get_prediction cfg s PC
        = some (if s.BIMMETA ix.indexmeta ≠ 0
            then decide (s.BIMMETA ix.indexbim + s.GOG1 ix.indexg0 + s.GOG1 ix.indexg1 > 1)
            else decide (s.BIMMETA ix.indexbim > 0), { s with LOGSIZE := cfg.LOGPRED - 4 }) := by
  obtain ⟨ix, hix, b0, b1, b2, b3⟩ := get_prediction_indices_spec cfg hv s.ghist PC
  obtain ⟨z0, z1, z2⟩ := gskew_sizes cfg hv
  have h31 : cfg.LOGPRED ≤ 31 := hv.2.1
  have a0 := sar32_eq_zero _ _ b0 (by omega)
  have a1 := sar32_eq_zero _ _ b1 (by omega)
  have a2 := sar32_eq_zero _ _ b2 (by omega)
  have a3 := sar32_eq_zero _ _ b3 (by omega)
  have c0 : ix.indexg0 < cfg.sizeGOG1 := by omega
  have c1 : ix.indexg1 < cfg.sizeGOG1 := by omega
  have c2 : ix.indexbim < cfg.sizeBIMMETA := by omega
  have c3 : ix.indexmeta < cfg.sizeBIMMETA := by omega
  refine ⟨ix, hix, b0, b1, b2, b3, a0, a1, a2, a3, ?_⟩
  simp only [get_prediction, hix, a0, a1, a2, a3, ne_eq, not_true_eq_false, if_false,
    readTable, c0, c1, c2, c3, if_true]

/-! #### Claim C21 -/

/-- C21: `GetPrediction` does not change counters.  For tables of the declared shape
(`2^PHT_SIZE` entries, `PHT_SIZE <= 31`, counters of 1 to 33 bits) `GetPrediction(pc)` of
the bimodal and of the gshare predictor returns, leaves every plane of the table (and
`ghr` for gshare) as it is, only `index` and `counter` being set, and a second
`GetPrediction(pc)` right after returns the same value.  For build constants in the defined
range `GetPrediction(PC)` of the 2bc-gskew predictor returns, leaves `GOG1`, `BIMMETA`,
`HYST` and `ghist` as they are, and a second call returns the same value. -/
theorem C21_GetPrediction_keeps_counters (PHT_SIZE W : Nat) (cfg : GskewConfig)
    (hP : PHT_SIZE ≤ 31) (hW1 : 1 ≤ W) (hW2 : W ≤ 33) (hv : cfg.Valid) :
    (∀ (s : BimodalState) (pc : Nat), pht.WellFormed (numPhtEntries PHT_SIZE) W s.pht →
      ∃ d s1, Bimodal.GetPrediction PHT_SIZE s pc = some (d, s1) ∧
        s1 = { s with index := s1.index, counter := s1.counter } ∧ s1.pht = s.pht ∧
        Bimodal.GetPrediction PHT_SIZE s1 pc = some (d, s1)) ∧
    (∀ (s : GshareState) (pc : Nat), pht.WellFormed (numPhtEntries PHT_SIZE) W s.pht →
      ∃ d s1, Gshare.GetPrediction PHT_SIZE s pc = some (d, s1) ∧
        s1 = { s with index := s1.index, counter := s1.counter } ∧
        s1.pht = s.pht ∧ s1.ghr = s.ghr ∧
        Gshare.GetPrediction PHT_SIZE s1 pc = some (d, s1)) ∧
    (∀ (s : GskewState) (PC : Nat),
      ∃ d s1, Gskew.GetPrediction cfg s PC = some (d, s1) ∧
        s1.GOG1 = s.GOG1 ∧ s1.BIMMETA = s.BIMMETA ∧ s1.HYST = s.HYST ∧
        s1.ghist = s.ghist ∧
        ∃ s2, Gskew.GetPrediction cfg s1 PC = some (d, s2) ∧
          s2.GOG1 = s.GOG1 ∧ s2.BIMMETA = s.BIMMETA ∧ s2.HYST = s.HYST ∧
          s2.ghist = s.ghist) := by
  refine ⟨?_, ?_, ?_⟩
  · intro s pc hwf
    obtain ⟨hN, hidx, hmod, hlt⟩ := pht_index_lt PHT_SIZE pc hP
    obtain ⟨c, hget, _, _⟩ :=
      get_counter_valid (numPhtEntries PHT_SIZE) W s.pht _ hwf hW1 hW2 hlt
    refine ⟨decide (c.Dir ≠ 0), { s with index := pc % 2 ^ PHT_SIZE, counter := c },
      ?_, rfl, rfl, ?_⟩
    · simp only [Bimodal.GetPrediction, hidx, hmod, hget]
    · simp only [Bimodal.GetPrediction, hidx, hmod, hget]
  · intro s pc hwf
    obtain ⟨hN, hidx, hmod, hlt⟩ := pht_index_lt PHT_SIZE (s.ghr ^^^ pc) hP
    obtain ⟨c, hget, _, _⟩ :=
      get_counter_valid (numPhtEntries PHT_SIZE) W s.pht _ hwf hW1 hW2 hlt
    refine ⟨decide (c.Dir ≠ 0),
      { s with index := (s.ghr ^^^ pc) % 2 ^ PHT_SIZE, counter := c }, ?_, rfl, rfl, rfl, ?_⟩
    · simp only [Gshare.GetPrediction, hidx, hmod, hget]
    · simp only [Gshare.GetPrediction, hidx, hmod, hget]
  · intro s PC
    obtain ⟨ix, hix, _, _, _, _, _, _, _, _, hget⟩ :=
      get_prediction_total cfg hv s (PC ^^^ (PC >>> 2))
    obtain ⟨ix', hix', _, _, _, _, _, _, _, _, hget'⟩ :=
      get_prediction_total cfg hv { s with LOGSIZE := cfg.LOGPRED - 4 } (PC ^^^ (PC >>> 2))
    have hsame : ix' = ix := by
      have : some ix' = some ix := by rw [← hix', ← hix]
      exact Option.some.inj this
    subst hsame
    refine ⟨_, _, hget, rfl, rfl, rfl, rfl, _, hget', rfl, rfl, rfl, rfl⟩

/-- C21, witness: tables of 64 two-bit counters and the reference constants of
2bc-gskew. -/
theorem C21_GetPrediction_keeps_counters_witness :
    (∀ (s : BimodalState) (pc : Nat), pht.WellFormed (numPhtEntries 6) 2 s.pht →
      ∃ d s1, Bimodal.GetPrediction 6 s pc = some (d, s1) ∧
        s1 = { s with index := s1.index, counter := s1.counter } ∧ s1.pht = s.pht ∧
        Bimodal.GetPrediction 6 s1 pc = some (d, s1)) ∧
    (∀ (s : GshareState) (pc : Nat), pht.WellFormed (numPhtEntries 6) 2 s.pht →
      ∃ d s1, Gshare.GetPrediction 6 s pc = some (d, s1) ∧
        s1 = { s with index := s1.index, counter := s1.counter } ∧
        s1.pht = s.pht ∧ s1.ghr = s.ghr ∧
        Gshare.GetPrediction 6 s1 pc = some (d, s1)) ∧
    (∀ (s : GskewState) (PC : Nat),
      ∃ d s1, Gskew.GetPrediction sampleGskew s PC = some (d, s1) ∧
        s1.GOG1 = s.GOG1 ∧ s1.BIMMETA = s.BIMMETA ∧ s1.HYST = s.HYST ∧
        s1.ghist = s.ghist ∧
        ∃ s2, Gskew.GetPrediction sampleGskew s1 PC = some (d, s2) ∧
          s2.GOG1 = s.GOG1 ∧ s2.BIMMETA = s.BIMMETA ∧ s2.HYST = s.HYST ∧
          s2.ghist = s.ghist) :=
  C21_GetPrediction_keeps_counters 6 2 sampleGskew (by decide) (by decide) (by decide)
    (by unfold GskewConfig.Valid; decide)
/-! ### The counter invariant -/

/-- Any number of `updateCounter` calls keeps a valid counter valid. -/
theorem foldl_updateCounter_valid (W : Nat) (hM : MaxStrenght W < 2 ^ 32) :
    ∀ (ds : List Nat) (c : sat_ctr), c.Dir ≤ 1 → c.Strenght ≤ MaxStrenght W →
      (ds.foldl (sat_ctr.updateCounter W) c).Dir ≤ 1 ∧
      (ds.foldl (sat_ctr.updateCounter W) c).Strenght ≤ MaxStrenght W := by
  intro ds
  induction ds with
  | nil => intro c hD hS; exact ⟨hD, hS⟩
  | cons d ds ih =>
    intro c hD hS
    obtain ⟨hD1, hS1⟩ := updateCounter_valid W c d hM hD hS
    exact ih _ hD1 hS1

/-! #### Claim C23 -/

/-- C23: in a table of the declared shape (counters of 1 to 33 bits), whatever the
contents of its planes, every counter that `get_counter` returns has `Dir` in {0,1} and
`Strenght <= MaxStrenght`; `updateCounter(d)` preserves both (for every `d`); hence the two
assertions of `rawVal` hold on a counter obtained by `get_counter` followed by any number
of `updateCounter` calls, and `rawVal` returns a value for widths up to 32 (for width 33
its shift by 32 is undefined). -/
theorem C23_counter_invariant (size W : Nat) (t : pht) (hwf : pht.WellFormed size W t)
    (hW1 : 1 ≤ W) (hW2 : W ≤ 33) :
    (∀ i, i < size → ∃ c, pht.get_counter t i = some c ∧ c.Dir ≤ 1 ∧
      c.Strenght ≤ MaxStrenght W) ∧
    (∀ (c : sat_ctr) (d : Nat), c.Dir ≤ 1 → c.Strenght ≤ MaxStrenght W →
      (sat_ctr.updateCounter W c d).Dir ≤ 1 ∧
      (sat_ctr.updateCounter W c d).Strenght ≤ MaxStrenght W) ∧
    (∀ i, i < size → ∀ ds : List Nat, ∃ c, pht.get_counter t i = some c ∧
      sat_ctr.rawValAsserts W (ds.foldl (sat_ctr.updateCounter W) c) = true ∧
      (W ≤ 32 → ∃ v, sat_ctr.rawVal W (ds.foldl (sat_ctr.updateCounter W) c) = some v)) := by
  have hM := maxStrenght_lt W hW1 (by omega)
  refine ⟨?_, ?_, ?_⟩
  · intro i hi
    exact get_counter_valid size W t i hwf hW1 hW2 hi
  · intro c d hD hS
    exact updateCounter_valid W c d hM hD hS
  · intro i hi ds
    obtain ⟨c, hget, hD, hS⟩ := get_counter_valid size W t i hwf hW1 hW2 hi
    obtain ⟨hD', hS'⟩ := foldl_updateCounter_valid W hM ds c hD hS
    have hass : sat_ctr.rawValAsserts W (ds.foldl (sat_ctr.updateCounter W) c) = true := by
      simp only [sat_ctr.rawValAsserts, Bool.and_eq_true, decide_eq_true_eq]
      exact ⟨hS', by omega⟩
    refine ⟨c, hget, hass, ?_⟩
    intro hW32
    have hW0 : W ≠ 0 := by omega
    have hsh : W - 1 < 32 := by omega
    refine ⟨(((ds.foldl (sat_ctr.updateCounter W) c).Dir <<< (W - 1)) % 2 ^ 32)
      ||| (ds.foldl (sat_ctr.updateCounter W) c).Strenght, ?_⟩
    simp only [sat_ctr.rawVal, hass, if_true, hW0, if_false, hsh]

/-- C23, witness: a 64-entry table of 2-bit counters with arbitrary words in its
planes. -/
theorem C23_counter_invariant_witness :
    (∀ i, i < 64 → ∃ c,
      pht.get_counter { arrays := [[12345], [67890]], tmp_arr := [1, 1] } i = some c ∧
      c.Dir ≤ 1 ∧ c.Strenght ≤ MaxStrenght 2) ∧
    (∀ (c : sat_ctr) (d : Nat), c.Dir ≤ 1 → c.Strenght ≤ MaxStrenght 2 →
      (sat_ctr.updateCounter 2 c d).Dir ≤ 1 ∧
      (sat_ctr.updateCounter 2 c d).Strenght ≤ MaxStrenght 2) ∧
    (∀ i, i < 64 → ∀ ds : List Nat, ∃ c,
      pht.get_counter { arrays := [[12345], [67890]], tmp_arr := [1, 1] } i = some c ∧
      sat_ctr.rawValAsserts 2 (ds.foldl (sat_ctr.updateCounter 2) c) = true ∧
      (2 ≤ 32 → ∃ v, sat_ctr.rawVal 2 (ds.foldl (sat_ctr.updateCounter 2) c) = some v)) :=
  C23_counter_invariant 64 2 { arrays := [[12345], [67890]], tmp_arr := [1, 1] }
    ⟨rfl, by decide⟩ (by decide) (by decide)

/-! ### Table accesses of 2bc-gskew are in bounds -/

/-- For build constants in the defined range `update_predictor` returns: every table
access it makes is inside the table. -/
theorem update_predictor_total (cfg : GskewConfig) (hv : cfg.Valid) (s : GskewState)
    (PC : Nat) (taken : Bool) (rnd : Nat) :
    ∃ s', update_predictor cfg s PC taken rnd = some s' := by
  obtain ⟨ix, hix, b0, b1, b2, b3⟩ := get_prediction_indices_spec cfg hv s.ghist PC
  obtain ⟨z0, z1, z2⟩ := gskew_sizes cfg hv
  have c0 : ix.indexg0 < cfg.sizeGOG1 := by omega
  have c1 : ix.indexg1 < cfg.sizeGOG1 := by omega
  have c2 : ix.indexbim < cfg.sizeBIMMETA := by omega
  have c3 : ix.indexmeta < cfg.sizeBIMMETA := by omega
  have d0 : hystIndex cfg ix.indexg0 < cfg.sizeHYST := by
    have := hystIndex_lt cfg hv ix.indexg0; omega
  have d1 : hystIndex cfg ix.indexg1 < cfg.sizeHYST := by
    have := hystIndex_lt cfg hv ix.indexg1; omega
  have d2 : ix.indexbim < cfg.sizeHYST := by omega
  have d3 : ix.indexmeta < cfg.sizeHYST := by omega
  simp only [update_predictor, update_predictor_indices_eq, hix, update_predictor_recompute,
    readTable, writeTable, c0, c1, c2, c3, d0, d1, d2, d3, if_true]
  exact ⟨_, rfl⟩

/-! #### Claim C24 -/

/-- C24: for build constants in the defined range (`9 <= LOGPRED <= 31`, history lengths
for which the shifts of `INDEX` are defined, tables of at least `2^(LOGPRED-1)` entries for
`GOG1` and `2^(LOGPRED-2)` for `BIMMETA` and `HYST`), every PC and every value of the
global history, `get_prediction` and `update_predictor` compute the same four indices, with
`LOGSIZE = LOGPRED-3` for G0 and G1 and `LOGPRED-4` for BIM and META; they are non-negative
`int` values with `indexg0, indexg1 < 2^(LOGPRED-1)` and
`indexbim, indexmeta < 2^(LOGPRED-2)`; so the four `ASSERT`s of `get_prediction` do not
fire, every index used on `GOG1`, `BIMMETA` and `HYST` is inside the table, and both
functions return. -/
theorem C24_indices_in_bounds (cfg : GskewConfig) (hv : cfg.Valid) (s : GskewState)
    (PC : Nat) (taken : Bool) (rnd : Nat) :
    ∃ ix, get_prediction_indices cfg s.ghist PC = some ix ∧
      update_predictor_indices cfg s.ghist PC = some ix ∧
      ix.indexg0 < 2 ^ (cfg.LOGPRED - 1) ∧ ix.indexg1 < 2 ^ (cfg.LOGPRED - 1) ∧
      ix.indexbim < 2 ^ (cfg.LOGPRED - 2) ∧ ix.indexmeta < 2 ^ (cfg.LOGPRED - 2) ∧
      (ix.indexg0 < 2 ^ 31 ∧ ix.indexg1 < 2 ^ 31 ∧ ix.indexbim < 2 ^ 31 ∧
        ix.indexmeta < 2 ^ 31) ∧
      (sar32 ix.indexg0 (cfg.LOGPRED - 1) = 0 ∧ sar32 ix.indexg1 (cfg.LOGPRED - 1) = 0 ∧
        sar32 ix.indexbim (cfg.LOGPRED - 2) = 0 ∧
        sar32 ix.indexmeta (cfg.LOGPRED - 2) = 0) ∧
      (ix.indexg0 < cfg.sizeGOG1 ∧ ix.indexg1 < cfg.sizeGOG1 ∧
        ix.indexbim < cfg.sizeBIMMETA ∧ ix.indexmeta < cfg.sizeBIMMETA ∧
        hystIndex cfg ix.indexg0 < cfg.sizeHYST ∧ hystIndex cfg ix.indexg1 < cfg.sizeHYST ∧
        ix.indexbim < cfg.sizeHYST ∧ ix.indexmeta < cfg.sizeHYST) ∧
      (∃ r, get_prediction cfg s PC = some r) ∧
      (∃ s', update_predictor cfg s PC taken rnd = some s') := by
  obtain ⟨ix, hix, b0, b1, b2, b3, a0, a1, a2, a3, hget⟩ := get_prediction_total cfg hv s PC
  obtain ⟨z0, z1, z2⟩ := gskew_sizes cfg hv
  have h9 := hv.1
  have h31 := hv.2.1
  have p1 : 2 ^ (cfg.LOGPRED - 1) ≤ 2 ^ 31 := Nat.pow_le_pow_right (by omega) (by omega)
  have p2 : 2 ^ (cfg.LOGPRED - 2) ≤ 2 ^ 31 := Nat.pow_le_pow_right (by omega) (by omega)
  have d0 := hystIndex_lt cfg hv ix.indexg0
  have d1 := hystIndex_lt cfg hv ix.indexg1
  refine ⟨ix, hix, hix, b0, b1, b2, b3, ⟨by omega, by omega, by omega, by omega⟩,
    ⟨a0, a1, a2, a3⟩,
    ⟨by omega, by omega, by omega, by omega, by omega, by omega, by omega, by omega⟩,
    ⟨_, hget⟩, update_predictor_total cfg hv s PC taken rnd⟩

/-- C24, witness: the reference constants (`LOGPRED = 18`), the zero initialised tables
and the PC `0xFFFFFFFFFFFFFFFF`. -/
theorem C24_indices_in_bounds_witness :
    ∃ ix, get_prediction_indices sampleGskew GskewState.zero.ghist 0xFFFFFFFFFFFFFFFF
        = some ix ∧
      update_predictor_indices sampleGskew GskewState.zero.ghist 0xFFFFFFFFFFFFFFFF
        = some ix ∧
      ix.indexg0 < 2 ^ (sampleGskew.LOGPRED - 1) ∧ ix.indexg1 < 2 ^ (sampleGskew.LOGPRED - 1) ∧
      ix.indexbim < 2 ^ (sampleGskew.LOGPRED - 2) ∧
      ix.indexmeta < 2 ^ (sampleGskew.LOGPRED - 2) ∧
      (ix.indexg0 < 2 ^ 31 ∧ ix.indexg1 < 2 ^ 31 ∧ ix.indexbim < 2 ^ 31 ∧
        ix.indexmeta < 2 ^ 31) ∧
      (sar32 ix.indexg0 (sampleGskew.LOGPRED - 1) = 0 ∧
        sar32 ix.indexg1 (sampleGskew.LOGPRED - 1) = 0 ∧
        sar32 ix.indexbim (sampleGskew.LOGPRED - 2) = 0 ∧
        sar32 ix.indexmeta (sampleGskew.LOGPRED - 2) = 0) ∧
      (ix.indexg0 < sampleGskew.sizeGOG1 ∧ ix.indexg1 < sampleGskew.sizeGOG1 ∧
        ix.indexbim < sampleGskew.sizeBIMMETA ∧ ix.indexmeta < sampleGskew.sizeBIMMETA ∧
        hystIndex sampleGskew ix.indexg0 < sampleGskew.sizeHYST ∧
        hystIndex sampleGskew ix.indexg1 < sampleGskew.sizeHYST ∧
        ix.indexbim < sampleGskew.sizeHYST ∧ ix.indexmeta < sampleGskew.sizeHYST) ∧
      (∃ r, get_prediction sampleGskew GskewState.zero 0xFFFFFFFFFFFFFFFF = some r) ∧
      (∃ s', update_predictor sampleGskew GskewState.zero 0xFFFFFFFFFFFFFFFF true 0
        = some s') :=
  C24_indices_in_bounds sampleGskew (by unfold GskewConfig.Valid; decide) GskewState.zero
    0xFFFFFFFFFFFFFFFF true 0

/-! ### Word and bit accessed in a plane -/

/-- The bit that `get_counter(i)` reads in plane `k`: with `S` the sharing factor of the
plane, bit `(i >> (S - 1)) & 63` of word `(i >> (S - 1)) >> 6`. -/
theorem get_bits_location (size i : Nat) (hi : i < size) :
    ∀ (planes : List (List Nat)) (tmp_arr : List Nat),
      pht.planesOk size planes tmp_arr = true →
      ∃ bits, pht.get_bits planes tmp_arr i = some bits ∧
        ∀ (k S : Nat) (elem : List Nat), tmp_arr[k]? = some S → planes[k]? = some elem →
          ∃ line, elem[(i >>> (S - 1)) >>> 6]? = some line ∧
            bits[k]? = some ((line >>> ((i >>> (S - 1)) &&& 63)) &&& 1) := by
  intro planes
  induction planes with
  | nil =>
    intro tmp_arr _
    exact ⟨[], by simp [pht.get_bits], by simp⟩
  | cons elem elems ih =>
    intro tmp_arr hok
    cases tmp_arr with
    | nil => simp [pht.planesOk] at hok
    | cons shared ss =>
      simp only [pht.planesOk, Bool.and_eq_true, decide_eq_true_eq] at hok
      obtain ⟨⟨⟨⟨h1, h2⟩, hdvd⟩, hlenE⟩, hrest⟩ := hok
      obtain ⟨rest, hget, hloc⟩ := ih ss hrest
      have hin := plane_word_in_bounds size shared i h1 hdvd hi
      rw [← hlenE] at hin
      simp only [pht.get_bits, planeIndex_eq shared i h1 h2, List.getElem?_eq_getElem hin,
        hget, Option.some.injEq, exists_eq_left']
      intro k S e hS he
      cases k with
      | zero =>
        simp only [List.getElem?_cons_zero, Option.some.injEq] at hS he
        subst hS
        subst he
        exact ⟨_, List.getElem?_eq_getElem hin, by simp⟩
      | succ k =>
        simp only [List.getElem?_cons_succ] at hS he
        obtain ⟨line, hl, hb⟩ := hloc k S e hS he
        exact ⟨line, hl, by simpa using hb⟩

/-- The word that `save_counter(i, c)` rewrites in plane `k`, and the bit it sets there. -/
theorem save_bits_location (size i : Nat) (hi : i < size) :
    ∀ (planes : List (List Nat)) (tmp_arr array : List Nat),
      pht.planesOk size planes tmp_arr = true → array.length = planes.length →
      ∃ planes', pht.save_bits planes tmp_arr array i = some planes' ∧
        ∀ (k S : Nat) (elem : List Nat) (bit : Nat), tmp_arr[k]? = some S →
          planes[k]? = some elem → array[k]? = some bit →
          ∃ line, elem[(i >>> (S - 1)) >>> 6]? = some line ∧
            planes'[k]? = some (elem.set ((i >>> (S - 1)) >>> 6)
              ((line &&& (2 ^ 64 - 1 - 2 ^ ((i >>> (S - 1)) &&& 63)))
                ||| ((bit <<< ((i >>> (S - 1)) &&& 63)) % 2 ^ 64))) := by
  intro planes
  induction planes with
  | nil =>
    intro tmp_arr array _ _
    exact ⟨[], by simp [pht.save_bits], by simp⟩
  | cons elem elems ih =>
    intro tmp_arr array hok hlen
    cases tmp_arr with
    | nil => simp [pht.planesOk] at hok
    | cons shared ss =>
      cases array with
      | nil => simp at hlen
      | cons b bs =>
        simp only [pht.planesOk, Bool.and_eq_true, decide_eq_true_eq] at hok
        obtain ⟨⟨⟨⟨h1, h2⟩, hdvd⟩, hlenE⟩, hrest⟩ := hok
        obtain ⟨rest, hsave, hloc⟩ := ih ss bs hrest (by simpa using hlen)
        have hin := plane_word_in_bounds size shared i h1 hdvd hi
        rw [← hlenE] at hin
        simp only [pht.save_bits, planeIndex_eq shared i h1 h2,
          List.getElem?_eq_getElem hin, hsave, Option.some.injEq, exists_eq_left']
        intro k S e bit hS he hbit
        cases k with
        | zero =>
          simp only [List.getElem?_cons_zero, Option.some.injEq] at hS he hbit
          subst hS
          subst he
          subst hbit
          exact ⟨_, List.getElem?_eq_getElem hin, by simp⟩
        | succ k =>
          simp only [List.getElem?_cons_succ] at hS he hbit
          obtain ⟨line, hl, hb⟩ := hloc k S e bit hS he hbit
          exact ⟨line, hl, by simpa using hb⟩

/-! #### Claim C22 -/

/-- C22: the accessors shift the logical index by `S_k - 1`, while `init_arrays` declares
plane `k` with `(size / 64) / S_k` words, one bit for `S_k` logical indices, which is the
layout the shift `log2(S_k)` of the claim addresses. The two agree for the sharing factors 1
and 2 only.

* For every table of the declared shape and every `i < size`, `get_counter(i)` and
  `save_counter(i, c)` access the word `((i >> (S_k - 1)) >> 6)` and the bit
  `((i >> (S_k - 1)) & 63)` of plane `k`.
* `S - 1 = log2(S)` for `S = 1` and `S = 2`, and `log2(4) = 2` while `4 - 1 = 3`.
* The table of 256 two bit counters with the sharing factors 1 and 4 is declared with one
  word for its second plane, 64 bits for the 64 groups of 4 indices. With bit 1 of that word
  set, the claim locates the counter of the logical index 4 at bit
  `(4 >> log2(4)) & 63 = 1`, which holds 1; `get_counter(4)` reads bit 0, which holds 0, and
  `save_counter(4, c)` with strength bit 1 sets bit 0 of the word.
* In the freshly built table, `save_counter(4, c)` with strength 1 changes the strength that
  `get_counter(0)` returns from 0 to 1, although the indices 0 and 4 are in different groups
  of 4; and no logical index below 256 reaches the bits 32 to 63 of the word. -/
theorem C22_shift_is_sharing_factor_minus_one :
    (∀ (size W : Nat) (t : pht) (i : Nat), pht.WellFormed size W t → i < size →
      (∃ bits, pht.get_bits t.arrays t.tmp_arr i = some bits ∧
        pht.get_counter t i = sat_ctr.ofArray bits ∧
        ∀ (k S : Nat) (elem : List Nat), t.tmp_arr[k]? = some S → t.arrays[k]? = some elem →
          ∃ line, elem[(i >>> (S - 1)) >>> 6]? = some line ∧
            bits[k]? = some ((line >>> ((i >>> (S - 1)) &&& 63)) &&& 1)) ∧
      (∀ (c : sat_ctr) (array : List Nat), sat_ctr.getArray W c = some array →
        array.length = W →
        ∃ planes', pht.save_counter W t i c = some { t with arrays := planes' } ∧
          ∀ (k S : Nat) (elem : List Nat) (bit : Nat), t.tmp_arr[k]? = some S →
            t.arrays[k]? = some elem → array[k]? = some bit →
            ∃ line, elem[(i >>> (S - 1)) >>> 6]? = some line ∧
              planes'[k]? = some (elem.set ((i >>> (S - 1)) >>> 6)
                ((line &&& (2 ^ 64 - 1 - 2 ^ ((i >>> (S - 1)) &&& 63)))
                  ||| ((bit <<< ((i >>> (S - 1)) &&& 63)) % 2 ^ 64))))) ∧
    ((∀ S : Nat, S = 1 ∨ S = 2 → S - 1 = Nat.log 2 S) ∧ Nat.log 2 4 = 2 ∧ 4 - 1 = 3) ∧
    (pht.init_arrays 256 0 2 [1, 4] = { arrays := [[0, 0, 0, 0], [0]], tmp_arr := [1, 4] } ∧
      pht.WellFormed 256 2 { arrays := [[0, 0, 0, 0], [2]], tmp_arr := [1, 4] } ∧
      (([2] : List Nat)[(4 >>> Nat.log 2 4) >>> 6]?).map
          (fun line => (line >>> ((4 >>> Nat.log 2 4) &&& 63)) &&& 1) = some 1 ∧
      pht.get_bits [[0, 0, 0, 0], [2]] [1, 4] 4 = some [0, 0] ∧
      pht.get_counter { arrays := [[0, 0, 0, 0], [2]], tmp_arr := [1, 4] } 4
        = some { Dir := 0, Strenght := 0 } ∧
      pht.save_counter 2 { arrays := [[0, 0, 0, 0], [2]], tmp_arr := [1, 4] } 4
          { Dir := 0, Strenght := 1 }
        = some { arrays := [[0, 0, 0, 0], [3]], tmp_arr := [1, 4] }) ∧
    (pht.get_counter (pht.init_arrays 256 0 2 [1, 4]) 0 = some { Dir := 0, Strenght := 0 } ∧
      pht.save_counter 2 (pht.init_arrays 256 0 2 [1, 4]) 4 { Dir := 0, Strenght := 1 }
        = some { arrays := [[0, 0, 0, 0], [1]], tmp_arr := [1, 4] } ∧
      pht.get_counter { arrays := [[0, 0, 0, 0], [1]], tmp_arr := [1, 4] } 0
        = some { Dir := 0, Strenght := 1 } ∧
      0 >>> Nat.log 2 4 ≠ 4 >>> Nat.log 2 4 ∧
      ∀ i : Nat, i < 256 → (i >>> (4 - 1)) >>> 6 = 0 ∧ (i >>> (4 - 1)) &&& 63 < 32) := by
  have hlog : Nat.log 2 4 = 2 := by
    have := Nat.log_pow (show 1 < 2 by omega) 2
    simpa using this
  refine ⟨?_, ⟨?_, hlog, by decide⟩, ⟨by decide, ?_, ?_, by decide, by decide, by decide⟩,
    ⟨by decide, by decide, by decide, ?_, ?_⟩⟩
  · intro size W t i hwf hi
    obtain ⟨hlenW, hok⟩ := hwf
    refine ⟨?_, ?_⟩
    · obtain ⟨bits, hget, hloc⟩ := get_bits_location size i hi t.arrays t.tmp_arr hok
      exact ⟨bits, hget, by simp only [pht.get_counter, hget], hloc⟩
    · intro c array hga hlen
      obtain ⟨planes', hsave, hloc⟩ :=
        save_bits_location size i hi t.arrays t.tmp_arr array hok (by rw [hlen, hlenW])
      exact ⟨planes', by simp only [pht.save_counter, hga, hsave], hloc⟩
  · intro S hS
    rcases hS with h | h
    · subst h; simp
    · subst h
      have := Nat.log_pow (show 1 < 2 by omega) 1
      simpa using this.symm
  · unfold pht.WellFormed; decide
  · rw [hlog]; decide
  · rw [hlog]; decide
  · intro i hi
    have h1 : i >>> (4 - 1) = i / 8 := by
      show i >>> 3 = i / 8
      rw [Nat.shiftRight_eq_div_pow]
    have h2 : (i / 8) >>> 6 = i / 8 / 64 := by rw [Nat.shiftRight_eq_div_pow]
    have h3 : (i / 8) &&& 63 = (i / 8) % 64 := Nat.and_pow_two_sub_one_eq_mod (i / 8) 6
    rw [h1, h2, h3]
    omega

/-! ### Duplicate node ids -/

/-- The loop of `readBT9NodeTable_` on records whose ids index the table: it ends, a row
that holds a known conditionality is kept, and a row that does not receives the first
record with its id and a known conditionality. -/
theorem fillNodeTable_first_known :
    ∀ (rest table : List BT9ReaderNodeRecord),
      (∀ x ∈ rest, x.brNodeIndex < table.length) →
      ∃ F, BT9Reader.fillNodeTable table rest = some F ∧ F.length = table.length ∧
        ∀ id : Nat,
          (∀ slot, table[id]? = some slot →
            slot.brClass_brBehavior.conditionality ≠ Conditionality.UNKNOWN →
            F[id]? = some slot) ∧
          (∀ slot node, table[id]? = some slot →
            slot.brClass_brBehavior.conditionality = Conditionality.UNKNOWN →
            rest.find? (fun n => decide (n.brNodeIndex = id) &&
              decide (n.brClass_brBehavior.conditionality ≠ Conditionality.UNKNOWN))
              = some node →
            F[id]? = some node) := by
  intro rest
  induction rest with
  | nil =>
    intro table _
    refine ⟨table, rfl, rfl, fun id => ⟨fun slot h _ => h, ?_⟩⟩
    intro slot node _ _ hf
    simp at hf
  | cons x xs ih =>
    intro table hlt
    have hx : x.brNodeIndex < table.length := hlt x (List.mem_cons_self _ _)
    have hxs : ∀ y ∈ xs, y.brNodeIndex < table.length :=
      fun y hy => hlt y (List.mem_cons_of_mem _ hy)
    rw [BT9Reader.fillNodeTable, List.getElem?_eq_getElem hx]
    by_cases hu : (table[x.brNodeIndex]).brClass_brBehavior.conditionality
        = Conditionality.UNKNOWN
    · simp only [hu, if_true]
      obtain ⟨F, hF, hlen, hrows⟩ := ih (table.set x.brNodeIndex x)
        (by simpa using hxs)
      refine ⟨F, hF, by simpa using hlen, fun id => ⟨?_, ?_⟩⟩
      · intro slot hs hk
        have hne : x.brNodeIndex ≠ id := by
          intro e
          rw [← e, List.getElem?_eq_getElem hx, Option.some.injEq] at hs
          rw [hs] at hu
          exact hk hu
        exact (hrows id).1 slot (by rw [List.getElem?_set_ne hne]; exact hs) hk
      · intro slot node hs hk hf
        rw [List.find?_cons] at hf
        by_cases hid : x.brNodeIndex = id
        · by_cases hxk : x.brClass_brBehavior.conditionality = Conditionality.UNKNOWN
          · simp only [hid, hxk, decide_True, ne_eq, not_true_eq_false, decide_False,
              Bool.and_false] at hf
            refine (hrows id).2 x node ?_ hxk hf
            rw [← hid, List.getElem?_set_self hx]
          · simp only [hid, hxk, decide_True, ne_eq, not_false_eq_true, Bool.and_self,
              Option.some.injEq] at hf
            subst hf
            refine (hrows id).1 x ?_ hxk
            rw [← hid, List.getElem?_set_self hx]
        · simp only [hid, decide_False, Bool.false_and] at hf
          exact (hrows id).2 slot node (by rw [List.getElem?_set_ne hid]; exact hs) hk hf
    · simp only [hu, if_false]
      obtain ⟨F, hF, hlen, hrows⟩ := ih table hxs
      refine ⟨F, hF, hlen, fun id => ⟨(hrows id).1, ?_⟩⟩
      intro slot node hs hk hf
      have hne : x.brNodeIndex ≠ id := by
        intro e
        rw [← e, List.getElem?_eq_getElem hx, Option.some.injEq] at hs
        rw [hs] at hu
        exact hu hk
      rw [List.find?_cons] at hf
      simp only [hne, decide_False, Bool.false_and] at hf
      exact (hrows id).2 slot node hs hk hf

/-! #### Claim C27 -/

/-- C27: for a default constructed node record of `UNKNOWN` conditionality, every list of
NODE lines whose ids are all smaller than the number of NODE lines, and every id for which
at least one line has a known (non-`UNKNOWN`) conditionality, `readBT9NodeTable_` returns a
table of as many rows as there are lines, and the row at that id holds the first such line
in file order: no later line with the same id replaces it, while a line of `UNKNOWN`
conditionality with that id that comes earlier is replaced by it. -/
theorem C27_first_known_line_is_kept (dflt : BT9ReaderNodeRecord)
    (temp : List BT9ReaderNodeRecord)
    (hdflt : dflt.brClass_brBehavior.conditionality = Conditionality.UNKNOWN)
    (hids : ∀ x ∈ temp, x.brNodeIndex < temp.length) :
    ∃ table, BT9Reader.readBT9NodeTable_ dflt temp = some table ∧
      table.length = temp.length ∧
      ∀ (id : Nat) (node : BT9ReaderNodeRecord),
        temp.find? (fun n => decide (n.brNodeIndex = id) &&
          decide (n.brClass_brBehavior.conditionality ≠ Conditionality.UNKNOWN))
          = some node →
        table[id]? = some node := by
  obtain ⟨F, hF, hlen, hrows⟩ := fillNodeTable_first_known temp
    (List.replicate temp.length dflt) (by simpa using hids)
  refine ⟨F, hF, by simpa using hlen, ?_⟩
  intro id node hf
  have hmem := List.mem_of_find?_eq_some hf
  have hp := List.find?_some hf
  simp only [Bool.and_eq_true, decide_eq_true_eq] at hp
  have hid : id < temp.length := by
    rw [← hp.1]; exact hids node hmem
  refine (hrows id).2 dflt node ?_ hdflt hf
  rw [List.getElem?_replicate, if_pos hid]

/-- C27, witness: three NODE lines with the id 0, the first of `UNKNOWN` conditionality:
row 0 holds the second line, which the third does not replace. -/
theorem C27_first_known_line_is_kept_witness :
    ∃ table, BT9Reader.readBT9NodeTable_ sampleDefaultNode
        [{ sampleDefaultNode with brVirtualAddr := 7 }, sampleNode 0 100, sampleNode 0 200]
        = some table ∧
      table.length
        = [{ sampleDefaultNode with brVirtualAddr := 7 }, sampleNode 0 100,
            sampleNode 0 200].length ∧
      ∀ (id : Nat) (node : BT9ReaderNodeRecord),
        [{ sampleDefaultNode with brVirtualAddr := 7 }, sampleNode 0 100, sampleNode 0 200].find?
          (fun n => decide (n.brNodeIndex = id) &&
            decide (n.brClass_brBehavior.conditionality ≠ Conditionality.UNKNOWN))
          = some node →
        table[id]? = some node :=
  C27_first_known_line_is_kept sampleDefaultNode
    [{ sampleDefaultNode with brVirtualAddr := 7 }, sampleNode 0 100, sampleNode 0 200]
    rfl (by decide)

/-! #### Claim C26 -/

/-- C26, counterexample: a node section of three NODE lines that all carry the id 0 is
loaded into a table of three rows, and the line `EDGE 0 1 2 T 64 - 0`, from node 1 to
node 2, is accepted, although no NODE line carries the id 1 or the id 2.  With the same
table the line `EDGE 0 3 2 T 64 - 0` ends the process, 3 being the number of rows. -/
theorem C26_counterexample_id_of_no_node_line :
    (∀ n ∈ [sampleNode 0 100, sampleNode 0 200, sampleNode 0 300],
      n.brNodeIndex ≠ 1 ∧ n.brNodeIndex ≠ 2) ∧
    BT9Reader.readBT9NodeTable_ sampleDefaultNode
        [sampleNode 0 100, sampleNode 0 200, sampleNode 0 300]
      = some [sampleNode 0 100, sampleDefaultNode, sampleDefaultNode] ∧
    (sampleStd.stoi [49] = some 1 ∧ sampleStd.stoi [50] = some 2 ∧
      uint32_of_int 1 = 1 ∧ uint32_of_int 2 = 2) ∧
    BT9Reader.isValidNodeIndex_ [sampleNode 0 100, sampleDefaultNode, sampleDefaultNode] 1
      = true ∧
    BT9Reader.isValidNodeIndex_ [sampleNode 0 100, sampleDefaultNode, sampleDefaultNode] 2
      = true ∧
    BT9Reader.parseEdgeRecordFixedFields_ sampleStd 7
        [sampleNode 0 100, sampleDefaultNode, sampleDefaultNode] 0 (0, sampleDefaultEdge)
        [[48], [49], [50], [84], [54, 52], [45], [48]]
      = some ((0, { src_node_id_ := 1, dest_node_id_ := 2, isTakenPath := true,
                    brVirtualTarget := 64 }), []) ∧
    BT9Reader.readBT9EdgeTable_ sampleStd 7
        [sampleNode 0 100, sampleDefaultNode, sampleDefaultNode] (0, sampleDefaultEdge) true
        [[tokenEDGE, [48], [49], [50], [84], [54, 52], [45], [48]],
         [tokenBT10_SMALL_INDEX_SIZE_8], [tokenBT10_BIG_INDEX_SIZE_32]]
      = some [{ src_node_id_ := 1, dest_node_id_ := 2, isTakenPath := true,
                brVirtualTarget := 64 }] ∧
    BT9Reader.readBT9EdgeTable_ sampleStd 7
        [sampleNode 0 100, sampleDefaultNode, sampleDefaultNode] (0, sampleDefaultEdge) true
        [[tokenEDGE, [48], [51], [50], [84], [54, 52], [45], [48]],
         [tokenBT10_SMALL_INDEX_SIZE_8], [tokenBT10_BIG_INDEX_SIZE_32]]
      = none := by
  refine ⟨by decide, by decide, by decide, by decide, by decide, by decide, by decide,
    by decide⟩

/-- C26 (as amended): the source and the destination of an EDGE line are checked against
the size of the node table, which is the number of NODE lines, and only when the line
carries the field.
* An EDGE line with an id, a source and a destination that `parseEdgeRecordFixedFields_`
  accepts has a source and a destination below the size of the node table.
* Before the line that ends the edge section, an EDGE line whose source, or whose
  destination, is at or above the size of the node table makes `readBT9EdgeTable_` end
  the process.
* An edge section whose EDGE lines carry these three fields and distinct ids is loaded
  only into a table of which every row has a source and a destination below the size of
  the node table.
* A field that the line does not carry is not checked: the line `EDGE <id>` is accepted
  for every node table and leaves the source and destination of the default constructed
  record.
* For a node section with pairwise distinct ids (that the node loader accepts) "below the
  size of the node table" is the same as "the id of some NODE line"; with duplicate ids an
  id carried by no NODE line can pass. -/
theorem C26_edge_ids_below_node_count (lib : std) (NUM_VALUE_FIELD_ : Nat)
    (node_table_ : List BT9ReaderNodeRecord) (dflt : Nat × BT9ReaderEdgeRecord) :
    (∀ idx, BT9Reader.isValidNodeIndex_ node_table_ idx = true ↔ idx < node_table_.length) ∧
    (3 ≤ NUM_VALUE_FIELD_ → ∀ (id src dst : List Nat) (ss ss' : List (List Nat))
      (edge_record : Nat × BT9ReaderEdgeRecord),
      BT9Reader.parseEdgeRecordFixedFields_ lib NUM_VALUE_FIELD_ node_table_ 0 dflt
          (id :: src :: dst :: ss) = some (edge_record, ss') →
        ∃ v1 v2, lib.stoi src = some v1 ∧ lib.stoi dst = some v2 ∧
          edge_record.2.src_node_id_ = uint32_of_int v1 ∧
          uint32_of_int v1 < node_table_.length ∧
          edge_record.2.dest_node_id_ = uint32_of_int v2 ∧
          uint32_of_int v2 < node_table_.length) ∧
    (2 ≤ NUM_VALUE_FIELD_ → ∀ (pre rest : List (List (List Nat))) (id src : List Nat)
      (ss : List (List Nat)) (v : Int) (reach_edge_table_ : Bool),
      (∀ l ∈ pre, l.head? ≠ some tokenBT10_BIG_INDEX_SIZE_32) →
      lib.stoi src = some v → node_table_.length ≤ uint32_of_int v →
        BT9Reader.readBT9EdgeTable_ lib NUM_VALUE_FIELD_ node_table_ dflt reach_edge_table_
          (pre ++ (tokenEDGE :: id :: src :: ss) :: rest) = none) ∧
    (3 ≤ NUM_VALUE_FIELD_ → ∀ (pre rest : List (List (List Nat))) (id src dst : List Nat)
      (ss : List (List Nat)) (v : Int) (reach_edge_table_ : Bool),
      (∀ l ∈ pre, l.head? ≠ some tokenBT10_BIG_INDEX_SIZE_32) →
      lib.stoi dst = some v → node_table_.length ≤ uint32_of_int v →
        BT9Reader.readBT9EdgeTable_ lib NUM_VALUE_FIELD_ node_table_ dflt reach_edge_table_
          (pre ++ (tokenEDGE :: id :: src :: dst :: ss) :: rest) = none) ∧
    (3 ≤ NUM_VALUE_FIELD_ → ∀ (lines : List (List (List Nat))) (reach_edge_table_ : Bool)
      (edge_table_temp_ : List (Nat × BT9ReaderEdgeRecord)) (edges : List BT9ReaderEdgeRecord),
      (∀ line ∈ lines, line.head? = some tokenEDGE → 4 ≤ line.length) →
      BT9Reader.readBT9EdgeTable_loop lib NUM_VALUE_FIELD_ node_table_ dflt false [] lines
        = some edge_table_temp_ →
      (edge_table_temp_.map Prod.fst).Nodup →
      BT9Reader.readBT9EdgeTable_ lib NUM_VALUE_FIELD_ node_table_ dflt reach_edge_table_
        lines = some edges →
        ∀ e, e < edges.length → ∃ edge, edges[e]? = some edge ∧
          edge.src_node_id_ < node_table_.length ∧
          edge.dest_node_id_ < node_table_.length) ∧
    (1 ≤ NUM_VALUE_FIELD_ → ∀ (id : List Nat) (v : Int), lib.stoi id = some v →
      BT9Reader.parseEdgeRecordFixedFields_ lib NUM_VALUE_FIELD_ node_table_ 0 dflt [id]
          = some ((uint32_of_int v, dflt.2), []) ∧
        BT9Reader.readBT9EdgeTable_ lib NUM_VALUE_FIELD_ node_table_ dflt true
          [[tokenEDGE, id]]
          = if uint32_of_int v = 0 then some [dflt.2] else none) ∧
    (∀ (dfltN : BT9ReaderNodeRecord) (temp : List BT9ReaderNodeRecord),
      dfltN.brClass_brBehavior.conditionality = Conditionality.UNKNOWN →
      (temp.map (fun x => x.brNodeIndex)).Nodup →
      BT9Reader.readBT9NodeTable_ dfltN temp = some node_table_ →
      ∀ idx, BT9Reader.isValidNodeIndex_ node_table_ idx = true ↔
        ∃ n ∈ temp, n.brNodeIndex = idx) := by
  have hvalid : ∀ idx, BT9Reader.isValidNodeIndex_ node_table_ idx = true ↔
      idx < node_table_.length := by
    intro idx
    simp only [BT9Reader.isValidNodeIndex_, decide_eq_true_eq]
  refine ⟨hvalid, ?_, ?_, ?_, ?_, ?_, ?_⟩
  · intro hNUM id src dst ss ss' edge_record h
    obtain ⟨_, v1, v2, _, h1, h2, _, k1, k2, k3, k4⟩ :=
      parseEdgeRecordFixedFields_checked lib NUM_VALUE_FIELD_ node_table_ hNUM dflt
        edge_record id src dst ss ss' h
    exact ⟨v1, v2, h1, h2, k1, k2, k3, k4⟩
  · intro hNUM pre rest id src ss v reach_edge_table_ hpre hv hbad
    unfold BT9Reader.readBT9EdgeTable_
    rw [readBT9EdgeTable_loop_refused lib NUM_VALUE_FIELD_ node_table_ dflt _ rest
      (parseEdgeRecordFixedFields_src lib NUM_VALUE_FIELD_ node_table_ hNUM dflt id src ss v
        hv hbad) pre false [] hpre]
    simp
  · intro hNUM pre rest id src dst ss v reach_edge_table_ hpre hv hbad
    unfold BT9Reader.readBT9EdgeTable_
    rw [readBT9EdgeTable_loop_refused lib NUM_VALUE_FIELD_ node_table_ dflt _ rest
      (parseEdgeRecordFixedFields_dest lib NUM_VALUE_FIELD_ node_table_ hNUM dflt id src dst
        ss v hv hbad) pre false [] hpre]
    simp
  · intro hNUM lines reach_edge_table_ edge_table_temp_ edges hfull htemp hnd h
    exact readBT9EdgeTable_checked lib NUM_VALUE_FIELD_ node_table_ dflt reach_edge_table_
      lines edge_table_temp_ edges hNUM hfull htemp hnd h
  · intro hNUM id v hv
    have hparse : BT9Reader.parseEdgeRecordFixedFields_ lib NUM_VALUE_FIELD_ node_table_ 0
        dflt [id] = some ((uint32_of_int v, dflt.2), []) := by
      rw [BT9Reader.parseEdgeRecordFixedFields_, if_pos (by omega)]
      simp only [hv, BT9Reader.parseEdgeRecordFixedFields_]
    refine ⟨hparse, ?_⟩
    have hne : ¬ tokenEDGE = [] := by decide
    simp only [BT9Reader.readBT9EdgeTable_, BT9Reader.readBT9EdgeTable_loop, if_true,
      if_neg hne, hparse, BT9Reader.parseEdgeRecordOptionalFields_, List.nil_append, List.length_cons,
      List.length_nil, List.replicate, BT9Reader.fillEdgeTable]
    by_cases h0 : uint32_of_int v = 0
    · simp [h0]
    · have : ¬ uint32_of_int v < 1 := by omega
      simp [h0, this]
  · intro dfltN temp hd hnd hload idx
    rw [hvalid]
    have hlen := fillNodeTable_length _ _ _ hload
    rw [List.length_replicate] at hlen
    constructor
    · intro hidx
      obtain ⟨nd, hnd1, hnd2⟩ := readBT9NodeTable_indexed dfltN temp node_table_ hd hnd hload
        idx hidx
      have hmem : idx ∈ temp.map (fun x => x.brNodeIndex) := by
        apply mem_of_nodup_of_lt _ hnd
        · intro y hy
          obtain ⟨x, hx, rfl⟩ := List.mem_map.mp hy
          simpa using hlen.2 x hx
        · rw [List.length_map, ← hlen.1]; exact hidx
      obtain ⟨x, hx, hxe⟩ := List.mem_map.mp hmem
      exact ⟨x, hx, hxe⟩
    · rintro ⟨n, hn, rfl⟩
      rw [hlen.1]
      exact hlen.2 n hn

/-! ### Always taken on the bimodal predictor -/

/-- One taken branch on the bimodal predictor: the prediction is the direction bit of the
counter of the PC, and the counter is replaced by its update. -/
theorem bimodal_taken_step (PHT_SIZE W : Nat) (hP : PHT_SIZE ≤ 31) (hW1 : 1 ≤ W)
    (hW2 : W ≤ 33) (s : BimodalState) (pc : Nat) (opType : OpType) (target : Nat)
    (hwf : pht.WellFormed (numPhtEntries PHT_SIZE) W s.pht) :
    ∃ c s1 s2, pht.get_counter s.pht (pc % 2 ^ PHT_SIZE) = some c ∧ c.Dir ≤ 1 ∧
      c.Strenght ≤ MaxStrenght W ∧
      Bimodal.GetPrediction PHT_SIZE s pc = some (decide (c.Dir ≠ 0), s1) ∧
      Bimodal.UpdatePredictor W s1 pc opType true (decide (c.Dir ≠ 0)) target = some s2 ∧
      pht.WellFormed (numPhtEntries PHT_SIZE) W s2.pht ∧
      pht.get_counter s2.pht (pc % 2 ^ PHT_SIZE) = some (sat_ctr.updateCounter W c 1) := by
  obtain ⟨hN, hidx, hmod, hlt⟩ := pht_index_lt PHT_SIZE pc hP
  obtain ⟨c, hget, hD, hS⟩ :=
    get_counter_valid (numPhtEntries PHT_SIZE) W s.pht _ hwf hW1 hW2 hlt
  have hM := maxStrenght_lt W hW1 (by omega)
  obtain ⟨hD', hS'⟩ := updateCounter_valid W c 1 hM hD hS
  obtain ⟨t', hsv, hgt, hwf'⟩ := save_counter_get_counter (numPhtEntries PHT_SIZE) W s.pht
    (pc % 2 ^ PHT_SIZE) hwf hW1 hW2 hlt (sat_ctr.updateCounter W c 1) hD' hS'
  refine ⟨c, { s with index := pc % 2 ^ PHT_SIZE, counter := c },
    { pht := t', index := pc % 2 ^ PHT_SIZE, counter := c }, hget, hD, hS, ?_, ?_, hwf', hgt⟩
  · simp only [Bimodal.GetPrediction, hidx, hmod, hget]
  · simp only [Bimodal.UpdatePredictor, if_true, hmod, hsv]

/-- The predictions of a run of taken branches: `Strenght + 1` times 'not taken' if the
counter of the PC has the direction 0, then 'taken' throughout. -/
theorem bimodal_runTaken_spec (PHT_SIZE W : Nat) (hP : PHT_SIZE ≤ 31) (hW1 : 1 ≤ W)
    (hW2 : W ≤ 33) (pc : Nat) (opType : OpType) (target : Nat) :
    ∀ (n : Nat) (s : BimodalState) (c : sat_ctr),
      pht.WellFormed (numPhtEntries PHT_SIZE) W s.pht →
      pht.get_counter s.pht (pc % 2 ^ PHT_SIZE) = some c →
      ∃ s', Bimodal.runTaken PHT_SIZE W pc opType target n s
        = some (List.replicate (min n (if c.Dir = 0 then c.Strenght + 1 else 0)) false
            ++ List.replicate (n - (if c.Dir = 0 then c.Strenght + 1 else 0)) true, s') := by
  intro n
  induction n with
  | zero =>
    intro s c _ _
    exact ⟨s, by simp [Bimodal.runTaken]⟩
  | succ n ih =>
    intro s c hwf hc
    obtain ⟨c0, s1, s2, hget, hD, hS, hgp, hup, hwf2, hget2⟩ :=
      bimodal_taken_step PHT_SIZE W hP hW1 hW2 s pc opType target hwf
    have hcc : c0 = c := by
      rw [hget] at hc
      exact Option.some.inj hc
    subst hcc
    have hM := maxStrenght_lt W hW1 (by omega)
    obtain ⟨k1, k2, k3⟩ := updateCounter_cases W c0 1 hM hD hS
    obtain ⟨s', hrun⟩ := ih s2 (sat_ctr.updateCounter W c0 1) hwf2 hget2
    refine ⟨s', ?_⟩
    simp only [Bimodal.runTaken, hgp, hup, hrun]
    by_cases hd : c0.Dir = 0
    · have hne : (1 : Nat) ≠ c0.Dir := by omega
      by_cases hs : c0.Strenght = 0
      · rw [k2 hne hs]
        simp [hd, hs, List.replicate_succ]
      · rw [k3 hne (by omega)]
        have e1 : min (n + 1) (c0.Strenght + 1) = min n (c0.Strenght - 1 + 1) + 1 := by omega
        have e2 : n + 1 - (c0.Strenght + 1) = n - (c0.Strenght - 1 + 1) := by omega
        simp only [hd, if_true, e1, e2, ne_eq, not_true_eq_false, decide_False,
          List.replicate_succ, List.cons_append]
    · have he : (1 : Nat) = c0.Dir := by omega
      rw [k1 he]
      simp [hd, List.replicate_succ]

/-- The loop of `main` on a run of taken conditional branches to one PC counts the
predictions 'not taken' of the run. -/
theorem bimodal_tally_runTaken (PHT_SIZE W pc : Nat) :
    ∀ (n : Nat) (s : BimodalState) (a : Nat) (preds : List Bool) (s' : BimodalState),
      Bimodal.runTaken PHT_SIZE W pc OpType.OPTYPE_JMP_DIRECT_COND pc n s = some (preds, s') →
      (List.replicate n (sampleCond pc true)).foldl (tallyStep (Bimodal.predictor PHT_SIZE W))
        (s, a) = (s', a + preds.count false) := by
  intro n
  induction n with
  | zero =>
    intro s a preds s' h
    simp only [Bimodal.runTaken, Option.some.injEq, Prod.mk.injEq] at h
    obtain ⟨h1, h2⟩ := h
    subst h1
    subst h2
    simp
  | succ n ih =>
    intro s a preds s' h
    rw [Bimodal.runTaken] at h
    cases hgp : Bimodal.GetPrediction PHT_SIZE s pc with
    | none => rw [hgp] at h; simp at h
    | some r =>
      obtain ⟨d, s1⟩ := r
      rw [hgp] at h
      simp only at h
      cases hup : Bimodal.UpdatePredictor W s1 pc OpType.OPTYPE_JMP_DIRECT_COND true d pc with
      | none => rw [hup] at h; simp at h
      | some s2 =>
        rw [hup] at h
        simp only at h
        cases hrun : Bimodal.runTaken PHT_SIZE W pc OpType.OPTYPE_JMP_DIRECT_COND pc n s2 with
        | none => rw [hrun] at h; simp at h
        | some r2 =>
          obtain ⟨ps, s3⟩ := r2
          rw [hrun] at h
          simp only [Option.some.injEq, Prod.mk.injEq] at h
          obtain ⟨h1, h2⟩ := h
          subst h1
          subst h2
          have hstep : tallyStep (Bimodal.predictor PHT_SIZE W) (s, a) (sampleCond pc true)
              = (s2, a + (if d ≠ true then 1 else 0)) := by
            simp only [tallyStep, sampleCond, classify, Bimodal.predictor, hgp]
            simp [hup]
          rw [List.replicate_succ, List.foldl_cons, hstep, ih s2 _ ps s3 hrun]
          cases d
          · simp only [ne_eq, Bool.false_eq_true, not_false_eq_true, if_true,
              List.count_cons_self, Prod.mk.injEq, true_and]
            omega
          · simp

/-! #### Claim C30 -/

/-- C30: strict always-taken on the bimodal predictor.  For a table of the declared shape
(`2^PHT_SIZE` entries, `PHT_SIZE <= 31`) with counters of `1 <= W <= 33` bits, every
content of the table (so every initial counter value), every PC and every `n`, a run of
`n` conditional branches to the PC that are all taken, each handled as `GetPrediction`
followed by `UpdatePredictor`, returns; it produces at most `2^(W-1)` mispredictions
(predictions 'not taken'; the loop of `main` counts exactly these in `numMispred`), which
is at most 16 for `W <= 5`; they are all among the first `2^(W-1)` instances; and once one
prediction is 'taken', every later prediction is 'taken'. -/
theorem C30_always_taken_warm_up (PHT_SIZE W : Nat) (hP : PHT_SIZE ≤ 31) (hW1 : 1 ≤ W)
    (hW2 : W ≤ 33) (s : BimodalState) (pc : Nat) (opType : OpType) (target n : Nat)
    (hwf : pht.WellFormed (numPhtEntries PHT_SIZE) W s.pht) :
    ∃ preds s', Bimodal.runTaken PHT_SIZE W pc opType target n s = some (preds, s') ∧
      preds.length = n ∧
      mispredictedAmong (Bimodal.predictor PHT_SIZE W) s
        (List.replicate n (sampleCond pc true)) = preds.count false ∧
      preds.count false ≤ 2 ^ (W - 1) ∧
      (W ≤ 5 → preds.count false ≤ 16) ∧
      (∀ k, 2 ^ (W - 1) ≤ k → k < n → preds[k]? = some true) ∧
      (∀ j k, j ≤ k → k < n → preds[j]? = some true → preds[k]? = some true) := by
  obtain ⟨c, _, _, hget, hD, hS, _, _, _, _⟩ :=
    bimodal_taken_step PHT_SIZE W hP hW1 hW2 s pc opType target hwf
  obtain ⟨s', hrun⟩ :=
    bimodal_runTaken_spec PHT_SIZE W hP hW1 hW2 pc opType target n s c hwf hget
  obtain ⟨s'', hrun2⟩ := bimodal_runTaken_spec PHT_SIZE W hP hW1 hW2 pc
    OpType.OPTYPE_JMP_DIRECT_COND pc n s c hwf hget
  have htally := bimodal_tally_runTaken PHT_SIZE W pc n s 0 _ s'' hrun2
  have hmax := maxStrenght_eq W hW1 (by omega)
  rw [Nat.min_eq_left (by omega)] at hmax
  have hpos : 0 < 2 ^ (W - 1) := Nat.pow_pos (by omega)
  generalize hm : (if c.Dir = 0 then c.Strenght + 1 else 0) = m at hrun htally
  have hmle : m ≤ 2 ^ (W - 1) := by
    rw [← hm]
    split <;> omega
  have hcount : (List.replicate (min n m) false ++ List.replicate (n - m) true).count false
      = min n m := by
    simp [List.count_replicate]
  have hnth : ∀ k, k < n → (List.replicate (min n m) false ++ List.replicate (n - m) true)[k]?
      = some (decide (m ≤ k)) := by
    intro k hk
    by_cases hkm : k < m
    · rw [List.getElem?_append_left (by simp; omega), List.getElem?_replicate,
        if_pos (by omega)]
      simp; omega
    · rw [List.getElem?_append_right (by simp; omega), List.getElem?_replicate,
        if_pos (by simp; omega)]
      simp; omega
  refine ⟨_, s', hrun, by simp; omega, ?_, ?_, ?_, ?_, ?_⟩
  · unfold mispredictedAmong
    rw [htally, Nat.zero_add]
  · rw [hcount]; omega
  · intro hW5
    rw [hcount]
    have : 2 ^ (W - 1) ≤ 2 ^ 4 := Nat.pow_le_pow_right (by omega) (by omega)
    omega
  · intro k hk hkn
    rw [hnth k hkn]
    simp; omega
  · intro j k hjk hkn hj
    rw [hnth j (by omega)] at hj
    rw [hnth k hkn]
    simp only [Option.some.injEq, decide_eq_true_eq] at hj ⊢
    omega

/-- C30, witness: 64 two bit counters initialised to 0 (strongly not taken), 2000 taken
branches at the PC 68. -/
theorem C30_always_taken_warm_up_witness :
    ∃ preds s', Bimodal.runTaken 6 2 68 OpType.OPTYPE_JMP_DIRECT_COND 68 2000
        (Bimodal.init 6 0 2 [1, 1]) = some (preds, s') ∧
      preds.length = 2000 ∧
      mispredictedAmong (Bimodal.predictor 6 2) (Bimodal.init 6 0 2 [1, 1])
        (List.replicate 2000 (sampleCond 68 true)) = preds.count false ∧
      preds.count false ≤ 2 ^ (2 - 1) ∧
      (2 ≤ 5 → preds.count false ≤ 16) ∧
      (∀ k, 2 ^ (2 - 1) ≤ k → k < 2000 → preds[k]? = some true) ∧
      (∀ j k, j ≤ k → k < 2000 → preds[j]? = some true → preds[k]? = some true) :=
  C30_always_taken_warm_up 6 2 (by decide) (by decide) (by decide) (Bimodal.init 6 0 2 [1, 1])
    68 OpType.OPTYPE_JMP_DIRECT_COND 68 2000 (by unfold pht.WellFormed; decide)

/-! #### Claim C28 -/

/-- C28: `my_source::read(s, n)` copies every piece to the start of `s`
(`memcpy(s, ...)`, whatever `outputted` is).  A request that lies inside the current
output chunk (`0 < n <= bufferSize - pos_`) returns `n` with the next `n` bytes of the
chunk in `s[0..n)`.  A request that spans the boundary between two chunks does not: with
chunks of 4 bytes that hold the stream 1, 2, ..., 8, after `read(s, 3)` has delivered
1, 2, 3 the next `read(s, 3)` returns 3 with `s = 5, 6, 3`, where the next bytes of the
stream are 4, 5, 6: the piece of the second chunk has overwritten the piece of the first,
and `s[2]` is not written at all. -/
theorem C28_read_across_chunk_boundary :
    (∀ (self : my_source) (s : List Nat) (n : Nat), 0 < n →
      n ≤ self.bufferSize - self.pos_ →
      my_source.read self s n
        = some ((n : Int), memcpy s ((self.buffer.drop self.pos_).take n),
            { self with pos_ := self.pos_ + n })) ∧
    (zstd_decompress.written { calls := [([1, 2, 3, 4], 5), ([5, 6, 7, 8], 5)] }
        = [1, 2, 3, 4, 5, 6, 7, 8] ∧
      BT9Reader.fpstream_ 4 [0, 0, 0, 0] { calls := [([1, 2, 3, 4], 5), ([5, 6, 7, 8], 5)] }
        = some { pos_ := 0, eof_ := 0, bufferSize := 4, buffer := [1, 2, 3, 4],
                 reader := { calls := [([5, 6, 7, 8], 5)] } } ∧
      my_source.read { pos_ := 0, eof_ := 0, bufferSize := 4, buffer := [1, 2, 3, 4],
                       reader := { calls := [([5, 6, 7, 8], 5)] } } [0, 0, 0] 3
        = some (3, [1, 2, 3],
            { pos_ := 3, eof_ := 0, bufferSize := 4, buffer := [1, 2, 3, 4],
              reader := { calls := [([5, 6, 7, 8], 5)] } }) ∧
      my_source.read { pos_ := 3, eof_ := 0, bufferSize := 4, buffer := [1, 2, 3, 4],
                       reader := { calls := [([5, 6, 7, 8], 5)] } } [1, 2, 3] 3
        = some (3, [5, 6, 3],
            { pos_ := 2, eof_ := 0, bufferSize := 4, buffer := [5, 6, 7, 8],
              reader := { calls := [] } }) ∧
      (([1, 2, 3, 4, 5, 6, 7, 8] : List Nat).drop 3).take 3 = [4, 5, 6] ∧
      ([5, 6, 3] : List Nat) ≠ [4, 5, 6]) := by
  refine ⟨?_, by decide, by decide, by decide, by decide, by decide, by decide⟩
  intro self s n hn hle
  have hlt : self.pos_ < self.bufferSize := by omega
  have hne : self.pos_ ≠ self.bufferSize := by omega
  have e : 2 * n + 2 = (2 * n) + 1 + 1 := by omega
  have hmin : min (n - 0) (self.bufferSize - self.pos_) = n := by omega
  unfold my_source.read
  rw [e, my_source.readLoop]
  simp only [hn, if_true, hne, if_false, Nat.and_zero, ne_eq, not_true_eq_false, hlt, hmin,
    Nat.zero_add]
  rw [my_source.readLoop]
  simp only [Nat.lt_irrefl, if_false]

/-! #### Claim C29 -/

/-- C29: `my_source::read` takes the return value 0 of a resumption, which
`ZSTD_decompressStream` gives at the end of every frame, for the end of the stream: `eof_`
is set, the chunk just written is delivered, and from then on `read` returns -1 whatever
the coroutine still has to deliver.  It also delivers `bufferSize` bytes of every chunk,
whatever number of bytes the decoder wrote.  For a buffer of 2 bytes and a file of two
frames, the first with the content 1, 2, 3, 4 (two chunks), the second with the content
5, 6, the reads of 2 bytes give 1, 2, then 3, 4, then -1: the second frame is never
delivered.  For two frames with the contents 1, 2 and 3, the second read returns 2 bytes,
3 and the stale 2 of the chunk before. -/
theorem C29_end_of_frame_taken_for_end_of_stream :
    (∀ (self : my_source) (s : List Nat) (n : Nat), 0 < n → self.eof_ = 1 →
      self.pos_ = self.bufferSize → my_source.read self s n = some (-1, s, self)) ∧
    (zstd_decompress.written { calls := [([1, 2], 3), ([3, 4], 0), ([5, 6], 0)] }
        = [1, 2, 3, 4, 5, 6] ∧
      BT9Reader.fpstream_ 2 [0, 0] { calls := [([1, 2], 3), ([3, 4], 0), ([5, 6], 0)] }
        = some { pos_ := 0, eof_ := 0, bufferSize := 2, buffer := [1, 2],
                 reader := { calls := [([3, 4], 0), ([5, 6], 0)] } } ∧
      my_source.read { pos_ := 0, eof_ := 0, bufferSize := 2, buffer := [1, 2],
                       reader := { calls := [([3, 4], 0), ([5, 6], 0)] } } [0, 0] 2
        = some (2, [1, 2],
            { pos_ := 2, eof_ := 0, bufferSize := 2, buffer := [1, 2],
              reader := { calls := [([3, 4], 0), ([5, 6], 0)] } }) ∧
      my_source.read { pos_ := 2, eof_ := 0, bufferSize := 2, buffer := [1, 2],
                       reader := { calls := [([3, 4], 0), ([5, 6], 0)] } } [1, 2] 2
        = some (2, [3, 4],
            { pos_ := 2, eof_ := 1, bufferSize := 2, buffer := [3, 4],
              reader := { calls := [([5, 6], 0)] } }) ∧
      my_source.read { pos_ := 2, eof_ := 1, bufferSize := 2, buffer := [3, 4],
                       reader := { calls := [([5, 6], 0)] } } [3, 4] 2
        = some (-1, [3, 4],
            { pos_ := 2, eof_ := 1, bufferSize := 2, buffer := [3, 4],
              reader := { calls := [([5, 6], 0)] } })) ∧
    (zstd_decompress.written { calls := [([1, 2], 0), ([3], 0)] } = [1, 2, 3] ∧
      BT9Reader.fpstream_ 2 [0, 0] { calls := [([1, 2], 0), ([3], 0)] }
        = some { pos_ := 0, eof_ := 0, bufferSize := 2, buffer := [1, 2],
                 reader := { calls := [([3], 0)] } } ∧
      my_source.read { pos_ := 0, eof_ := 0, bufferSize := 2, buffer := [1, 2],
                       reader := { calls := [([3], 0)] } } [0, 0] 2
        = some (2, [1, 2],
            { pos_ := 2, eof_ := 0, bufferSize := 2, buffer := [1, 2],
              reader := { calls := [([3], 0)] } }) ∧
      my_source.read { pos_ := 2, eof_ := 0, bufferSize := 2, buffer := [1, 2],
                       reader := { calls := [([3], 0)] } } [1, 2] 2
        = some (2, [3, 2],
            { pos_ := 2, eof_ := 1, bufferSize := 2, buffer := [3, 2],
              reader := { calls := [] } })) := by
  refine ⟨?_, ⟨by decide, by decide, by decide, by decide, by decide⟩,
    ⟨by decide, by decide, by decide, by decide⟩⟩
  intro self s n hn he hp
  have e : 2 * n + 2 = (2 * n + 1) + 1 := by omega
  unfold my_source.read
  rw [e, my_source.readLoop]
  simp [hn, he, hp]

/-! ### The title line of the header -/

theorem getline_append (rest : List Nat) :
    ∀ l : List Nat, 10 ∉ l → getline (l ++ 10 :: rest) = (l, rest) := by
  intro l
  induction l with
  | nil => intro _; simp [getline]
  | cons c cs ih =>
    intro h
    simp only [List.mem_cons, not_or] at h
    have hc : c ≠ 10 := fun e => h.1 e.symm
    rw [List.cons_append, getline, if_neg hc, ih h.2]

theorem extractToken_skip (rest : List Nat) :
    ∀ pre : List Nat, (∀ c ∈ pre, isspace c = true) →
      extractToken (pre ++ rest) = extractToken rest := by
  intro pre
  induction pre with
  | nil => intro _; rfl
  | cons c cs ih =>
    intro h
    have hc := h c (List.mem_cons_self _ _)
    have := ih (fun x hx => h x (List.mem_cons_of_mem _ hx))
    unfold extractToken at this ⊢
    simp only [List.cons_append, List.dropWhile_cons, hc, if_true, this]

theorem extractToken_title (post : List Nat)
    (hpost : post = [] ∨ ∃ c tl, post = c :: tl ∧ isspace c = true) :
    extractToken (BT9_SPA_TRACE_FORMAT ++ post) = BT9_SPA_TRACE_FORMAT := by
  rcases hpost with h | ⟨c, tl, h, hc⟩
  · subst h
    decide
  · subst h
    have hc2 := hc
    simp only [isspace, Bool.or_eq_true, Bool.and_eq_true, decide_eq_true_eq] at hc2
    simp [extractToken, BT9_SPA_TRACE_FORMAT, List.dropWhile_cons, List.takeWhile_cons, isspace]
    intro hne
    rcases hc2 with e | e
    · exact absurd e hne
    · exact e

/-! #### Claim C25 -/

/-- C25, counterexample: an input whose first line is empty, or is a `#` comment line,
and whose second line is the literal `BT9_SPA_TRACE_FORMAT` is rejected as not a BT9 file:
nothing is skipped before the title line.  An input whose first line is
`BT9_SPA_TRACE_FORMAT x`, which does not equal the literal, is accepted. -/
theorem C25_counterexample_blank_or_comment_first :
    BT9Reader.readBT9Header_title ([10] ++ BT9_SPA_TRACE_FORMAT ++ [10]) = none ∧
    BT9Reader.readBT9Header_title ([35, 32, 99, 10] ++ BT9_SPA_TRACE_FORMAT ++ [10]) = none ∧
    BT9Reader.readBT9Header_title (BT9_SPA_TRACE_FORMAT ++ [32, 120, 10, 66]) = some [66] ∧
    BT9_SPA_TRACE_FORMAT ++ [32, 120] ≠ BT9_SPA_TRACE_FORMAT := by
  refine ⟨by decide, by decide, by decide, by decide⟩

/-- C25 (as amended): the header phase reads the very first line of the input and
accepts it if and only if the first white space delimited token of that line is the literal
`BT9_SPA_TRACE_FORMAT`; the rest of the line is not looked at.  So a first line made of
blanks or tabs, the literal, and nothing or white space and any text is accepted and
parsing goes on with the line after it; an input that starts with an empty line or with a
`#` is rejected as not a BT9 file, whatever follows: no blank line and no comment line is
skipped before the title line. -/
theorem C25_title_is_first_token_of_first_line :
    (∀ input : List Nat, (∃ rest, BT9Reader.readBT9Header_title input = some rest) ↔
      extractToken (getline input).1 = BT9_SPA_TRACE_FORMAT) ∧
    (∀ pre post rest : List Nat, (∀ c ∈ pre, c = 32 ∨ c = 9) → 10 ∉ post →
      (post = [] ∨ ∃ c tl, post = c :: tl ∧ isspace c = true) →
      BT9Reader.readBT9Header_title (pre ++ BT9_SPA_TRACE_FORMAT ++ post ++ 10 :: rest)
        = some rest) ∧
    (∀ rest : List Nat, BT9Reader.readBT9Header_title (10 :: rest) = none) ∧
    (∀ rest : List Nat, BT9Reader.readBT9Header_title (35 :: rest) = none) := by
  refine ⟨?_, ?_, ?_, ?_⟩
  · intro input
    unfold BT9Reader.readBT9Header_title
    by_cases h : extractToken (getline input).1 = BT9_SPA_TRACE_FORMAT
    · simp [h]
    · simp [h]
  · intro pre post rest hpre hnl hpost
    have hline : (10 : Nat) ∉ pre ++ BT9_SPA_TRACE_FORMAT ++ post := by
      simp only [List.mem_append, not_or]
      refine ⟨⟨?_, by decide⟩, hnl⟩
      intro h
      rcases hpre 10 h with e | e <;> omega
    have htok : extractToken (pre ++ BT9_SPA_TRACE_FORMAT ++ post) = BT9_SPA_TRACE_FORMAT := by
      rw [List.append_assoc, extractToken_skip _ pre, extractToken_title post hpost]
      intro c hc
      rcases hpre c hc with e | e <;> subst e <;> decide
    unfold BT9Reader.readBT9Header_title
    simp only [getline_append rest _ hline, htok, ne_eq, not_true_eq_false, if_false]
  · intro rest
    simp [BT9Reader.readBT9Header_title, getline, extractToken, BT9_SPA_TRACE_FORMAT]
  · intro rest
    simp [BT9Reader.readBT9Header_title, getline, extractToken, BT9_SPA_TRACE_FORMAT, isspace]

/-! ### The index functions `H` and `Hi` -/

theorem div_pow_mod_two (x k : Nat) : x / 2 ^ k % 2 = (x.testBit k).toNat := by
  rw [Nat.testBit, Nat.shiftRight_eq_div_pow, Nat.one_and_eq_mod_two]
  rcases Nat.mod_two_eq_zero_or_one (x / 2 ^ k) with h | h <;> simp [h]

theorem and_two_pow_eq (x k : Nat) : x &&& 2 ^ k = 2 ^ k * (x / 2 ^ k % 2) := by
  rw [Nat.and_two_pow, Nat.mul_comm, div_pow_mod_two]

theorem xor_div_pow_mod_two (a b k : Nat) :
    (a ^^^ b) / 2 ^ k % 2 = (a / 2 ^ k % 2 + b / 2 ^ k % 2) % 2 := by
  rw [div_pow_mod_two, div_pow_mod_two, div_pow_mod_two, Nat.testBit_xor]
  cases a.testBit k <;> cases b.testBit k <;> rfl

/-- Closed form of `H` on a value of `LOGSIZE` bits: the value is shifted right by one
and the new top bit is the exclusive or of the old top bit and the old bit 0. -/
theorem H_closed (L a : Nat) (h2 : 2 ≤ L) (hL : L ≤ 30) (ha : a < 2 ^ L) :
    H L a = 2 ^ (L - 1) * ((a / 2 ^ (L - 1) + a) % 2) + a / 2 := by
  have e1 : (2 : Nat) ^ L = 2 * 2 ^ (L - 1) := by
    rw [← Nat.pow_succ']; congr 1; omega
  have hp1 : (2 : Nat) ^ (L - 1) ≤ 2 ^ 29 := Nat.pow_le_pow_right (by omega) (by omega)
  have hp0 : 0 < (2 : Nat) ^ (L - 1) := Nat.pow_pos (by omega)
  have hsh : shl64 a (L - 1) = a * 2 ^ (L - 1) := by
    unfold shl64
    rw [Nat.shiftLeft_eq]
    apply Nat.mod_eq_of_lt
    have : a * 2 ^ (L - 1) < 2 ^ 30 * 2 ^ 29 := by
      apply Nat.mul_lt_mul_of_lt_of_le (by omega) hp1 (by omega)
    omega
  have hone : sext32 ((1 <<< (L - 1)) % 2 ^ 32) = 2 ^ (L - 1) := by
    rw [Nat.one_shiftLeft, Nat.mod_eq_of_lt (by omega)]
    unfold sext32
    rw [if_pos (by omega)]
  have hmask : a &&& sext32 (mask32 L) = a := by
    rw [sext32_mask32 L (by omega)]
    rw [Nat.and_pow_two_sub_one_eq_mod]
    exact Nat.mod_eq_of_lt ha
  have hsar : sar64 a 1 = a / 2 := by
    unfold sar64
    rw [if_pos (by omega), Nat.shiftRight_eq_div_pow, Nat.pow_one]
  have hbit : (a * 2 ^ (L - 1)) / 2 ^ (L - 1) % 2 = a % 2 := by
    rw [Nat.mul_div_cancel _ hp0]
  unfold H
  simp only [hsh, hone, hmask, hsar]
  rw [and_two_pow_eq, xor_div_pow_mod_two, hbit]
  have hb : (a / 2 ^ (L - 1) % 2 + a % 2) % 2 = (a / 2 ^ (L - 1) + a) % 2 := by omega
  rw [hb]
  have hlt : 2 ^ (L - 1) * ((a / 2 ^ (L - 1) + a) % 2) + a / 2 < 2 ^ 32 := by
    have : (a / 2 ^ (L - 1) + a) % 2 < 2 := Nat.mod_lt _ (by omega)
    have : 2 ^ (L - 1) * ((a / 2 ^ (L - 1) + a) % 2) ≤ 2 ^ (L - 1) * 1 :=
      Nat.mul_le_mul_left _ (by omega)
    omega
  omega

/-- Closed form of `Hi` on a value of `LOGSIZE` bits: the low `LOGSIZE - 1` bits are
shifted left by one and the new bit 0 is the exclusive or of the two top bits. -/
theorem Hi_closed (L a : Nat) (h2 : 2 ≤ L) (hL : L ≤ 30) (ha : a < 2 ^ L) :
    Hi L a = (a / 2 ^ (L - 1) + a / 2 ^ (L - 2)) % 2 + 2 * (a % 2 ^ (L - 1)) := by
  have hp1 : (2 : Nat) ^ (L - 1) ≤ 2 ^ 29 := Nat.pow_le_pow_right (by omega) (by omega)
  have hpL : (2 : Nat) ^ L ≤ 2 ^ 30 := Nat.pow_le_pow_right (by omega) (by omega)
  have hp0 : 0 < (2 : Nat) ^ (L - 1) := Nat.pow_pos (by omega)
  have hsar : ∀ k, sar64 a k = a / 2 ^ k := by
    intro k
    unfold sar64
    rw [if_pos (by omega), Nat.shiftRight_eq_div_pow]
  have hmask : a &&& sext32 (mask32 (L - 1)) = a % 2 ^ (L - 1) := by
    rw [sext32_mask32 (L - 1) (by omega)]
    exact Nat.and_pow_two_sub_one_eq_mod a (L - 1)
  have hr : a % 2 ^ (L - 1) < 2 ^ (L - 1) := Nat.mod_lt _ hp0
  have hsh : shl64 (a % 2 ^ (L - 1)) 1 = 2 * (a % 2 ^ (L - 1)) := by
    unfold shl64
    rw [Nat.shiftLeft_eq]
    omega
  unfold Hi
  simp only [hsar, hmask, hsh]
  have hx : (a / 2 ^ (L - 1) ^^^ a / 2 ^ (L - 2)) &&& 1
      = (a / 2 ^ (L - 1) + a / 2 ^ (L - 2)) % 2 := by
    have := xor_div_pow_mod_two (a / 2 ^ (L - 1)) (a / 2 ^ (L - 2)) 0
    simp only [Nat.pow_zero, Nat.div_one] at this
    rw [Nat.and_one_is_mod, this]
    omega
  rw [hx]
  have : (a / 2 ^ (L - 1) + a / 2 ^ (L - 2)) % 2 < 2 := Nat.mod_lt _ (by omega)
  omega

/-- `H` and `Hi` keep `LOGSIZE`-bit values in range and are inverse to each other. -/
theorem H_Hi_inverse (L a : Nat) (h2 : 2 ≤ L) (hL : L ≤ 30) (ha : a < 2 ^ L) :
    H L a < 2 ^ L ∧ Hi L a < 2 ^ L ∧ Hi L (H L a) = a ∧ H L (Hi L a) = a := by
  have e1 : (2 : Nat) ^ (L - 1) = 2 * 2 ^ (L - 2) := by
    rw [← Nat.pow_succ']; congr 1; omega
  have e2 : (2 : Nat) ^ L = 4 * 2 ^ (L - 2) := by
    have : (2 : Nat) ^ L = 2 * 2 ^ (L - 1) := by
      rw [← Nat.pow_succ']; congr 1; omega
    omega
  have hP : 0 < (2 : Nat) ^ (L - 2) := Nat.pow_pos (by omega)
  have hH : ∀ x, x < 2 ^ L → H L x = 2 ^ (L - 1) * ((x / 2 ^ (L - 1) + x) % 2) + x / 2 :=
    fun x hx => H_closed L x h2 hL hx
  have hHi : ∀ x, x < 2 ^ L →
      Hi L x = (x / 2 ^ (L - 1) + x / 2 ^ (L - 2)) % 2 + 2 * (x % 2 ^ (L - 1)) :=
    fun x hx => Hi_closed L x h2 hL hx
  rw [e1] at hH hHi
  rw [e2] at hH hHi ha ⊢
  generalize (2 : Nat) ^ (L - 2) = P at *
  have ht : a / (2 * P) < 2 := by
    apply Nat.div_lt_of_lt_mul; omega
  have hr : a % (2 * P) < 2 * P := Nat.mod_lt _ (by omega)
  have hdm := Nat.div_add_mod a (2 * P)
  -- the range of H
  have hHa : H L a = 2 * P * ((a / (2 * P) + a) % 2) + a / 2 := hH a ha
  have hu : (a / (2 * P) + a) % 2 < 2 := Nat.mod_lt _ (by omega)
  have hHlt : H L a < 4 * P := by
    rw [hHa]
    have : 2 * P * ((a / (2 * P) + a) % 2) ≤ 2 * P * 1 := Nat.mul_le_mul_left _ (by omega)
    omega
  have hHia : Hi L a = (a / (2 * P) + a / P) % 2 + 2 * (a % (2 * P)) := hHi a ha
  have hHilt : Hi L a < 4 * P := by
    rw [hHia]
    have : (a / (2 * P) + a / P) % 2 < 2 := Nat.mod_lt _ (by omega)
    omega
  refine ⟨hHlt, hHilt, ?_, ?_⟩
  · rw [hHi _ hHlt, hHa]
    have hhalf : a / 2 < 2 * P := by omega
    have d1 : (2 * P * ((a / (2 * P) + a) % 2) + a / 2) / (2 * P) = (a / (2 * P) + a) % 2 := by
      rw [Nat.mul_add_div (by omega), Nat.div_eq_of_lt hhalf, Nat.add_zero]
    have d2 : (2 * P * ((a / (2 * P) + a) % 2) + a / 2) / P
        = 2 * ((a / (2 * P) + a) % 2) + a / (2 * P) := by
      rw [show 2 * P * ((a / (2 * P) + a) % 2) = P * (2 * ((a / (2 * P) + a) % 2)) from by ring,
        Nat.mul_add_div hP, Nat.div_div_eq_div_mul]
    have d3 : (2 * P * ((a / (2 * P) + a) % 2) + a / 2) % (2 * P) = a / 2 := by
      rw [Nat.mul_add_mod, Nat.mod_eq_of_lt hhalf]
    rw [d1, d2, d3]
    omega
  · rw [hH _ hHilt, hHia]
    have hv : (a / (2 * P) + a / P) % 2 < 2 := Nat.mod_lt _ (by omega)
    have d0 : ((a / (2 * P) + a / P) % 2 + 2 * (a % (2 * P))) / 2 = a % (2 * P) := by omega
    have d1 : ((a / (2 * P) + a / P) % 2 + 2 * (a % (2 * P))) / (2 * P) = a / P % 2 := by
      rw [← Nat.div_div_eq_div_mul, d0, Nat.mul_comm 2 P, Nat.mod_mul_right_div_self]
    rw [d1, d0]
    have d4 : ∀ t x r : Nat, t < 2 → (x % 2 + ((t + x) % 2 + 2 * r)) % 2 = t := by
      intro t x r h
      omega
    rw [d4 _ _ _ ht]
    exact hdm

/-! #### Claim C40 -/

/-- C40: `Hi` is the inverse of `H`.  For every table size exponent `LOGSIZE` from 2 to 30
(the range in which the `int` shifts `1 << LOGSIZE` of the two functions are defined; the
predictor uses `LOGPRED - 3` and `LOGPRED - 4`) and every `a` with `0 <= a < 2^LOGSIZE`,
`H(a)` and `Hi(a)` lie in `[0, 2^LOGSIZE)`, `Hi(H(a)) = a` and `H(Hi(a)) = a`; so both are
bijections on the `LOGSIZE`-bit values. -/
theorem C40_Hi_is_inverse_of_H (L : Nat) (h2 : 2 ≤ L) (hL : L ≤ 30) :
    (∀ a, a < 2 ^ L →
      H L a < 2 ^ L ∧ Hi L a < 2 ^ L ∧ Hi L (H L a) = a ∧ H L (Hi L a) = a) ∧
    Set.BijOn (H L) (Set.Iio (2 ^ L)) (Set.Iio (2 ^ L)) ∧
    Set.BijOn (Hi L) (Set.Iio (2 ^ L)) (Set.Iio (2 ^ L)) := by
  have key := fun a (ha : a < 2 ^ L) => H_Hi_inverse L a h2 hL ha
  have mH : Set.MapsTo (H L) (Set.Iio (2 ^ L)) (Set.Iio (2 ^ L)) := fun a ha => (key a ha).1
  have mHi : Set.MapsTo (Hi L) (Set.Iio (2 ^ L)) (Set.Iio (2 ^ L)) :=
    fun a ha => (key a ha).2.1
  have l1 : Set.LeftInvOn (Hi L) (H L) (Set.Iio (2 ^ L)) := fun a ha => (key a ha).2.2.1
  have l2 : Set.LeftInvOn (H L) (Hi L) (Set.Iio (2 ^ L)) := fun a ha => (key a ha).2.2.2
  exact ⟨key, Set.InvOn.bijOn ⟨l1, l2⟩ mH mHi, Set.InvOn.bijOn ⟨l2, l1⟩ mHi mH⟩

/-- C40, witness: `LOGSIZE = 15`, the value that `LOGPRED = 18` gives for G0 and G1. -/
theorem C40_Hi_is_inverse_of_H_witness :
    (∀ a, a < 2 ^ 15 →
      H 15 a < 2 ^ 15 ∧ Hi 15 a < 2 ^ 15 ∧ Hi 15 (H 15 a) = a ∧ H 15 (Hi 15 a) = a) ∧
    Set.BijOn (H 15) (Set.Iio (2 ^ 15)) (Set.Iio (2 ^ 15)) ∧
    Set.BijOn (Hi 15) (Set.Iio (2 ^ 15)) (Set.Iio (2 ^ 15)) :=
  C40_Hi_is_inverse_of_H 15 (by decide) (by decide)

/-! ### The initial table -/

/-- Plane `k` of the initial table: every word is all ones or zero after bit `i - k` of
`init_ctr`, `i` being the bit number the loop starts with. -/
theorem init_arrays_loop_plane (size init_ctr : Nat) :
    ∀ (shared : List Nat) (i k S : Nat), shared[k]? = some S → k ≤ i →
      (pht.init_arrays_loop size init_ctr shared i)[k]?
        = some (List.replicate (size / 64 / S)
            (if (init_ctr >>> (i - k)) &&& 1 ≠ 0 then 0xFFFFFFFFFFFFFFFF else 0)) := by
  intro shared
  induction shared with
  | nil => intro i k S h _; simp at h
  | cons x xs ih =>
    intro i k S h hk
    cases k with
    | zero =>
      simp only [List.getElem?_cons_zero, Option.some.injEq] at h
      subst h
      simp only [pht.init_arrays_loop, List.getElem?_cons_zero, Nat.sub_zero]
    | succ k =>
      simp only [List.getElem?_cons_succ] at h
      have hi : i ≠ 0 := by omega
      simp only [pht.init_arrays_loop, List.getElem?_cons_succ, hi, if_false]
      rw [ih (i - 1) k S h (by omega)]
      have e : i - 1 - k = i - (k + 1) := by omega
      rw [e]

/-! #### Claim C35 -/

/-- C35, counterexample: for two bit counters and `init = 1` (binary 01), plane 0 of a
64-entry table is the word 0 and plane 1 is the word `0xFFFFFFFFFFFFFFFF`, although bit 0
of `init` is 1 and bit 1 of `init` is 0. -/
theorem C35_counterexample_plane_order :
    (pht.init_arrays 64 1 2 [1, 1]).arrays = [[0], [0xFFFFFFFFFFFFFFFF]] ∧
    (1 >>> 0) &&& 1 = 1 ∧ (1 >>> 1) &&& 1 = 0 := by
  decide

/-- C35 (as amended): for every counter width `1 <= W <= 32` (the range in which the shift
`init_ctr >> i` is defined) with `W` sharing factors, every
`init` and every plane `k` in `0..W-1`, plane `k` has `(size / 64) / S_k` words and every
one of them is `0xFFFFFFFFFFFFFFFF` if bit `W-1-k` of `init` is 1 and 0 if that bit is 0:
the loop starts with the top bit of `init` for plane 0 and goes down.  This is bit `k` only
when `k = W-1-k`. -/
theorem C35_initial_planes (size init_ctr W : Nat) (SharedBits : List Nat) (hW : 1 ≤ W)
    (hW2 : W ≤ 32) (hlen : SharedBits.length = W) :
    (pht.init_arrays size init_ctr W SharedBits).arrays.length = W ∧
    ∀ k, k < W → ∃ S, SharedBits[k]? = some S ∧
      (pht.init_arrays size init_ctr W SharedBits).arrays[k]?
        = some (List.replicate (size / 64 / S)
            (if (init_ctr >>> (W - 1 - k)) &&& 1 ≠ 0 then 0xFFFFFFFFFFFFFFFF else 0)) := by
  have hW0 : W ≠ 0 := by omega
  have _ := hW2
  have hl : ∀ (shared : List Nat) (i : Nat),
      (pht.init_arrays_loop size init_ctr shared i).length = shared.length := by
    intro shared
    induction shared with
    | nil => intro i; rfl
    | cons x xs ih => intro i; simp only [pht.init_arrays_loop, List.length_cons, ih]
  refine ⟨?_, ?_⟩
  · simp only [pht.init_arrays, hl, hlen]
  · intro k hk
    have hk2 : k < SharedBits.length := by omega
    refine ⟨SharedBits[k], List.getElem?_eq_getElem hk2, ?_⟩
    simp only [pht.init_arrays, hW0, if_false]
    exact init_arrays_loop_plane size init_ctr SharedBits (W - 1) k _
      (List.getElem?_eq_getElem hk2) (by omega)

/-- C35, witness: 256 three bit counters, `init = 6`, the sharing factors 1, 2 and 4. -/
theorem C35_initial_planes_witness :
    (pht.init_arrays 256 6 3 [1, 2, 4]).arrays.length = 3 ∧
    ∀ k, k < 3 → ∃ S, ([1, 2, 4] : List Nat)[k]? = some S ∧
      (pht.init_arrays 256 6 3 [1, 2, 4]).arrays[k]?
        = some (List.replicate (256 / 64 / S)
            (if (6 >>> (3 - 1 - k)) &&& 1 ≠ 0 then 0xFFFFFFFFFFFFFFFF else 0)) :=
  C35_initial_planes 256 6 3 [1, 2, 4] (by decide) (by decide) rfl
/-! ### The counters of the initial table -/

theorem allOnes_bit : ∀ p, p < 64 → (0xFFFFFFFFFFFFFFFF >>> p) &&& 1 = 1 := by
  decide

/-- The bits that `get_counter` reads in the initial table: `array[k]` is bit `i0 - k` of
`init_ctr`, `i0` being the bit number the initialisation starts with. -/
theorem get_bits_init (size init_ctr i : Nat) (hi : i < size) :
    ∀ (shared : List Nat) (i0 : Nat), shared.length ≤ i0 + 1 →
      (∀ S ∈ shared, 1 ≤ S ∧ S ≤ 32 ∧ 64 * S ∣ size) →
      pht.get_bits (pht.init_arrays_loop size init_ctr shared i0) shared i
        = some ((List.range shared.length).map (fun k => (init_ctr >>> (i0 - k)) &&& 1)) := by
  intro shared
  induction shared with
  | nil => intro i0 _ _; simp [pht.init_arrays_loop, pht.get_bits]
  | cons x xs ih =>
    intro i0 hlen hS
    obtain ⟨h1, h2, hdvd⟩ := hS x (List.mem_cons_self _ _)
    have hin := plane_word_in_bounds size x i h1 hdvd hi
    have hrest : pht.get_bits (pht.init_arrays_loop size init_ctr xs
          (if i0 = 0 then 2 ^ 32 - 1 else i0 - 1)) xs i
        = some ((List.range xs.length).map (fun k => (init_ctr >>> (i0 - (k + 1))) &&& 1)) := by
      by_cases h0 : i0 = 0
      · have hx : xs = [] := by
          apply List.eq_nil_of_length_eq_zero
          simp only [List.length_cons] at hlen
          omega
        subst hx
        simp [pht.init_arrays_loop, pht.get_bits]
      · simp only [h0, if_false]
        rw [ih (i0 - 1) (by simp only [List.length_cons] at hlen; omega)
          (fun S hm => hS S (List.mem_cons_of_mem _ hm))]
        congr 1
        apply List.map_congr_left
        intro k _
        have e : i0 - 1 - k = i0 - (k + 1) := by omega
        rw [e]
    have hbit : ((if (init_ctr >>> i0) &&& 1 ≠ 0 then 0xFFFFFFFFFFFFFFFF else 0)
        >>> ((i >>> (x - 1)) &&& 0x3F)) &&& 1 = (init_ctr >>> i0) &&& 1 := by
      have hle := shr_and_one_le init_ctr i0
      by_cases hb : (init_ctr >>> i0) &&& 1 = 0
      · simp [hb]
      · have h1b : (init_ctr >>> i0) &&& 1 = 1 := by omega
        rw [if_pos hb, allOnes_bit _ (and_63_lt _), h1b]
    simp only [pht.init_arrays_loop, pht.get_bits, planeIndex_eq x i h1 h2]
    rw [List.getElem?_replicate, if_pos hin]
    simp only [hrest, hbit, List.length_cons, List.range_succ_eq_map, List.map_cons,
      List.map_map, Nat.sub_zero]
    rfl

/-! #### Claim C36 -/

/-- C36: `init_arrays` fills the planes from the top bit of `init` down (plane `k` gets bit
`W-1-k`), while the constructor `sat_ctr(arr)` and `getArray` put plane `k >= 1` at bit
`k-1` of `Strenght`, from the bottom up. The two orders agree for the widths 1 and 2 only,
so from width 3 on a fresh counter does not hold `init`.

* For every table of the declared shape and every `i < N`, `get_counter(i)` of the fresh
  table is the counter that the constructor builds from the bits of `init` read from the
  top; for `W <= 2` and `init` in `[0, 2^W)` its `rawVal()` is `init`.
* Three bit counters with `init = 1`: `get_counter(0)` of the fresh table has `Dir = 0` and
  `Strenght = 2`, and `rawVal()` is 2, not 1.
* The counter whose `rawVal()` is 1 has the planes `0, 1, 0` by `getArray`, the fresh table
  holds `0, 0, 1`; saved by `save_counter` in the same table it is read back by
  `get_counter` with `rawVal()` 1. -/
theorem C36_initial_counter_reverses_strength_bits :
    (∀ (size init_ctr W : Nat) (SharedBits : List Nat) (i : Nat), 1 ≤ W → W ≤ 32 →
      SharedBits.length = W → (∀ S ∈ SharedBits, 1 ≤ S ∧ S ≤ 32 ∧ 64 * S ∣ size) →
      i < size →
      pht.get_counter (pht.init_arrays size init_ctr W SharedBits) i
        = sat_ctr.ofArray ((List.range W).map (fun k => (init_ctr >>> (W - 1 - k)) &&& 1)) ∧
      (W ≤ 2 → init_ctr < 2 ^ W →
        ∃ c, pht.get_counter (pht.init_arrays size init_ctr W SharedBits) i = some c ∧
          sat_ctr.rawVal W c = some init_ctr)) ∧
    (pht.init_arrays 64 1 3 [1, 1, 1]
        = { arrays := [[0], [0], [0xFFFFFFFFFFFFFFFF]], tmp_arr := [1, 1, 1] } ∧
      pht.get_bits (pht.init_arrays 64 1 3 [1, 1, 1]).arrays [1, 1, 1] 0 = some [0, 0, 1] ∧
      pht.get_counter (pht.init_arrays 64 1 3 [1, 1, 1]) 0
        = some { Dir := 0, Strenght := 2 } ∧
      sat_ctr.rawVal 3 { Dir := 0, Strenght := 2 } = some 2) ∧
    (sat_ctr.rawVal 3 { Dir := 0, Strenght := 1 } = some 1 ∧
      sat_ctr.getArray 3 { Dir := 0, Strenght := 1 } = some [0, 1, 0] ∧
      sat_ctr.ofArray [0, 1, 0] = some { Dir := 0, Strenght := 1 } ∧
      pht.save_counter 3 (pht.init_arrays 64 1 3 [1, 1, 1]) 0 { Dir := 0, Strenght := 1 }
        = some { arrays := [[0], [1], [0xFFFFFFFFFFFFFFFE]], tmp_arr := [1, 1, 1] } ∧
      pht.get_counter { arrays := [[0], [1], [0xFFFFFFFFFFFFFFFE]], tmp_arr := [1, 1, 1] } 0
        = some { Dir := 0, Strenght := 1 }) := by
  refine ⟨?_, ⟨by decide, by decide, by decide, by decide⟩,
    ⟨by decide, by decide, by decide, by decide, by decide⟩⟩
  intro size init_ctr W SharedBits i hW hW2 hlen hS hi
  have hW0 : W ≠ 0 := by omega
  have hget : pht.get_counter (pht.init_arrays size init_ctr W SharedBits) i
      = sat_ctr.ofArray ((List.range W).map (fun k => (init_ctr >>> (W - 1 - k)) &&& 1)) := by
    simp only [pht.get_counter, pht.init_arrays, hW0, if_false]
    rw [get_bits_init size init_ctr i hi SharedBits (W - 1) (by omega) hS, hlen]
  refine ⟨hget, ?_⟩
  intro hW3 hinit
  rw [hget]
  have hcases : W = 1 ∨ W = 2 := by omega
  rcases hcases with h | h
  · subst h
    have hi2 : init_ctr = 0 ∨ init_ctr = 1 := by omega
    rcases hi2 with e | e <;> subst e <;> exact ⟨_, rfl, by decide⟩
  · subst h
    have hi2 : init_ctr = 0 ∨ init_ctr = 1 ∨ init_ctr = 2 ∨ init_ctr = 3 := by omega
    rcases hi2 with e | e | e | e <;> subst e <;> exact ⟨_, rfl, by decide⟩

/-! ### Frame of `save_counter` -/

theorem mask_testBit_ne : ∀ p, p < 64 → ∀ q, q < 64 → q ≠ p →
    (2 ^ 64 - 1 - 2 ^ p).testBit q = true := by
  decide

/-- The word written by `save_counter` keeps every bit but the one of the counter. -/
theorem newLine_other_bit (line bit p q : Nat) (hp : p < 64) (hq : q < 64) (hne : q ≠ p)
    (hb : bit ≤ 1) :
    (((line &&& (2 ^ 64 - 1 - 2 ^ p)) ||| ((bit <<< p) % 2 ^ 64)) >>> q) &&& 1
      = (line >>> q) &&& 1 := by
  rw [shr_and_one, shr_and_one, Nat.testBit_or, Nat.testBit_and, mask_testBit_ne p hp q hq hne,
    Nat.testBit_mod_two_pow, Nat.testBit_shiftLeft]
  have hz : (decide (q ≥ p) && bit.testBit (q - p)) = false := by
    by_cases hge : q ≥ p
    · have h1 : q - p ≠ 0 := by omega
      have : bit.testBit (q - p) = false := by
        apply Nat.testBit_lt_two_pow
        calc bit < 2 ^ 1 := by omega
          _ ≤ 2 ^ (q - p) := Nat.pow_le_pow_right (by omega) (by omega)
      simp [this]
    · simp [hge]
  simp [hz]

theorem planesOk_length (size : Nat) :
    ∀ (planes : List (List Nat)) (tmp_arr : List Nat),
      pht.planesOk size planes tmp_arr = true → planes.length = tmp_arr.length := by
  intro planes
  induction planes with
  | nil =>
    intro tmp_arr h
    cases tmp_arr with
    | nil => rfl
    | cons x xs => simp [pht.planesOk] at h
  | cons e es ih =>
    intro tmp_arr h
    cases tmp_arr with
    | nil => simp [pht.planesOk] at h
    | cons x xs =>
      simp only [pht.planesOk, Bool.and_eq_true] at h
      simp only [List.length_cons, ih xs h.2]

theorem word_and_bit_inj (x y : Nat) (hw : x >>> 6 = y >>> 6) (hb : x &&& 0x3F = y &&& 0x3F) :
    x = y := by
  have e1 := Nat.and_pow_two_sub_one_eq_mod x 6
  have e2 := Nat.and_pow_two_sub_one_eq_mod y 6
  norm_num at e1 e2
  rw [Nat.shiftRight_eq_div_pow, Nat.shiftRight_eq_div_pow] at hw
  norm_num at hw
  rw [e1, e2] at hb
  omega

/-- After `save_counter(i, c)` the bit that `get_counter(j)` reads in a plane is the one
it read before, for every plane in which the two indices address different bits. -/
theorem save_bits_frame (size i j : Nat) (hi : i < size) (hj : j < size)
    (planes : List (List Nat)) (tmp_arr array : List Nat)
    (hok : pht.planesOk size planes tmp_arr = true) (hlen : array.length = planes.length)
    (hbits : ∀ b ∈ array, b ≤ 1) :
    ∃ (planes' : List (List Nat)) (bits bits' : List Nat),
      pht.save_bits planes tmp_arr array i = some planes' ∧
      pht.planesOk size planes' tmp_arr = true ∧ planes'.length = planes.length ∧
      pht.get_bits planes tmp_arr j = some bits ∧
      pht.get_bits planes' tmp_arr j = some bits' ∧
      bits.length = planes.length ∧ bits'.length = planes.length ∧
      ∀ (k S : Nat), tmp_arr[k]? = some S → (j >>> (S - 1)) ≠ (i >>> (S - 1)) →
        bits'[k]? = bits[k]? := by
  obtain ⟨planes', hsv, _, hok', hl'⟩ :=
    get_bits_save_bits size i hi planes tmp_arr array hok hlen hbits
  obtain ⟨planes2, hsv2, hloc⟩ := save_bits_location size i hi planes tmp_arr array hok hlen
  have e : planes2 = planes' := by
    rw [hsv] at hsv2
    exact (Option.some.inj hsv2).symm
  subst e
  obtain ⟨bits, hg, hgloc⟩ := get_bits_location size j hj planes tmp_arr hok
  obtain ⟨bits', hg', hgloc'⟩ := get_bits_location size j hj planes2 tmp_arr hok'
  obtain ⟨b1, hb1, hbl, _⟩ := get_bits_some size j hj planes tmp_arr hok
  obtain ⟨b2, hb2, hbl2, _⟩ := get_bits_some size j hj planes2 tmp_arr hok'
  have e1 : b1 = bits := by rw [hg] at hb1; exact (Option.some.inj hb1).symm
  have e2 : b2 = bits' := by rw [hg'] at hb2; exact (Option.some.inj hb2).symm
  subst e1
  subst e2
  have hpl := planesOk_length size planes tmp_arr hok
  refine ⟨planes2, b1, b2, hsv, hok', hl', hg, hg', hbl, by rw [hbl2, hl'], ?_⟩
  intro k S hS hne
  have hk : k < tmp_arr.length := by
    rcases Nat.lt_or_ge k tmp_arr.length with h | h
    · exact h
    · rw [List.getElem?_eq_none h] at hS; simp at hS
  have hkp : k < planes.length := by omega
  have hka : k < array.length := by omega
  have hbit : array[k] ≤ 1 := hbits _ (List.getElem_mem hka)
  obtain ⟨line_i, hli, hp'⟩ := hloc k S planes[k] array[k] hS (List.getElem?_eq_getElem hkp)
    (List.getElem?_eq_getElem hka)
  obtain ⟨line_j, hlj, hbj⟩ := hgloc k S planes[k] hS (List.getElem?_eq_getElem hkp)
  obtain ⟨line', hl2, hbj'⟩ := hgloc' k S _ hS hp'
  rw [hbj, hbj']
  congr 1
  by_cases hw : (i >>> (S - 1)) >>> 6 = (j >>> (S - 1)) >>> 6
  · have hwi : (i >>> (S - 1)) >>> 6 < planes[k].length := by
      rcases Nat.lt_or_ge ((i >>> (S - 1)) >>> 6) planes[k].length with h | h
      · exact h
      · rw [List.getElem?_eq_none h] at hli; simp at hli
    rw [← hw, List.getElem?_set_self hwi] at hl2
    rw [← hw, hli] at hlj
    have e3 : line_i = line_j := Option.some.inj hlj
    have e4 := Option.some.inj hl2
    subst e3
    rw [← e4]
    have hbne : (j >>> (S - 1)) &&& 0x3F ≠ (i >>> (S - 1)) &&& 0x3F := by
      intro hb
      exact hne (word_and_bit_inj _ _ hw.symm hb)
    exact newLine_other_bit line_i array[k] _ _ (and_63_lt _) (and_63_lt _) hbne hbit
  · rw [List.getElem?_set_ne hw, hlj] at hl2
    rw [Option.some.inj hl2]

/-! #### Claim C39 -/

/-- C39, counterexample: `save_counter` writes `array[0] << line_index` into the word
without masking `array[0]`, which is `Dir`.  In a table of 64 two bit counters initialised
to 0, `save_counter(0, c)` with `c.Dir = 2` writes the word 2 into the direction plane:
bit 1 is set, and `get_counter(1).Dir` changes from 0 to 1, although `1 != 0`. -/
theorem C39_counterexample_direction_two :
    pht.WellFormed 64 2 (pht.init_arrays 64 0 2 [1, 1]) ∧
    (pht.init_arrays 64 0 2 [1, 1]).tmp_arr[0]? = some 1 ∧
    pht.get_counter (pht.init_arrays 64 0 2 [1, 1]) 1 = some { Dir := 0, Strenght := 0 } ∧
    pht.save_counter 2 (pht.init_arrays 64 0 2 [1, 1]) 0 { Dir := 2, Strenght := 0 }
      = some { arrays := [[2], [0]], tmp_arr := [1, 1] } ∧
    pht.get_counter { arrays := [[2], [0]], tmp_arr := [1, 1] } 1
      = some { Dir := 1, Strenght := 0 } := by
  refine ⟨by unfold pht.WellFormed; decide, by decide, by decide, by decide, by decide⟩

/-- C39 (as amended): frame of `save_counter` in a table of the declared shape whose
direction plane is not shared (first sharing factor 1).  For every `i, j < N` with `j != i`
and every counter `c` with `Dir` in {0,1} (whatever its `Strenght`), `save_counter(i, c)`
succeeds and leaves `get_counter(j).Dir` unchanged; it leaves `get_counter(j)` entirely
unchanged whenever, for every plane `k >= 1` with sharing factor `S_k`,
`(j >> (S_k - 1)) != (i >> (S_k - 1))`.  A counter with `Dir >= 2` is written unmasked and
reaches the neighbouring bits of the word. -/
theorem C39_save_counter_frame (size W : Nat) (t : pht) (i j : Nat) (c : sat_ctr)
    (hwf : pht.WellFormed size W t) (hW1 : 1 ≤ W) (hW2 : W ≤ 33)
    (hS0 : t.tmp_arr[0]? = some 1) (hi : i < size) (hj : j < size) (hne : j ≠ i)
    (hD : c.Dir ≤ 1) :
    ∃ t' cj cj', pht.save_counter W t i c = some t' ∧ pht.get_counter t j = some cj ∧
      pht.get_counter t' j = some cj' ∧ cj'.Dir = cj.Dir ∧
      ((∀ (k S : Nat), 1 ≤ k → t.tmp_arr[k]? = some S → (j >>> (S - 1)) ≠ (i >>> (S - 1))) →
        cj' = cj) := by
  obtain ⟨hlenW, hok⟩ := hwf
  obtain ⟨rest, hgl, hrl, hrb, _⟩ :=
    ofArrayLoop_getArrayLoop c.Strenght (W - 1) 1 0 (by omega) (by omega)
  have hW0 : W ≠ 0 := by omega
  have hga : sat_ctr.getArray W c = some (c.Dir :: rest) := by
    simp only [sat_ctr.getArray, hW0, if_false, hgl]
  have hbits : ∀ b ∈ c.Dir :: rest, b ≤ 1 := by
    intro b hb
    rcases List.mem_cons.mp hb with h | h
    · rw [h]; exact hD
    · exact hrb b h
  obtain ⟨planes', bits, bits', hsv, hok', hl', hg, hg', hbl, hbl', hframe⟩ :=
    save_bits_frame size i j hi hj t.arrays t.tmp_arr (c.Dir :: rest) hok
      (by simp only [List.length_cons, hrl, hlenW]; omega) hbits
  obtain ⟨cj, hcj, _, _⟩ := get_counter_valid size W t j ⟨hlenW, hok⟩ hW1 hW2 hj
  obtain ⟨cj', hcj', _, _⟩ := get_counter_valid size W { t with arrays := planes' } j
    ⟨hl'.trans hlenW, hok'⟩ hW1 hW2 hj
  have h0 : bits'[0]? = bits[0]? := hframe 0 1 hS0 (by simpa using hne)
  refine ⟨{ t with arrays := planes' }, cj, cj', ?_, hcj, hcj', ?_, ?_⟩
  · simp only [pht.save_counter, hga, hsv]
  · simp only [pht.get_counter, hg] at hcj
    simp only [pht.get_counter, hg'] at hcj'
    cases bits with
    | nil => simp [sat_ctr.ofArray] at hcj
    | cons a0 r0 =>
      cases bits' with
      | nil => simp [sat_ctr.ofArray] at hcj'
      | cons a1 r1 =>
        simp only [List.getElem?_cons_zero, Option.some.injEq] at h0
        subst h0
        simp only [sat_ctr.ofArray] at hcj hcj'
        cases hx : sat_ctr.ofArrayLoop 0 1 r0 with
        | none => rw [hx] at hcj; simp at hcj
        | some v0 =>
          cases hy : sat_ctr.ofArrayLoop 0 1 r1 with
          | none => rw [hy] at hcj'; simp at hcj'
          | some v1 =>
            rw [hx] at hcj
            rw [hy] at hcj'
            simp only [Option.some.injEq] at hcj hcj'
            rw [← hcj, ← hcj']
  · intro hall
    have hbb : bits' = bits := by
      apply List.ext_getElem?
      intro k
      by_cases hk : k < t.tmp_arr.length
      · cases k with
        | zero => exact h0
        | succ k =>
          exact hframe (k + 1) _ (List.getElem?_eq_getElem hk)
            (hall (k + 1) _ (by omega) (List.getElem?_eq_getElem hk))
      · have hpl := planesOk_length size t.arrays t.tmp_arr hok
        rw [List.getElem?_eq_none (by omega), List.getElem?_eq_none (by omega)]
    have e : pht.get_counter { t with arrays := planes' } j = pht.get_counter t j := by
      simp only [pht.get_counter, hg, hg', hbb]
    rw [hcj, hcj'] at e
    exact Option.some.inj e

/-- C39, witness: 256 two bit counters, the hysteresis plane shared by two counters;
`save_counter(4, c)` and the counters 5 (same hysteresis bit) and 6. -/
theorem C39_save_counter_frame_witness :
    ∃ t' cj cj', pht.save_counter 2 (pht.init_arrays 256 0 2 [1, 2]) 4
        { Dir := 1, Strenght := 1 } = some t' ∧
      pht.get_counter (pht.init_arrays 256 0 2 [1, 2]) 5 = some cj ∧
      pht.get_counter t' 5 = some cj' ∧ cj'.Dir = cj.Dir ∧
      ((∀ (k S : Nat), 1 ≤ k → (pht.init_arrays 256 0 2 [1, 2]).tmp_arr[k]? = some S →
          (5 >>> (S - 1)) ≠ (4 >>> (S - 1))) →
        cj' = cj) :=
  C39_save_counter_frame 256 2 (pht.init_arrays 256 0 2 [1, 2]) 4 5 { Dir := 1, Strenght := 1 }
    (by unfold pht.WellFormed; decide) (by decide) (by decide) (by decide) (by decide)
    (by decide) (by decide) (by decide)

/-! ### Bank separation in 2bc-gskew -/

theorem banked_index_low (i bank : Nat) (hb : bank ≤ 3) :
    ((i <<< 2) % 2 ^ 32 + bank) % 2 ^ 32 % 4 = bank := by
  rw [Nat.shiftLeft_eq]
  omega

theorem xor_banks_distinct : ∀ n, n ≤ 3 →
    n ≠ n ^^^ 1 ∧ n ≠ n ^^^ 2 ∧ n ≠ n ^^^ 3 ∧ n ^^^ 1 ≠ n ^^^ 2 ∧ n ^^^ 1 ≠ n ^^^ 3 ∧
      n ^^^ 2 ≠ n ^^^ 3 := by
  decide

/-- The low two bits of the four indices are the bank numbers `NUMHYST`, `NUMHYST ^ 1`,
`NUMHYST ^ 2` and `NUMHYST ^ 3`. -/
theorem get_prediction_indices_low (cfg : GskewConfig) (hv : cfg.Valid) (ghist PC : Nat) :
    ∃ ix, get_prediction_indices cfg ghist PC = some ix ∧ ix.NUMHYST ≤ 3 ∧
      ix.indexg0 % 4 = ix.NUMHYST ∧ ix.indexg1 % 4 = ix.NUMHYST ^^^ 1 ∧
      ix.indexbim % 4 = ix.NUMHYST ^^^ 2 ∧ ix.indexmeta % 4 = ix.NUMHYST ^^^ 3 := by
  have h9 := hv.1
  have h31 := hv.2.1
  unfold get_prediction_indices
  simp only
  obtain ⟨i0, e0, -⟩ := INDEX_lt (cfg.LOGPRED - 3)
    (sext32 (sar32 (PC % 2 ^ 32) 4 ^^^ PC % 2 ^ 32)
      ^^^ sar64 (sext32 (sar32 (PC % 2 ^ 32) 4 ^^^ PC % 2 ^ 32)) 5)
    (ghist ^^^ shl64 (ghist &&& 3) 5) cfg.L_G0 1 (by omega) (Or.inl rfl)
  obtain ⟨i1, e1, -⟩ := INDEX_lt (cfg.LOGPRED - 3)
    (sext32 (sar32 (PC % 2 ^ 32) 4 ^^^ PC % 2 ^ 32)
      ^^^ sar64 (sext32 (sar32 (PC % 2 ^ 32) 4 ^^^ PC % 2 ^ 32)) 5)
    (ghist ^^^ shl64 (ghist &&& 3) 5) cfg.L_G1 2 (by omega) (Or.inr (Or.inl rfl))
  obtain ⟨i2, e2, -⟩ := INDEX_lt (cfg.LOGPRED - 4)
    (sext32 (sar32 (PC % 2 ^ 32) 4 ^^^ PC % 2 ^ 32)
      ^^^ sar64 (sext32 (sar32 (PC % 2 ^ 32) 4 ^^^ PC % 2 ^ 32)) 5)
    (ghist ^^^ shl64 (ghist &&& 3) 5) cfg.L_BIM 3 (by omega) (Or.inr (Or.inr (Or.inl rfl)))
  obtain ⟨i3, e3, -⟩ := INDEX_lt (cfg.LOGPRED - 4)
    (sext32 (sar32 (PC % 2 ^ 32) 4 ^^^ PC % 2 ^ 32)
      ^^^ sar64 (sext32 (sar32 (PC % 2 ^ 32) 4 ^^^ PC % 2 ^ 32)) 5)
    (ghist ^^^ shl64 (ghist &&& 3) 5) cfg.L_META 4 (by omega) (Or.inr (Or.inr (Or.inr rfl)))
  rw [e0, e1]
  simp only
  rw [e2, e3]
  simp only
  have hn : ((sar32 (PC % 2 ^ 32) 4 ^^^ PC % 2 ^ 32) ^^^ ghist % 2 ^ 32) &&& 3 ≤ 3 :=
    Nat.and_le_right
  exact ⟨_, rfl, hn, banked_index_low i0 _ hn,
    banked_index_low i1 _ (xor_le_three _ hn 1 (by omega)),
    banked_index_low i2 _ (xor_le_three _ hn 2 (by omega)),
    banked_index_low i3 _ (xor_le_three _ hn 3 (by omega))⟩

theorem hystIndex_low (cfg : GskewConfig) (hv : cfg.Valid) (index : Nat) :
    hystIndex cfg index % 4 = index % 4 := by
  have h9 := hv.1
  have h31 := hv.2.1
  unfold hystIndex
  rw [mask32_eq _ (by omega), Nat.and_pow_two_sub_one_eq_mod]
  apply Nat.mod_mod_of_dvd
  have e : cfg.LOGPRED - 2 = 2 + (cfg.LOGPRED - 4) := by omega
  rw [e, Nat.pow_add]
  exact Dvd.intro _ rfl

/-- The positions that one call of `update_predictor` accesses are pairwise distinct in
each table. -/
theorem gskew_positions_distinct (cfg : GskewConfig) (hv : cfg.Valid) (ghist PC : Nat) :
    ∃ ix, get_prediction_indices cfg ghist PC = some ix ∧
      ix.indexg0 ≠ ix.indexg1 ∧ ix.indexbim ≠ ix.indexmeta ∧
      hystIndex cfg ix.indexg0 ≠ hystIndex cfg ix.indexg1 ∧
      hystIndex cfg ix.indexg0 ≠ ix.indexbim ∧ hystIndex cfg ix.indexg0 ≠ ix.indexmeta ∧
      hystIndex cfg ix.indexg1 ≠ ix.indexbim ∧ hystIndex cfg ix.indexg1 ≠ ix.indexmeta := by
  obtain ⟨ix, hix, hn, l0, l1, l2, l3⟩ := get_prediction_indices_low cfg hv ghist PC
  obtain ⟨x01, x02, x03, x12, x13, x23⟩ := xor_banks_distinct ix.NUMHYST hn
  have k0 := hystIndex_low cfg hv ix.indexg0
  have k1 := hystIndex_low cfg hv ix.indexg1
  refine ⟨ix, hix, ?_, ?_, ?_, ?_, ?_, ?_, ?_⟩
  · intro e; rw [e, l1] at l0; exact x01 l0.symm
  · intro e; rw [e, l3] at l2; exact x23 l2.symm
  · intro e; rw [e, k1, l1] at k0; rw [l0] at k0; exact x01 k0.symm
  · intro e; rw [e, l2] at k0; rw [l0] at k0; exact x02 k0.symm
  · intro e; rw [e, l3] at k0; rw [l0] at k0; exact x03 k0.symm
  · intro e; rw [e, l2] at k1; rw [l1] at k1; exact x12 k1.symm
  · intro e; rw [e, l3] at k1; rw [l1] at k1; exact x13 k1.symm

/-! ### What one call of `update_predictor` writes -/

/-- One call of `update_predictor` for build constants in the defined range: it returns;
`l` are the recomputed prediction bits and predictions, `c` the complete counters; the
entries at the four indices hold the two bits of the updated counters afterwards, every
other entry of the three tables is kept, and the history is shifted. -/
theorem update_predictor_written (cfg : GskewConfig) (hv : cfg.Valid) (s : GskewState)
    (PC : Nat) (taken : Bool) (rnd : Nat) :
    ∃ ix l c s', get_prediction_indices cfg s.ghist PC = some ix ∧
      update_predictor_recompute cfg s ix = some l ∧
      l = { pg0 := s.GOG1 ix.indexg0, pg1 := s.GOG1 ix.indexg1,
            pbim := s.BIMMETA ix.indexbim, pmeta := s.BIMMETA ix.indexmeta,
            PESKEW := toChar (s.BIMMETA ix.indexbim + s.GOG1 ix.indexg0 + s.GOG1 ix.indexg1),
            peskew := decide (s.BIMMETA ix.indexbim + s.GOG1 ix.indexg0
              + s.GOG1 ix.indexg1 > 1),
            psmall := decide (s.BIMMETA ix.indexbim > 0),
            prediction := if s.BIMMETA ix.indexmeta ≠ 0
              then decide (s.BIMMETA ix.indexbim + s.GOG1 ix.indexg0 + s.GOG1 ix.indexg1 > 1)
              else decide (s.BIMMETA ix.indexbim > 0) } ∧
      update_predictor_complete cfg s ix l = some c ∧
      c = { pg0 := toChar (2 * s.GOG1 ix.indexg0 + s.HYST (hystIndex cfg ix.indexg0)),
            pg1 := toChar (2 * s.GOG1 ix.indexg1 + s.HYST (hystIndex cfg ix.indexg1)),
            pbim := toChar (2 * s.BIMMETA ix.indexbim + s.HYST ix.indexbim),
            pmeta := toChar (2 * s.BIMMETA ix.indexmeta + s.HYST ix.indexmeta) } ∧
      update_predictor cfg s PC taken rnd = some s' ∧
      (s'.GOG1 ix.indexg0 = Int.land ((update_predictor_counters cfg l c taken rnd).pg0 >>> 1) 1 ∧
        s'.GOG1 ix.indexg1
          = Int.land ((update_predictor_counters cfg l c taken rnd).pg1 >>> 1) 1 ∧
        s'.BIMMETA ix.indexbim
          = Int.land ((update_predictor_counters cfg l c taken rnd).pbim >>> 1) 1 ∧
        s'.BIMMETA ix.indexmeta
          = Int.land ((update_predictor_counters cfg l c taken rnd).pmeta >>> 1) 1) ∧
      (s'.HYST (hystIndex cfg ix.indexg0)
          = Int.land (update_predictor_counters cfg l c taken rnd).pg0 1 ∧
        s'.HYST (hystIndex cfg ix.indexg1)
          = Int.land (update_predictor_counters cfg l c taken rnd).pg1 1 ∧
        s'.HYST ix.indexbim = Int.land (update_predictor_counters cfg l c taken rnd).pbim 1 ∧
        s'.HYST ix.indexmeta
          = Int.land (update_predictor_counters cfg l c taken rnd).pmeta 1) ∧
      (∀ j, j ≠ ix.indexg0 → j ≠ ix.indexg1 → s'.GOG1 j = s.GOG1 j) ∧
      (∀ j, j ≠ ix.indexbim → j ≠ ix.indexmeta → s'.BIMMETA j = s.BIMMETA j) ∧
      (∀ j, j ≠ hystIndex cfg ix.indexg0 → j ≠ hystIndex cfg ix.indexg1 →
        j ≠ ix.indexbim → j ≠ ix.indexmeta → s'.HYST j = s.HYST j) ∧
      s'.ghist = (2 * s.ghist + (if taken then 1 else 0)) % 2 ^ 64 ∧
      s'.LOGSIZE = cfg.LOGPRED - 4 := by
  obtain ⟨ix, hix, b0, b1, b2, b3⟩ := get_prediction_indices_spec cfg hv s.ghist PC
  obtain ⟨ix2, hix2, n01, n23, m01, m02, m03, m12, m13⟩ :=
    gskew_positions_distinct cfg hv s.ghist PC
  have eix : ix2 = ix := by
    rw [hix] at hix2
    exact (Option.some.inj hix2).symm
  subst eix
  obtain ⟨z0, z1, z2⟩ := gskew_sizes cfg hv
  have c0 : ix2.indexg0 < cfg.sizeGOG1 := by omega
  have c1 : ix2.indexg1 < cfg.sizeGOG1 := by omega
  have c2 : ix2.indexbim < cfg.sizeBIMMETA := by omega
  have c3 : ix2.indexmeta < cfg.sizeBIMMETA := by omega
  have d0 : hystIndex cfg ix2.indexg0 < cfg.sizeHYST := by
    have := hystIndex_lt cfg hv ix2.indexg0; omega
  have d1 : hystIndex cfg ix2.indexg1 < cfg.sizeHYST := by
    have := hystIndex_lt cfg hv ix2.indexg1; omega
  have d2 : ix2.indexbim < cfg.sizeHYST := by omega
  have d3 : ix2.indexmeta < cfg.sizeHYST := by omega
  obtain ⟨l, hl⟩ : ∃ l : GskewRecomputed, l =
      { pg0 := s.GOG1 ix2.indexg0, pg1 := s.GOG1 ix2.indexg1,
        pbim := s.BIMMETA ix2.indexbim, pmeta := s.BIMMETA ix2.indexmeta,
        PESKEW := toChar (s.BIMMETA ix2.indexbim + s.GOG1 ix2.indexg0 + s.GOG1 ix2.indexg1),
        peskew := decide (s.BIMMETA ix2.indexbim + s.GOG1 ix2.indexg0
          + s.GOG1 ix2.indexg1 > 1),
        psmall := decide (s.BIMMETA ix2.indexbim > 0),
        prediction := if s.BIMMETA ix2.indexmeta ≠ 0
          then decide (s.BIMMETA ix2.indexbim + s.GOG1 ix2.indexg0 + s.GOG1 ix2.indexg1 > 1)
          else decide (s.BIMMETA ix2.indexbim > 0) } := ⟨_, rfl⟩
  have hrec : update_predictor_recompute cfg s ix2 = some l := by
    rw [hl]
    simp only [update_predictor_recompute, readTable, c0, c1, c2, c3, if_true]
  obtain ⟨c, hc⟩ : ∃ c : GskewCounters, c =
      { pg0 := toChar (2 * l.pg0 + s.HYST (hystIndex cfg ix2.indexg0)),
        pg1 := toChar (2 * l.pg1 + s.HYST (hystIndex cfg ix2.indexg1)),
        pbim := toChar (2 * l.pbim + s.HYST ix2.indexbim),
        pmeta := toChar (2 * l.pmeta + s.HYST ix2.indexmeta) } := ⟨_, rfl⟩
  have hcomp : update_predictor_complete cfg s ix2 l = some c := by
    rw [hc]
    simp only [update_predictor_complete, readTable, d0, d1, d2, d3, if_true]
  have hupd : ∃ s', update_predictor cfg s PC taken rnd = some s' ∧
      s'.GOG1 = Function.update (Function.update s.GOG1 ix2.indexg0
          (Int.land ((update_predictor_counters cfg l c taken rnd).pg0 >>> 1) 1))
        ix2.indexg1 (Int.land ((update_predictor_counters cfg l c taken rnd).pg1 >>> 1) 1) ∧
      s'.BIMMETA = Function.update (Function.update s.BIMMETA ix2.indexbim
          (Int.land ((update_predictor_counters cfg l c taken rnd).pbim >>> 1) 1))
        ix2.indexmeta
          (Int.land ((update_predictor_counters cfg l c taken rnd).pmeta >>> 1) 1) ∧
      s'.HYST = Function.update (Function.update (Function.update (Function.update s.HYST
          (hystIndex cfg ix2.indexg0)
            (Int.land (update_predictor_counters cfg l c taken rnd).pg0 1))
          (hystIndex cfg ix2.indexg1)
            (Int.land (update_predictor_counters cfg l c taken rnd).pg1 1))
          ix2.indexbim (Int.land (update_predictor_counters cfg l c taken rnd).pbim 1))
          ix2.indexmeta (Int.land (update_predictor_counters cfg l c taken rnd).pmeta 1) ∧
      s'.ghist = (2 * s.ghist + (if taken then 1 else 0)) % 2 ^ 64 ∧
      s'.LOGSIZE = cfg.LOGPRED - 4 := by
    rw [hc]
    simp only [update_predictor, update_predictor_indices_eq, hix, hrec, readTable,
      writeTable, c0, c1, c2, c3, d0, d1, d2, d3, if_true]
    refine ⟨_, rfl, rfl, rfl, rfl, ?_, rfl⟩
    simp only [shl64, Nat.shiftLeft_eq]
    cases taken <;> simp <;> omega
  obtain ⟨s', hs', g, bm, hy, gh, ls⟩ := hupd
  refine ⟨ix2, l, c, s', hix, hrec, hl, hcomp, ?_, hs', ⟨?_, ?_, ?_, ?_⟩, ⟨?_, ?_, ?_, ?_⟩,
    ?_, ?_, ?_, gh, ls⟩
  · rw [hc, hl]
  · rw [g, Function.update_noteq n01, Function.update_same]
  · rw [g, Function.update_same]
  · rw [bm, Function.update_noteq n23, Function.update_same]
  · rw [bm, Function.update_same]
  · rw [hy, Function.update_noteq m03, Function.update_noteq m02,
      Function.update_noteq m01, Function.update_same]
  · rw [hy, Function.update_noteq m13, Function.update_noteq m12, Function.update_same]
  · rw [hy, Function.update_noteq n23, Function.update_same]
  · rw [hy, Function.update_same]
  · intro j h0 h1
    rw [g, Function.update_noteq h1, Function.update_noteq h0]
  · intro j h2 h3
    rw [bm, Function.update_noteq h3, Function.update_noteq h2]
  · intro j h0 h1 h2 h3
    rw [hy, Function.update_noteq h3, Function.update_noteq h2, Function.update_noteq h1,
      Function.update_noteq h0]

/-! #### Claim C37 -/

/-- C37: bank separation in 2bc-gskew.  For build constants in the defined range, every
PC and every state (so every global history), the low two bits of `indexg0`, `indexg1`,
`indexbim` and `indexmeta` are `NUMHYST`, `NUMHYST^1`, `NUMHYST^2` and `NUMHYST^3`, which
are pairwise distinct; therefore `indexg0 != indexg1`, `indexbim != indexmeta`, and the
four `HYST` positions of `update_predictor` (`indexg0` and `indexg1` reduced to
`LOGPRED-2` bits, `indexbim`, `indexmeta`) are pairwise distinct; so after the call every
one of the eight entries holds the bit that was written for its own counter. -/
theorem C37_bank_separation (cfg : GskewConfig) (hv : cfg.Valid) (s : GskewState)
    (PC : Nat) (taken : Bool) (rnd : Nat) :
    ∃ ix l c s', get_prediction_indices cfg s.ghist PC = some ix ∧
      update_predictor_indices cfg s.ghist PC = some ix ∧
      (ix.NUMHYST ≤ 3 ∧ ix.indexg0 % 4 = ix.NUMHYST ∧ ix.indexg1 % 4 = ix.NUMHYST ^^^ 1 ∧
        ix.indexbim % 4 = ix.NUMHYST ^^^ 2 ∧ ix.indexmeta % 4 = ix.NUMHYST ^^^ 3) ∧
      (ix.NUMHYST ≠ ix.NUMHYST ^^^ 1 ∧ ix.NUMHYST ≠ ix.NUMHYST ^^^ 2 ∧
        ix.NUMHYST ≠ ix.NUMHYST ^^^ 3 ∧ ix.NUMHYST ^^^ 1 ≠ ix.NUMHYST ^^^ 2 ∧
        ix.NUMHYST ^^^ 1 ≠ ix.NUMHYST ^^^ 3 ∧ ix.NUMHYST ^^^ 2 ≠ ix.NUMHYST ^^^ 3) ∧
      (ix.indexg0 ≠ ix.indexg1 ∧ ix.indexbim ≠ ix.indexmeta) ∧
      (hystIndex cfg ix.indexg0 ≠ hystIndex cfg ix.indexg1 ∧
        hystIndex cfg ix.indexg0 ≠ ix.indexbim ∧ hystIndex cfg ix.indexg0 ≠ ix.indexmeta ∧
        hystIndex cfg ix.indexg1 ≠ ix.indexbim ∧ hystIndex cfg ix.indexg1 ≠ ix.indexmeta ∧
        ix.indexbim ≠ ix.indexmeta) ∧
      update_predictor_recompute cfg s ix = some l ∧
      update_predictor_complete cfg s ix l = some c ∧
      update_predictor cfg s PC taken rnd = some s' ∧
      (s'.GOG1 ix.indexg0 = Int.land ((update_predictor_counters cfg l c taken rnd).pg0 >>> 1) 1 ∧
        s'.GOG1 ix.indexg1
          = Int.land ((update_predictor_counters cfg l c taken rnd).pg1 >>> 1) 1 ∧
        s'.BIMMETA ix.indexbim
          = Int.land ((update_predictor_counters cfg l c taken rnd).pbim >>> 1) 1 ∧
        s'.BIMMETA ix.indexmeta
          = Int.land ((update_predictor_counters cfg l c taken rnd).pmeta >>> 1) 1) ∧
      (s'.HYST (hystIndex cfg ix.indexg0)
          = Int.land (update_predictor_counters cfg l c taken rnd).pg0 1 ∧
        s'.HYST (hystIndex cfg ix.indexg1)
          = Int.land (update_predictor_counters cfg l c taken rnd).pg1 1 ∧
        s'.HYST ix.indexbim = Int.land (update_predictor_counters cfg l c taken rnd).pbim 1 ∧
        s'.HYST ix.indexmeta
          = Int.land (update_predictor_counters cfg l c taken rnd).pmeta 1) := by
  obtain ⟨ix, l, c, s', hix, hrec, _, hcomp, _, hs', hw1, hw2, _⟩ :=
    update_predictor_written cfg hv s PC taken rnd
  obtain ⟨ix2, hix2, hn, l0, l1, l2, l3⟩ := get_prediction_indices_low cfg hv s.ghist PC
  obtain ⟨ix3, hix3, n01, n23, m01, m02, m03, m12, m13⟩ :=
    gskew_positions_distinct cfg hv s.ghist PC
  have e2 : ix2 = ix := by rw [hix] at hix2; exact (Option.some.inj hix2).symm
  have e3 : ix3 = ix := by rw [hix] at hix3; exact (Option.some.inj hix3).symm
  subst e2
  subst e3
  exact ⟨ix3, l, c, s', hix, hix, ⟨hn, l0, l1, l2, l3⟩, xor_banks_distinct _ hn, ⟨n01, n23⟩,
    ⟨m01, m02, m03, m12, m13, n23⟩, hrec, hcomp, hs', hw1, hw2⟩

/-- C37, witness: the reference constants, the zero initialised tables, `PC = 1`. -/
theorem C37_bank_separation_witness :
    ∃ ix l c s', get_prediction_indices sampleGskew GskewState.zero.ghist 1 = some ix ∧
      update_predictor_indices sampleGskew GskewState.zero.ghist 1 = some ix ∧
      (ix.NUMHYST ≤ 3 ∧ ix.indexg0 % 4 = ix.NUMHYST ∧ ix.indexg1 % 4 = ix.NUMHYST ^^^ 1 ∧
        ix.indexbim % 4 = ix.NUMHYST ^^^ 2 ∧ ix.indexmeta % 4 = ix.NUMHYST ^^^ 3) ∧
      (ix.NUMHYST ≠ ix.NUMHYST ^^^ 1 ∧ ix.NUMHYST ≠ ix.NUMHYST ^^^ 2 ∧
        ix.NUMHYST ≠ ix.NUMHYST ^^^ 3 ∧ ix.NUMHYST ^^^ 1 ≠ ix.NUMHYST ^^^ 2 ∧
        ix.NUMHYST ^^^ 1 ≠ ix.NUMHYST ^^^ 3 ∧ ix.NUMHYST ^^^ 2 ≠ ix.NUMHYST ^^^ 3) ∧
      (ix.indexg0 ≠ ix.indexg1 ∧ ix.indexbim ≠ ix.indexmeta) ∧
      (hystIndex sampleGskew ix.indexg0 ≠ hystIndex sampleGskew ix.indexg1 ∧
        hystIndex sampleGskew ix.indexg0 ≠ ix.indexbim ∧
        hystIndex sampleGskew ix.indexg0 ≠ ix.indexmeta ∧
        hystIndex sampleGskew ix.indexg1 ≠ ix.indexbim ∧
        hystIndex sampleGskew ix.indexg1 ≠ ix.indexmeta ∧
        ix.indexbim ≠ ix.indexmeta) ∧
      update_predictor_recompute sampleGskew GskewState.zero ix = some l ∧
      update_predictor_complete sampleGskew GskewState.zero ix l = some c ∧
      update_predictor sampleGskew GskewState.zero 1 true 1 = some s' ∧
      (s'.GOG1 ix.indexg0
          = Int.land ((update_predictor_counters sampleGskew l c true 1).pg0 >>> 1) 1 ∧
        s'.GOG1 ix.indexg1
          = Int.land ((update_predictor_counters sampleGskew l c true 1).pg1 >>> 1) 1 ∧
        s'.BIMMETA ix.indexbim
          = Int.land ((update_predictor_counters sampleGskew l c true 1).pbim >>> 1) 1 ∧
        s'.BIMMETA ix.indexmeta
          = Int.land ((update_predictor_counters sampleGskew l c true 1).pmeta >>> 1) 1) ∧
      (s'.HYST (hystIndex sampleGskew ix.indexg0)
          = Int.land (update_predictor_counters sampleGskew l c true 1).pg0 1 ∧
        s'.HYST (hystIndex sampleGskew ix.indexg1)
          = Int.land (update_predictor_counters sampleGskew l c true 1).pg1 1 ∧
        s'.HYST ix.indexbim = Int.land (update_predictor_counters sampleGskew l c true 1).pbim 1 ∧
        s'.HYST ix.indexmeta
          = Int.land (update_predictor_counters sampleGskew l c true 1).pmeta 1) :=
  C37_bank_separation sampleGskew (by unfold GskewConfig.Valid; decide) GskewState.zero 1 true 1


/-! ### The counters of 2bc-gskew on tables of bits -/

/-- The branch taken in `update_predictor` depends on the random draw only through the
test `(random() & NR) == 0`. -/
theorem counters_normalize (cfg : GskewConfig) (l : GskewRecomputed) (c : GskewCounters)
    (taken : Bool) (rnd : Nat) :
    update_predictor_counters cfg l c taken rnd
      = update_predictor_counters sampleGskew l c taken
          (if decide (rnd &&& cfg.NR = 0) then 0 else 1) := by
  by_cases h : rnd &&& cfg.NR = 0
  · simp only [update_predictor_counters, h, decide_True, if_true]
    rfl
  · simp only [update_predictor_counters, h, decide_False, if_false]
    rfl

theorem bit_of_binary (v : Int) (h : v = 0 ∨ v = 1) : ∃ b : Bool, v = (b.toNat : Int) := by
  rcases h with h | h
  · exact ⟨false, by rw [h]; rfl⟩
  · exact ⟨true, by rw [h]; rfl⟩

/-- One call of `update_predictor` on tables of bits: the eight bits read are given as
Booleans, `l` and `c` are the recomputed predictions and the complete counters, `c'` the
counters at the write back. -/
theorem update_predictor_binary (cfg : GskewConfig) (hv : cfg.Valid) (s : GskewState)
    (hb : s.Binary) (PC : Nat) (taken : Bool) (rnd : Nat) :
    ∃ (ix : GskewIndices) (l : GskewRecomputed) (c c' : GskewCounters) (s' : GskewState)
      (ag0 ag1 abim ameta hg0 hg1 hbim hmeta : Bool),
      get_prediction_indices cfg s.ghist PC = some ix ∧
      update_predictor_recompute cfg s ix = some l ∧
      update_predictor_complete cfg s ix l = some c ∧
      update_predictor cfg s PC taken rnd = some s' ∧
      (s.GOG1 ix.indexg0 = (ag0.toNat : Int) ∧ s.GOG1 ix.indexg1 = (ag1.toNat : Int) ∧
        s.BIMMETA ix.indexbim = (abim.toNat : Int) ∧
        s.BIMMETA ix.indexmeta = (ameta.toNat : Int) ∧
        s.HYST (hystIndex cfg ix.indexg0) = (hg0.toNat : Int) ∧
        s.HYST (hystIndex cfg ix.indexg1) = (hg1.toNat : Int) ∧
        s.HYST ix.indexbim = (hbim.toNat : Int) ∧ s.HYST ix.indexmeta = (hmeta.toNat : Int)) ∧
      l = GskewRecomputed.ofBits ag0.toNat ag1.toNat abim.toNat ameta.toNat ∧
      c = GskewCounters.ofBits l hg0.toNat hg1.toNat hbim.toNat hmeta.toNat ∧
      c' = update_predictor_counters cfg l c taken rnd ∧
      c' = update_predictor_counters sampleGskew l c taken
        (if decide (rnd &&& cfg.NR = 0) then 0 else 1) ∧
      (s'.GOG1 ix.indexg0 = Int.land (c'.pg0 >>> 1) 1 ∧
        s'.GOG1 ix.indexg1 = Int.land (c'.pg1 >>> 1) 1 ∧
        s'.BIMMETA ix.indexbim = Int.land (c'.pbim >>> 1) 1 ∧
        s'.BIMMETA ix.indexmeta = Int.land (c'.pmeta >>> 1) 1) ∧
      (s'.HYST (hystIndex cfg ix.indexg0) = Int.land c'.pg0 1 ∧
        s'.HYST (hystIndex cfg ix.indexg1) = Int.land c'.pg1 1 ∧
        s'.HYST ix.indexbim = Int.land c'.pbim 1 ∧
        s'.HYST ix.indexmeta = Int.land c'.pmeta 1) ∧
      (∀ j, j ≠ ix.indexg0 → j ≠ ix.indexg1 → s'.GOG1 j = s.GOG1 j) ∧
      (∀ j, j ≠ ix.indexbim → j ≠ ix.indexmeta → s'.BIMMETA j = s.BIMMETA j) ∧
      (∀ j, j ≠ hystIndex cfg ix.indexg0 → j ≠ hystIndex cfg ix.indexg1 →
        j ≠ ix.indexbim → j ≠ ix.indexmeta → s'.HYST j = s.HYST j) ∧
      s'.ghist = (2 * s.ghist + (if taken then 1 else 0)) % 2 ^ 64 ∧
      s'.LOGSIZE = cfg.LOGPRED - 4 := by
  obtain ⟨ix, l, c, s', hix, hrec, hl, hcomp, hc, hs', hw1, hw2, f1, f2, f3, gh, ls⟩ :=
    update_predictor_written cfg hv s PC taken rnd
  obtain ⟨ag0, e0⟩ := bit_of_binary _ (hb ix.indexg0).1
  obtain ⟨ag1, e1⟩ := bit_of_binary _ (hb ix.indexg1).1
  obtain ⟨abim, e2⟩ := bit_of_binary _ (hb ix.indexbim).2.1
  obtain ⟨ameta, e3⟩ := bit_of_binary _ (hb ix.indexmeta).2.1
  obtain ⟨hg0, k0⟩ := bit_of_binary _ (hb (hystIndex cfg ix.indexg0)).2.2
  obtain ⟨hg1, k1⟩ := bit_of_binary _ (hb (hystIndex cfg ix.indexg1)).2.2
  obtain ⟨hbim, k2⟩ := bit_of_binary _ (hb ix.indexbim).2.2
  obtain ⟨hmeta, k3⟩ := bit_of_binary _ (hb ix.indexmeta).2.2
  have hl' : l = GskewRecomputed.ofBits ag0.toNat ag1.toNat abim.toNat ameta.toNat := by
    rw [hl, e0, e1, e2, e3]
    rfl
  have hc' : c = GskewCounters.ofBits l hg0.toNat hg1.toNat hbim.toNat hmeta.toNat := by
    rw [hc, hl', k0, k1, k2, k3, e0, e1, e2, e3]
    rfl
  exact ⟨ix, l, c, _, s', ag0, ag1, abim, ameta, hg0, hg1, hbim, hmeta, hix, hrec, hcomp, hs',
    ⟨e0, e1, e2, e3, k0, k1, k2, k3⟩, hl', hc', rfl, counters_normalize cfg l c taken rnd,
    hw1, hw2, f1, f2, f3, gh, ls⟩

/-- The two bits of a complete counter are the prediction bit and the hysteresis bit it
was made of. -/
theorem complete_counter_bits : ∀ a h : Bool,
    Int.land (toChar (2 * (a.toNat : Int) + (h.toNat : Int)) >>> 1) 1 = (a.toNat : Int) ∧
    Int.land (toChar (2 * (a.toNat : Int) + (h.toNat : Int))) 1 = (h.toNat : Int) := by
  decide

theorem counter_bits_binary (x : Int) (h0 : 0 ≤ x) (h3 : x ≤ 3) :
    (Int.land (x >>> 1) 1 = 0 ∨ Int.land (x >>> 1) 1 = 1) ∧
    (Int.land x 1 = 0 ∨ Int.land x 1 = 1) := by
  interval_cases x <;> decide

/-- On tables of bits the complete counters and the counters at the write back are in
`[0, 3]`. -/
theorem gskew_counters_range :
    ∀ (ag0 ag1 abim ameta hg0 hg1 hbim hmeta taken fires : Bool) (c' : GskewCounters),
      c' = update_predictor_counters sampleGskew
        (GskewRecomputed.ofBits ag0.toNat ag1.toNat abim.toNat ameta.toNat)
        (GskewCounters.ofBits
          (GskewRecomputed.ofBits ag0.toNat ag1.toNat abim.toNat ameta.toNat)
          hg0.toNat hg1.toNat hbim.toNat hmeta.toNat)
        taken (if fires then 0 else 1) →
      (GskewCounters.ofBits
          (GskewRecomputed.ofBits ag0.toNat ag1.toNat abim.toNat ameta.toNat)
          hg0.toNat hg1.toNat hbim.toNat hmeta.toNat).inRange = true ∧
      c'.inRange = true := by
  intro ag0 ag1 abim ameta hg0 hg1 hbim hmeta taken fires c' hc'
  subst hc'
  revert ag0 ag1 abim ameta hg0 hg1 hbim hmeta taken fires
  decide

/-- On tables of bits, when the three prediction bits equal the outcome, the counters
are not changed. -/
theorem gskew_counters_agree :
    ∀ (ag0 ag1 abim ameta hg0 hg1 hbim hmeta taken fires : Bool) (c' : GskewCounters),
      c' = update_predictor_counters sampleGskew
        (GskewRecomputed.ofBits ag0.toNat ag1.toNat abim.toNat ameta.toNat)
        (GskewCounters.ofBits
          (GskewRecomputed.ofBits ag0.toNat ag1.toNat abim.toNat ameta.toNat)
          hg0.toNat hg1.toNat hbim.toNat hmeta.toNat)
        taken (if fires then 0 else 1) →
      abim = taken → ag0 = taken → ag1 = taken →
      c' = GskewCounters.ofBits
          (GskewRecomputed.ofBits ag0.toNat ag1.toNat abim.toNat ameta.toNat)
          hg0.toNat hg1.toNat hbim.toNat hmeta.toNat ∧
      (GskewRecomputed.ofBits ag0.toNat ag1.toNat abim.toNat ameta.toNat).prediction = taken ∧
      (GskewRecomputed.ofBits ag0.toNat ag1.toNat abim.toNat ameta.toNat).PESKEW
        = 3 * (taken.toNat : Int) := by
  intro ag0 ag1 abim ameta hg0 hg1 hbim hmeta taken fires c' hc'
  subst hc'
  revert ag0 ag1 abim ameta hg0 hg1 hbim hmeta taken fires
  decide

/-- On tables of bits, in the normal path, the gate of the G0 and G1 updates has the same
value for the META counter before and after its update, and a closed gate keeps G0 and
G1. -/
theorem gskew_counters_gate :
    ∀ (ag0 ag1 abim ameta hg0 hg1 hbim hmeta taken fires : Bool) (c' : GskewCounters),
      c' = update_predictor_counters sampleGskew
        (GskewRecomputed.ofBits ag0.toNat ag1.toNat abim.toNat ameta.toNat)
        (GskewCounters.ofBits
          (GskewRecomputed.ofBits ag0.toNat ag1.toNat abim.toNat ameta.toNat)
          hg0.toNat hg1.toNat hbim.toNat hmeta.toNat)
        taken (if fires then 0 else 1) →
      ¬ ((GskewRecomputed.ofBits ag0.toNat ag1.toNat abim.toNat ameta.toNat).prediction ≠ taken
          ∧ fires = true) →
      ((c'.pmeta > 1 ∨
          (GskewRecomputed.ofBits ag0.toNat ag1.toNat abim.toNat ameta.toNat).prediction
            ≠ taken) ↔
        ((GskewCounters.ofBits
            (GskewRecomputed.ofBits ag0.toNat ag1.toNat abim.toNat ameta.toNat)
            hg0.toNat hg1.toNat hbim.toNat hmeta.toNat).pmeta > 1 ∨
          (GskewRecomputed.ofBits ag0.toNat ag1.toNat abim.toNat ameta.toNat).prediction
            ≠ taken)) ∧
      (¬ ((GskewCounters.ofBits
            (GskewRecomputed.ofBits ag0.toNat ag1.toNat abim.toNat ameta.toNat)
            hg0.toNat hg1.toNat hbim.toNat hmeta.toNat).pmeta > 1 ∨
          (GskewRecomputed.ofBits ag0.toNat ag1.toNat abim.toNat ameta.toNat).prediction
            ≠ taken) →
        c'.pg0 = (GskewCounters.ofBits
            (GskewRecomputed.ofBits ag0.toNat ag1.toNat abim.toNat ameta.toNat)
            hg0.toNat hg1.toNat hbim.toNat hmeta.toNat).pg0 ∧
        c'.pg1 = (GskewCounters.ofBits
            (GskewRecomputed.ofBits ag0.toNat ag1.toNat abim.toNat ameta.toNat)
            hg0.toNat hg1.toNat hbim.toNat hmeta.toNat).pg1) := by
  intro ag0 ag1 abim ameta hg0 hg1 hbim hmeta taken fires c' hc'
  subst hc'
  revert ag0 ag1 abim ameta hg0 hg1 hbim hmeta taken fires
  decide

/-- On tables of bits, in the normal path on a misprediction, a counter whose prediction
bit disagrees with the outcome moves one step towards it, and one whose bit agrees is
saturated: the BIM counter. -/
theorem gskew_counters_step_pbim :
    ∀ (ag0 ag1 abim ameta hg0 hg1 hbim hmeta taken : Bool) (l : GskewRecomputed)
      (c c' : GskewCounters),
      l = GskewRecomputed.ofBits ag0.toNat ag1.toNat abim.toNat ameta.toNat →
      c = GskewCounters.ofBits
          (GskewRecomputed.ofBits ag0.toNat ag1.toNat abim.toNat ameta.toNat)
          hg0.toNat hg1.toNat hbim.toNat hmeta.toNat →
      c' = update_predictor_counters sampleGskew
        (GskewRecomputed.ofBits ag0.toNat ag1.toNat abim.toNat ameta.toNat)
        (GskewCounters.ofBits
          (GskewRecomputed.ofBits ag0.toNat ag1.toNat abim.toNat ameta.toNat)
          hg0.toNat hg1.toNat hbim.toNat hmeta.toNat)
        taken 1 →
      l.prediction ≠ taken →
      (l.pbim ≠ (taken.toNat : Int) →
        c'.pbim = c.pbim + (if taken then 1 else -1) ∧
        (taken = true → c.pbim = 0 ∨ c.pbim = 1) ∧
        (taken = false → c.pbim = 3 ∨ c.pbim = 2)) ∧
      (l.pbim = (taken.toNat : Int) → c'.pbim = 3 * (taken.toNat : Int)) := by
  intro ag0 ag1 abim ameta hg0 hg1 hbim hmeta taken l c c' hl hc hc'
  subst hl
  subst hc
  subst hc'
  revert ag0 ag1 abim ameta hg0 hg1 hbim hmeta taken
  decide

/-- The same for the G0 counter. -/
theorem gskew_counters_step_pg0 :
    ∀ (ag0 ag1 abim ameta hg0 hg1 hbim hmeta taken : Bool) (l : GskewRecomputed)
      (c c' : GskewCounters),
      l = GskewRecomputed.ofBits ag0.toNat ag1.toNat abim.toNat ameta.toNat →
      c = GskewCounters.ofBits
          (GskewRecomputed.ofBits ag0.toNat ag1.toNat abim.toNat ameta.toNat)
          hg0.toNat hg1.toNat hbim.toNat hmeta.toNat →
      c' = update_predictor_counters sampleGskew
        (GskewRecomputed.ofBits ag0.toNat ag1.toNat abim.toNat ameta.toNat)
        (GskewCounters.ofBits
          (GskewRecomputed.ofBits ag0.toNat ag1.toNat abim.toNat ameta.toNat)
          hg0.toNat hg1.toNat hbim.toNat hmeta.toNat)
        taken 1 →
      l.prediction ≠ taken →
      (l.pg0 ≠ (taken.toNat : Int) →
        c'.pg0 = c.pg0 + (if taken then 1 else -1) ∧
        (taken = true → c.pg0 = 0 ∨ c.pg0 = 1) ∧
        (taken = false → c.pg0 = 3 ∨ c.pg0 = 2)) ∧
      (l.pg0 = (taken.toNat : Int) → c'.pg0 = 3 * (taken.toNat : Int)) := by
  intro ag0 ag1 abim ameta hg0 hg1 hbim hmeta taken l c c' hl hc hc'
  subst hl
  subst hc
  subst hc'
  revert ag0 ag1 abim ameta hg0 hg1 hbim hmeta taken
  decide

/-- The same for the G1 counter. -/
theorem gskew_counters_step_pg1 :
    ∀ (ag0 ag1 abim ameta hg0 hg1 hbim hmeta taken : Bool) (l : GskewRecomputed)
      (c c' : GskewCounters),
      l = GskewRecomputed.ofBits ag0.toNat ag1.toNat abim.toNat ameta.toNat →
      c = GskewCounters.ofBits
          (GskewRecomputed.ofBits ag0.toNat ag1.toNat abim.toNat ameta.toNat)
          hg0.toNat hg1.toNat hbim.toNat hmeta.toNat →
      c' = update_predictor_counters sampleGskew
        (GskewRecomputed.ofBits ag0.toNat ag1.toNat abim.toNat ameta.toNat)
        (GskewCounters.ofBits
          (GskewRecomputed.ofBits ag0.toNat ag1.toNat abim.toNat ameta.toNat)
          hg0.toNat hg1.toNat hbim.toNat hmeta.toNat)
        taken 1 →
      l.prediction ≠ taken →
      (l.pg1 ≠ (taken.toNat : Int) →
        c'.pg1 = c.pg1 + (if taken then 1 else -1) ∧
        (taken = true → c.pg1 = 0 ∨ c.pg1 = 1) ∧
        (taken = false → c.pg1 = 3 ∨ c.pg1 = 2)) ∧
      (l.pg1 = (taken.toNat : Int) → c'.pg1 = 3 * (taken.toNat : Int)) := by
  intro ag0 ag1 abim ameta hg0 hg1 hbim hmeta taken l c c' hl hc hc'
  subst hl
  subst hc
  subst hc'
  revert ag0 ag1 abim ameta hg0 hg1 hbim hmeta taken
  decide


theorem toNat_cast_eq (b : Bool) : ((b.toNat : Nat) : Int) = if b then 1 else 0 := by
  cases b <;> rfl

theorem toNat_cast_inj (a b : Bool) (h : ((a.toNat : Nat) : Int) = (b.toNat : Int)) : a = b := by
  cases a <;> cases b <;> first | rfl | (exfalso; revert h; decide)

/-! #### Claim C32 -/

/-- C32: no update when all votes agree with the outcome.  For build constants in the
defined range, every state whose table entries are all 0 or 1, every PC and every random
draw: if the three prediction bits `pbim`, `pg0` and `pg1` all equal the outcome
(`PESKEW = 3 * outcome`), `update_predictor` returns and leaves `GOG1`, `BIMMETA` and `HYST`
entirely unchanged; it changes the global history (and sets the scratch variable `LOGSIZE`
of the index functions to `LOGPRED - 4`, as every call does). -/
theorem C32_no_update_when_votes_agree (cfg : GskewConfig) (hv : cfg.Valid) (s : GskewState)
    (hb : s.Binary) (PC : Nat) (taken : Bool) (rnd : Nat) :
    ∃ ix l, get_prediction_indices cfg s.ghist PC = some ix ∧
      update_predictor_recompute cfg s ix = some l ∧
      (l.pbim = (if taken then 1 else 0) → l.pg0 = (if taken then 1 else 0) →
        l.pg1 = (if taken then 1 else 0) →
        l.PESKEW = 3 * (if taken then 1 else 0) ∧
        ∃ s', update_predictor cfg s PC taken rnd = some s' ∧
          s'.GOG1 = s.GOG1 ∧ s'.BIMMETA = s.BIMMETA ∧ s'.HYST = s.HYST ∧
          s'.ghist = (2 * s.ghist + (if taken then 1 else 0)) % 2 ^ 64 ∧
          s'.LOGSIZE = cfg.LOGPRED - 4) := by
  obtain ⟨ix, l, c, c', s', ag0, ag1, abim, ameta, hg0, hg1, hbim, hmeta, hix, hrec, hcomp, hs',
    ⟨e0, e1, e2, e3, k0, k1, k2, k3⟩, hl, hc, hc1, hc2, hw1, hw2, f1, f2, f3, gh, ls⟩ :=
    update_predictor_binary cfg hv s hb PC taken rnd
  refine ⟨ix, l, hix, hrec, ?_⟩
  intro a2 a0 a1
  subst hl
  rw [← toNat_cast_eq] at a0 a1 a2
  have q2 : abim = taken := toNat_cast_inj _ _ a2
  have q0 : ag0 = taken := toNat_cast_inj _ _ a0
  have q1 : ag1 = taken := toNat_cast_inj _ _ a1
  obtain ⟨hsame, _, hpes⟩ := gskew_counters_agree ag0 ag1 abim ameta hg0 hg1 hbim hmeta taken
    (decide (rnd &&& cfg.NR = 0)) c' (by rw [hc2, hc]) q2 q0 q1
  rw [← hc] at hsame
  refine ⟨by rw [hpes, toNat_cast_eq], s', hs', ?_, ?_, ?_, gh, ls⟩
  · funext j
    by_cases h1 : j = ix.indexg1
    · rw [h1, hw1.2.1, hsame, hc, e1]
      exact (complete_counter_bits ag1 hg1).1
    · by_cases h0 : j = ix.indexg0
      · rw [h0, hw1.1, hsame, hc, e0]
        exact (complete_counter_bits ag0 hg0).1
      · exact f1 j h0 h1
  · funext j
    by_cases h3 : j = ix.indexmeta
    · rw [h3, hw1.2.2.2, hsame, hc, e3]
      exact (complete_counter_bits ameta hmeta).1
    · by_cases h2 : j = ix.indexbim
      · rw [h2, hw1.2.2.1, hsame, hc, e2]
        exact (complete_counter_bits abim hbim).1
      · exact f2 j h2 h3
  · funext j
    by_cases h3 : j = ix.indexmeta
    · rw [h3, hw2.2.2.2, hsame, hc, k3]
      exact (complete_counter_bits ameta hmeta).2
    · by_cases h2 : j = ix.indexbim
      · rw [h2, hw2.2.2.1, hsame, hc, k2]
        exact (complete_counter_bits abim hbim).2
      · by_cases h1 : j = hystIndex cfg ix.indexg1
        · rw [h1, hw2.2.1, hsame, hc, k1]
          exact (complete_counter_bits ag1 hg1).2
        · by_cases h0 : j = hystIndex cfg ix.indexg0
          · rw [h0, hw2.1, hsame, hc, k0]
            exact (complete_counter_bits ag0 hg0).2
          · exact f3 j h0 h1 h2 h3

/-- C32, witness: the reference constants, the zero initialised tables, `PC = 1` and a
branch that is not taken: all prediction bits are 0, as the outcome. -/
theorem C32_no_update_when_votes_agree_witness :
    ∃ ix l, get_prediction_indices sampleGskew GskewState.zero.ghist 1 = some ix ∧
      update_predictor_recompute sampleGskew GskewState.zero ix = some l ∧
      (l.pbim = (if false then 1 else 0) → l.pg0 = (if false then 1 else 0) →
        l.pg1 = (if false then 1 else 0) →
        l.PESKEW = 3 * (if false then 1 else 0) ∧
        ∃ s', update_predictor sampleGskew GskewState.zero 1 false 0 = some s' ∧
          s'.GOG1 = GskewState.zero.GOG1 ∧ s'.BIMMETA = GskewState.zero.BIMMETA ∧
          s'.HYST = GskewState.zero.HYST ∧
          s'.ghist = (2 * GskewState.zero.ghist + (if false then 1 else 0)) % 2 ^ 64 ∧
          s'.LOGSIZE = sampleGskew.LOGPRED - 4) :=
  C32_no_update_when_votes_agree sampleGskew (by unfold GskewConfig.Valid; decide)
    GskewState.zero (fun _ => ⟨Or.inl rfl, Or.inl rfl, Or.inl rfl⟩) 1 false 0

/-! #### Claim C33 -/

/-- C33: the gate of G0 and G1.  For build constants in the defined range and a state
whose table entries are all 0 or 1 (every state the predictor reaches), in the normal path
of `update_predictor` (the ping-pong breaker is not entered) the gate
`(pmeta > 1) | (prediction != taken)` has the same truth value for the META counter as
reassembled at the start of the call and for the META counter after its own update; and
when the gate is closed (a correct prediction with `META <= 1`) the G0 and G1 counters are
not modified: `GOG1` is left as it is, and so are the `HYST` bits of G0 and G1. -/
theorem C33_gate_of_G0_G1 (cfg : GskewConfig) (hv : cfg.Valid) (s : GskewState)
    (hb : s.Binary) (PC : Nat) (taken : Bool) (rnd : Nat) :
    ∃ ix l c s', get_prediction_indices cfg s.ghist PC = some ix ∧
      update_predictor_recompute cfg s ix = some l ∧
      update_predictor_complete cfg s ix l = some c ∧
      update_predictor cfg s PC taken rnd = some s' ∧
      (¬ (l.prediction ≠ taken ∧ rnd &&& cfg.NR = 0) →
        (((update_predictor_counters cfg l c taken rnd).pmeta > 1 ∨ l.prediction ≠ taken) ↔
          (c.pmeta > 1 ∨ l.prediction ≠ taken)) ∧
        (¬ (c.pmeta > 1 ∨ l.prediction ≠ taken) →
          (update_predictor_counters cfg l c taken rnd).pg0 = c.pg0 ∧
          (update_predictor_counters cfg l c taken rnd).pg1 = c.pg1 ∧
          s'.GOG1 = s.GOG1 ∧
          s'.HYST (hystIndex cfg ix.indexg0) = s.HYST (hystIndex cfg ix.indexg0) ∧
          s'.HYST (hystIndex cfg ix.indexg1) = s.HYST (hystIndex cfg ix.indexg1))) := by
  obtain ⟨ix, l, c, c', s', ag0, ag1, abim, ameta, hg0, hg1, hbim, hmeta, hix, hrec, hcomp, hs',
    ⟨e0, e1, e2, e3, k0, k1, k2, k3⟩, hl, hc, hc1, hc2, hw1, hw2, f1, f2, f3, gh, ls⟩ :=
    update_predictor_binary cfg hv s hb PC taken rnd
  refine ⟨ix, l, c, s', hix, hrec, hcomp, hs', ?_⟩
  intro hnormal
  subst hl
  have hn : ¬ ((GskewRecomputed.ofBits ag0.toNat ag1.toNat abim.toNat ameta.toNat).prediction
      ≠ taken ∧ decide (rnd &&& cfg.NR = 0) = true) := by
    rw [decide_eq_true_eq]
    exact hnormal
  obtain ⟨hgate, hclosed⟩ := gskew_counters_gate ag0 ag1 abim ameta hg0 hg1 hbim hmeta taken
    (decide (rnd &&& cfg.NR = 0)) c' (by rw [hc2, hc]) hn
  rw [← hc] at hgate hclosed
  rw [← hc1]
  refine ⟨hgate, ?_⟩
  intro hg
  obtain ⟨p0, p1⟩ := hclosed hg
  refine ⟨p0, p1, ?_, ?_, ?_⟩
  · funext j
    by_cases h1 : j = ix.indexg1
    · rw [h1, hw1.2.1, p1, hc, e1]
      exact (complete_counter_bits ag1 hg1).1
    · by_cases h0 : j = ix.indexg0
      · rw [h0, hw1.1, p0, hc, e0]
        exact (complete_counter_bits ag0 hg0).1
      · exact f1 j h0 h1
  · rw [hw2.1, p0, hc, k0]
    exact (complete_counter_bits ag0 hg0).2
  · rw [hw2.2.1, p1, hc, k1]
    exact (complete_counter_bits ag1 hg1).2

/-- C33, witness: the reference constants, the zero initialised tables, `PC = 1`, a branch
that is not taken (predicted so, with `META = 0`) and a random draw that does not fire. -/
theorem C33_gate_of_G0_G1_witness :
    ∃ ix l c s', get_prediction_indices sampleGskew GskewState.zero.ghist 1 = some ix ∧
      update_predictor_recompute sampleGskew GskewState.zero ix = some l ∧
      update_predictor_complete sampleGskew GskewState.zero ix l = some c ∧
      update_predictor sampleGskew GskewState.zero 1 false 1 = some s' ∧
      (¬ (l.prediction ≠ false ∧ 1 &&& sampleGskew.NR = 0) →
        (((update_predictor_counters sampleGskew l c false 1).pmeta > 1 ∨ l.prediction ≠ false) ↔
          (c.pmeta > 1 ∨ l.prediction ≠ false)) ∧
        (¬ (c.pmeta > 1 ∨ l.prediction ≠ false) →
          (update_predictor_counters sampleGskew l c false 1).pg0 = c.pg0 ∧
          (update_predictor_counters sampleGskew l c false 1).pg1 = c.pg1 ∧
          s'.GOG1 = GskewState.zero.GOG1 ∧
          s'.HYST (hystIndex sampleGskew ix.indexg0)
            = GskewState.zero.HYST (hystIndex sampleGskew ix.indexg0) ∧
          s'.HYST (hystIndex sampleGskew ix.indexg1)
            = GskewState.zero.HYST (hystIndex sampleGskew ix.indexg1))) :=
  C33_gate_of_G0_G1 sampleGskew (by unfold GskewConfig.Valid; decide)
    GskewState.zero (fun _ => ⟨Or.inl rfl, Or.inl rfl, Or.inl rfl⟩) 1 false 1

/-! ### The state invariant of 2bc-gskew -/

theorem inRange_bounds (c : GskewCounters) (h : c.inRange = true) :
    (0 ≤ c.pg0 ∧ c.pg0 ≤ 3) ∧ (0 ≤ c.pg1 ∧ c.pg1 ≤ 3) ∧ (0 ≤ c.pbim ∧ c.pbim ≤ 3) ∧
      (0 ≤ c.pmeta ∧ c.pmeta ≤ 3) := by
  simp only [GskewCounters.inRange, Bool.and_eq_true, decide_eq_true_eq] at h
  obtain ⟨⟨⟨⟨⟨⟨⟨a, b⟩, c1⟩, d⟩, e⟩, f⟩, g⟩, i⟩ := h
  exact ⟨⟨a, b⟩, ⟨c1, d⟩, ⟨e, f⟩, ⟨g, i⟩⟩

/-- One call of `update_predictor` on tables of bits: the complete counters and the
counters at the write back are in `[0, 3]`, and the tables are tables of bits again. -/
theorem update_predictor_keeps_binary (cfg : GskewConfig) (hv : cfg.Valid) (s : GskewState)
    (hb : s.Binary) (PC : Nat) (taken : Bool) (rnd : Nat) :
    ∃ ix l c s', get_prediction_indices cfg s.ghist PC = some ix ∧
      update_predictor_recompute cfg s ix = some l ∧
      update_predictor_complete cfg s ix l = some c ∧
      update_predictor cfg s PC taken rnd = some s' ∧
      c.inRange = true ∧ (update_predictor_counters cfg l c taken rnd).inRange = true ∧
      s'.Binary := by
  obtain ⟨ix, l, c, c', s', ag0, ag1, abim, ameta, hg0, hg1, hbim, hmeta, hix, hrec, hcomp, hs',
    _, hl, hc, hc1, hc2, hw1, hw2, f1, f2, f3, _, _⟩ :=
    update_predictor_binary cfg hv s hb PC taken rnd
  subst hl
  obtain ⟨r1, r2⟩ := gskew_counters_range ag0 ag1 abim ameta hg0 hg1 hbim hmeta taken
    (decide (rnd &&& cfg.NR = 0)) c' (by rw [hc2, hc])
  rw [← hc] at r1
  obtain ⟨⟨a0, a1⟩, ⟨b0, b1⟩, ⟨c0, c1⟩, ⟨d0, d1⟩⟩ := inRange_bounds c' r2
  refine ⟨ix, _, c, s', hix, hrec, hcomp, hs', r1, by rw [← hc1]; exact r2, ?_⟩
  intro j
  refine ⟨?_, ?_, ?_⟩
  · by_cases h1 : j = ix.indexg1
    · rw [h1, hw1.2.1]; exact (counter_bits_binary _ b0 b1).1
    · by_cases h0 : j = ix.indexg0
      · rw [h0, hw1.1]; exact (counter_bits_binary _ a0 a1).1
      · rw [f1 j h0 h1]; exact (hb j).1
  · by_cases h3 : j = ix.indexmeta
    · rw [h3, hw1.2.2.2]; exact (counter_bits_binary _ d0 d1).1
    · by_cases h2 : j = ix.indexbim
      · rw [h2, hw1.2.2.1]; exact (counter_bits_binary _ c0 c1).1
      · rw [f2 j h2 h3]; exact (hb j).2.1
  · by_cases h3 : j = ix.indexmeta
    · rw [h3, hw2.2.2.2]; exact (counter_bits_binary _ d0 d1).2
    · by_cases h2 : j = ix.indexbim
      · rw [h2, hw2.2.2.1]; exact (counter_bits_binary _ c0 c1).2
      · by_cases h1 : j = hystIndex cfg ix.indexg1
        · rw [h1, hw2.2.1]; exact (counter_bits_binary _ b0 b1).2
        · by_cases h0 : j = hystIndex cfg ix.indexg0
          · rw [h0, hw2.1]; exact (counter_bits_binary _ a0 a1).2
          · rw [f3 j h0 h1 h2 h3]; exact (hb j).2.2

/-- Any sequence of calls on tables of bits returns and ends on tables of bits. -/
theorem update_predictor_calls_binary (cfg : GskewConfig) (hv : cfg.Valid) :
    ∀ (calls : List (Nat × Bool × Nat)) (s : GskewState), s.Binary →
      ∃ s', update_predictor_calls cfg s calls = some s' ∧ s'.Binary := by
  intro calls
  induction calls with
  | nil => intro s hb; exact ⟨s, rfl, hb⟩
  | cons call rest ih =>
    intro s hb
    obtain ⟨_, _, _, s1, _, _, _, hs1, _, _, hb1⟩ :=
      update_predictor_keeps_binary cfg hv s hb call.1 call.2.1 call.2.2
    obtain ⟨s', hs', hb'⟩ := ih s1 hb1
    exact ⟨s', by simp only [update_predictor_calls, hs1, hs'], hb'⟩

/-! #### Claim C34 -/

/-- C34: the state invariant of 2bc-gskew.  For build constants in the defined range,
starting from all-zero tables, any sequence of `update_predictor` calls with any PCs,
outcomes and random draws returns, and afterwards every entry of `GOG1`, `BIMMETA` and
`HYST` is 0 or 1; and in every further call the four reassembled counters `pbim`, `pmeta`,
`pg0`, `pg1` are in `[0, 3]` and so are the four counters at the write back.  Every value
a counter takes in between is one of these two, the increment or decrement of `pmeta`
together with its clamp (`if (pmeta > 3) pmeta = 3`, `if (pmeta < 0) pmeta = 0`) being one
step: the META counter saturates at 3 and at 0. -/
theorem C34_state_invariant (cfg : GskewConfig) (hv : cfg.Valid)
    (calls : List (Nat × Bool × Nat)) :
    ∃ s, update_predictor_calls cfg GskewState.zero calls = some s ∧ s.Binary ∧
      ∀ (PC : Nat) (taken : Bool) (rnd : Nat),
        ∃ ix l c s', get_prediction_indices cfg s.ghist PC = some ix ∧
          update_predictor_recompute cfg s ix = some l ∧
          update_predictor_complete cfg s ix l = some c ∧
          update_predictor cfg s PC taken rnd = some s' ∧
          ((0 ≤ c.pg0 ∧ c.pg0 ≤ 3) ∧ (0 ≤ c.pg1 ∧ c.pg1 ≤ 3) ∧ (0 ≤ c.pbim ∧ c.pbim ≤ 3) ∧
            (0 ≤ c.pmeta ∧ c.pmeta ≤ 3)) ∧
          ((0 ≤ (update_predictor_counters cfg l c taken rnd).pg0 ∧
              (update_predictor_counters cfg l c taken rnd).pg0 ≤ 3) ∧
            (0 ≤ (update_predictor_counters cfg l c taken rnd).pg1 ∧
              (update_predictor_counters cfg l c taken rnd).pg1 ≤ 3) ∧
            (0 ≤ (update_predictor_counters cfg l c taken rnd).pbim ∧
              (update_predictor_counters cfg l c taken rnd).pbim ≤ 3) ∧
            (0 ≤ (update_predictor_counters cfg l c taken rnd).pmeta ∧
              (update_predictor_counters cfg l c taken rnd).pmeta ≤ 3)) ∧
          s'.Binary := by
  obtain ⟨s, hs, hb⟩ := update_predictor_calls_binary cfg hv calls GskewState.zero
    (fun _ => ⟨Or.inl rfl, Or.inl rfl, Or.inl rfl⟩)
  refine ⟨s, hs, hb, ?_⟩
  intro PC taken rnd
  obtain ⟨ix, l, c, s', hix, hrec, hcomp, hs', r1, r2, hb'⟩ :=
    update_predictor_keeps_binary cfg hv s hb PC taken rnd
  exact ⟨ix, l, c, s', hix, hrec, hcomp, hs', inRange_bounds c r1, inRange_bounds _ r2, hb'⟩

/-- C34, witness: the reference constants and three calls, the first of which enters the
ping-pong breaker. -/
theorem C34_state_invariant_witness :
    ∃ s, update_predictor_calls sampleGskew GskewState.zero
        [(1, true, 0), (1, false, 1), (68, true, 5)] = some s ∧ s.Binary ∧
      ∀ (PC : Nat) (taken : Bool) (rnd : Nat),
        ∃ ix l c s', get_prediction_indices sampleGskew s.ghist PC = some ix ∧
          update_predictor_recompute sampleGskew s ix = some l ∧
          update_predictor_complete sampleGskew s ix l = some c ∧
          update_predictor sampleGskew s PC taken rnd = some s' ∧
          ((0 ≤ c.pg0 ∧ c.pg0 ≤ 3) ∧ (0 ≤ c.pg1 ∧ c.pg1 ≤ 3) ∧ (0 ≤ c.pbim ∧ c.pbim ≤ 3) ∧
            (0 ≤ c.pmeta ∧ c.pmeta ≤ 3)) ∧
          ((0 ≤ (update_predictor_counters sampleGskew l c taken rnd).pg0 ∧
              (update_predictor_counters sampleGskew l c taken rnd).pg0 ≤ 3) ∧
            (0 ≤ (update_predictor_counters sampleGskew l c taken rnd).pg1 ∧
              (update_predictor_counters sampleGskew l c taken rnd).pg1 ≤ 3) ∧
            (0 ≤ (update_predictor_counters sampleGskew l c taken rnd).pbim ∧
              (update_predictor_counters sampleGskew l c taken rnd).pbim ≤ 3) ∧
            (0 ≤ (update_predictor_counters sampleGskew l c taken rnd).pmeta ∧
              (update_predictor_counters sampleGskew l c taken rnd).pmeta ≤ 3)) ∧
          s'.Binary :=
  C34_state_invariant sampleGskew (by unfold GskewConfig.Valid; decide)
    [(1, true, 0), (1, false, 1), (68, true, 5)]

/-! #### Claim C31 -/

/-- C31, counterexample: with the reference constants and zero initialised tables,
`update_predictor(1, taken)` with a random draw 0 mispredicts (all prediction bits are 0),
the draw fires (`0 & NR == 0`) and `peskew == psmall`; the BIM, G0 and G1 counters are
forced to 2, not 3: the prediction bits written at the BIM, G0 and G1 indices (8263, 2053,
90140) are 1 and the hysteresis bits written for them (at 8263, 2053 and 24604) are 0. -/
theorem C31_counterexample_forced_to_two :
    get_prediction_indices sampleGskew GskewState.zero.ghist 1
      = some { indexg0 := 2053, indexg1 := 90140, indexbim := 8263, indexmeta := 194,
               NUMHYST := 1 } ∧
    (GskewRecomputed.ofBits 0 0 0 0).prediction = false ∧
    (GskewRecomputed.ofBits 0 0 0 0).peskew = (GskewRecomputed.ofBits 0 0 0 0).psmall ∧
    0 &&& sampleGskew.NR = 0 ∧
    update_predictor_counters sampleGskew (GskewRecomputed.ofBits 0 0 0 0)
        (GskewCounters.ofBits (GskewRecomputed.ofBits 0 0 0 0) 0 0 0 0) true 0
      = { pg0 := 2, pg1 := 2, pbim := 2, pmeta := 0 } ∧
    (update_predictor sampleGskew GskewState.zero 1 true 0).map
        (fun s' => (s'.BIMMETA 8263, s'.HYST 8263, s'.GOG1 2053, s'.HYST 2053, s'.GOG1 90140,
          s'.HYST 24604))
      = some (1, 0, 1, 0, 1, 0) ∧
    hystIndex sampleGskew 2053 = 2053 ∧ hystIndex sampleGskew 90140 = 24604 := by
  decide!

/-- C31 (as amended): the ping-pong breaker.  For build constants in the defined range:
when `update_predictor` mispredicts (`prediction != taken`), the random draw fires
(`(random() & NR) == 0`) and `peskew == psmall`, the BIM, G0 and G1 counters are each forced
to the value 2 if the branch was taken and to the value 1 if it was not taken, the META
counter being kept; these values are what is written back: the prediction bits
(`value >> 1`) become 1 if taken and 0 if not, the hysteresis bits (`value & 1`) become 0 if
taken and 1 if not. -/
theorem C31_ping_pong_breaker (cfg : GskewConfig) (hv : cfg.Valid) (s : GskewState)
    (PC : Nat) (taken : Bool) (rnd : Nat) :
    ∃ ix l c s', get_prediction_indices cfg s.ghist PC = some ix ∧
      update_predictor_recompute cfg s ix = some l ∧
      update_predictor_complete cfg s ix l = some c ∧
      update_predictor cfg s PC taken rnd = some s' ∧
      (l.prediction ≠ taken → rnd &&& cfg.NR = 0 → l.peskew = l.psmall →
        update_predictor_counters cfg l c taken rnd
          = { pg0 := if taken then 2 else 1, pg1 := if taken then 2 else 1,
              pbim := if taken then 2 else 1, pmeta := c.pmeta } ∧
        s'.BIMMETA ix.indexbim = (if taken then 1 else 0) ∧
        s'.GOG1 ix.indexg0 = (if taken then 1 else 0) ∧
        s'.GOG1 ix.indexg1 = (if taken then 1 else 0) ∧
        s'.HYST ix.indexbim = (if taken then 0 else 1) ∧
        s'.HYST (hystIndex cfg ix.indexg0) = (if taken then 0 else 1) ∧
        s'.HYST (hystIndex cfg ix.indexg1) = (if taken then 0 else 1)) := by
  obtain ⟨ix, l, c, s', hix, hrec, _, hcomp, _, hs', hw1, hw2, _⟩ :=
    update_predictor_written cfg hv s PC taken rnd
  refine ⟨ix, l, c, s', hix, hrec, hcomp, hs', ?_⟩
  intro hmis hr hpe
  have hm : (l.prediction != taken) = true := by
    rw [bne_iff_ne]
    exact hmis
  have hcnt : update_predictor_counters cfg l c taken rnd
      = { pg0 := if taken then 2 else 1, pg1 := if taken then 2 else 1,
          pbim := if taken then 2 else 1, pmeta := c.pmeta } := by
    simp only [update_predictor_counters, hm, hr, decide_True, Bool.and_self, if_true, hpe]
    cases taken <;> rfl
  rw [hcnt] at hw1 hw2
  refine ⟨hcnt, ?_, ?_, ?_, ?_, ?_, ?_⟩
  · rw [hw1.2.2.1]; cases taken <;> rfl
  · rw [hw1.1]; cases taken <;> rfl
  · rw [hw1.2.1]; cases taken <;> rfl
  · rw [hw2.2.2.1]; cases taken <;> rfl
  · rw [hw2.1]; cases taken <;> rfl
  · rw [hw2.2.1]; cases taken <;> rfl

/-- C31, witness: the reference constants, the zero initialised tables, `PC = 1`, a taken
branch and the random draw 0. -/
theorem C31_ping_pong_breaker_witness :
    ∃ ix l c s', get_prediction_indices sampleGskew GskewState.zero.ghist 1 = some ix ∧
      update_predictor_recompute sampleGskew GskewState.zero ix = some l ∧
      update_predictor_complete sampleGskew GskewState.zero ix l = some c ∧
      update_predictor sampleGskew GskewState.zero 1 true 0 = some s' ∧
      (l.prediction ≠ true → 0 &&& sampleGskew.NR = 0 → l.peskew = l.psmall →
        update_predictor_counters sampleGskew l c true 0
          = { pg0 := if true then 2 else 1, pg1 := if true then 2 else 1,
              pbim := if true then 2 else 1, pmeta := c.pmeta } ∧
        s'.BIMMETA ix.indexbim = (if true then 1 else 0) ∧
        s'.GOG1 ix.indexg0 = (if true then 1 else 0) ∧
        s'.GOG1 ix.indexg1 = (if true then 1 else 0) ∧
        s'.HYST ix.indexbim = (if true then 0 else 1) ∧
        s'.HYST (hystIndex sampleGskew ix.indexg0) = (if true then 0 else 1) ∧
        s'.HYST (hystIndex sampleGskew ix.indexg1) = (if true then 0 else 1)) :=
  C31_ping_pong_breaker sampleGskew (by unfold GskewConfig.Valid; decide) GskewState.zero 1
    true 0


/-! ### The stored counters of 2bc-gskew -/

theorem counter_of_bits (x : Int) (h0 : 0 ≤ x) (h3 : x ≤ 3) :
    2 * Int.land (x >>> 1) 1 + Int.land x 1 = x := by
  interval_cases x <;> decide

theorem complete_counter_value : ∀ a h : Bool,
    toChar (2 * (a.toNat : Int) + (h.toNat : Int)) = 2 * (a.toNat : Int) + (h.toNat : Int) := by
  decide

/-! #### Claim C38 -/

/-- C38: the counter step of 2bc-gskew on a misprediction.  For build constants in the
defined range and a state whose table entries are all 0 or 1, the two bit counters of BIM,
G0 and G1 are stored as a prediction bit and a hysteresis bit: before the call the counter
is `c = 2 * bit + hysteresis` read from the state, after the call the counter stored in the
returned state (`2 * bit + hysteresis` again) is the updated value.  In the normal path of
`update_predictor` (the random draw does not fire) with `prediction != taken`, each of the
three counters whose prediction bit disagrees with the outcome moves exactly one step
towards the outcome (it is 0 or 1 and is incremented if taken, it is 3 or 2 and is
decremented if not taken), and each one whose prediction bit agrees with the outcome is set
to the saturated value `3 * outcome` (3 if taken, 0 if not taken): this is said of the
counters stored in the returned state. -/
theorem C38_counter_step_on_misprediction (cfg : GskewConfig) (hv : cfg.Valid)
    (s : GskewState) (hb : s.Binary) (PC : Nat) (taken : Bool) (rnd : Nat) :
    ∃ ix l c s', get_prediction_indices cfg s.ghist PC = some ix ∧
      update_predictor_recompute cfg s ix = some l ∧
      update_predictor_complete cfg s ix l = some c ∧
      update_predictor cfg s PC taken rnd = some s' ∧
      (l.pbim = s.BIMMETA ix.indexbim ∧ l.pg0 = s.GOG1 ix.indexg0 ∧
        l.pg1 = s.GOG1 ix.indexg1) ∧
      (c.pbim = 2 * s.BIMMETA ix.indexbim + s.HYST ix.indexbim ∧
        c.pg0 = 2 * s.GOG1 ix.indexg0 + s.HYST (hystIndex cfg ix.indexg0) ∧
        c.pg1 = 2 * s.GOG1 ix.indexg1 + s.HYST (hystIndex cfg ix.indexg1)) ∧
      (2 * s'.BIMMETA ix.indexbim + s'.HYST ix.indexbim
          = (update_predictor_counters cfg l c taken rnd).pbim ∧
        2 * s'.GOG1 ix.indexg0 + s'.HYST (hystIndex cfg ix.indexg0)
          = (update_predictor_counters cfg l c taken rnd).pg0 ∧
        2 * s'.GOG1 ix.indexg1 + s'.HYST (hystIndex cfg ix.indexg1)
          = (update_predictor_counters cfg l c taken rnd).pg1) ∧
      (l.prediction ≠ taken → rnd &&& cfg.NR ≠ 0 →
        ((s.BIMMETA ix.indexbim ≠ (if taken then 1 else 0) →
            2 * s'.BIMMETA ix.indexbim + s'.HYST ix.indexbim
              = c.pbim + (if taken then 1 else -1) ∧
            (taken = true → c.pbim = 0 ∨ c.pbim = 1) ∧
            (taken = false → c.pbim = 3 ∨ c.pbim = 2)) ∧
          (s.BIMMETA ix.indexbim = (if taken then 1 else 0) →
            2 * s'.BIMMETA ix.indexbim + s'.HYST ix.indexbim
              = 3 * (if taken then 1 else 0))) ∧
        ((s.GOG1 ix.indexg0 ≠ (if taken then 1 else 0) →
            2 * s'.GOG1 ix.indexg0 + s'.HYST (hystIndex cfg ix.indexg0)
              = c.pg0 + (if taken then 1 else -1) ∧
            (taken = true → c.pg0 = 0 ∨ c.pg0 = 1) ∧
            (taken = false → c.pg0 = 3 ∨ c.pg0 = 2)) ∧
          (s.GOG1 ix.indexg0 = (if taken then 1 else 0) →
            2 * s'.GOG1 ix.indexg0 + s'.HYST (hystIndex cfg ix.indexg0)
              = 3 * (if taken then 1 else 0))) ∧
        ((s.GOG1 ix.indexg1 ≠ (if taken then 1 else 0) →
            2 * s'.GOG1 ix.indexg1 + s'.HYST (hystIndex cfg ix.indexg1)
              = c.pg1 + (if taken then 1 else -1) ∧
            (taken = true → c.pg1 = 0 ∨ c.pg1 = 1) ∧
            (taken = false → c.pg1 = 3 ∨ c.pg1 = 2)) ∧
          (s.GOG1 ix.indexg1 = (if taken then 1 else 0) →
            2 * s'.GOG1 ix.indexg1 + s'.HYST (hystIndex cfg ix.indexg1)
              = 3 * (if taken then 1 else 0)))) := by
  obtain ⟨ix, l, c, c', s', ag0, ag1, abim, ameta, hg0, hg1, hbim, hmeta, hix, hrec, hcomp, hs',
    ⟨e0, e1, e2, e3, k0, k1, k2, k3⟩, hl, hc, hc1, hc2, hw1, hw2, _⟩ :=
    update_predictor_binary cfg hv s hb PC taken rnd
  have hc4 : c = GskewCounters.ofBits
      (GskewRecomputed.ofBits ag0.toNat ag1.toNat abim.toNat ameta.toNat)
      hg0.toNat hg1.toNat hbim.toNat hmeta.toNat := by
    rw [hc, hl]
  obtain ⟨_, r2⟩ := gskew_counters_range ag0 ag1 abim ameta hg0 hg1 hbim hmeta taken
    (decide (rnd &&& cfg.NR = 0)) c' (by rw [hc2, hc4, hl])
  obtain ⟨⟨a0, a1⟩, ⟨b0, b1⟩, ⟨c0, c1⟩, _⟩ := inRange_bounds c' r2
  have lb : l.pbim = s.BIMMETA ix.indexbim := by rw [hl, e2]; rfl
  have l0 : l.pg0 = s.GOG1 ix.indexg0 := by rw [hl, e0]; rfl
  have l1 : l.pg1 = s.GOG1 ix.indexg1 := by rw [hl, e1]; rfl
  have cb : c.pbim = 2 * s.BIMMETA ix.indexbim + s.HYST ix.indexbim := by
    rw [hc4, e2, k2]; exact complete_counter_value abim hbim
  have cg0 : c.pg0 = 2 * s.GOG1 ix.indexg0 + s.HYST (hystIndex cfg ix.indexg0) := by
    rw [hc4, e0, k0]; exact complete_counter_value ag0 hg0
  have cg1 : c.pg1 = 2 * s.GOG1 ix.indexg1 + s.HYST (hystIndex cfg ix.indexg1) := by
    rw [hc4, e1, k1]; exact complete_counter_value ag1 hg1
  have sb : 2 * s'.BIMMETA ix.indexbim + s'.HYST ix.indexbim = c'.pbim := by
    rw [hw1.2.2.1, hw2.2.2.1]; exact counter_of_bits _ c0 c1
  have sg0 : 2 * s'.GOG1 ix.indexg0 + s'.HYST (hystIndex cfg ix.indexg0) = c'.pg0 := by
    rw [hw1.1, hw2.1]; exact counter_of_bits _ a0 a1
  have sg1 : 2 * s'.GOG1 ix.indexg1 + s'.HYST (hystIndex cfg ix.indexg1) = c'.pg1 := by
    rw [hw1.2.1, hw2.2.1]; exact counter_of_bits _ b0 b1
  refine ⟨ix, l, c, s', hix, hrec, hcomp, hs', ⟨lb, l0, l1⟩, ⟨cb, cg0, cg1⟩, ?_, ?_⟩
  · rw [← hc1]; exact ⟨sb, sg0, sg1⟩
  intro hmis hr
  have hd : decide (rnd &&& cfg.NR = 0) = false := by
    rw [decide_eq_false_iff_not]
    exact hr
  rw [hd] at hc2
  have hc3 : c' = update_predictor_counters sampleGskew
      (GskewRecomputed.ofBits ag0.toNat ag1.toNat abim.toNat ameta.toNat)
      (GskewCounters.ofBits
        (GskewRecomputed.ofBits ag0.toNat ag1.toNat abim.toNat ameta.toNat)
        hg0.toNat hg1.toNat hbim.toNat hmeta.toNat) taken 1 := by
    rw [hc2, hc4, hl]
    rfl
  have q2 := gskew_counters_step_pbim ag0 ag1 abim ameta hg0 hg1 hbim hmeta taken l c c'
    hl hc4 hc3 hmis
  have q0 := gskew_counters_step_pg0 ag0 ag1 abim ameta hg0 hg1 hbim hmeta taken l c c'
    hl hc4 hc3 hmis
  have q1 := gskew_counters_step_pg1 ag0 ag1 abim ameta hg0 hg1 hbim hmeta taken l c c'
    hl hc4 hc3 hmis
  rw [toNat_cast_eq] at q2 q0 q1
  rw [lb, ← sb] at q2
  rw [l0, ← sg0] at q0
  rw [l1, ← sg1] at q1
  exact ⟨q2, q0, q1⟩

/-- C38, witness: the reference constants, the zero initialised tables, `PC = 1`, a taken
branch (predicted not taken) and a random draw that does not fire. -/
theorem C38_counter_step_on_misprediction_witness :
    ∃ ix l c s', get_prediction_indices sampleGskew GskewState.zero.ghist 1 = some ix ∧
      update_predictor_recompute sampleGskew GskewState.zero ix = some l ∧
      update_predictor_complete sampleGskew GskewState.zero ix l = some c ∧
      update_predictor sampleGskew GskewState.zero 1 true 1 = some s' ∧
      (l.pbim = GskewState.zero.BIMMETA ix.indexbim ∧ l.pg0 = GskewState.zero.GOG1 ix.indexg0 ∧
        l.pg1 = GskewState.zero.GOG1 ix.indexg1) ∧
      (c.pbim = 2 * GskewState.zero.BIMMETA ix.indexbim + GskewState.zero.HYST ix.indexbim ∧
        c.pg0 = 2 * GskewState.zero.GOG1 ix.indexg0
          + GskewState.zero.HYST (hystIndex sampleGskew ix.indexg0) ∧
        c.pg1 = 2 * GskewState.zero.GOG1 ix.indexg1
          + GskewState.zero.HYST (hystIndex sampleGskew ix.indexg1)) ∧
      (2 * s'.BIMMETA ix.indexbim + s'.HYST ix.indexbim
          = (update_predictor_counters sampleGskew l c true 1).pbim ∧
        2 * s'.GOG1 ix.indexg0 + s'.HYST (hystIndex sampleGskew ix.indexg0)
          = (update_predictor_counters sampleGskew l c true 1).pg0 ∧
        2 * s'.GOG1 ix.indexg1 + s'.HYST (hystIndex sampleGskew ix.indexg1)
          = (update_predictor_counters sampleGskew l c true 1).pg1) ∧
      (l.prediction ≠ true → 1 &&& sampleGskew.NR ≠ 0 →
        ((GskewState.zero.BIMMETA ix.indexbim ≠ (if true then 1 else 0) →
            2 * s'.BIMMETA ix.indexbim + s'.HYST ix.indexbim
              = c.pbim + (if true then 1 else -1) ∧
            (true = true → c.pbim = 0 ∨ c.pbim = 1) ∧
            (true = false → c.pbim = 3 ∨ c.pbim = 2)) ∧
          (GskewState.zero.BIMMETA ix.indexbim = (if true then 1 else 0) →
            2 * s'.BIMMETA ix.indexbim + s'.HYST ix.indexbim
              = 3 * (if true then 1 else 0))) ∧
        ((GskewState.zero.GOG1 ix.indexg0 ≠ (if true then 1 else 0) →
            2 * s'.GOG1 ix.indexg0 + s'.HYST (hystIndex sampleGskew ix.indexg0)
              = c.pg0 + (if true then 1 else -1) ∧
            (true = true → c.pg0 = 0 ∨ c.pg0 = 1) ∧
            (true = false → c.pg0 = 3 ∨ c.pg0 = 2)) ∧
          (GskewState.zero.GOG1 ix.indexg0 = (if true then 1 else 0) →
            2 * s'.GOG1 ix.indexg0 + s'.HYST (hystIndex sampleGskew ix.indexg0)
              = 3 * (if true then 1 else 0))) ∧
        ((GskewState.zero.GOG1 ix.indexg1 ≠ (if true then 1 else 0) →
            2 * s'.GOG1 ix.indexg1 + s'.HYST (hystIndex sampleGskew ix.indexg1)
              = c.pg1 + (if true then 1 else -1) ∧
            (true = true → c.pg1 = 0 ∨ c.pg1 = 1) ∧
            (true = false → c.pg1 = 3 ∨ c.pg1 = 2)) ∧
          (GskewState.zero.GOG1 ix.indexg1 = (if true then 1 else 0) →
            2 * s'.GOG1 ix.indexg1 + s'.HYST (hystIndex sampleGskew ix.indexg1)
              = 3 * (if true then 1 else 0)))) :=
  C38_counter_step_on_misprediction sampleGskew (by unfold GskewConfig.Valid; decide)
    GskewState.zero (fun _ => ⟨Or.inl rfl, Or.inl rfl, Or.inl rfl⟩) 1 true 1

end OBPS
